import Mathlib

/-!
# InventorySystem: the bag component

A shallow embedding of `UInventoryBagComponent`
(`Source/InventorySystem/Private/InventoryBagComponent.cpp` and
`Source/InventorySystem/Public/InventoryBagComponent.h`).

Conventions of the embedding:

* `int32` values are `Int`.  The one sum of two configuration values,
  `MaxToolsSlots + MaxResourceSlots` in `BeginPlay`, is taken modulo `2^32`
  (`int32Add`); every counter of the bag is bounded by the size of one of the
  two id pools, so no other 32-bit wrap-around can occur.
* A `UObject*` is the natural number naming the object; a pointer that is null
  or fails `IsValid` is `none`.
* `TArray<T>` is `List T` (index 0 first, `Add`/`Push` append at the end,
  `Pop`/`Last` act on the end).  `TMap<K,V>` is an association list with at
  most one entry per key in use; `Find`, `Add`/`Emplace`, `Remove` act on the
  first entry with the key and a new key is appended.
* `check`, `checkf`, `checkNoEntry`, the range check of `TArray::Pop` /
  `TArray::Last` / `TMap::operator[]` and the dereference of a null pointer end
  the program: an operation returns `Except.error` there and no state follows.
* Delegates (`OnInventoryBagUpdated`, `OnResourceSlotAdded`, ...) append an
  `Event` to the `events` log of the bag; the `IPickable` callbacks and the
  actor spawn do not touch the bag and are left out (the spawn request is kept
  in the result).
* `BagProperties` is configuration: the functions take it as a parameter `P`.
  Limits are assumed streamed in (`limits_stream_handle` valid); a limit asset
  that does not resolve is `none` in `Limits`.
-/

namespace InventorySystem

/-! ## Engine containers -/

/-- Ways in which a call ends the program instead of returning. -/
inductive Fault where
  | check
  | rangeCheck
  | nullDeref
deriving DecidableEq, Repr

/-- The call `TArray::Pop`: the last element and the array without it; `none` on an
empty array (the range check fails). -/
def arrayPop {α : Type} (l : List α) : Option (α × List α) :=
  match l.getLast? with
  | none => none
  | some x => some (x, l.dropLast)

/-- What `TArray::RemoveAtSwap` leaves of the elements behind the removed one: the last
of them has been moved into the hole. -/
def lastToFront {σ : Type} (l : List σ) : List σ :=
  match l.getLast? with
  | none => []
  | some y => y :: l.dropLast

/-- The call `TArray::RemoveSingleSwap(Item)`: the first element equal to `Item` (by the
element type's `operator==`, here `eq`) is removed by moving the last element of
the array into its place. -/
def removeSingleSwap {σ : Type} (eq : σ → σ → Bool) (item : σ) : List σ → List σ
  | [] => []
  | x :: rest => if eq x item then lastToFront rest else x :: removeSingleSwap eq item rest

/-- The call `TMap::Find`. -/
def mapFind {β : Type} (k : Nat) : List (Nat × β) → Option β
  | [] => none
  | (k', v) :: rest => if k' = k then some v else mapFind k rest

/-- Writing through the pointer returned by `TMap::Find` / `TMap::Emplace`: the value
of key `k` becomes `v`; a key not yet present is appended. -/
def mapSet {β : Type} (k : Nat) (v : β) : List (Nat × β) → List (Nat × β)
  | [] => [(k, v)]
  | (k', v') :: rest => if k' = k then (k', v) :: rest else (k', v') :: mapSet k v rest

/-- The call `TMap::Remove`. -/
def mapRemove {β : Type} (k : Nat) : List (Nat × β) → List (Nat × β)
  | [] => []
  | (k', v') :: rest => if k' = k then rest else (k', v') :: mapRemove k rest

/-- The call `TMap::FindKey`: the first key bound to `v`. -/
def mapFindKey (v : Int) : List (Nat × Int) → Option Nat
  | [] => none
  | (k, v') :: rest => if v' = v then some k else mapFindKey v rest

/-! ## Data model (`Item.h`, `Tool.h`, `Resource.h`, `InventoryBagComponent.h`) -/

/-- The enum `EItemCategory`. -/
inductive EItemCategory where
  | None
  | Resource
  | Tool
deriving DecidableEq, Repr

/-- Dynamic class of an item data asset, which decides `Cast<UResourceData>` and
`Cast<UToolData>`; a `UToolData` carries `MaxDurability`. -/
inductive DataClass where
  | ItemData
  | ResourceData
  | ToolData (MaxDurability : Int)
deriving DecidableEq, Repr

/-- A valid `UItemData*`. -/
structure UItemData where
  ptr : Nat
  Category : EItemCategory
  cls : DataClass
  OnDropSpawnedActor : Option Nat
deriving DecidableEq, Repr

/-- A valid `UItemComponent*`; `Durability` is `some d` exactly when the object is a
`UToolComponent` (so that `Cast<UToolComponent>` succeeds). -/
structure UItemComponent where
  ptr : Nat
  ItemData : Option UItemData
  Durability : Option Int
deriving DecidableEq, Repr

/-- The class `UItemBagLimit`. -/
structure UItemBagLimit where
  MaxStackSize : Int
  MaxQuantity : Int
deriving DecidableEq, Repr

/-- The class `UBagProperties`. -/
structure UBagProperties where
  Limits : List (Nat × Option UItemBagLimit)
  MaxResourceSlots : Int
  MaxToolsSlots : Int
  MaxItemId : Int
deriving DecidableEq, Repr

/-- The struct `FBagToolInfo`. -/
structure FBagToolInfo where
  ToolId : Int
  Durability : Int
deriving DecidableEq, Repr

/-- The struct `FBagResourceSlot`. -/
structure FBagResourceSlot where
  Id : Int
  ResourceIds : List Int
deriving DecidableEq, Repr

/-- The struct `FBagToolSlot`. -/
structure FBagToolSlot where
  Id : Int
  ToolsInfo : List FBagToolInfo
deriving DecidableEq, Repr

/-- The `operator==` of `FBagResourceSlot`: only the id arrays are compared. -/
def FBagResourceSlot.opEq (lhs rhs : FBagResourceSlot) : Bool :=
  lhs.ResourceIds == rhs.ResourceIds

/-- The `operator==` of `FBagToolInfo`: only `ToolId` is compared. -/
def FBagToolInfo.opEq (lhs rhs : FBagToolInfo) : Bool :=
  lhs.ToolId == rhs.ToolId

/-- The `operator==` of `FBagToolSlot`: the `ToolsInfo` arrays are compared element-wise
with the `operator==` of `FBagToolInfo`. -/
def FBagToolSlot.opEq (lhs rhs : FBagToolSlot) : Bool :=
  lhs.ToolsInfo.map FBagToolInfo.ToolId == rhs.ToolsInfo.map FBagToolInfo.ToolId

/-- The struct `FBagResourcesData`. -/
structure FBagResourcesData where
  Slots : List FBagResourceSlot
  ResourceQuantity : Int
deriving DecidableEq, Repr

/-- The struct `FBagToolsData`. -/
structure FBagToolsData where
  ToolQuantity : Int
  Slots : List FBagToolSlot
deriving DecidableEq, Repr

/-- The struct `FBagResources`. -/
structure FBagResources where
  Data : List (Nat × FBagResourcesData)
  UsedSlots : Int
deriving DecidableEq, Repr

/-- The struct `FBagTools`. -/
structure FBagTools where
  Data : List (Nat × FBagToolsData)
  UsedSlots : Int
deriving DecidableEq, Repr

/-- The struct `FInventoryBagAddItemResult`. -/
structure FInventoryBagAddItemResult where
  bAdded : Bool
  AssignedId : Int
deriving DecidableEq, Repr

/-- The struct `FInventoryBagRemoveItemResult`; `SpawnedActor` records the actor class
handed to `SpawnActor`. -/
structure FInventoryBagRemoveItemResult where
  bRemoved : Bool
  RemovedId : Int
  SpawnedActor : Option Nat
deriving DecidableEq, Repr

/-- One broadcast of a delegate of the bag. -/
inductive Event where
  | BagUpdated
  | ResourceSlotAdded (slot_type : Nat) (slot_id : Int) (slot : FBagResourceSlot)
  | ResourceSlotRemoved (slot_type : Nat) (slot_id : Int) (slot : FBagResourceSlot)
  | ResourceSlotUpdated (slot_type : Nat) (slot_id : Int) (slot : FBagResourceSlot)
  | ToolSlotAdded (slot_type : Nat) (slot_id : Int) (slot : FBagToolSlot)
  | ToolSlotRemoved (slot_type : Nat) (slot_id : Int) (slot : FBagToolSlot)
  | ToolSlotUpdated (slot_type : Nat) (slot_id : Int) (slot : FBagToolSlot)
deriving DecidableEq, Repr

/-- The mutable members of `UInventoryBagComponent`, with the log of broadcasts. -/
structure Bag where
  Resources : FBagResources
  Tools : FBagTools
  item_ids_pool : List Int
  slot_ids_pool : List Int
  item_comp_to_id : List (Nat × Int)
  events : List Event
deriving DecidableEq, Repr

/-! ## Id transaction and predicates -/

/-- The struct `FScopedItemPoolIdTransaction`. -/
structure FScopedItemPoolIdTransaction where
  id : Int
  bCommitted : Bool
deriving DecidableEq, Repr

/-- Constructor of `FScopedItemPoolIdTransaction`: `id = pool.Pop()`, not committed. -/
def FScopedItemPoolIdTransaction.ctor (pool : List Int) :
    Option (FScopedItemPoolIdTransaction × List Int) :=
  match arrayPop pool with
  | none => none
  | some (id, rest) => some ({ id := id, bCommitted := false }, rest)

/-- The method `commit`. -/
def FScopedItemPoolIdTransaction.commit (t : FScopedItemPoolIdTransaction) :
    FScopedItemPoolIdTransaction :=
  { t with bCommitted := true }

/-- Destructor of `FScopedItemPoolIdTransaction`: `if (!bCommitted) pool.Push(id)`. -/
def FScopedItemPoolIdTransaction.dtor (t : FScopedItemPoolIdTransaction) (pool : List Int) :
    List Int :=
  if t.bCommitted then pool else pool ++ [t.id]

/-- The method `hasAvailableIds`. -/
def hasAvailableIds (b : Bag) : Bool :=
  if b.item_ids_pool.length = 0 then false else true

/-- The method `hasValidItemLimits`, for valid item data: no entry in `Limits` gives
`false`, an entry whose limit asset is not loaded fails the `checkf`, a limit
with `MaxQuantity <= 0` gives `false`. -/
def hasValidItemLimits (P : UBagProperties) (item_data : UItemData) : Except Fault Bool :=
  match mapFind item_data.ptr P.Limits with
  | none => .ok false
  | some none => .error Fault.check
  | some (some limit) => if limit.MaxQuantity ≤ 0 then .ok false else .ok true

/-! ## Resource packer -/

/-- The loop "find first slot with free space" of `tryAddResource`: the first slot with
fewer than `MaxStackSize` ids receives `id`; the result is that slot after the
insertion and the new slot array, or `none` when every slot is full. -/
def addToFirstFreeResourceSlot (MaxStackSize : Int) (id : Int) :
    List FBagResourceSlot → Option (FBagResourceSlot × List FBagResourceSlot)
  | [] => none
  | slot :: rest =>
    if (slot.ResourceIds.length : Int) < MaxStackSize then
      some ({ slot with ResourceIds := slot.ResourceIds ++ [id] },
            { slot with ResourceIds := slot.ResourceIds ++ [id] } :: rest)
    else
      match addToFirstFreeResourceSlot MaxStackSize id rest with
      | none => none
      | some (s, rest') => some (s, slot :: rest')

/-- Lines 381-413 of `tryAddResource`: the part common to a new and an existing
bucket `resources_data` of `key`. -/
def tryAddResourceTail (P : UBagProperties) (bag_limit : UItemBagLimit) (key : Nat) (id : Int)
    (resources_data : FBagResourcesData) (b : Bag) : Except Fault (Bool × Bag) :=
  if resources_data.ResourceQuantity ≥ bag_limit.MaxQuantity then .ok (false, b)
  else
    match addToFirstFreeResourceSlot bag_limit.MaxStackSize id resources_data.Slots with
    | some (slot, slots) =>
      .ok (true,
        { b with
          Resources := { b.Resources with
            Data := mapSet key
              { Slots := slots, ResourceQuantity := resources_data.ResourceQuantity + 1 }
              b.Resources.Data }
          events := b.events ++ [Event.ResourceSlotUpdated key slot.Id slot] })
    | none =>
      if b.Resources.UsedSlots ≥ P.MaxResourceSlots then .ok (false, b)
      else
        match arrayPop b.slot_ids_pool with
        | none => .error Fault.rangeCheck
        | some (slot_id, pool) =>
          .ok (true,
            { b with
              Resources :=
                { Data := mapSet key
                    { Slots := resources_data.Slots ++ [{ Id := slot_id, ResourceIds := [id] }],
                      ResourceQuantity := resources_data.ResourceQuantity + 1 }
                    b.Resources.Data,
                  UsedSlots := b.Resources.UsedSlots + 1 }
              slot_ids_pool := pool
              events := b.events ++
                [Event.ResourceSlotAdded key slot_id { Id := slot_id, ResourceIds := [id] }] })

/-- The method `tryAddResource`. -/
def tryAddResource (P : UBagProperties) (key : Nat) (id : Int) (b : Bag) :
    Except Fault (Bool × Bag) :=
  match mapFind key P.Limits with
  | none => .error Fault.check
  | some none => .error Fault.check
  | some (some bag_limit) =>
    if bag_limit.MaxQuantity > 0 ∧ bag_limit.MaxStackSize > 0 then
      match mapFind key b.Resources.Data with
      | none =>
        if b.Resources.UsedSlots ≥ P.MaxResourceSlots then .ok (false, b)
        else
          tryAddResourceTail P bag_limit key id { Slots := [], ResourceQuantity := 0 }
            { b with Resources := { b.Resources with
                Data := mapSet key { Slots := [], ResourceQuantity := 0 } b.Resources.Data } }
      | some resources_data => tryAddResourceTail P bag_limit key id resources_data b
    else .error Fault.check

/-- Lines 463-484 of `tryRemoveResource`: `selected` is the slot the id was taken from
(after the removal), `slots` the slot array after the removal. -/
def tryRemoveResourceTail (key : Nat) (bag_resources_data : FBagResourcesData)
    (slots : List FBagResourceSlot) (selected : FBagResourceSlot) (b : Bag) : Bag :=
  let bSlotRemoved : Bool := selected.ResourceIds.length = 0
  let slots1 := if bSlotRemoved then removeSingleSwap FBagResourceSlot.opEq selected slots else slots
  let quantity := bag_resources_data.ResourceQuantity - 1
  { b with
    Resources :=
      { Data := if quantity = 0 then mapRemove key b.Resources.Data
                else mapSet key { Slots := slots1, ResourceQuantity := quantity } b.Resources.Data,
        UsedSlots := if bSlotRemoved then b.Resources.UsedSlots - 1 else b.Resources.UsedSlots }
    slot_ids_pool := if bSlotRemoved then b.slot_ids_pool ++ [selected.Id] else b.slot_ids_pool
    events := b.events ++
      [if bSlotRemoved then
         Event.ResourceSlotRemoved key selected.Id { Id := selected.Id, ResourceIds := [] }
       else Event.ResourceSlotUpdated key selected.Id selected] }

/-- The method `tryRemoveResource`; the second component of the result is `remove_id`
on return.  In the search for a specific id the first statement of the loop body
is `check(selected_resource_slot->ResourceIds.Num() > 0)` while
`selected_resource_slot` is still `nullptr`, so the first iteration dereferences
a null pointer. -/
def tryRemoveResource (key : Nat) (remove_id : Int) (b : Bag) :
    Except Fault (Bool × Int × Bag) :=
  if remove_id ≥ -1 then
    match mapFind key b.Resources.Data with
    | none => .ok (false, remove_id, b)
    | some bag_resources_data =>
      if bag_resources_data.ResourceQuantity > 0 then
        if remove_id = -1 then
          match arrayPop bag_resources_data.Slots with
          | none => .error Fault.rangeCheck
          | some (last, front) =>
            match arrayPop last.ResourceIds with
            | none => .error Fault.check
            | some (removed, ids) =>
              .ok (true, removed,
                tryRemoveResourceTail key bag_resources_data
                  (front ++ [{ last with ResourceIds := ids }])
                  { last with ResourceIds := ids } b)
        else
          match bag_resources_data.Slots with
          | [] => .ok (false, remove_id, b)
          | _ :: _ => .error Fault.nullDeref
      else .error Fault.check
  else .error Fault.check

/-! ## Tool packer -/

/-- The loop "find first slot with free space" of `tryAddTool`. -/
def addToFirstFreeToolSlot (MaxStackSize : Int) (info : FBagToolInfo) :
    List FBagToolSlot → Option (FBagToolSlot × List FBagToolSlot)
  | [] => none
  | slot :: rest =>
    if (slot.ToolsInfo.length : Int) < MaxStackSize then
      some ({ slot with ToolsInfo := slot.ToolsInfo ++ [info] },
            { slot with ToolsInfo := slot.ToolsInfo ++ [info] } :: rest)
    else
      match addToFirstFreeToolSlot MaxStackSize info rest with
      | none => none
      | some (s, rest') => some (s, slot :: rest')

/-- Lines 513-546 of `tryAddTool`; the slot ceiling tested is `MaxResourceSlots`, as in
the source. -/
def tryAddToolTail (P : UBagProperties) (bag_limit : UItemBagLimit) (key : Nat) (id : Int)
    (durability : Int) (tools_data : FBagToolsData) (b : Bag) : Except Fault (Bool × Bag) :=
  if tools_data.ToolQuantity ≥ bag_limit.MaxQuantity then .ok (false, b)
  else
    match addToFirstFreeToolSlot bag_limit.MaxStackSize
        { ToolId := id, Durability := durability } tools_data.Slots with
    | some (slot, slots) =>
      .ok (true,
        { b with
          Tools := { b.Tools with
            Data := mapSet key
              { ToolQuantity := tools_data.ToolQuantity + 1, Slots := slots } b.Tools.Data }
          events := b.events ++ [Event.ToolSlotUpdated key slot.Id slot] })
    | none =>
      if b.Tools.UsedSlots ≥ P.MaxResourceSlots then .ok (false, b)
      else
        match arrayPop b.slot_ids_pool with
        | none => .error Fault.rangeCheck
        | some (slot_id, pool) =>
          .ok (true,
            { b with
              Tools :=
                { Data := mapSet key
                    { ToolQuantity := tools_data.ToolQuantity + 1,
                      Slots := tools_data.Slots ++
                        [{ Id := slot_id,
                           ToolsInfo := [{ ToolId := id, Durability := durability }] }] }
                    b.Tools.Data,
                  UsedSlots := b.Tools.UsedSlots + 1 }
              slot_ids_pool := pool
              events := b.events ++
                [Event.ToolSlotAdded key slot_id
                  { Id := slot_id,
                    ToolsInfo := [{ ToolId := id, Durability := durability }] }] })

/-- The method `tryAddTool`; the slot ceiling tested is `MaxResourceSlots`, as in the
source. -/
def tryAddTool (P : UBagProperties) (key : Nat) (id : Int) (durability : Int) (b : Bag) :
    Except Fault (Bool × Bag) :=
  match mapFind key P.Limits with
  | none => .error Fault.check
  | some none => .error Fault.check
  | some (some bag_limit) =>
    if bag_limit.MaxQuantity > 0 ∧ bag_limit.MaxStackSize > 0 then
      match mapFind key b.Tools.Data with
      | none =>
        if b.Tools.UsedSlots ≥ P.MaxResourceSlots then .ok (false, b)
        else
          tryAddToolTail P bag_limit key id durability { ToolQuantity := 0, Slots := [] }
            { b with Tools := { b.Tools with
                Data := mapSet key { ToolQuantity := 0, Slots := [] } b.Tools.Data } }
      | some tools_data => tryAddToolTail P bag_limit key id durability tools_data b
    else .error Fault.check

/-- The search loop of `tryRemoveTool` for a specific id: slots are visited in order;
an empty slot fails the `check`; the entries with `ToolId == remove_id` are
removed from the slot (`RemoveAll`), more than one fails the `check`; the first
slot that lost an entry is selected.  The result is the selected slot (after
the removal) and the new slot array, or `none` when no slot held the id. -/
def removeToolById (remove_id : Int) :
    List FBagToolSlot → Except Fault (Option (FBagToolSlot × List FBagToolSlot))
  | [] => .ok none
  | slot :: rest =>
    if slot.ToolsInfo.length > 0 then
      if slot.ToolsInfo.length - (slot.ToolsInfo.filter (fun t => t.ToolId != remove_id)).length
          ≤ 1 then
        if slot.ToolsInfo.length - (slot.ToolsInfo.filter (fun t => t.ToolId != remove_id)).length
            > 0 then
          .ok (some
            ({ slot with ToolsInfo := slot.ToolsInfo.filter (fun t => t.ToolId != remove_id) },
             { slot with ToolsInfo := slot.ToolsInfo.filter (fun t => t.ToolId != remove_id) }
               :: rest))
        else
          match removeToolById remove_id rest with
          | .error e => .error e
          | .ok none => .ok none
          | .ok (some (s, rest')) => .ok (some (s, slot :: rest'))
      else .error Fault.check
    else .error Fault.check

/-- Lines 596-617 of `tryRemoveTool`. -/
def tryRemoveToolTail (key : Nat) (bag_tools_data : FBagToolsData)
    (slots : List FBagToolSlot) (selected : FBagToolSlot) (b : Bag) : Bag :=
  let bSlotRemoved : Bool := selected.ToolsInfo.length = 0
  let slots1 := if bSlotRemoved then removeSingleSwap FBagToolSlot.opEq selected slots else slots
  let quantity := bag_tools_data.ToolQuantity - 1
  { b with
    Tools :=
      { Data := if quantity = 0 then mapRemove key b.Tools.Data
                else mapSet key { ToolQuantity := quantity, Slots := slots1 } b.Tools.Data,
        UsedSlots := if bSlotRemoved then b.Tools.UsedSlots - 1 else b.Tools.UsedSlots }
    slot_ids_pool := if bSlotRemoved then b.slot_ids_pool ++ [selected.Id] else b.slot_ids_pool
    events := b.events ++
      [if bSlotRemoved then
         Event.ToolSlotRemoved key selected.Id { Id := selected.Id, ToolsInfo := [] }
       else Event.ToolSlotUpdated key selected.Id selected] }

/-- The method `tryRemoveTool`; the second component of the result is `remove_id` on
return. -/
def tryRemoveTool (key : Nat) (remove_id : Int) (b : Bag) :
    Except Fault (Bool × Int × Bag) :=
  if remove_id ≥ -1 then
    match mapFind key b.Tools.Data with
    | none => .ok (false, remove_id, b)
    | some bag_tools_data =>
      if bag_tools_data.ToolQuantity > 0 then
        if remove_id = -1 then
          match arrayPop bag_tools_data.Slots with
          | none => .error Fault.rangeCheck
          | some (last, front) =>
            match arrayPop last.ToolsInfo with
            | none => .error Fault.check
            | some (removed, infos) =>
              .ok (true, removed.ToolId,
                tryRemoveToolTail key bag_tools_data
                  (front ++ [{ last with ToolsInfo := infos }])
                  { last with ToolsInfo := infos } b)
        else
          match removeToolById remove_id bag_tools_data.Slots with
          | .error e => .error e
          | .ok none => .ok (false, remove_id, b)
          | .ok (some (selected, slots)) =>
            .ok (true, remove_id, tryRemoveToolTail key bag_tools_data slots selected b)
      else .error Fault.check
  else .error Fault.check

/-! ## The public operations of the bag -/

/-- The method `tryAddItem`.  In the `Tool` case `tool_data->MaxDurability` is read
before `tool_data` is tested against `nullptr`, so item data of category `Tool`
that is not a `UToolData` dereferences a null pointer. -/
def tryAddItem (P : UBagProperties) (item_data : UItemData) (id : Int)
    (item_component : Option UItemComponent) (b : Bag) : Except Fault (Bool × Bag) :=
  match item_data.Category with
  | EItemCategory.Resource =>
    match item_data.cls with
    | DataClass.ResourceData => tryAddResource P item_data.ptr id b
    | _ => .ok (false, b)
  | EItemCategory.Tool =>
    match item_data.cls with
    | DataClass.ToolData MaxDurability =>
      match item_component with
      | none => tryAddTool P item_data.ptr id MaxDurability b
      | some component =>
        match component.Durability with
        | none => .ok (false, b)
        | some durability => tryAddTool P item_data.ptr id durability b
    | _ => .error Fault.nullDeref
  | EItemCategory.None => .ok (false, b)

/-- The method `tryRemoveItem`; the second component of the result is `remove_id` on
return. -/
def tryRemoveItem (item_data : UItemData) (remove_id : Int) (b : Bag) :
    Except Fault (Bool × Int × Bag) :=
  match item_data.Category with
  | EItemCategory.Resource =>
    match item_data.cls with
    | DataClass.ResourceData => tryRemoveResource item_data.ptr remove_id b
    | _ => .ok (false, remove_id, b)
  | EItemCategory.Tool =>
    match item_data.cls with
    | DataClass.ToolData _ => tryRemoveTool item_data.ptr remove_id b
    | _ => .ok (false, remove_id, b)
  | EItemCategory.None => .ok (false, remove_id, b)

/-- The method `addItem`. -/
def addItem (P : UBagProperties) (item_data : Option UItemData) (b : Bag) :
    Except Fault (FInventoryBagAddItemResult × Bag) :=
  match item_data with
  | none => .ok ({ bAdded := false, AssignedId := -1 }, b)
  | some data =>
    if hasAvailableIds b then
      match hasValidItemLimits P data with
      | .error e => .error e
      | .ok false => .ok ({ bAdded := false, AssignedId := -1 }, b)
      | .ok true =>
        match FScopedItemPoolIdTransaction.ctor b.item_ids_pool with
        | none => .error Fault.rangeCheck
        | some (id_transaction, pool) =>
          match tryAddItem P data id_transaction.id none { b with item_ids_pool := pool } with
          | .error e => .error e
          | .ok (false, b1) =>
            .ok ({ bAdded := false, AssignedId := -1 },
                 { b1 with item_ids_pool := id_transaction.dtor b1.item_ids_pool })
          | .ok (true, b1) =>
            .ok ({ bAdded := true, AssignedId := id_transaction.id },
                 { b1 with
                   item_ids_pool := id_transaction.commit.dtor b1.item_ids_pool
                   events := b1.events ++ [Event.BagUpdated] })
    else .ok ({ bAdded := false, AssignedId := -1 }, b)

/-- The method `addItemComponent`. -/
def addItemComponent (P : UBagProperties) (item : Option UItemComponent) (b : Bag) :
    Except Fault (FInventoryBagAddItemResult × Bag) :=
  match item with
  | none => .ok ({ bAdded := false, AssignedId := -1 }, b)
  | some component =>
    match component.ItemData with
    | none => .ok ({ bAdded := false, AssignedId := -1 }, b)
    | some data =>
      if hasAvailableIds b then
        match hasValidItemLimits P data with
        | .error e => .error e
        | .ok false => .ok ({ bAdded := false, AssignedId := -1 }, b)
        | .ok true =>
          match FScopedItemPoolIdTransaction.ctor b.item_ids_pool with
          | none => .error Fault.rangeCheck
          | some (id_transaction, pool) =>
            match tryAddItem P data id_transaction.id (some component)
                { b with item_ids_pool := pool } with
            | .error e => .error e
            | .ok (false, b1) =>
              .ok ({ bAdded := false, AssignedId := -1 },
                   { b1 with item_ids_pool := id_transaction.dtor b1.item_ids_pool })
            | .ok (true, b1) =>
              .ok ({ bAdded := true, AssignedId := id_transaction.id },
                   { b1 with
                     item_ids_pool := id_transaction.commit.dtor b1.item_ids_pool
                     item_comp_to_id := mapSet component.ptr id_transaction.id b1.item_comp_to_id
                     events := b1.events ++ [Event.BagUpdated] })
      else .ok ({ bAdded := false, AssignedId := -1 }, b)

/-- The actor class handed to `SpawnActor` on a drop, if any. -/
def dropSpawn (item_data : UItemData) (bAllowActorSpawn : Bool) : Option Nat :=
  if bAllowActorSpawn then item_data.OnDropSpawnedActor else none

/-- The method `removeItemComponent`. -/
def removeItemComponent (item : Option UItemComponent) (bAllowActorSpawn : Bool) (b : Bag) :
    Except Fault (FInventoryBagRemoveItemResult × Bag) :=
  match item with
  | none => .ok ({ bRemoved := false, RemovedId := -1, SpawnedActor := none }, b)
  | some component =>
    match component.ItemData with
    | none => .ok ({ bRemoved := false, RemovedId := -1, SpawnedActor := none }, b)
    | some data =>
      match mapFind component.ptr b.item_comp_to_id with
      | none => .ok ({ bRemoved := false, RemovedId := -1, SpawnedActor := none }, b)
      | some remove_id =>
        match tryRemoveItem data remove_id b with
        | .error e => .error e
        | .ok (false, _, b1) =>
          .ok ({ bRemoved := false, RemovedId := -1, SpawnedActor := none }, b1)
        | .ok (true, removed, b1) =>
          .ok ({ bRemoved := true, RemovedId := removed,
                 SpawnedActor := dropSpawn data bAllowActorSpawn },
               { b1 with
                 item_ids_pool := b1.item_ids_pool ++ [removed]
                 events := b1.events ++ [Event.BagUpdated] })

/-- The method `removeItem`. -/
def removeItem (item_data : Option UItemData) (bAllowActorSpawn : Bool) (b : Bag) :
    Except Fault (FInventoryBagRemoveItemResult × Bag) :=
  match item_data with
  | none => .ok ({ bRemoved := false, RemovedId := -1, SpawnedActor := none }, b)
  | some data =>
    match tryRemoveItem data (-1) b with
    | .error e => .error e
    | .ok (false, _, b1) =>
      .ok ({ bRemoved := false, RemovedId := -1, SpawnedActor := none }, b1)
    | .ok (true, removed, b1) =>
      .ok ({ bRemoved := true, RemovedId := removed,
             SpawnedActor := dropSpawn data bAllowActorSpawn },
           { b1 with
             item_ids_pool := b1.item_ids_pool ++ [removed]
             item_comp_to_id :=
               match mapFindKey removed b1.item_comp_to_id with
               | none => b1.item_comp_to_id
               | some item_comp => mapRemove item_comp b1.item_comp_to_id
             events := b1.events ++ [Event.BagUpdated] })

/-- The method `getItemQuantity` (the `return false` of its error paths is `0`). -/
def getItemQuantity (item_data : Option UItemData) (b : Bag) : Int :=
  match item_data with
  | none => 0
  | some data =>
    match data.Category with
    | EItemCategory.Resource =>
      match data.cls with
      | DataClass.ResourceData =>
        match mapFind data.ptr b.Resources.Data with
        | some resources_data => resources_data.ResourceQuantity
        | none => 0
      | _ => 0
    | EItemCategory.Tool =>
      match data.cls with
      | DataClass.ToolData _ =>
        match mapFind data.ptr b.Tools.Data with
        | some tools_data => tools_data.ToolQuantity
        | none => 0
      | _ => 0
    | EItemCategory.None => 0

/-- Inner loop of `updateToolDurability`: the first entry of the slot with
`ToolId == tool_id` gets the new durability. -/
def setDurabilityInSlot (tool_id durability : Int) : List FBagToolInfo → Option (List FBagToolInfo)
  | [] => none
  | tool_info :: rest =>
    if tool_info.ToolId = tool_id then some ({ tool_info with Durability := durability } :: rest)
    else
      match setDurabilityInSlot tool_id durability rest with
      | none => none
      | some rest' => some (tool_info :: rest')

/-- Outer loop of `updateToolDurability`: the first slot holding `tool_id` is updated;
the result is that slot and the new slot array. -/
def setDurabilityInSlots (tool_id durability : Int) :
    List FBagToolSlot → Option (FBagToolSlot × List FBagToolSlot)
  | [] => none
  | slot :: rest =>
    match setDurabilityInSlot tool_id durability slot.ToolsInfo with
    | some infos => some ({ slot with ToolsInfo := infos }, { slot with ToolsInfo := infos } :: rest)
    | none =>
      match setDurabilityInSlots tool_id durability rest with
      | none => none
      | some (s, rest') => some (s, slot :: rest')

/-- The method `updateToolDurability`.  A failed `Cast<UToolData>` is only logged, after
which `check(Tools.Data.Contains(nullptr))` fails. -/
def updateToolDurability (tool : Option UItemComponent) (durability : Int) (b : Bag) :
    Except Fault (Bool × Bag) :=
  match tool with
  | none => .ok (false, b)
  | some component =>
    match component.ItemData with
    | none => .ok (false, b)
    | some data =>
      match mapFind component.ptr b.item_comp_to_id with
      | none => .ok (false, b)
      | some tool_id =>
        match data.cls with
        | DataClass.ToolData _ =>
          match mapFind data.ptr b.Tools.Data with
          | none => .error Fault.check
          | some tools_data =>
            match setDurabilityInSlots tool_id durability tools_data.Slots with
            | none => .error Fault.check
            | some (slot, slots) =>
              .ok (true,
                { b with
                  Tools := { b.Tools with
                    Data := mapSet data.ptr { tools_data with Slots := slots } b.Tools.Data }
                  events := b.events ++ [Event.ToolSlotUpdated data.ptr slot.Id slot] })
        | _ => .error Fault.check

/-- The ids `0, 1, ..., n-1` written by the initialisation loops of `BeginPlay`. -/
def idRange (n : Int) : List Int :=
  (List.range n.toNat).map Int.ofNat

/-- The value is an `int32`: it lies in `-2^31 .. 2^31 - 1`. -/
def isInt32 (x : Int) : Bool :=
  decide (-2147483648 ≤ x) && decide (x ≤ 2147483647)

/-- The sum `a + b` of two `int32` values as the machine computes it: modulo `2^32`, in
two's complement (`2147483648 = 2^31`, `4294967296 = 2^32`). -/
def int32Add (a b : Int) : Int :=
  (a + b + 2147483648) % 4294967296 - 2147483648

/-- The method `BeginPlay` on a freshly constructed component (empty maps, both
`UsedSlots` zero as in zeroed object memory): both pools are filled; the size
of `slot_ids_pool` is the `int32` sum `MaxToolsSlots + MaxResourceSlots`, which
wraps around; a negative element count is not a valid argument of
`AddUninitialized`.  `MaxItemId`, `MaxToolsSlots` and `MaxResourceSlots` are
`int32` members: a record with one of them outside the `int32` range is no
object of the program and has no initial state. -/
def BeginPlay (P : UBagProperties) : Except Fault Bag :=
  if 0 ≤ P.MaxItemId ∧ 0 ≤ int32Add P.MaxToolsSlots P.MaxResourceSlots ∧
      isInt32 P.MaxItemId = true ∧ isInt32 P.MaxToolsSlots = true ∧
      isInt32 P.MaxResourceSlots = true then
    .ok { Resources := { Data := [], UsedSlots := 0 },
          Tools := { Data := [], UsedSlots := 0 },
          item_ids_pool := idRange P.MaxItemId,
          slot_ids_pool := idRange (int32Add P.MaxToolsSlots P.MaxResourceSlots),
          item_comp_to_id := [],
          events := [] }
  else .error Fault.check

/-! ## Call sequences and reachable states -/

/-- One call of a state-changing public method of the bag. -/
inductive Op where
  | addItem (item_data : Option UItemData)
  | addItemComponent (item : Option UItemComponent)
  | removeItem (item_data : Option UItemData) (bAllowActorSpawn : Bool)
  | removeItemComponent (item : Option UItemComponent) (bAllowActorSpawn : Bool)
  | updateToolDurability (tool : Option UItemComponent) (durability : Int)
deriving DecidableEq, Repr

/-- The bag after one call (the returned value is dropped). -/
def step (P : UBagProperties) (b : Bag) : Op → Except Fault Bag
  | Op.addItem item_data => (addItem P item_data b).map Prod.snd
  | Op.addItemComponent item => (addItemComponent P item b).map Prod.snd
  | Op.removeItem item_data spawn => (removeItem item_data spawn b).map Prod.snd
  | Op.removeItemComponent item spawn => (removeItemComponent item spawn b).map Prod.snd
  | Op.updateToolDurability tool durability =>
    (updateToolDurability tool durability b).map Prod.snd

/-- The bag after a sequence of calls, each of which returned. -/
def runFrom (P : UBagProperties) : Bag → List Op → Except Fault Bag
  | b, [] => .ok b
  | b, op :: ops =>
    match step P b op with
    | .error e => .error e
    | .ok b1 => runFrom P b1 ops

/-- The bag after `BeginPlay` and a sequence of calls. -/
def run (P : UBagProperties) (ops : List Op) : Except Fault Bag :=
  match BeginPlay P with
  | .error e => .error e
  | .ok b => runFrom P b ops

/-- The bag states reachable from the initialised bag by calls that return. -/
inductive Reachable (P : UBagProperties) : Bag → Prop where
  | init (b : Bag) : BeginPlay P = .ok b → Reachable P b
  | step (b b1 : Bag) (op : Op) : Reachable P b → step P b op = .ok b1 → Reachable P b1

/-! ## Observations on a bag, used to state the properties -/

deriving instance DecidableEq for Except

/-- The instance ids stored in a sequence of resource slots, slot by slot. -/
def resourceSlotsIds : List FBagResourceSlot → List Int
  | [] => []
  | slot :: rest => slot.ResourceIds ++ resourceSlotsIds rest

/-- The instance ids stored in a sequence of tool slots, slot by slot. -/
def toolSlotsIds : List FBagToolSlot → List Int
  | [] => []
  | slot :: rest => slot.ToolsInfo.map FBagToolInfo.ToolId ++ toolSlotsIds rest

/-- The instance ids stored in all buckets of `Resources.Data`. -/
def resourcesIds : List (Nat × FBagResourcesData) → List Int
  | [] => []
  | kv :: rest => resourceSlotsIds kv.2.Slots ++ resourcesIds rest

/-- The instance ids stored in all buckets of `Tools.Data`. -/
def toolsIds : List (Nat × FBagToolsData) → List Int
  | [] => []
  | kv :: rest => toolSlotsIds kv.2.Slots ++ toolsIds rest

/-- The instance ids held by the bag: those of all resource slots, then those of all
tool slots. -/
def Bag.heldIds (b : Bag) : List Int :=
  resourcesIds b.Resources.Data ++ toolsIds b.Tools.Data

/-- Sum of the entry counts of the slots of a resource bucket. -/
def FBagResourcesData.entryCount (d : FBagResourcesData) : Nat :=
  (d.Slots.map (fun slot => slot.ResourceIds.length)).sum

/-- Sum of the entry counts of the slots of a tool bucket. -/
def FBagToolsData.entryCount (d : FBagToolsData) : Nat :=
  (d.Slots.map (fun slot => slot.ToolsInfo.length)).sum

/-- What holds of a resource bucket while `tryAddResource` works on it: the quantity is
the number of stored ids, no slot is empty or over the stack size, the quantity
is within the limit. -/
def ResourceBucketPre (L : UItemBagLimit) (d : FBagResourcesData) : Prop :=
  d.ResourceQuantity = (d.entryCount : Int) ∧
  (∀ slot ∈ d.Slots, slot.ResourceIds ≠ [] ∧ (slot.ResourceIds.length : Int) ≤ L.MaxStackSize) ∧
  d.ResourceQuantity ≤ L.MaxQuantity

/-- A well-formed resource bucket of the registry: as `ResourceBucketPre`, with at least
one slot. -/
def ResourceBucketOk (L : UItemBagLimit) (d : FBagResourcesData) : Prop :=
  ResourceBucketPre L d ∧ d.Slots ≠ []

/-- What holds of a tool bucket while `tryAddTool` works on it. -/
def ToolBucketPre (L : UItemBagLimit) (d : FBagToolsData) : Prop :=
  d.ToolQuantity = (d.entryCount : Int) ∧
  (∀ slot ∈ d.Slots, slot.ToolsInfo ≠ [] ∧ (slot.ToolsInfo.length : Int) ≤ L.MaxStackSize) ∧
  d.ToolQuantity ≤ L.MaxQuantity

/-- A well-formed tool bucket of the registry. -/
def ToolBucketOk (L : UItemBagLimit) (d : FBagToolsData) : Prop :=
  ToolBucketPre L d ∧ d.Slots ≠ []

/-- Every resource bucket of the registry is well formed for the limit of its type. -/
def ResourcesOk (P : UBagProperties) (data : List (Nat × FBagResourcesData)) : Prop :=
  ∀ kv ∈ data, ∃ L, mapFind kv.1 P.Limits = some (some L) ∧ ResourceBucketOk L kv.2

/-- Every tool bucket of the registry is well formed for the limit of its type. -/
def ToolsOk (P : UBagProperties) (data : List (Nat × FBagToolsData)) : Prop :=
  ∀ kv ∈ data, ∃ L, mapFind kv.1 P.Limits = some (some L) ∧ ToolBucketOk L kv.2

/-- The invariant of the bag: every bucket is well formed for the limit of its type, the
free and the held instance ids together are the ids `0 .. MaxItemId-1` (counted
with multiplicity), and both slot counters are bounded by the ceiling the code
tests, `MaxResourceSlots`. -/
def Inv (P : UBagProperties) (b : Bag) : Prop :=
  ResourcesOk P b.Resources.Data ∧
  ToolsOk P b.Tools.Data ∧
  (∀ a : Int, List.count a b.item_ids_pool + List.count a b.heldIds
      = List.count a (idRange P.MaxItemId)) ∧
  b.Resources.UsedSlots ≤ max 0 P.MaxResourceSlots ∧
  b.Tools.UsedSlots ≤ max 0 P.MaxResourceSlots

/-- The effect of a successful `tryAddResource` of `id` on the bucket `d` of `key`
(the empty bucket when the type was absent): `d1` is the bucket afterwards.
Either the first slot with room received the id, or every slot was full and a
new slot with a popped slot id was appended. -/
def ResourceAddEffect (P : UBagProperties) (L : UItemBagLimit) (key : Nat) (id : Int)
    (d d1 : FBagResourcesData) (b b1 : Bag) : Prop :=
  d.ResourceQuantity < L.MaxQuantity ∧
  b1.Tools = b.Tools ∧ b1.item_ids_pool = b.item_ids_pool ∧
  b1.item_comp_to_id = b.item_comp_to_id ∧
  d1.ResourceQuantity = d.ResourceQuantity + 1 ∧
  b1.Resources.Data = mapSet key d1 b.Resources.Data ∧
  ((∃ pre s post, d.Slots = pre ++ s :: post ∧
      (∀ x ∈ pre, ¬ ((x.ResourceIds.length : Int) < L.MaxStackSize)) ∧
      (s.ResourceIds.length : Int) < L.MaxStackSize ∧
      d1.Slots = pre ++ { s with ResourceIds := s.ResourceIds ++ [id] } :: post ∧
      b1.Resources.UsedSlots = b.Resources.UsedSlots ∧
      b1.slot_ids_pool = b.slot_ids_pool ∧
      b1.events = b.events ++ [Event.ResourceSlotUpdated key s.Id
        { s with ResourceIds := s.ResourceIds ++ [id] }]) ∨
   ((∀ x ∈ d.Slots, ¬ ((x.ResourceIds.length : Int) < L.MaxStackSize)) ∧
      b.Resources.UsedSlots < P.MaxResourceSlots ∧
      ∃ slot_id, b.slot_ids_pool = b1.slot_ids_pool ++ [slot_id] ∧
        d1.Slots = d.Slots ++ [{ Id := slot_id, ResourceIds := [id] }] ∧
        b1.Resources.UsedSlots = b.Resources.UsedSlots + 1 ∧
        b1.events = b.events ++ [Event.ResourceSlotAdded key slot_id
          { Id := slot_id, ResourceIds := [id] }]))

/-- The effect of a successful `tryAddTool` of the entry `(id, durability)` on the
bucket `d` of `key`; the slot ceiling is `MaxResourceSlots`, as tested by the
code. -/
def ToolAddEffect (P : UBagProperties) (L : UItemBagLimit) (key : Nat) (id durability : Int)
    (d d1 : FBagToolsData) (b b1 : Bag) : Prop :=
  d.ToolQuantity < L.MaxQuantity ∧
  b1.Resources = b.Resources ∧ b1.item_ids_pool = b.item_ids_pool ∧
  b1.item_comp_to_id = b.item_comp_to_id ∧
  d1.ToolQuantity = d.ToolQuantity + 1 ∧
  b1.Tools.Data = mapSet key d1 b.Tools.Data ∧
  ((∃ pre s post, d.Slots = pre ++ s :: post ∧
      (∀ x ∈ pre, ¬ ((x.ToolsInfo.length : Int) < L.MaxStackSize)) ∧
      (s.ToolsInfo.length : Int) < L.MaxStackSize ∧
      d1.Slots = pre ++ { s with ToolsInfo := s.ToolsInfo ++
        [{ ToolId := id, Durability := durability }] } :: post ∧
      b1.Tools.UsedSlots = b.Tools.UsedSlots ∧
      b1.slot_ids_pool = b.slot_ids_pool ∧
      b1.events = b.events ++ [Event.ToolSlotUpdated key s.Id
        { s with ToolsInfo := s.ToolsInfo ++ [{ ToolId := id, Durability := durability }] }]) ∨
   ((∀ x ∈ d.Slots, ¬ ((x.ToolsInfo.length : Int) < L.MaxStackSize)) ∧
      b.Tools.UsedSlots < P.MaxResourceSlots ∧
      ∃ slot_id, b.slot_ids_pool = b1.slot_ids_pool ++ [slot_id] ∧
        d1.Slots = d.Slots ++
          [{ Id := slot_id, ToolsInfo := [{ ToolId := id, Durability := durability }] }] ∧
        b1.Tools.UsedSlots = b.Tools.UsedSlots + 1 ∧
        b1.events = b.events ++ [Event.ToolSlotAdded key slot_id
          { Id := slot_id, ToolsInfo := [{ ToolId := id, Durability := durability }] }]))

/-! ## Example configurations and states -/

/-- A resource type with pointer 1. -/
def demoResource : UItemData :=
  { ptr := 1, Category := EItemCategory.Resource, cls := DataClass.ResourceData,
    OnDropSpawnedActor := none }

/-- A tool type with pointer 2 and `MaxDurability = 10`. -/
def demoTool : UItemData :=
  { ptr := 2, Category := EItemCategory.Tool, cls := DataClass.ToolData 10,
    OnDropSpawnedActor := none }

/-- Bag properties: stacks of 2, at most 5 resources and 10 tools, 3 slots per kind,
6 instance ids. -/
def demoProperties : UBagProperties :=
  { Limits := [(1, some { MaxStackSize := 2, MaxQuantity := 5 }),
               (2, some { MaxStackSize := 2, MaxQuantity := 10 })],
    MaxResourceSlots := 3, MaxToolsSlots := 3, MaxItemId := 6 }

/-- Three resources and one tool are added to the fresh bag. -/
def demoOps : List Op :=
  [Op.addItem (some demoResource), Op.addItem (some demoResource),
   Op.addItem (some demoResource), Op.addItem (some demoTool)]

/-- The bag after `demoOps`. -/
def demoBag : Bag :=
  { Resources :=
      { Data := [(1, { Slots := [{ Id := 5, ResourceIds := [5, 4] },
                                 { Id := 4, ResourceIds := [3] }],
                       ResourceQuantity := 3 })],
        UsedSlots := 2 },
    Tools :=
      { Data := [(2, { ToolQuantity := 1,
                       Slots := [{ Id := 3,
                                   ToolsInfo := [{ ToolId := 2, Durability := 10 }] }] })],
        UsedSlots := 1 },
    item_ids_pool := [0, 1],
    slot_ids_pool := [0, 1, 2],
    item_comp_to_id := [],
    events := [Event.ResourceSlotAdded 1 5 { Id := 5, ResourceIds := [5] },
               Event.BagUpdated,
               Event.ResourceSlotUpdated 1 5 { Id := 5, ResourceIds := [5, 4] },
               Event.BagUpdated,
               Event.ResourceSlotAdded 1 4 { Id := 4, ResourceIds := [3] },
               Event.BagUpdated,
               Event.ToolSlotAdded 2 3
                 { Id := 3, ToolsInfo := [{ ToolId := 2, Durability := 10 }] },
               Event.BagUpdated] }

/-- Bag properties with a negative resource slot ceiling; the slot id pool has
`1 + (-1) = 0` elements. -/
def negativeCeilingProperties : UBagProperties :=
  { Limits := [], MaxResourceSlots := -1, MaxToolsSlots := 1, MaxItemId := 0 }

/-- The bag right after `BeginPlay` under `negativeCeilingProperties`. -/
def negativeCeilingBag : Bag :=
  { Resources := { Data := [], UsedSlots := 0 },
    Tools := { Data := [], UsedSlots := 0 },
    item_ids_pool := [],
    slot_ids_pool := [],
    item_comp_to_id := [],
    events := [] }

/-- Bag properties with fewer tool slots than resource slots: 1 tool slot, 2 resource
slots, tools stacked one per slot. -/
def toolCeilingProperties : UBagProperties :=
  { Limits := [(2, some { MaxStackSize := 1, MaxQuantity := 10 })],
    MaxResourceSlots := 2, MaxToolsSlots := 1, MaxItemId := 4 }

/-- The bag after two `addItem(demoTool)` under `toolCeilingProperties`. -/
def toolCeilingBag : Bag :=
  { Resources := { Data := [], UsedSlots := 0 },
    Tools :=
      { Data := [(2, { ToolQuantity := 2,
                       Slots := [{ Id := 2, ToolsInfo := [{ ToolId := 3, Durability := 10 }] },
                                 { Id := 1, ToolsInfo := [{ ToolId := 2, Durability := 10 }] }] })],
        UsedSlots := 2 },
    item_ids_pool := [0, 1],
    slot_ids_pool := [0],
    item_comp_to_id := [],
    events := [Event.ToolSlotAdded 2 2
                 { Id := 2, ToolsInfo := [{ ToolId := 3, Durability := 10 }] },
               Event.BagUpdated,
               Event.ToolSlotAdded 2 1
                 { Id := 1, ToolsInfo := [{ ToolId := 2, Durability := 10 }] },
               Event.BagUpdated] }

/-- A tool component with pointer 7, holding `demoTool` at durability 4. -/
def demoToolComponent : UItemComponent :=
  { ptr := 7, ItemData := some demoTool, Durability := some 4 }

/-- Bag properties whose limit for `demoResource` has `MaxQuantity = 0`. -/
def zeroQuantityProperties : UBagProperties :=
  { Limits := [(1, some { MaxStackSize := 2, MaxQuantity := 0 })],
    MaxResourceSlots := 3, MaxToolsSlots := 3, MaxItemId := 6 }

/-- The bag right after `BeginPlay` under `zeroQuantityProperties`. -/
def zeroQuantityBag : Bag :=
  { Resources := { Data := [], UsedSlots := 0 },
    Tools := { Data := [], UsedSlots := 0 },
    item_ids_pool := [0, 1, 2, 3, 4, 5],
    slot_ids_pool := [0, 1, 2, 3, 4, 5],
    item_comp_to_id := [],
    events := [] }

/-- The bag `demoBag` after `removeItem(demoResource)`, which returned id 3. -/
def demoBagAfterRemove : Bag :=
  { Resources :=
      { Data := [(1, { Slots := [{ Id := 5, ResourceIds := [5, 4] }], ResourceQuantity := 2 })],
        UsedSlots := 1 },
    Tools :=
      { Data := [(2, { ToolQuantity := 1,
                       Slots := [{ Id := 3,
                                   ToolsInfo := [{ ToolId := 2, Durability := 10 }] }] })],
        UsedSlots := 1 },
    item_ids_pool := [0, 1, 3],
    slot_ids_pool := [0, 1, 2, 4],
    item_comp_to_id := [],
    events := [Event.ResourceSlotAdded 1 5 { Id := 5, ResourceIds := [5] },
               Event.BagUpdated,
               Event.ResourceSlotUpdated 1 5 { Id := 5, ResourceIds := [5, 4] },
               Event.BagUpdated,
               Event.ResourceSlotAdded 1 4 { Id := 4, ResourceIds := [3] },
               Event.BagUpdated,
               Event.ToolSlotAdded 2 3
                 { Id := 3, ToolsInfo := [{ ToolId := 2, Durability := 10 }] },
               Event.BagUpdated,
               Event.ResourceSlotRemoved 1 4 { Id := 4, ResourceIds := [] },
               Event.BagUpdated] }

/-- A run of `addItem` calls up to and including the first that succeeds: the id it
assigned, or `none` when no call of the run succeeds. -/
def firstSuccessfulAdd (P : UBagProperties) : List (Option UItemData) → Bag →
    Except Fault (Option Int)
  | [], _ => .ok none
  | d :: ds, b =>
    match addItem P d b with
    | .error e => .error e
    | .ok (r, b1) => if r.bAdded then .ok (some r.AssignedId) else firstSuccessfulAdd P ds b1

/-- The instance ids of the bucket of an item type, slot by slot, in slot order; the
bucket is looked up as `getItemQuantity` does (by category and data class) and
an absent bucket has no slots. -/
def bucketSlotIds (data : UItemData) (b : Bag) : List (List Int) :=
  match data.Category with
  | EItemCategory.Resource =>
    match data.cls with
    | DataClass.ResourceData =>
      match mapFind data.ptr b.Resources.Data with
      | some resources_data => resources_data.Slots.map (fun slot => slot.ResourceIds)
      | none => []
    | _ => []
  | EItemCategory.Tool =>
    match data.cls with
    | DataClass.ToolData _ =>
      match mapFind data.ptr b.Tools.Data with
      | some tools_data =>
        tools_data.Slots.map (fun slot => slot.ToolsInfo.map FBagToolInfo.ToolId)
      | none => []
    | _ => []
  | EItemCategory.None => []

/-- The bag `demoBag` after one more `addItem(demoResource)`, which was assigned id 1. -/
def demoBagAfterAdd : Bag :=
  { Resources :=
      { Data := [(1, { Slots := [{ Id := 5, ResourceIds := [5, 4] },
                                 { Id := 4, ResourceIds := [3, 1] }],
                       ResourceQuantity := 4 })],
        UsedSlots := 2 },
    Tools :=
      { Data := [(2, { ToolQuantity := 1,
                       Slots := [{ Id := 3,
                                   ToolsInfo := [{ ToolId := 2, Durability := 10 }] }] })],
        UsedSlots := 1 },
    item_ids_pool := [0],
    slot_ids_pool := [0, 1, 2],
    item_comp_to_id := [],
    events := [Event.ResourceSlotAdded 1 5 { Id := 5, ResourceIds := [5] },
               Event.BagUpdated,
               Event.ResourceSlotUpdated 1 5 { Id := 5, ResourceIds := [5, 4] },
               Event.BagUpdated,
               Event.ResourceSlotAdded 1 4 { Id := 4, ResourceIds := [3] },
               Event.BagUpdated,
               Event.ToolSlotAdded 2 3
                 { Id := 3, ToolsInfo := [{ ToolId := 2, Durability := 10 }] },
               Event.BagUpdated,
               Event.ResourceSlotUpdated 1 4 { Id := 4, ResourceIds := [3, 1] },
               Event.BagUpdated] }

/-- A tool component with pointer `n`, holding `demoTool` at durability 7. -/
def gapComponent (n : Nat) : UItemComponent :=
  { ptr := n, ItemData := some demoTool, Durability := some 7 }

/-- Three tool components are added (ids 5, 4, 3; slots `[5, 4]` and `[3]`), then the
first is removed by its component, which leaves room in the first slot. -/
def gapOps : List Op :=
  [Op.addItemComponent (some (gapComponent 11)), Op.addItemComponent (some (gapComponent 12)),
   Op.addItemComponent (some (gapComponent 13)),
   Op.removeItemComponent (some (gapComponent 11)) true]

/-- The broadcasts of `gapOps`. -/
def gapEvents : List Event :=
  [Event.ToolSlotAdded 2 5 { Id := 5, ToolsInfo := [{ ToolId := 5, Durability := 7 }] },
   Event.BagUpdated,
   Event.ToolSlotUpdated 2 5
     { Id := 5, ToolsInfo := [{ ToolId := 5, Durability := 7 }, { ToolId := 4, Durability := 7 }] },
   Event.BagUpdated,
   Event.ToolSlotAdded 2 4 { Id := 4, ToolsInfo := [{ ToolId := 3, Durability := 7 }] },
   Event.BagUpdated,
   Event.ToolSlotUpdated 2 5 { Id := 5, ToolsInfo := [{ ToolId := 4, Durability := 7 }] },
   Event.BagUpdated]

/-- The bag after `gapOps` under `demoProperties`: tool slots `[4]` and `[3]`, stack
size 2, free ids `[0, 1, 2, 5]`. -/
def gapBag : Bag :=
  { Resources := { Data := [], UsedSlots := 0 },
    Tools :=
      { Data := [(2, { ToolQuantity := 2,
                       Slots := [{ Id := 5, ToolsInfo := [{ ToolId := 4, Durability := 7 }] },
                                 { Id := 4, ToolsInfo := [{ ToolId := 3, Durability := 7 }] }] })],
        UsedSlots := 2 },
    item_ids_pool := [0, 1, 2, 5],
    slot_ids_pool := [0, 1, 2, 3],
    item_comp_to_id := [(11, 5), (12, 4), (13, 3)],
    events := gapEvents }

/-- The bag `gapBag` after `addItem(demoTool)`: id 5 went into the first slot. -/
def gapBagAfterAdd : Bag :=
  { Resources := { Data := [], UsedSlots := 0 },
    Tools :=
      { Data := [(2, { ToolQuantity := 3,
                       Slots := [{ Id := 5, ToolsInfo := [{ ToolId := 4, Durability := 7 },
                                                          { ToolId := 5, Durability := 10 }] },
                                 { Id := 4, ToolsInfo := [{ ToolId := 3, Durability := 7 }] }] })],
        UsedSlots := 2 },
    item_ids_pool := [0, 1, 2],
    slot_ids_pool := [0, 1, 2, 3],
    item_comp_to_id := [(11, 5), (12, 4), (13, 3)],
    events := gapEvents ++
      [Event.ToolSlotUpdated 2 5
         { Id := 5, ToolsInfo := [{ ToolId := 4, Durability := 7 },
                                  { ToolId := 5, Durability := 10 }] },
       Event.BagUpdated] }

/-- The bag `gapBagAfterAdd` after `removeItem(demoTool)`: id 3 left the last slot, which
was closed. -/
def gapBagAfterRemove : Bag :=
  { Resources := { Data := [], UsedSlots := 0 },
    Tools :=
      { Data := [(2, { ToolQuantity := 2,
                       Slots := [{ Id := 5, ToolsInfo := [{ ToolId := 4, Durability := 7 },
                                                          { ToolId := 5, Durability := 10 }] }] })],
        UsedSlots := 1 },
    item_ids_pool := [0, 1, 2, 3],
    slot_ids_pool := [0, 1, 2, 3, 4],
    item_comp_to_id := [(11, 5), (12, 4)],
    events := gapEvents ++
      [Event.ToolSlotUpdated 2 5
         { Id := 5, ToolsInfo := [{ ToolId := 4, Durability := 7 },
                                  { ToolId := 5, Durability := 10 }] },
       Event.BagUpdated,
       Event.ToolSlotRemoved 2 4 { Id := 4, ToolsInfo := [] },
       Event.BagUpdated] }

/-! ## Views and effects used for the packer properties -/

/-- The slots of the resource bucket of `key`; an absent bucket has none. -/
def resourceSlotsOf (key : Nat) (b : Bag) : List FBagResourceSlot :=
  match mapFind key b.Resources.Data with
  | some resources_data => resources_data.Slots
  | none => []

/-- The slots of the tool bucket of `key`; an absent bucket has none. -/
def toolSlotsOf (key : Nat) (b : Bag) : List FBagToolSlot :=
  match mapFind key b.Tools.Data with
  | some tools_data => tools_data.Slots
  | none => []

/-- The quantity of the resource bucket of `key`, `0` for an absent bucket (what
`getItemQuantity` returns for a resource type). -/
def resourceQuantityOf (key : Nat) (b : Bag) : Int :=
  match mapFind key b.Resources.Data with
  | some resources_data => resources_data.ResourceQuantity
  | none => 0

/-- The quantity of the tool bucket of `key`, `0` for an absent bucket. -/
def toolQuantityOf (key : Nat) (b : Bag) : Int :=
  match mapFind key b.Tools.Data with
  | some tools_data => tools_data.ToolQuantity
  | none => 0

/-- The effect of a successful `tryRemoveResource` with the sentinel `-1` in a bag whose
buckets are well formed: the last id `removed` of the last slot `last` is taken;
the slot is deleted when it held nothing else, and the bucket is deleted when
it held nothing else. -/
def ResourceRemoveLastEffect (key : Nat) (removed : Int) (b b1 : Bag) : Prop :=
  ∃ d front last ids, mapFind key b.Resources.Data = some d ∧
    0 < d.ResourceQuantity ∧ d.Slots = front ++ [last] ∧ last.ResourceIds = ids ++ [removed] ∧
    b1.Tools = b.Tools ∧ b1.item_ids_pool = b.item_ids_pool ∧
    b1.item_comp_to_id = b.item_comp_to_id ∧
    b1.Resources.Data =
      (if d.ResourceQuantity - 1 = 0 then mapRemove key b.Resources.Data
       else mapSet key
         { Slots := if ids = [] then front else front ++ [{ last with ResourceIds := ids }],
           ResourceQuantity := d.ResourceQuantity - 1 } b.Resources.Data) ∧
    b1.Resources.UsedSlots
      = (if ids = [] then b.Resources.UsedSlots - 1 else b.Resources.UsedSlots) ∧
    b1.slot_ids_pool = (if ids = [] then b.slot_ids_pool ++ [last.Id] else b.slot_ids_pool) ∧
    b1.events = b.events ++
      [if ids = [] then Event.ResourceSlotRemoved key last.Id { Id := last.Id, ResourceIds := [] }
       else Event.ResourceSlotUpdated key last.Id { last with ResourceIds := ids }]

/-- The effect of a successful `tryRemoveTool` in a bag whose buckets are well formed:
one entry with `ToolId = removed` leaves the slot `s` (the last entry of the
last slot for the sentinel `-1`, the entry with the given id otherwise), the
other entries of `s` keep their order; an emptied slot is deleted by moving the
last slot of the bucket into its place; the bucket is deleted when it held
nothing else. -/
def ToolRemoveEffect (key : Nat) (remove_id removed : Int) (b b1 : Bag) : Prop :=
  ∃ d pre s post before info after, mapFind key b.Tools.Data = some d ∧
    0 < d.ToolQuantity ∧ d.Slots = pre ++ s :: post ∧
    s.ToolsInfo = before ++ info :: after ∧ info.ToolId = removed ∧
    ((remove_id = -1 ∧ post = [] ∧ after = []) ∨
     (remove_id ≠ -1 ∧ removed = remove_id ∧
        (∀ t ∈ before ++ after, t.ToolId ≠ remove_id) ∧
        (∀ x ∈ pre, ∀ t ∈ x.ToolsInfo, t.ToolId ≠ remove_id))) ∧
    b1.Resources = b.Resources ∧ b1.item_ids_pool = b.item_ids_pool ∧
    b1.item_comp_to_id = b.item_comp_to_id ∧
    b1.Tools.Data =
      (if d.ToolQuantity - 1 = 0 then mapRemove key b.Tools.Data
       else mapSet key
         { ToolQuantity := d.ToolQuantity - 1,
           Slots := if before ++ after = [] then pre ++ lastToFront post
                    else pre ++ { s with ToolsInfo := before ++ after } :: post }
         b.Tools.Data) ∧
    b1.Tools.UsedSlots
      = (if before ++ after = [] then b.Tools.UsedSlots - 1 else b.Tools.UsedSlots) ∧
    b1.slot_ids_pool
      = (if before ++ after = [] then b.slot_ids_pool ++ [s.Id] else b.slot_ids_pool) ∧
    b1.events = b.events ++
      [if before ++ after = [] then Event.ToolSlotRemoved key s.Id { Id := s.Id, ToolsInfo := [] }
       else Event.ToolSlotUpdated key s.Id { s with ToolsInfo := before ++ after }]

/-- No type key occurs twice in `Resources.Data` or in `Tools.Data` (a `TMap` has one
entry per key). -/
def KeysOk (b : Bag) : Prop :=
  (b.Resources.Data.map Prod.fst).Nodup ∧ (b.Tools.Data.map Prod.fst).Nodup

/-- No bucket of the bag has a slot without entries. -/
def NoEmptySlot (b : Bag) : Prop :=
  (∀ kv ∈ b.Resources.Data, ∀ slot ∈ kv.2.Slots, slot.ResourceIds ≠ []) ∧
  (∀ kv ∈ b.Tools.Data, ∀ slot ∈ kv.2.Slots, slot.ToolsInfo ≠ [])

/-- A bag with a resource bucket (slots `[5, 4]` and `[3]`) and a tool bucket (slots with
one tool each), stack size 2 under `demoProperties`. -/
def packBag : Bag :=
  { Resources :=
      { Data := [(1, { Slots := [{ Id := 5, ResourceIds := [5, 4] },
                                 { Id := 4, ResourceIds := [3] }],
                       ResourceQuantity := 3 })],
        UsedSlots := 2 },
    Tools :=
      { Data := [(2, { ToolQuantity := 2,
                       Slots := [{ Id := 3, ToolsInfo := [{ ToolId := 2, Durability := 10 }] },
                                 { Id := 2, ToolsInfo := [{ ToolId := 1, Durability := 7 }] }] })],
        UsedSlots := 2 },
    item_ids_pool := [],
    slot_ids_pool := [0, 1],
    item_comp_to_id := [],
    events := [] }

/-- The bag `packBag` after `tryAddResource` of id 0 for type 1. -/
def packBagAfterResource : Bag :=
  { packBag with
    Resources :=
      { Data := [(1, { Slots := [{ Id := 5, ResourceIds := [5, 4] },
                                 { Id := 4, ResourceIds := [3, 0] }],
                       ResourceQuantity := 4 })],
        UsedSlots := 2 }
    events := [Event.ResourceSlotUpdated 1 4 { Id := 4, ResourceIds := [3, 0] }] }

/-- The bag `packBag` after `tryAddTool` of id 0 with durability 9 for type 2. -/
def packBagAfterTool : Bag :=
  { packBag with
    Tools :=
      { Data := [(2, { ToolQuantity := 3,
                       Slots := [{ Id := 3, ToolsInfo := [{ ToolId := 2, Durability := 10 },
                                                          { ToolId := 0, Durability := 9 }] },
                                 { Id := 2, ToolsInfo := [{ ToolId := 1, Durability := 7 }] }] })],
        UsedSlots := 2 }
    events := [Event.ToolSlotUpdated 2 3
      { Id := 3, ToolsInfo := [{ ToolId := 2, Durability := 10 },
                               { ToolId := 0, Durability := 9 }] }] }

/-- The bag `demoBag` after `removeItem(demoTool)`, which returned id 2 and deleted the
tool bucket. -/
def demoBagAfterToolRemove : Bag :=
  { demoBag with
    Tools := { Data := [], UsedSlots := 0 }
    item_ids_pool := [0, 1, 2]
    slot_ids_pool := [0, 1, 2, 3]
    events := demoBag.events ++
      [Event.ToolSlotRemoved 2 3 { Id := 3, ToolsInfo := [] }, Event.BagUpdated] }

/-- A resource component with pointer 8, holding `demoResource`. -/
def demoResourceComponent : UItemComponent :=
  { ptr := 8, ItemData := some demoResource, Durability := none }

/-- A resource is added, a tool component is added and removed again (its binding to
id 4 stays in `item_comp_to_id`), a resource component receives id 4, and
`removeItem` takes id 4 out again, erasing the older binding of that id. -/
def staleOps : List Op :=
  [Op.addItem (some demoResource), Op.addItemComponent (some demoToolComponent),
   Op.removeItemComponent (some demoToolComponent) false,
   Op.addItemComponent (some demoResourceComponent),
   Op.removeItem (some demoResource) false]

/-- The bag after `staleOps` under `demoProperties`: the resource bucket holds id 5 only,
id 4 is free again, and the component 8 is still bound to id 4. -/
def staleBag : Bag :=
  { Resources :=
      { Data := [(1, { Slots := [{ Id := 5, ResourceIds := [5] }], ResourceQuantity := 1 })],
        UsedSlots := 1 },
    Tools := { Data := [], UsedSlots := 0 },
    item_ids_pool := [0, 1, 2, 3, 4],
    slot_ids_pool := [0, 1, 2, 3, 4],
    item_comp_to_id := [(8, 4)],
    events := [Event.ResourceSlotAdded 1 5 { Id := 5, ResourceIds := [5] },
               Event.BagUpdated,
               Event.ToolSlotAdded 2 4 { Id := 4, ToolsInfo := [{ ToolId := 4, Durability := 4 }] },
               Event.BagUpdated,
               Event.ToolSlotRemoved 2 4 { Id := 4, ToolsInfo := [] },
               Event.BagUpdated,
               Event.ResourceSlotUpdated 1 5 { Id := 5, ResourceIds := [5, 4] },
               Event.BagUpdated,
               Event.ResourceSlotUpdated 1 5 { Id := 5, ResourceIds := [5] },
               Event.BagUpdated] }

/-- The bag after `addItemComponent(demoResourceComponent)` on the fresh bag under
`demoProperties`: the component is bound to id 5, which the resource bucket
holds. -/
def componentBag : Bag :=
  { Resources :=
      { Data := [(1, { Slots := [{ Id := 5, ResourceIds := [5] }], ResourceQuantity := 1 })],
        UsedSlots := 1 },
    Tools := { Data := [], UsedSlots := 0 },
    item_ids_pool := [0, 1, 2, 3, 4],
    slot_ids_pool := [0, 1, 2, 3, 4],
    item_comp_to_id := [(8, 5)],
    events := [Event.ResourceSlotAdded 1 5 { Id := 5, ResourceIds := [5] },
               Event.BagUpdated] }

/-- The bag `gapBag` after `removeItemComponent` of the component 12 (id 4): the first
tool slot became empty and the last slot took its place. -/
def gapBagAfterComponentRemove : Bag :=
  { gapBag with
    Tools :=
      { Data := [(2, { ToolQuantity := 1,
                       Slots := [{ Id := 4, ToolsInfo := [{ ToolId := 3, Durability := 7 }] }] })],
        UsedSlots := 1 }
    item_ids_pool := [0, 1, 2, 5, 4]
    slot_ids_pool := [0, 1, 2, 3, 5]
    events := gapEvents ++
      [Event.ToolSlotRemoved 2 5 { Id := 5, ToolsInfo := [] }, Event.BagUpdated] }

/-- A sequence of slot entry counts is densely packed for the stack size `S`: every
slot before the last one holds exactly `S` entries. -/
def DenseSizes (S : Int) (sizes : List Nat) : Prop :=
  ∀ (front : List Nat) (last : Nat), sizes = front ++ [last] →
    ∀ m : Nat, m ∈ front → (m : Int) = S

/-- The entry counts of the slots of the resource bucket of `key`, in slot order. -/
def resourceSlotSizes (key : Nat) (b : Bag) : List Nat :=
  (resourceSlotsOf key b).map (fun slot => slot.ResourceIds.length)

/-- The entry counts of the slots of the tool bucket of `key`, in slot order. -/
def toolSlotSizes (key : Nat) (b : Bag) : List Nat :=
  (toolSlotsOf key b).map (fun slot => slot.ToolsInfo.length)

/-- Every bucket of the bag is densely packed for the stack size of its type. -/
def DenseOk (P : UBagProperties) (b : Bag) : Prop :=
  (∀ kv ∈ b.Resources.Data, ∀ L, mapFind kv.1 P.Limits = some (some L) →
    DenseSizes L.MaxStackSize (kv.2.Slots.map (fun slot => slot.ResourceIds.length))) ∧
  (∀ kv ∈ b.Tools.Data, ∀ L, mapFind kv.1 P.Limits = some (some L) →
    DenseSizes L.MaxStackSize (kv.2.Slots.map (fun slot => slot.ToolsInfo.length)))

/-- The calls that never remove an instance by a specific id: all but
`removeItemComponent`. -/
def Op.isStackOp : Op → Bool
  | Op.removeItemComponent _ _ => false
  | _ => true

/-- The method `addItem` called `k` times in sequence on the same item data: the flags
`bAdded` of the results in call order, and the bag afterwards. -/
def addItemCalls (P : UBagProperties) (item_data : UItemData) :
    Nat → Bag → Except Fault (List Bool × Bag)
  | 0, b => .ok ([], b)
  | k + 1, b =>
    match addItem P (some item_data) b with
    | .error e => .error e
    | .ok (r, b1) =>
      match addItemCalls P item_data k b1 with
      | .error e => .error e
      | .ok (flags, b2) => .ok (r.bAdded :: flags, b2)

/-- What holds during a run of `addItem` calls of one resource type `key` on the fresh
bag, after `n` of them succeeded: the invariant, dense packing, the quantity
`n`, one used slot per slot of the bucket, and the sizes of both id pools. -/
def ResourceRunState (P : UBagProperties) (key : Nat) (n : Nat) (b : Bag) : Prop :=
  Inv P b ∧ DenseOk P b ∧ resourceQuantityOf key b = (n : Int) ∧
  b.Resources.UsedSlots = ((resourceSlotsOf key b).length : Int) ∧
  (b.item_ids_pool.length : Int) + (n : Int) = P.MaxItemId ∧
  (0 ≤ P.MaxToolsSlots → 0 ≤ P.MaxResourceSlots →
    (b.slot_ids_pool.length : Int) + b.Resources.UsedSlots
      = P.MaxToolsSlots + P.MaxResourceSlots)

/-- What holds during a run of `addItem` calls of one tool type `key` on the fresh bag,
after `n` of them succeeded. -/
def ToolRunState (P : UBagProperties) (key : Nat) (n : Nat) (b : Bag) : Prop :=
  Inv P b ∧ DenseOk P b ∧ toolQuantityOf key b = (n : Int) ∧
  b.Tools.UsedSlots = ((toolSlotsOf key b).length : Int)

/-- The slot sizes of a densely packed bucket of `n` entries with stack size `S`:
`S, ..., S`, then `n mod S` when that is not zero. -/
def denseShape (n S : Nat) : List Nat :=
  List.replicate (n / S) S ++ (if n % S = 0 then [] else [n % S])

/-- Bag properties of the slot-ceiling example: one resource per slot, at most 100
resources, 2 resource slots, no tool slots, 5 instance ids. -/
def slotCeilingProperties : UBagProperties :=
  { Limits := [(1, some { MaxStackSize := 1, MaxQuantity := 100 })],
    MaxResourceSlots := 2, MaxToolsSlots := 0, MaxItemId := 5 }

/-- As `slotCeilingProperties`, with `MaxToolsSlots = -1`: `BeginPlay` fills the slot id
pool with `-1 + 2 = 1` id. -/
def negativeToolCeilingProperties : UBagProperties :=
  { Limits := [(1, some { MaxStackSize := 1, MaxQuantity := 100 })],
    MaxResourceSlots := 2, MaxToolsSlots := -1, MaxItemId := 5 }

/-- The bag `gapBag` after `updateToolDurability` of the component 12 (id 4) to
durability 4. -/
def gapBagAfterUpdate : Bag :=
  { gapBag with
    Tools :=
      { Data := [(2, { ToolQuantity := 2,
                       Slots := [{ Id := 5, ToolsInfo := [{ ToolId := 4, Durability := 4 }] },
                                 { Id := 4, ToolsInfo := [{ ToolId := 3, Durability := 7 }] }] })],
        UsedSlots := 2 }
    events := gapEvents ++
      [Event.ToolSlotUpdated 2 5 { Id := 5, ToolsInfo := [{ ToolId := 4, Durability := 4 }] }] }

/-- The bucket of the tool type `key` received the entry `entry`: it was appended to a
slot of the bucket, or a new last slot holds just this entry. -/
def ToolEntryAdded (key : Nat) (entry : FBagToolInfo) (b b1 : Bag) : Prop :=
  (∃ pre s post, toolSlotsOf key b = pre ++ s :: post ∧
    toolSlotsOf key b1 = pre ++ { s with ToolsInfo := s.ToolsInfo ++ [entry] } :: post) ∨
  (∃ slot_id, toolSlotsOf key b1 = toolSlotsOf key b ++ [{ Id := slot_id, ToolsInfo := [entry] }])

/-- The bag after `BeginPlay` under `demoProperties`. -/
def demoFreshBag : Bag :=
  { Resources := { Data := [], UsedSlots := 0 },
    Tools := { Data := [], UsedSlots := 0 },
    item_ids_pool := [0, 1, 2, 3, 4, 5],
    slot_ids_pool := [0, 1, 2, 3, 4, 5],
    item_comp_to_id := [],
    events := [] }

/-- The broadcast is one of `OnResourceSlotAdded`, `OnToolSlotAdded`. -/
def Event.isSlotAdded : Event → Bool
  | Event.ResourceSlotAdded _ _ _ => true
  | Event.ToolSlotAdded _ _ _ => true
  | _ => false

/-- The broadcast is one of `OnResourceSlotRemoved`, `OnToolSlotRemoved`. -/
def Event.isSlotRemoved : Event → Bool
  | Event.ResourceSlotRemoved _ _ _ => true
  | Event.ToolSlotRemoved _ _ _ => true
  | _ => false

/-- The broadcast is one of `OnResourceSlotUpdated`, `OnToolSlotUpdated`. -/
def Event.isSlotUpdated : Event → Bool
  | Event.ResourceSlotUpdated _ _ _ => true
  | Event.ToolSlotUpdated _ _ _ => true
  | _ => false

/-- The `slot_id` argument of a slot broadcast; `OnInventoryBagUpdated` has none. -/
def Event.slotId : Event → Option Int
  | Event.BagUpdated => none
  | Event.ResourceSlotAdded _ slot_id _ => some slot_id
  | Event.ResourceSlotRemoved _ slot_id _ => some slot_id
  | Event.ResourceSlotUpdated _ slot_id _ => some slot_id
  | Event.ToolSlotAdded _ slot_id _ => some slot_id
  | Event.ToolSlotRemoved _ slot_id _ => some slot_id
  | Event.ToolSlotUpdated _ slot_id _ => some slot_id

/-- The slots of the bucket of an item type, in slot order, each as its slot id with
its instance ids; the bucket is looked up by category and data class and an
absent bucket has no slots. -/
def bucketSlots (data : UItemData) (b : Bag) : List (Int × List Int) :=
  match data.Category with
  | EItemCategory.Resource =>
    match data.cls with
    | DataClass.ResourceData =>
      (resourceSlotsOf data.ptr b).map (fun slot => (slot.Id, slot.ResourceIds))
    | _ => []
  | EItemCategory.Tool =>
    match data.cls with
    | DataClass.ToolData _ =>
      (toolSlotsOf data.ptr b).map
        (fun slot => (slot.Id, slot.ToolsInfo.map FBagToolInfo.ToolId))
    | _ => []
  | EItemCategory.None => []

/-! ## Crafting (`Crafting/CraftingTypes.h`, `Crafting/CraftingUtils.cpp`) -/

/-- The struct `FRecipeRequirement`; `Item` is the value of the `UItemData*`, which the
crafting functions only compare and use as a map key. -/
structure FRecipeRequirement where
  Item : Nat
  Quantity : Int
deriving DecidableEq, Repr

/-- A valid `UCraftingRecipe*`. -/
structure UCraftingRecipe where
  ptr : Nat
  CraftedItem : Nat
  QuantityPerCraft : Int
  Requirements : List FRecipeRequirement
deriving DecidableEq, Repr

/-- A valid `UCraftablesCollection*`; an entry of `Craftables` that is a null pointer is
`none`. -/
structure UCraftablesCollection where
  Craftables : List (Option UCraftingRecipe)
deriving DecidableEq, Repr

/-- The inner loop of `getCraftableRecipesForAvailableItems`: `bHasAllRequirements` after
the loop over the requirements, which stops at the first requirement whose item
is not a key of `available_items` or whose quantity exceeds the available
one. -/
def hasAllRequirements (available_items : List (Nat × Int)) : List FRecipeRequirement → Bool
  | [] => true
  | requirement :: rest =>
    match mapFind requirement.Item available_items with
    | none => false
    | some available =>
      if requirement.Quantity > available then false
      else hasAllRequirements available_items rest

/-- The outer loop of `getCraftableRecipesForAvailableItems`; `recipe->Requirements` on a
null entry dereferences a null pointer. -/
def craftableRecipesLoop (available_items : List (Nat × Int)) :
    List (Option UCraftingRecipe) → List UCraftingRecipe → Except Fault (List UCraftingRecipe)
  | [], available_recipes => .ok available_recipes
  | none :: _, _ => .error Fault.nullDeref
  | some recipe :: rest, available_recipes =>
    craftableRecipesLoop available_items rest
      (if hasAllRequirements available_items recipe.Requirements
       then available_recipes ++ [recipe] else available_recipes)

/-- The function `UCraftingUtils::getCraftableRecipesForAvailableItems`; an invalid
collection gives the empty array. -/
def getCraftableRecipesForAvailableItems (available_items : List (Nat × Int))
    (craftables_collection : Option UCraftablesCollection) :
    Except Fault (List UCraftingRecipe) :=
  match craftables_collection with
  | none => .ok []
  | some collection => craftableRecipesLoop available_items collection.Craftables []

/-- The function `UCraftingUtils::generateAvailableItemsFromResources`. -/
def generateAvailableItemsFromResources (in_resources : FBagResources) : List (Nat × Int) :=
  in_resources.Data.foldl
    (fun available_items resource =>
      mapSet resource.1 resource.2.ResourceQuantity available_items) []

/-- A requirement is met by `available`: its item is a key and the required quantity is
at most the available one. -/
def requirementMet (available : List (Nat × Int)) (requirement : FRecipeRequirement) : Bool :=
  match mapFind requirement.Item available with
  | none => false
  | some quantity => decide (requirement.Quantity ≤ quantity)

/-- A recipe needing 2 of item 1. -/
def plankRecipe : UCraftingRecipe :=
  { ptr := 101, CraftedItem := 50, QuantityPerCraft := 1,
    Requirements := [{ Item := 1, Quantity := 2 }] }

/-- A recipe needing 1 of item 1 and 0 of item 3. -/
def torchRecipe : UCraftingRecipe :=
  { ptr := 102, CraftedItem := 51, QuantityPerCraft := 1,
    Requirements := [{ Item := 1, Quantity := 1 }, { Item := 3, Quantity := 0 }] }

/-- A recipe without requirements. -/
def freeRecipe : UCraftingRecipe :=
  { ptr := 103, CraftedItem := 52, QuantityPerCraft := 1, Requirements := [] }

/-- A collection with `plankRecipe` twice, `torchRecipe` and `freeRecipe`. -/
def demoCollection : UCraftablesCollection :=
  { Craftables := [some plankRecipe, some torchRecipe, some freeRecipe, some plankRecipe] }

/-- A valid collection whose second entry is a null pointer. -/
def nullEntryCollection : UCraftablesCollection :=
  { Craftables := [some freeRecipe, none] }

/-- The projection of a tool slot: every entry `(ToolId, Durability)` becomes its
`ToolId`. -/
def FBagToolSlot.toResourceSlot (slot : FBagToolSlot) : FBagResourceSlot :=
  { Id := slot.Id, ResourceIds := slot.ToolsInfo.map FBagToolInfo.ToolId }

/-- The projection of a tool bucket. -/
def FBagToolsData.toResourcesData (tools_data : FBagToolsData) : FBagResourcesData :=
  { Slots := tools_data.Slots.map FBagToolSlot.toResourceSlot,
    ResourceQuantity := tools_data.ToolQuantity }

/-- The projection of the tool registry with its slot counter. -/
def FBagTools.toResources (tools : FBagTools) : FBagResources :=
  { Data := tools.Data.map (fun kv => (kv.1, kv.2.toResourcesData)),
    UsedSlots := tools.UsedSlots }

/-- What a packer reads and writes: its registry with the slot counter, and the slot id
pool. -/
structure PackerState where
  Registry : FBagResources
  slot_ids_pool : List Int
deriving DecidableEq, Repr

/-- The state of the resource packer. -/
def resourcePackerState (b : Bag) : PackerState :=
  { Registry := b.Resources, slot_ids_pool := b.slot_ids_pool }

/-- The state of the tool packer under the projection. -/
def toolPackerState (b : Bag) : PackerState :=
  { Registry := b.Tools.toResources, slot_ids_pool := b.slot_ids_pool }

/-- The outcome of `tryAddResource`: the fault, or the flag with the packer state. -/
def resourceAddOutcome (r : Except Fault (Bool × Bag)) : Except Fault (Bool × PackerState) :=
  match r with
  | .error e => .error e
  | .ok (flag, b) => .ok (flag, resourcePackerState b)

/-- The outcome of `tryAddTool` under the projection. -/
def toolAddOutcome (r : Except Fault (Bool × Bag)) : Except Fault (Bool × PackerState) :=
  match r with
  | .error e => .error e
  | .ok (flag, b) => .ok (flag, toolPackerState b)

/-- The outcome of `tryRemoveResource`: the fault, or the flag and `remove_id` on return
with the packer state. -/
def resourceRemoveOutcome (r : Except Fault (Bool × Int × Bag)) :
    Except Fault (Bool × Int × PackerState) :=
  match r with
  | .error e => .error e
  | .ok (flag, removed, b) => .ok (flag, removed, resourcePackerState b)

/-- The outcome of `tryRemoveTool` under the projection. -/
def toolRemoveOutcome (r : Except Fault (Bool × Int × Bag)) :
    Except Fault (Bool × Int × PackerState) :=
  match r with
  | .error e => .error e
  | .ok (flag, removed, b) => .ok (flag, removed, toolPackerState b)

/-- The bag `gapBag` with its tool registry copied, under the projection, into
`Resources`: the resource packer then sees what the tool packer sees in
`gapBag`. -/
def gapBagAsResources : Bag :=
  { gapBag with Resources := gapBag.Tools.toResources }

/-- One call of a packer: an insert of an instance id (with the durability the tool
packer stores), or a removal, of the last instance for `remove_id = -1` and of
the given instance otherwise. -/
inductive PackerCall where
  | insert (key : Nat) (id durability : Int)
  | remove (key : Nat) (remove_id : Int)
deriving DecidableEq, Repr

/-- A call of the resource packer: the success flag, for a removal with `remove_id` on
return, and the bag after the call. -/
def resourcePackerCall (P : UBagProperties) (b : Bag) :
    PackerCall → Except Fault ((Bool × Option Int) × Bag)
  | PackerCall.insert key id _ =>
    match tryAddResource P key id b with
    | .error e => .error e
    | .ok (flag, b1) => .ok ((flag, none), b1)
  | PackerCall.remove key remove_id =>
    match tryRemoveResource key remove_id b with
    | .error e => .error e
    | .ok (flag, removed, b1) => .ok ((flag, some removed), b1)

/-- A call of the tool packer. -/
def toolPackerCall (P : UBagProperties) (b : Bag) :
    PackerCall → Except Fault ((Bool × Option Int) × Bag)
  | PackerCall.insert key id durability =>
    match tryAddTool P key id durability b with
    | .error e => .error e
    | .ok (flag, b1) => .ok ((flag, none), b1)
  | PackerCall.remove key remove_id =>
    match tryRemoveTool key remove_id b with
    | .error e => .error e
    | .ok (flag, removed, b1) => .ok ((flag, some removed), b1)

/-- A sequence of calls of the resource packer: the results of the calls that returned,
and the packer state at the end or the fault that ended the run. -/
def resourcePackerRun (P : UBagProperties) :
    Bag → List PackerCall → List (Bool × Option Int) × Except Fault PackerState
  | b, [] => ([], .ok (resourcePackerState b))
  | b, call :: rest =>
    match resourcePackerCall P b call with
    | .error e => ([], .error e)
    | .ok (r, b1) => (r :: (resourcePackerRun P b1 rest).1, (resourcePackerRun P b1 rest).2)

/-- A sequence of calls of the tool packer, seen under the projection. -/
def toolPackerRun (P : UBagProperties) :
    Bag → List PackerCall → List (Bool × Option Int) × Except Fault PackerState
  | b, [] => ([], .ok (toolPackerState b))
  | b, call :: rest =>
    match toolPackerCall P b call with
    | .error e => ([], .error e)
    | .ok (r, b1) => (r :: (toolPackerRun P b1 rest).1, (toolPackerRun P b1 rest).2)

/-! ## Frame of a call -/

/-- The frame of a call on the item type `data`: the bucket of every other type key is
as before in both registries, a call on a resource type leaves `Tools` (data and
`UsedSlots`) as it was, and a call on a tool type leaves `Resources` as it
was. -/
def FrameOf (data : UItemData) (b b1 : Bag) : Prop :=
  (∀ key, key ≠ data.ptr →
    mapFind key b1.Resources.Data = mapFind key b.Resources.Data ∧
    mapFind key b1.Tools.Data = mapFind key b.Tools.Data) ∧
  (data.Category = EItemCategory.Resource → b1.Tools = b.Tools) ∧
  (data.Category = EItemCategory.Tool → b1.Resources = b.Resources) ∧
  (data.Category = EItemCategory.None → b1.Resources = b.Resources ∧ b1.Tools = b.Tools)

/-- Bag properties whose limits have `MaxQuantity = 5` and `MaxStackSize = 0`. -/
def zeroStackProperties : UBagProperties :=
  { Limits := [(1, some { MaxStackSize := 0, MaxQuantity := 5 }),
               (2, some { MaxStackSize := 0, MaxQuantity := 5 })],
    MaxResourceSlots := 3, MaxToolsSlots := 3, MaxItemId := 6 }

/-! ## Sequences of add calls -/

/-- A call that adds to the bag: `addItem` or `addItemComponent`. -/
inductive AddCall where
  | item (item_data : Option UItemData)
  | component (item : Option UItemComponent)
deriving DecidableEq, Repr

/-- One add call with its result. -/
def addCall (P : UBagProperties) (b : Bag) :
    AddCall → Except Fault (FInventoryBagAddItemResult × Bag)
  | AddCall.item item_data => addItem P item_data b
  | AddCall.component item => addItemComponent P item b

/-- A sequence of add calls without any removal in between: the `AssignedId` of the
calls that returned `bAdded = true`, in call order, and the bag afterwards. -/
def addCallsAssigned (P : UBagProperties) : List AddCall → Bag → Except Fault (List Int × Bag)
  | [], b => .ok ([], b)
  | call :: rest, b =>
    match addCall P b call with
    | .error e => .error e
    | .ok (r, b1) =>
      match addCallsAssigned P rest b1 with
      | .error e => .error e
      | .ok (ids, b2) => .ok (if r.bAdded then r.AssignedId :: ids else ids, b2)

/-- Six add calls under `demoProperties`: five resources and one tool component. -/
def fillCalls : List AddCall :=
  [AddCall.item (some demoResource), AddCall.item (some demoResource),
   AddCall.item (some demoResource), AddCall.item (some demoResource),
   AddCall.item (some demoResource), AddCall.component (some demoToolComponent)]

/-- The bag after `fillCalls` on the fresh bag under `demoProperties`: all six instance
ids are in use. -/
def fullBag : Bag :=
  { Resources :=
      { Data := [(1, { Slots := [{ Id := 5, ResourceIds := [5, 4] },
                                 { Id := 4, ResourceIds := [3, 2] },
                                 { Id := 3, ResourceIds := [1] }],
                       ResourceQuantity := 5 })],
        UsedSlots := 3 },
    Tools :=
      { Data := [(2, { ToolQuantity := 1,
                       Slots := [{ Id := 2, ToolsInfo := [{ ToolId := 0, Durability := 4 }] }] })],
        UsedSlots := 1 },
    item_ids_pool := [],
    slot_ids_pool := [0, 1],
    item_comp_to_id := [(7, 0)],
    events := [Event.ResourceSlotAdded 1 5 { Id := 5, ResourceIds := [5] },
               Event.BagUpdated,
               Event.ResourceSlotUpdated 1 5 { Id := 5, ResourceIds := [5, 4] },
               Event.BagUpdated,
               Event.ResourceSlotAdded 1 4 { Id := 4, ResourceIds := [3] },
               Event.BagUpdated,
               Event.ResourceSlotUpdated 1 4 { Id := 4, ResourceIds := [3, 2] },
               Event.BagUpdated,
               Event.ResourceSlotAdded 1 3 { Id := 3, ResourceIds := [1] },
               Event.BagUpdated,
               Event.ToolSlotAdded 2 2 { Id := 2, ToolsInfo := [{ ToolId := 0, Durability := 4 }] },
               Event.BagUpdated] }

/-! ## Slot ids in use -/

/-- The values `f bucket` of all buckets of a registry, bucket by bucket. -/
def collectIds {β : Type} (f : β → List Int) : List (Nat × β) → List Int
  | [] => []
  | kv :: rest => f kv.2 ++ collectIds f rest

/-- The `Id`s of the slots of all buckets of `Resources.Data`, bucket by bucket in slot
order. -/
def resourcesSlotIds (data : List (Nat × FBagResourcesData)) : List Int :=
  collectIds (fun d => d.Slots.map FBagResourceSlot.Id) data

/-- The `Id`s of the slots of all buckets of `Tools.Data`, bucket by bucket in slot
order. -/
def toolsSlotIds (data : List (Nat × FBagToolsData)) : List Int :=
  collectIds (fun d => d.Slots.map FBagToolSlot.Id) data

/-- The `Id`s of all live slots of the bag: those of the resource slots, then those of
the tool slots. -/
def Bag.liveSlotIds (b : Bag) : List Int :=
  resourcesSlotIds b.Resources.Data ++ toolsSlotIds b.Tools.Data

/-- The slot accounting of the bag: the free slot ids and the ids of the live slots
together are the ids `0 .. s-1`, with `s` the `int32` sum
`MaxToolsSlots + MaxResourceSlots`, and each `UsedSlots` counter is the number
of slots of its registry. -/
def SlotsInv (P : UBagProperties) (b : Bag) : Prop :=
  (b.slot_ids_pool ++ b.liveSlotIds).Perm
    (idRange (int32Add P.MaxToolsSlots P.MaxResourceSlots)) ∧
  b.Resources.UsedSlots = ((resourcesSlotIds b.Resources.Data).length : Int) ∧
  b.Tools.UsedSlots = ((toolsSlotIds b.Tools.Data).length : Int)

/-- Bag properties with two resource slots and no tool slot: the slot id pool has
`0 + 2 = 2` ids; resources and tools are stacked one per slot. -/
def noToolSlotProperties : UBagProperties :=
  { Limits := [(1, some { MaxStackSize := 1, MaxQuantity := 10 }),
               (2, some { MaxStackSize := 1, MaxQuantity := 10 })],
    MaxResourceSlots := 2, MaxToolsSlots := 0, MaxItemId := 6 }

/-- The bag after two `addItem(demoResource)` under `noToolSlotProperties`: both slot ids
are taken by resource slots. -/
def noToolSlotBag : Bag :=
  { Resources :=
      { Data := [(1, { Slots := [{ Id := 1, ResourceIds := [5] },
                                 { Id := 0, ResourceIds := [4] }],
                       ResourceQuantity := 2 })],
        UsedSlots := 2 },
    Tools := { Data := [], UsedSlots := 0 },
    item_ids_pool := [0, 1, 2, 3],
    slot_ids_pool := [],
    item_comp_to_id := [],
    events := [Event.ResourceSlotAdded 1 1 { Id := 1, ResourceIds := [5] },
               Event.BagUpdated,
               Event.ResourceSlotAdded 1 0 { Id := 0, ResourceIds := [4] },
               Event.BagUpdated] }

/-! ## The instances of one type as a sequence -/

/-- The calls `addItem` and `removeItem` (removal of the last instance of a type). -/
def Op.isItemOp : Op → Bool
  | Op.addItem _ => true
  | Op.removeItem _ _ => true
  | _ => false

/-- The instance ids held of an item type, in slot order and, within a slot, in entry
order; the bucket is looked up by category and data class as `getItemQuantity`
does, and an absent bucket holds nothing. -/
def heldIdsOfType (data : UItemData) (b : Bag) : List Int :=
  match data.Category with
  | EItemCategory.Resource =>
    match data.cls with
    | DataClass.ResourceData => resourceSlotsIds (resourceSlotsOf data.ptr b)
    | _ => []
  | EItemCategory.Tool =>
    match data.cls with
    | DataClass.ToolData _ => toolSlotsIds (toolSlotsOf data.ptr b)
    | _ => []
  | EItemCategory.None => []

/-! ## Slot order after a removal by id -/

/-- The bag `gapBag` after a second `addItemComponent` of the component 12, which `gapBag`
already holds under id 4: the component was added again, under id 5. -/
def gapBagAfterSecondAdd : Bag :=
  { gapBag with
    Tools :=
      { Data := [(2, { ToolQuantity := 3,
                       Slots := [{ Id := 5, ToolsInfo := [{ ToolId := 4, Durability := 7 },
                                                          { ToolId := 5, Durability := 7 }] },
                                 { Id := 4, ToolsInfo := [{ ToolId := 3, Durability := 7 }] }] })],
        UsedSlots := 2 }
    item_ids_pool := [0, 1, 2]
    item_comp_to_id := [(11, 5), (12, 5), (13, 3)]
    events := gapEvents ++
      [Event.ToolSlotUpdated 2 5
         { Id := 5, ToolsInfo := [{ ToolId := 4, Durability := 7 },
                                  { ToolId := 5, Durability := 7 }] },
       Event.BagUpdated] }

/-! ## A configuration whose slot ceilings have a sum outside the `int32` range -/

/-- Bag properties with two negative slot ceilings, `MaxToolsSlots = -2^31` and
`MaxResourceSlots = -2^31 + 2`: their sum is `-2^32 + 2`, and the `int32` sum
that `BeginPlay` passes to `AddUninitialized` is `2`. -/
def wrapProperties : UBagProperties :=
  { Limits := [], MaxResourceSlots := -2147483646, MaxToolsSlots := -2147483648,
    MaxItemId := 0 }

/-- The bag that `BeginPlay` builds under `wrapProperties`: the slot id pool holds the two
ids 0 and 1. -/
def wrapFreshBag : Bag :=
  { Resources := { Data := [], UsedSlots := 0 },
    Tools := { Data := [], UsedSlots := 0 },
    item_ids_pool := [],
    slot_ids_pool := [0, 1],
    item_comp_to_id := [],
    events := [] }

/-! ## Lemmas on the containers -/

theorem arrayPop_eq_some {α : Type} {l r : List α} {x : α} (h : arrayPop l = some (x, r)) :
    l = r ++ [x] := by
  unfold arrayPop at h
  cases hl : l.getLast? with
  | none => simp [hl] at h
  | some y =>
    simp only [hl, Option.some.injEq, Prod.mk.injEq] at h
    obtain ⟨rfl, rfl⟩ := h
    exact (List.dropLast_append_getLast? y hl).symm

theorem arrayPop_eq_none {α : Type} {l : List α} (h : arrayPop l = none) : l = [] := by
  unfold arrayPop at h
  cases hl : l.getLast? with
  | none => exact List.getLast?_eq_none_iff.mp hl
  | some y => simp [hl] at h

theorem arrayPop_concat {α : Type} (r : List α) (x : α) : arrayPop (r ++ [x]) = some (x, r) := by
  simp [arrayPop]

theorem lastToFront_perm {σ : Type} (l : List σ) : (lastToFront l).Perm l := by
  unfold lastToFront
  cases hl : l.getLast? with
  | none => rw [List.getLast?_eq_none_iff.mp hl]
  | some y =>
    have h := List.dropLast_append_getLast? y hl
    calc (y :: l.dropLast).Perm (l.dropLast ++ [y]) := by
          simpa using (List.perm_append_comm : ([y] ++ l.dropLast).Perm (l.dropLast ++ [y]))
      _ = l := h

theorem removeSingleSwap_split {σ : Type} (eq : σ → σ → Bool) (item m : σ) (pre post : List σ)
    (hpre : ∀ y ∈ pre, eq y item = false) (hm : eq m item = true) :
    removeSingleSwap eq item (pre ++ m :: post) = pre ++ lastToFront post := by
  induction pre with
  | nil => simp [removeSingleSwap, hm]
  | cons x rest ih =>
    have hx : eq x item = false := hpre x (by simp)
    have hrest : ∀ y ∈ rest, eq y item = false := fun y hy => hpre y (by simp [hy])
    simp [removeSingleSwap, hx, ih hrest]

theorem removeSingleSwap_concat {σ : Type} (eq : σ → σ → Bool) (item m : σ) (pre : List σ)
    (hpre : ∀ y ∈ pre, eq y item = false) (hm : eq m item = true) :
    removeSingleSwap eq item (pre ++ [m]) = pre := by
  rw [removeSingleSwap_split eq item m pre [] hpre hm]
  simp [lastToFront]

theorem mapFind_some_split {β : Type} {k : Nat} {v : β} {m : List (Nat × β)}
    (h : mapFind k m = some v) :
    ∃ pre post, m = pre ++ (k, v) :: post ∧ ∀ kv ∈ pre, kv.1 ≠ k := by
  induction m with
  | nil => simp [mapFind] at h
  | cons kv rest ih =>
    obtain ⟨k1, v1⟩ := kv
    by_cases hk : k1 = k
    · simp only [mapFind, hk, if_true, Option.some.injEq] at h
      exact ⟨[], rest, by simp [hk, h], by simp⟩
    · simp only [mapFind, hk, if_false] at h
      obtain ⟨pre, post, hm, hpre⟩ := ih h
      refine ⟨(k1, v1) :: pre, post, by simp [hm], ?_⟩
      intro kv hkv
      rcases List.mem_cons.mp hkv with rfl | hkv
      · exact hk
      · exact hpre kv hkv

theorem mapFind_none_keys {β : Type} {k : Nat} {m : List (Nat × β)} (h : mapFind k m = none) :
    ∀ kv ∈ m, kv.1 ≠ k := by
  induction m with
  | nil => simp
  | cons kv rest ih =>
    obtain ⟨k1, v1⟩ := kv
    by_cases hk : k1 = k
    · simp [mapFind, hk] at h
    · simp only [mapFind, hk, if_false] at h
      intro kv hkv
      rcases List.mem_cons.mp hkv with rfl | hkv
      · exact hk
      · exact ih h kv hkv

theorem mapFind_split {β : Type} (k : Nat) (v : β) (pre post : List (Nat × β))
    (hpre : ∀ kv ∈ pre, kv.1 ≠ k) : mapFind k (pre ++ (k, v) :: post) = some v := by
  induction pre with
  | nil => simp [mapFind]
  | cons kv rest ih =>
    obtain ⟨k1, v1⟩ := kv
    have hk : k1 ≠ k := hpre (k1, v1) (by simp)
    simp [mapFind, hk, ih (fun kv hkv => hpre kv (by simp [hkv]))]

theorem mapFind_of_not_mem {β : Type} (k : Nat) (m : List (Nat × β))
    (hm : ∀ kv ∈ m, kv.1 ≠ k) : mapFind k m = none := by
  induction m with
  | nil => simp [mapFind]
  | cons kv rest ih =>
    obtain ⟨k1, v1⟩ := kv
    have hk : k1 ≠ k := hm (k1, v1) (by simp)
    simp [mapFind, hk, ih (fun kv hkv => hm kv (by simp [hkv]))]

theorem mapSet_split {β : Type} (k : Nat) (v w : β) (pre post : List (Nat × β))
    (hpre : ∀ kv ∈ pre, kv.1 ≠ k) :
    mapSet k w (pre ++ (k, v) :: post) = pre ++ (k, w) :: post := by
  induction pre with
  | nil => simp [mapSet]
  | cons kv rest ih =>
    obtain ⟨k1, v1⟩ := kv
    have hk : k1 ≠ k := hpre (k1, v1) (by simp)
    simp [mapSet, hk, ih (fun kv hkv => hpre kv (by simp [hkv]))]

theorem mapSet_of_not_mem {β : Type} (k : Nat) (w : β) (m : List (Nat × β))
    (hm : ∀ kv ∈ m, kv.1 ≠ k) : mapSet k w m = m ++ [(k, w)] := by
  induction m with
  | nil => simp [mapSet]
  | cons kv rest ih =>
    obtain ⟨k1, v1⟩ := kv
    have hk : k1 ≠ k := hm (k1, v1) (by simp)
    simp [mapSet, hk, ih (fun kv hkv => hm kv (by simp [hkv]))]

theorem mapRemove_split {β : Type} (k : Nat) (v : β) (pre post : List (Nat × β))
    (hpre : ∀ kv ∈ pre, kv.1 ≠ k) :
    mapRemove k (pre ++ (k, v) :: post) = pre ++ post := by
  induction pre with
  | nil => simp [mapRemove]
  | cons kv rest ih =>
    obtain ⟨k1, v1⟩ := kv
    have hk : k1 ≠ k := hpre (k1, v1) (by simp)
    simp [mapRemove, hk, ih (fun kv hkv => hpre kv (by simp [hkv]))]

theorem mapRemove_of_not_mem {β : Type} (k : Nat) (m : List (Nat × β))
    (hm : ∀ kv ∈ m, kv.1 ≠ k) : mapRemove k m = m := by
  induction m with
  | nil => simp [mapRemove]
  | cons kv rest ih =>
    obtain ⟨k1, v1⟩ := kv
    have hk : k1 ≠ k := hm (k1, v1) (by simp)
    simp [mapRemove, hk, ih (fun kv hkv => hm kv (by simp [hkv]))]

theorem mem_mapSet {β : Type} {k : Nat} {v : β} {m : List (Nat × β)} {kv : Nat × β}
    (h : kv ∈ mapSet k v m) : kv ∈ m ∨ kv = (k, v) := by
  induction m with
  | nil => simpa [mapSet] using h
  | cons x rest ih =>
    obtain ⟨k1, v1⟩ := x
    by_cases hk : k1 = k
    · simp only [mapSet, hk, if_true, List.mem_cons] at h
      rcases h with h | h
      · exact Or.inr h
      · exact Or.inl (by simp [h])
    · simp only [mapSet, hk, if_false, List.mem_cons] at h
      rcases h with h | h
      · exact Or.inl (by simp [h])
      · rcases ih h with h | h
        · exact Or.inl (by simp [h])
        · exact Or.inr h

theorem mem_mapRemove {β : Type} {k : Nat} {m : List (Nat × β)} {kv : Nat × β}
    (h : kv ∈ mapRemove k m) : kv ∈ m := by
  induction m with
  | nil => simp [mapRemove] at h
  | cons x rest ih =>
    obtain ⟨k1, v1⟩ := x
    by_cases hk : k1 = k
    · simp only [mapRemove, hk, if_true] at h
      simp [h]
    · simp only [mapRemove, hk, if_false, List.mem_cons] at h
      rcases h with h | h
      · simp [h]
      · simp [ih h]

theorem mapFind_mem {β : Type} {k : Nat} {v : β} {m : List (Nat × β)}
    (h : mapFind k m = some v) : (k, v) ∈ m := by
  obtain ⟨pre, post, hm, _⟩ := mapFind_some_split h
  simp [hm]

theorem mapSet_mapSet_of_not_mem {β : Type} (k : Nat) (v w : β) (m : List (Nat × β))
    (hm : ∀ kv ∈ m, kv.1 ≠ k) : mapSet k w (mapSet k v m) = mapSet k w m := by
  rw [mapSet_of_not_mem k v m hm, mapSet_split k v w m [] hm, mapSet_of_not_mem k w m hm]

/-! ## Lemmas on the stored ids -/

theorem resourceSlotsIds_append (l1 l2 : List FBagResourceSlot) :
    resourceSlotsIds (l1 ++ l2) = resourceSlotsIds l1 ++ resourceSlotsIds l2 := by
  induction l1 with
  | nil => simp [resourceSlotsIds]
  | cons x rest ih => simp [resourceSlotsIds, ih]

theorem toolSlotsIds_append (l1 l2 : List FBagToolSlot) :
    toolSlotsIds (l1 ++ l2) = toolSlotsIds l1 ++ toolSlotsIds l2 := by
  induction l1 with
  | nil => simp [toolSlotsIds]
  | cons x rest ih => simp [toolSlotsIds, ih]

theorem resourcesIds_append (l1 l2 : List (Nat × FBagResourcesData)) :
    resourcesIds (l1 ++ l2) = resourcesIds l1 ++ resourcesIds l2 := by
  induction l1 with
  | nil => simp [resourcesIds]
  | cons x rest ih => simp [resourcesIds, ih]

theorem toolsIds_append (l1 l2 : List (Nat × FBagToolsData)) :
    toolsIds (l1 ++ l2) = toolsIds l1 ++ toolsIds l2 := by
  induction l1 with
  | nil => simp [toolsIds]
  | cons x rest ih => simp [toolsIds, ih]

theorem resourceSlotsIds_length (l : List FBagResourceSlot) :
    (resourceSlotsIds l).length = (l.map (fun slot => slot.ResourceIds.length)).sum := by
  induction l with
  | nil => simp [resourceSlotsIds]
  | cons x rest ih => simp [resourceSlotsIds, ih]

theorem toolSlotsIds_length (l : List FBagToolSlot) :
    (toolSlotsIds l).length = (l.map (fun slot => slot.ToolsInfo.length)).sum := by
  induction l with
  | nil => simp [toolSlotsIds]
  | cons x rest ih => simp [toolSlotsIds, ih]

theorem resourceSlotsIds_perm {l1 l2 : List FBagResourceSlot} (h : l1.Perm l2) :
    (resourceSlotsIds l1).Perm (resourceSlotsIds l2) := by
  induction h with
  | nil => exact List.Perm.refl _
  | cons x _ ih => exact List.Perm.append_left _ ih
  | swap x y l =>
    simp only [resourceSlotsIds, ← List.append_assoc]
    exact List.Perm.append_right _ List.perm_append_comm
  | trans _ _ ih1 ih2 => exact ih1.trans ih2

theorem toolSlotsIds_perm {l1 l2 : List FBagToolSlot} (h : l1.Perm l2) :
    (toolSlotsIds l1).Perm (toolSlotsIds l2) := by
  induction h with
  | nil => exact List.Perm.refl _
  | cons x _ ih => exact List.Perm.append_left _ ih
  | swap x y l =>
    simp only [toolSlotsIds, ← List.append_assoc]
    exact List.Perm.append_right _ List.perm_append_comm
  | trans _ _ ih1 ih2 => exact ih1.trans ih2

theorem resourcesIds_mapSet_some {k : Nat} {d : FBagResourcesData}
    {m : List (Nat × FBagResourcesData)} (h : mapFind k m = some d) (d1 : FBagResourcesData)
    (a : Int) :
    List.count a (resourcesIds (mapSet k d1 m)) + List.count a (resourceSlotsIds d.Slots)
      = List.count a (resourcesIds m) + List.count a (resourceSlotsIds d1.Slots) := by
  obtain ⟨pre, post, hm, hpre⟩ := mapFind_some_split h
  subst hm
  rw [mapSet_split k d d1 pre post hpre]
  simp only [resourcesIds_append, resourcesIds, List.count_append]
  omega

theorem resourcesIds_mapSet_none {k : Nat} {m : List (Nat × FBagResourcesData)}
    (h : mapFind k m = none) (d1 : FBagResourcesData) (a : Int) :
    List.count a (resourcesIds (mapSet k d1 m))
      = List.count a (resourcesIds m) + List.count a (resourceSlotsIds d1.Slots) := by
  rw [mapSet_of_not_mem k d1 m (mapFind_none_keys h)]
  simp [resourcesIds_append, resourcesIds, List.count_append]

theorem resourcesIds_mapRemove_some {k : Nat} {d : FBagResourcesData}
    {m : List (Nat × FBagResourcesData)} (h : mapFind k m = some d) (a : Int) :
    List.count a (resourcesIds (mapRemove k m)) + List.count a (resourceSlotsIds d.Slots)
      = List.count a (resourcesIds m) := by
  obtain ⟨pre, post, hm, hpre⟩ := mapFind_some_split h
  subst hm
  rw [mapRemove_split k d pre post hpre]
  simp only [resourcesIds_append, resourcesIds, List.count_append]
  omega

theorem toolsIds_mapSet_some {k : Nat} {d : FBagToolsData}
    {m : List (Nat × FBagToolsData)} (h : mapFind k m = some d) (d1 : FBagToolsData)
    (a : Int) :
    List.count a (toolsIds (mapSet k d1 m)) + List.count a (toolSlotsIds d.Slots)
      = List.count a (toolsIds m) + List.count a (toolSlotsIds d1.Slots) := by
  obtain ⟨pre, post, hm, hpre⟩ := mapFind_some_split h
  subst hm
  rw [mapSet_split k d d1 pre post hpre]
  simp only [toolsIds_append, toolsIds, List.count_append]
  omega

theorem toolsIds_mapSet_none {k : Nat} {m : List (Nat × FBagToolsData)}
    (h : mapFind k m = none) (d1 : FBagToolsData) (a : Int) :
    List.count a (toolsIds (mapSet k d1 m))
      = List.count a (toolsIds m) + List.count a (toolSlotsIds d1.Slots) := by
  rw [mapSet_of_not_mem k d1 m (mapFind_none_keys h)]
  simp [toolsIds_append, toolsIds, List.count_append]

theorem toolsIds_mapRemove_some {k : Nat} {d : FBagToolsData}
    {m : List (Nat × FBagToolsData)} (h : mapFind k m = some d) (a : Int) :
    List.count a (toolsIds (mapRemove k m)) + List.count a (toolSlotsIds d.Slots)
      = List.count a (toolsIds m) := by
  obtain ⟨pre, post, hm, hpre⟩ := mapFind_some_split h
  subst hm
  rw [mapRemove_split k d pre post hpre]
  simp only [toolsIds_append, toolsIds, List.count_append]
  omega

/-! ## The loops of the packers -/

theorem addToFirstFreeResourceSlot_some {S id : Int} {slots slots1 : List FBagResourceSlot}
    {s1 : FBagResourceSlot}
    (h : addToFirstFreeResourceSlot S id slots = some (s1, slots1)) :
    ∃ pre s post, slots = pre ++ s :: post ∧
      (∀ x ∈ pre, ¬ ((x.ResourceIds.length : Int) < S)) ∧
      (s.ResourceIds.length : Int) < S ∧
      s1 = { s with ResourceIds := s.ResourceIds ++ [id] } ∧
      slots1 = pre ++ s1 :: post := by
  induction slots generalizing s1 slots1 with
  | nil => simp [addToFirstFreeResourceSlot] at h
  | cons x rest ih =>
    by_cases hx : (x.ResourceIds.length : Int) < S
    · simp only [addToFirstFreeResourceSlot, hx, if_true, Option.some.injEq, Prod.mk.injEq] at h
      obtain ⟨rfl, rfl⟩ := h
      exact ⟨[], x, rest, by simp, by simp, hx, rfl, by simp⟩
    · simp only [addToFirstFreeResourceSlot, hx, if_false] at h
      cases hr : addToFirstFreeResourceSlot S id rest with
      | none => simp [hr] at h
      | some r =>
        obtain ⟨s2, rest2⟩ := r
        simp only [hr, Option.some.injEq, Prod.mk.injEq] at h
        obtain ⟨rfl, rfl⟩ := h
        obtain ⟨pre, s, post, h1, h2, h3, h4, h5⟩ := ih hr
        refine ⟨x :: pre, s, post, by simp [h1], ?_, h3, h4, by simp [h5]⟩
        intro y hy
        rcases List.mem_cons.mp hy with rfl | hy
        · exact hx
        · exact h2 y hy

theorem addToFirstFreeResourceSlot_none {S id : Int} {slots : List FBagResourceSlot}
    (h : addToFirstFreeResourceSlot S id slots = none) :
    ∀ x ∈ slots, ¬ ((x.ResourceIds.length : Int) < S) := by
  induction slots with
  | nil => simp
  | cons x rest ih =>
    by_cases hx : (x.ResourceIds.length : Int) < S
    · simp [addToFirstFreeResourceSlot, hx] at h
    · simp only [addToFirstFreeResourceSlot, hx, if_false] at h
      cases hr : addToFirstFreeResourceSlot S id rest with
      | none =>
        intro y hy
        rcases List.mem_cons.mp hy with rfl | hy
        · exact hx
        · exact ih hr y hy
      | some r => simp [hr] at h

theorem addToFirstFreeToolSlot_some {S : Int} {info : FBagToolInfo}
    {slots slots1 : List FBagToolSlot} {s1 : FBagToolSlot}
    (h : addToFirstFreeToolSlot S info slots = some (s1, slots1)) :
    ∃ pre s post, slots = pre ++ s :: post ∧
      (∀ x ∈ pre, ¬ ((x.ToolsInfo.length : Int) < S)) ∧
      (s.ToolsInfo.length : Int) < S ∧
      s1 = { s with ToolsInfo := s.ToolsInfo ++ [info] } ∧
      slots1 = pre ++ s1 :: post := by
  induction slots generalizing s1 slots1 with
  | nil => simp [addToFirstFreeToolSlot] at h
  | cons x rest ih =>
    by_cases hx : (x.ToolsInfo.length : Int) < S
    · simp only [addToFirstFreeToolSlot, hx, if_true, Option.some.injEq, Prod.mk.injEq] at h
      obtain ⟨rfl, rfl⟩ := h
      exact ⟨[], x, rest, by simp, by simp, hx, rfl, by simp⟩
    · simp only [addToFirstFreeToolSlot, hx, if_false] at h
      cases hr : addToFirstFreeToolSlot S info rest with
      | none => simp [hr] at h
      | some r =>
        obtain ⟨s2, rest2⟩ := r
        simp only [hr, Option.some.injEq, Prod.mk.injEq] at h
        obtain ⟨rfl, rfl⟩ := h
        obtain ⟨pre, s, post, h1, h2, h3, h4, h5⟩ := ih hr
        refine ⟨x :: pre, s, post, by simp [h1], ?_, h3, h4, by simp [h5]⟩
        intro y hy
        rcases List.mem_cons.mp hy with rfl | hy
        · exact hx
        · exact h2 y hy

theorem addToFirstFreeToolSlot_none {S : Int} {info : FBagToolInfo} {slots : List FBagToolSlot}
    (h : addToFirstFreeToolSlot S info slots = none) :
    ∀ x ∈ slots, ¬ ((x.ToolsInfo.length : Int) < S) := by
  induction slots with
  | nil => simp
  | cons x rest ih =>
    by_cases hx : (x.ToolsInfo.length : Int) < S
    · simp [addToFirstFreeToolSlot, hx] at h
    · simp only [addToFirstFreeToolSlot, hx, if_false] at h
      cases hr : addToFirstFreeToolSlot S info rest with
      | none =>
        intro y hy
        rcases List.mem_cons.mp hy with rfl | hy
        · exact hx
        · exact ih hr y hy
      | some r => simp [hr] at h

/-! ## What the resource packer does -/

theorem tryAddResourceTail_false {P : UBagProperties} {L : UItemBagLimit} {key : Nat} {id : Int}
    {d : FBagResourcesData} {b b1 : Bag}
    (h : tryAddResourceTail P L key id d b = .ok (false, b1)) :
    b1 = b ∧ (d.ResourceQuantity ≥ L.MaxQuantity ∨ b.Resources.UsedSlots ≥ P.MaxResourceSlots) := by
  unfold tryAddResourceTail at h
  split at h
  · rename_i hq
    simp only [Except.ok.injEq, Prod.mk.injEq, true_and] at h
    exact ⟨h.symm, Or.inl hq⟩
  · split at h
    · simp at h
    · split at h
      · rename_i hu
        simp only [Except.ok.injEq, Prod.mk.injEq, true_and] at h
        exact ⟨h.symm, Or.inr hu⟩
      · split at h <;> simp at h

theorem tryAddResourceTail_true {P : UBagProperties} {L : UItemBagLimit} {key : Nat} {id : Int}
    {d : FBagResourcesData} {b b1 : Bag}
    (h : tryAddResourceTail P L key id d b = .ok (true, b1)) :
    ∃ d1, ResourceAddEffect P L key id d d1 b b1 := by
  unfold tryAddResourceTail at h
  split at h
  · simp at h
  · rename_i hq
    split at h
    · rename_i slot slots hfit
      simp only [Except.ok.injEq, Prod.mk.injEq, true_and] at h
      subst h
      obtain ⟨pre, s, post, h1, h2, h3, h4, h5⟩ := addToFirstFreeResourceSlot_some hfit
      refine ⟨⟨slots, d.ResourceQuantity + 1⟩, by omega, rfl, rfl, rfl, rfl, rfl, Or.inl ?_⟩
      subst h4
      exact ⟨pre, s, post, h1, h2, h3, h5, rfl, rfl, rfl⟩
    · rename_i hfit
      split at h
      · simp at h
      · rename_i hu
        split at h
        · simp at h
        · rename_i slot_id pool hpop
          simp only [Except.ok.injEq, Prod.mk.injEq, true_and] at h
          subst h
          refine ⟨⟨d.Slots ++ [{ Id := slot_id, ResourceIds := [id] }],
            d.ResourceQuantity + 1⟩, by omega, rfl, rfl, rfl, rfl, rfl, Or.inr ?_⟩
          exact ⟨addToFirstFreeResourceSlot_none hfit, by omega, slot_id,
            arrayPop_eq_some hpop, rfl, rfl, rfl⟩

theorem tryAddResource_false {P : UBagProperties} {key : Nat} {id : Int} {b b1 : Bag}
    (h : tryAddResource P key id b = .ok (false, b1)) : b1 = b := by
  unfold tryAddResource at h
  split at h
  · simp at h
  · simp at h
  · rename_i L hL
    split at h
    · rename_i hpos
      split at h
      · split at h
        · simp only [Except.ok.injEq, Prod.mk.injEq, true_and] at h
          exact h.symm
        · rename_i hu
          obtain ⟨_, h2⟩ := tryAddResourceTail_false h
          simp only at h2
          omega
      · exact (tryAddResourceTail_false h).1
    · simp at h

theorem tryAddResource_true {P : UBagProperties} {key : Nat} {id : Int} {b b1 : Bag}
    (h : tryAddResource P key id b = .ok (true, b1)) :
    ∃ L d d1, mapFind key P.Limits = some (some L) ∧ 0 < L.MaxQuantity ∧ 0 < L.MaxStackSize ∧
      (mapFind key b.Resources.Data = some d ∨
        (mapFind key b.Resources.Data = none ∧ d = { Slots := [], ResourceQuantity := 0 })) ∧
      ResourceAddEffect P L key id d d1 b b1 := by
  unfold tryAddResource at h
  split at h
  · simp at h
  · simp at h
  · rename_i L hL
    split at h
    · rename_i hpos
      split at h
      · rename_i hnone
        split at h
        · simp at h
        · obtain ⟨d1, e1, e2, e3, e4, e5, e6, e7⟩ := tryAddResourceTail_true h
          refine ⟨L, _, d1, hL, hpos.1, hpos.2, Or.inr ⟨hnone, rfl⟩, e1, e2, e3, e4, e5, ?_, e7⟩
          rw [e6]
          exact mapSet_mapSet_of_not_mem key _ d1 _ (mapFind_none_keys hnone)
      · rename_i d hsome
        obtain ⟨d1, hd1⟩ := tryAddResourceTail_true h
        exact ⟨L, d, d1, hL, hpos.1, hpos.2, Or.inl hsome, hd1⟩
    · simp at h

/-! ## What the tool packer does -/

theorem tryAddToolTail_false {P : UBagProperties} {L : UItemBagLimit} {key : Nat} {id durability : Int}
    {d : FBagToolsData} {b b1 : Bag}
    (h : tryAddToolTail P L key id durability d b = .ok (false, b1)) :
    b1 = b ∧ (d.ToolQuantity ≥ L.MaxQuantity ∨ b.Tools.UsedSlots ≥ P.MaxResourceSlots) := by
  unfold tryAddToolTail at h
  split at h
  · rename_i hq
    simp only [Except.ok.injEq, Prod.mk.injEq, true_and] at h
    exact ⟨h.symm, Or.inl hq⟩
  · split at h
    · simp at h
    · split at h
      · rename_i hu
        simp only [Except.ok.injEq, Prod.mk.injEq, true_and] at h
        exact ⟨h.symm, Or.inr hu⟩
      · split at h <;> simp at h

theorem tryAddToolTail_true {P : UBagProperties} {L : UItemBagLimit} {key : Nat} {id durability : Int}
    {d : FBagToolsData} {b b1 : Bag}
    (h : tryAddToolTail P L key id durability d b = .ok (true, b1)) :
    ∃ d1, ToolAddEffect P L key id durability d d1 b b1 := by
  unfold tryAddToolTail at h
  split at h
  · simp at h
  · rename_i hq
    split at h
    · rename_i slot slots hfit
      simp only [Except.ok.injEq, Prod.mk.injEq, true_and] at h
      subst h
      obtain ⟨pre, s, post, h1, h2, h3, h4, h5⟩ := addToFirstFreeToolSlot_some hfit
      refine ⟨⟨d.ToolQuantity + 1, slots⟩, by omega, rfl, rfl, rfl, rfl, rfl, Or.inl ?_⟩
      subst h4
      exact ⟨pre, s, post, h1, h2, h3, h5, rfl, rfl, rfl⟩
    · rename_i hfit
      split at h
      · simp at h
      · rename_i hu
        split at h
        · simp at h
        · rename_i slot_id pool hpop
          simp only [Except.ok.injEq, Prod.mk.injEq, true_and] at h
          subst h
          refine ⟨⟨d.ToolQuantity + 1, d.Slots ++
            [{ Id := slot_id, ToolsInfo := [{ ToolId := id, Durability := durability }] }]⟩, by omega, rfl, rfl, rfl, rfl, rfl, Or.inr ?_⟩
          exact ⟨addToFirstFreeToolSlot_none hfit, by omega, slot_id,
            arrayPop_eq_some hpop, rfl, rfl, rfl⟩

theorem tryAddTool_false {P : UBagProperties} {key : Nat} {id durability : Int} {b b1 : Bag}
    (h : tryAddTool P key id durability b = .ok (false, b1)) : b1 = b := by
  unfold tryAddTool at h
  split at h
  · simp at h
  · simp at h
  · rename_i L hL
    split at h
    · rename_i hpos
      split at h
      · split at h
        · simp only [Except.ok.injEq, Prod.mk.injEq, true_and] at h
          exact h.symm
        · rename_i hu
          obtain ⟨_, h2⟩ := tryAddToolTail_false h
          simp only at h2
          omega
      · exact (tryAddToolTail_false h).1
    · simp at h

theorem tryAddTool_true {P : UBagProperties} {key : Nat} {id durability : Int} {b b1 : Bag}
    (h : tryAddTool P key id durability b = .ok (true, b1)) :
    ∃ L d d1, mapFind key P.Limits = some (some L) ∧ 0 < L.MaxQuantity ∧ 0 < L.MaxStackSize ∧
      (mapFind key b.Tools.Data = some d ∨
        (mapFind key b.Tools.Data = none ∧ d = { ToolQuantity := 0, Slots := [] })) ∧
      ToolAddEffect P L key id durability d d1 b b1 := by
  unfold tryAddTool at h
  split at h
  · simp at h
  · simp at h
  · rename_i L hL
    split at h
    · rename_i hpos
      split at h
      · rename_i hnone
        split at h
        · simp at h
        · obtain ⟨d1, e1, e2, e3, e4, e5, e6, e7⟩ := tryAddToolTail_true h
          refine ⟨L, _, d1, hL, hpos.1, hpos.2, Or.inr ⟨hnone, rfl⟩, e1, e2, e3, e4, e5, ?_, e7⟩
          rw [e6]
          exact mapSet_mapSet_of_not_mem key _ d1 _ (mapFind_none_keys hnone)
      · rename_i d hsome
        obtain ⟨d1, hd1⟩ := tryAddToolTail_true h
        exact ⟨L, d, d1, hL, hpos.1, hpos.2, Or.inl hsome, hd1⟩
    · simp at h

/-! ## What the removals do -/

theorem tryRemoveResource_false {key : Nat} {remove_id r : Int} {b b1 : Bag}
    (h : tryRemoveResource key remove_id b = .ok (false, r, b1)) : b1 = b ∧ r = remove_id := by
  unfold tryRemoveResource at h
  split at h
  · split at h
    · simp only [Except.ok.injEq, Prod.mk.injEq, true_and] at h
      exact ⟨h.2.symm, h.1.symm⟩
    · split at h
      · split at h
        · split at h
          · simp at h
          · split at h <;> simp at h
        · split at h
          · simp only [Except.ok.injEq, Prod.mk.injEq, true_and] at h
            exact ⟨h.2.symm, h.1.symm⟩
          · simp at h
      · simp at h
  · simp at h

theorem tryRemoveResource_true {key : Nat} {remove_id removed : Int} {b b1 : Bag}
    (h : tryRemoveResource key remove_id b = .ok (true, removed, b1)) :
    remove_id = -1 ∧ ∃ d front last ids, mapFind key b.Resources.Data = some d ∧
      0 < d.ResourceQuantity ∧ d.Slots = front ++ [last] ∧
      last.ResourceIds = ids ++ [removed] ∧
      b1 = tryRemoveResourceTail key d (front ++ [{ last with ResourceIds := ids }])
        { last with ResourceIds := ids } b := by
  unfold tryRemoveResource at h
  split at h
  · split at h
    · simp at h
    · rename_i d hd
      split at h
      · rename_i hq
        split at h
        · rename_i hid
          split at h
          · simp at h
          · rename_i last front hpop
            split at h
            · simp at h
            · rename_i rem ids hpop2
              simp only [Except.ok.injEq, Prod.mk.injEq, true_and] at h
              obtain ⟨rfl, rfl⟩ := h
              exact ⟨hid, d, front, last, ids, hd, hq, arrayPop_eq_some hpop,
                arrayPop_eq_some hpop2, rfl⟩
        · split at h <;> simp at h
      · simp at h
  · simp at h

theorem count_map_filter_ne (r a : Int) (l : List FBagToolInfo) :
    List.count a (l.map FBagToolInfo.ToolId)
      = List.count a ((l.filter (fun t => t.ToolId != r)).map FBagToolInfo.ToolId)
        + (if a = r then l.length - (l.filter (fun t => t.ToolId != r)).length else 0) := by
  induction l with
  | nil => simp
  | cons t rest ih =>
    have hle : (rest.filter (fun t => t.ToolId != r)).length ≤ rest.length :=
      List.length_filter_le _ _
    by_cases ht : t.ToolId = r
    · by_cases ha : a = r
      · subst ha
        simp only [ht, List.map_cons, List.count_cons_self, List.filter_cons, bne_self_eq_false,
          Bool.false_eq_true, if_false, if_true, List.length_cons] at ih ⊢
        omega
      · have hne : ¬ r = a := fun e => ha e.symm
        simp only [List.map_cons, List.filter_cons, ht, bne_self_eq_false, Bool.false_eq_true,
          if_false, ha, List.count_cons, beq_iff_eq, hne, add_zero] at ih ⊢
        omega
    · have hb : (t.ToolId != r) = true := by simpa using ht
      by_cases ha : a = r
      · subst ha
        have hne : ¬ t.ToolId = a := ht
        simp only [List.map_cons, List.filter_cons, hb, if_true, List.count_cons, beq_iff_eq, hne,
          if_false, add_zero, List.length_cons] at ih ⊢
        omega
      · simp only [List.map_cons, List.filter_cons, hb, if_true, List.count_cons, ha,
          if_false, add_zero] at ih ⊢
        omega

theorem removeToolById_some {remove_id : Int} {slots slots1 : List FBagToolSlot}
    {sel : FBagToolSlot} (h : removeToolById remove_id slots = .ok (some (sel, slots1))) :
    ∃ pre s post, slots = pre ++ s :: post ∧
      sel = { s with ToolsInfo := s.ToolsInfo.filter (fun t => t.ToolId != remove_id) } ∧
      slots1 = pre ++ sel :: post ∧
      s.ToolsInfo.length = sel.ToolsInfo.length + 1 ∧
      (∀ x ∈ pre, x.ToolsInfo ≠ []) := by
  induction slots generalizing sel slots1 with
  | nil => simp [removeToolById] at h
  | cons x rest ih =>
    unfold removeToolById at h
    split at h
    · rename_i hlen
      split at h
      · rename_i hle
        split at h
        · rename_i hgt
          simp only [Except.ok.injEq, Option.some.injEq, Prod.mk.injEq] at h
          obtain ⟨rfl, rfl⟩ := h
          refine ⟨[], x, rest, by simp, rfl, by simp, ?_, by simp⟩
          simp only
          omega
        · cases hr : removeToolById remove_id rest with
          | error e => simp [hr] at h
          | ok o =>
            cases o with
            | none => simp [hr] at h
            | some pr =>
              obtain ⟨s2, rest2⟩ := pr
              simp only [hr, Except.ok.injEq, Option.some.injEq, Prod.mk.injEq] at h
              obtain ⟨rfl, rfl⟩ := h
              obtain ⟨pre, s, post, h1, h2, h3, h4, h5⟩ := ih hr
              refine ⟨x :: pre, s, post, by simp [h1], h2, by simp [h3], h4, ?_⟩
              intro y hy
              rcases List.mem_cons.mp hy with rfl | hy
              · intro he
                simp [he] at hlen
              · exact h5 y hy
      · simp at h
    · simp at h

theorem removeToolById_none {remove_id : Int} {slots : List FBagToolSlot}
    (h : removeToolById remove_id slots = .ok none) :
    ∀ x ∈ slots, ∀ t ∈ x.ToolsInfo, t.ToolId ≠ remove_id := by
  induction slots with
  | nil => simp
  | cons x rest ih =>
    unfold removeToolById at h
    split at h
    · split at h
      · split at h
        · simp at h
        · rename_i hgt
          cases hr : removeToolById remove_id rest with
          | error e => simp [hr] at h
          | ok o =>
            cases o with
            | some pr => simp [hr] at h
            | none =>
              intro y hy
              rcases List.mem_cons.mp hy with rfl | hy
              · intro t ht he
                have hlt : (y.ToolsInfo.filter (fun t => t.ToolId != remove_id)).length
                    < y.ToolsInfo.length := by
                  apply List.length_filter_lt_length_iff_exists.mpr
                  exact ⟨t, ht, by simp [he]⟩
                omega
              · exact ih hr y hy
      · simp at h
    · simp at h

theorem tryRemoveTool_false {key : Nat} {remove_id r : Int} {b b1 : Bag}
    (h : tryRemoveTool key remove_id b = .ok (false, r, b1)) : b1 = b ∧ r = remove_id := by
  unfold tryRemoveTool at h
  split at h
  · split at h
    · simp only [Except.ok.injEq, Prod.mk.injEq, true_and] at h
      exact ⟨h.2.symm, h.1.symm⟩
    · split at h
      · split at h
        · split at h
          · simp at h
          · split at h <;> simp at h
        · split at h
          · simp at h
          · simp only [Except.ok.injEq, Prod.mk.injEq, true_and] at h
            exact ⟨h.2.symm, h.1.symm⟩
          · simp at h
      · simp at h
  · simp at h

theorem tryRemoveTool_true {key : Nat} {remove_id removed : Int} {b b1 : Bag}
    (h : tryRemoveTool key remove_id b = .ok (true, removed, b1)) :
    ∃ d pre s sel post, mapFind key b.Tools.Data = some d ∧
      0 < d.ToolQuantity ∧ d.Slots = pre ++ s :: post ∧ sel.Id = s.Id ∧
      ((remove_id = -1 ∧ post = [] ∧
          ∃ info, s.ToolsInfo = sel.ToolsInfo ++ [info] ∧ info.ToolId = removed) ∨
       (remove_id ≠ -1 ∧ removed = remove_id ∧
          sel.ToolsInfo = s.ToolsInfo.filter (fun t => t.ToolId != remove_id) ∧
          s.ToolsInfo.length = sel.ToolsInfo.length + 1 ∧
          (∀ x ∈ pre, x.ToolsInfo ≠ []))) ∧
      b1 = tryRemoveToolTail key d (pre ++ sel :: post) sel b := by
  unfold tryRemoveTool at h
  split at h
  · split at h
    · simp at h
    · rename_i d hd
      split at h
      · rename_i hq
        split at h
        · rename_i hid
          split at h
          · simp at h
          · rename_i last front hpop
            split at h
            · simp at h
            · rename_i rem infos hpop2
              simp only [Except.ok.injEq, Prod.mk.injEq, true_and] at h
              obtain ⟨rfl, rfl⟩ := h
              exact ⟨d, front, last, { last with ToolsInfo := infos }, [], hd, hq,
                arrayPop_eq_some hpop, rfl,
                Or.inl ⟨hid, rfl, rem, arrayPop_eq_some hpop2, rfl⟩, rfl⟩
        · rename_i hid
          split at h
          · simp at h
          · simp at h
          · rename_i sel slots hrem
            simp only [Except.ok.injEq, Prod.mk.injEq, true_and] at h
            obtain ⟨rfl, rfl⟩ := h
            obtain ⟨pre, s, post, h1, h2, h3, h4, h5⟩ := removeToolById_some hrem
            refine ⟨d, pre, s, sel, post, hd, hq, h1, by rw [h2], Or.inr ⟨hid, rfl, ?_, h4, h5⟩, ?_⟩
            · rw [h2]
            · rw [h3]
      · simp at h
  · simp at h

theorem tryRemoveTool_true_count {remove_id removed : Int} {s sel : FBagToolSlot}
    {pre post : List FBagToolSlot}
    (h : (remove_id = -1 ∧ post = [] ∧
          ∃ info, s.ToolsInfo = sel.ToolsInfo ++ [info] ∧ info.ToolId = removed) ∨
       (remove_id ≠ -1 ∧ removed = remove_id ∧
          sel.ToolsInfo = s.ToolsInfo.filter (fun t => t.ToolId != remove_id) ∧
          s.ToolsInfo.length = sel.ToolsInfo.length + 1 ∧
          (∀ x ∈ pre, x.ToolsInfo ≠ []))) :
    s.ToolsInfo.length = sel.ToolsInfo.length + 1 ∧
    ∀ a, List.count a (s.ToolsInfo.map FBagToolInfo.ToolId)
      = List.count a (removed :: sel.ToolsInfo.map FBagToolInfo.ToolId) := by
  rcases h with ⟨_, _, info, h1, h2⟩ | ⟨_, h1, h2, h3, _⟩
  · refine ⟨by simp [h1], fun a => ?_⟩
    subst h2
    simp only [h1, List.map_append, List.map_cons, List.map_nil, List.count_append,
      List.count_cons, List.count_nil]
    omega
  · refine ⟨h3, fun a => ?_⟩
    subst h1
    have hc := count_map_filter_ne removed a s.ToolsInfo
    rw [← h2] at hc
    rw [hc]
    by_cases ha : a = removed
    · subst ha
      simp only [if_true, List.count_cons_self]
      omega
    · have hne : ¬ removed = a := fun e => ha e.symm
      simp [ha, List.count_cons, hne]

theorem tryRemoveResourceTail_of_empty {key : Nat} {d : FBagResourcesData}
    {slots : List FBagResourceSlot} {sel : FBagResourceSlot} {b : Bag}
    (h : sel.ResourceIds = []) :
    tryRemoveResourceTail key d slots sel b =
      { b with
        Resources :=
          { Data := if d.ResourceQuantity - 1 = 0 then mapRemove key b.Resources.Data
                    else mapSet key
                      { Slots := removeSingleSwap FBagResourceSlot.opEq sel slots,
                        ResourceQuantity := d.ResourceQuantity - 1 } b.Resources.Data,
            UsedSlots := b.Resources.UsedSlots - 1 }
        slot_ids_pool := b.slot_ids_pool ++ [sel.Id]
        events := b.events ++
          [Event.ResourceSlotRemoved key sel.Id { Id := sel.Id, ResourceIds := [] }] } := by
  simp [tryRemoveResourceTail, h]

theorem tryRemoveResourceTail_of_nonempty {key : Nat} {d : FBagResourcesData}
    {slots : List FBagResourceSlot} {sel : FBagResourceSlot} {b : Bag}
    (h : sel.ResourceIds ≠ []) :
    tryRemoveResourceTail key d slots sel b =
      { b with
        Resources :=
          { Data := if d.ResourceQuantity - 1 = 0 then mapRemove key b.Resources.Data
                    else mapSet key
                      { Slots := slots, ResourceQuantity := d.ResourceQuantity - 1 }
                      b.Resources.Data,
            UsedSlots := b.Resources.UsedSlots }
        events := b.events ++ [Event.ResourceSlotUpdated key sel.Id sel] } := by
  simp [tryRemoveResourceTail, h]

theorem tryRemoveToolTail_of_empty {key : Nat} {d : FBagToolsData}
    {slots : List FBagToolSlot} {sel : FBagToolSlot} {b : Bag}
    (h : sel.ToolsInfo = []) :
    tryRemoveToolTail key d slots sel b =
      { b with
        Tools :=
          { Data := if d.ToolQuantity - 1 = 0 then mapRemove key b.Tools.Data
                    else mapSet key
                      { ToolQuantity := d.ToolQuantity - 1,
                        Slots := removeSingleSwap FBagToolSlot.opEq sel slots } b.Tools.Data,
            UsedSlots := b.Tools.UsedSlots - 1 }
        slot_ids_pool := b.slot_ids_pool ++ [sel.Id]
        events := b.events ++
          [Event.ToolSlotRemoved key sel.Id { Id := sel.Id, ToolsInfo := [] }] } := by
  simp [tryRemoveToolTail, h]

theorem tryRemoveToolTail_of_nonempty {key : Nat} {d : FBagToolsData}
    {slots : List FBagToolSlot} {sel : FBagToolSlot} {b : Bag}
    (h : sel.ToolsInfo ≠ []) :
    tryRemoveToolTail key d slots sel b =
      { b with
        Tools :=
          { Data := if d.ToolQuantity - 1 = 0 then mapRemove key b.Tools.Data
                    else mapSet key
                      { ToolQuantity := d.ToolQuantity - 1, Slots := slots } b.Tools.Data,
            UsedSlots := b.Tools.UsedSlots }
        events := b.events ++ [Event.ToolSlotUpdated key sel.Id sel] } := by
  simp [tryRemoveToolTail, h]

theorem removeSingleSwap_resource_empty (sel : FBagResourceSlot) (pre post : List FBagResourceSlot)
    (hsel : sel.ResourceIds = []) (hpre : ∀ y ∈ pre, y.ResourceIds ≠ []) :
    removeSingleSwap FBagResourceSlot.opEq sel (pre ++ sel :: post) = pre ++ lastToFront post := by
  apply removeSingleSwap_split
  · intro y hy
    have := hpre y hy
    simp [FBagResourceSlot.opEq, hsel, this]
  · simp [FBagResourceSlot.opEq]

theorem removeSingleSwap_tool_empty (sel : FBagToolSlot) (pre post : List FBagToolSlot)
    (hsel : sel.ToolsInfo = []) (hpre : ∀ y ∈ pre, y.ToolsInfo ≠ []) :
    removeSingleSwap FBagToolSlot.opEq sel (pre ++ sel :: post) = pre ++ lastToFront post := by
  apply removeSingleSwap_split
  · intro y hy
    have := hpre y hy
    simp [FBagToolSlot.opEq, hsel, this]
  · simp [FBagToolSlot.opEq]

/-! ## Buckets stay well formed -/

theorem resourceBucketPre_empty (L : UItemBagLimit) (h : 0 < L.MaxQuantity) :
    ResourceBucketPre L { Slots := [], ResourceQuantity := 0 } := by
  refine ⟨by simp [FBagResourcesData.entryCount], by simp, ?_⟩
  simp only
  omega

theorem resourceAdd_bucket {P : UBagProperties} {L : UItemBagLimit} {key : Nat} {id : Int}
    {d d1 : FBagResourcesData} {b b1 : Bag}
    (h : ResourceAddEffect P L key id d d1 b b1) (hpre : ResourceBucketPre L d)
    (hS : 0 < L.MaxStackSize) :
    ResourceBucketOk L d1 ∧
    ∀ a, List.count a (resourceSlotsIds d1.Slots)
      = List.count a (resourceSlotsIds d.Slots) + List.count a [id] := by
  obtain ⟨hq, _, _, _, hq1, _, hcase⟩ := h
  obtain ⟨p1, p2, p3⟩ := hpre
  rcases hcase with ⟨pre, s, post, hs, _, hroom, hs1, _⟩ | ⟨_, _, slot_id, _, hs1, _⟩
  · refine ⟨⟨⟨?_, ?_, by omega⟩, by simp [hs1]⟩, ?_⟩
    · rw [hq1, p1]
      simp [FBagResourcesData.entryCount, hs, hs1, List.sum_append]
      omega
    · intro slot hslot
      rw [hs1] at hslot
      rcases List.mem_append.mp hslot with hm | hm
      · exact p2 slot (by simp [hs, hm])
      · rcases List.mem_cons.mp hm with rfl | hm
        · refine ⟨by simp, ?_⟩
          simp only [List.length_append, List.length_singleton, Nat.cast_add, Nat.cast_one]
          omega
        · exact p2 slot (by simp [hs, hm])
    · intro a
      simp only [hs, hs1, resourceSlotsIds_append, resourceSlotsIds, List.count_append]
      omega
  · refine ⟨⟨⟨?_, ?_, by omega⟩, by simp [hs1]⟩, ?_⟩
    · rw [hq1, p1]
      simp [FBagResourcesData.entryCount, hs1, List.sum_append]
    · intro slot hslot
      rw [hs1] at hslot
      rcases List.mem_append.mp hslot with hm | hm
      · exact p2 slot hm
      · rw [List.mem_singleton] at hm
        subst hm
        refine ⟨by simp, ?_⟩
        simp only [List.length_singleton, Nat.cast_one]
        omega
    · intro a
      simp only [hs1, resourceSlotsIds_append, resourceSlotsIds, List.count_append,
        List.append_nil]

theorem resourceRemove_bucket {L : UItemBagLimit} {d : FBagResourcesData}
    {pre post slots1 : List FBagResourceSlot} {s sel : FBagResourceSlot} {removed : Int}
    (hok : ResourceBucketOk L d) (hs : d.Slots = pre ++ s :: post)
    (hlen : s.ResourceIds.length = sel.ResourceIds.length + 1)
    (hcount : ∀ a, List.count a s.ResourceIds = List.count a (removed :: sel.ResourceIds))
    (hperm : slots1.Perm (if sel.ResourceIds = [] then pre ++ post else pre ++ sel :: post)) :
    (∀ a, List.count a (resourceSlotsIds slots1) + List.count a [removed]
        = List.count a (resourceSlotsIds d.Slots)) ∧
    (d.ResourceQuantity - 1 = 0 → ∀ a, List.count a (resourceSlotsIds slots1) = 0) ∧
    (d.ResourceQuantity - 1 ≠ 0 →
      ResourceBucketOk L { Slots := slots1, ResourceQuantity := d.ResourceQuantity - 1 }) := by
  obtain ⟨⟨p1, p2, p3⟩, _⟩ := hok
  have hids : (resourceSlotsIds slots1).Perm
      (resourceSlotsIds pre ++ sel.ResourceIds ++ resourceSlotsIds post) := by
    refine (resourceSlotsIds_perm hperm).trans ?_
    by_cases he : sel.ResourceIds = []
    · simp [he, resourceSlotsIds_append]
    · simp [he, resourceSlotsIds_append, resourceSlotsIds]
  have hcnt : ∀ a, List.count a (resourceSlotsIds slots1) + List.count a [removed]
      = List.count a (resourceSlotsIds d.Slots) := by
    intro a
    rw [hids.count_eq, hs]
    have := hcount a
    simp only [resourceSlotsIds_append, resourceSlotsIds, List.count_append, List.count_cons,
      List.count_nil] at this ⊢
    omega
  have hlen1 : ((resourceSlotsIds slots1).length : Int) = d.ResourceQuantity - 1 := by
    rw [hids.length_eq, p1]
    simp only [FBagResourcesData.entryCount, hs, List.map_append, List.map_cons, List.sum_append,
      List.sum_cons, List.length_append, resourceSlotsIds_length, hlen]
    push_cast
    omega
  refine ⟨hcnt, ?_, ?_⟩
  · intro hq a
    rw [hq] at hlen1
    have : resourceSlotsIds slots1 = [] := List.length_eq_zero.mp (by exact_mod_cast hlen1)
    simp [this]
  · intro hq
    refine ⟨⟨?_, ?_, by simp only; omega⟩, ?_⟩
    · simp only [FBagResourcesData.entryCount, ← resourceSlotsIds_length]
      exact hlen1.symm
    · intro slot hslot
      have hm := hperm.subset hslot
      by_cases he : sel.ResourceIds = []
      · simp only [he, if_true] at hm
        rcases List.mem_append.mp hm with hm | hm
        · exact p2 slot (by simp [hs, hm])
        · exact p2 slot (by simp [hs, hm])
      · simp only [he, if_false] at hm
        rcases List.mem_append.mp hm with hm | hm
        · exact p2 slot (by simp [hs, hm])
        · rcases List.mem_cons.mp hm with rfl | hm
          · refine ⟨he, ?_⟩
            have := (p2 s (by simp [hs])).2
            omega
          · exact p2 slot (by simp [hs, hm])
    · intro hnil
      simp only at hnil
      rw [hnil] at hlen1
      simp only [resourceSlotsIds, List.length_nil, Nat.cast_zero] at hlen1
      omega

theorem toolBucketPre_empty (L : UItemBagLimit) (h : 0 < L.MaxQuantity) :
    ToolBucketPre L { ToolQuantity := 0, Slots := [] } := by
  refine ⟨by simp [FBagToolsData.entryCount], by simp, ?_⟩
  simp only
  omega

theorem toolAdd_bucket {P : UBagProperties} {L : UItemBagLimit} {key : Nat} {id durability : Int}
    {d d1 : FBagToolsData} {b b1 : Bag}
    (h : ToolAddEffect P L key id durability d d1 b b1) (hpre : ToolBucketPre L d)
    (hS : 0 < L.MaxStackSize) :
    ToolBucketOk L d1 ∧
    ∀ a, List.count a (toolSlotsIds d1.Slots)
      = List.count a (toolSlotsIds d.Slots) + List.count a [id] := by
  obtain ⟨hq, _, _, _, hq1, _, hcase⟩ := h
  obtain ⟨p1, p2, p3⟩ := hpre
  rcases hcase with ⟨pre, s, post, hs, _, hroom, hs1, _⟩ | ⟨_, _, slot_id, _, hs1, _⟩
  · refine ⟨⟨⟨?_, ?_, by omega⟩, by simp [hs1]⟩, ?_⟩
    · rw [hq1, p1]
      simp [FBagToolsData.entryCount, hs, hs1, List.sum_append]
      omega
    · intro slot hslot
      rw [hs1] at hslot
      rcases List.mem_append.mp hslot with hm | hm
      · exact p2 slot (by simp [hs, hm])
      · rcases List.mem_cons.mp hm with rfl | hm
        · refine ⟨by simp, ?_⟩
          simp only [List.length_append, List.length_singleton, Nat.cast_add, Nat.cast_one]
          omega
        · exact p2 slot (by simp [hs, hm])
    · intro a
      simp only [hs, hs1, toolSlotsIds_append, toolSlotsIds, List.count_append, List.map_append,
        List.map_cons, List.map_nil]
      omega
  · refine ⟨⟨⟨?_, ?_, by omega⟩, by simp [hs1]⟩, ?_⟩
    · rw [hq1, p1]
      simp [FBagToolsData.entryCount, hs1, List.sum_append]
    · intro slot hslot
      rw [hs1] at hslot
      rcases List.mem_append.mp hslot with hm | hm
      · exact p2 slot hm
      · rw [List.mem_singleton] at hm
        subst hm
        refine ⟨by simp, ?_⟩
        simp only [List.length_singleton, Nat.cast_one]
        omega
    · intro a
      simp only [hs1, toolSlotsIds_append, toolSlotsIds, List.count_append,
        List.append_nil, List.map_cons, List.map_nil]

theorem toolRemove_bucket {L : UItemBagLimit} {d : FBagToolsData}
    {pre post slots1 : List FBagToolSlot} {s sel : FBagToolSlot} {removed : Int}
    (hok : ToolBucketOk L d) (hs : d.Slots = pre ++ s :: post)
    (hlen : s.ToolsInfo.length = sel.ToolsInfo.length + 1)
    (hcount : ∀ a, List.count a (s.ToolsInfo.map FBagToolInfo.ToolId)
      = List.count a (removed :: sel.ToolsInfo.map FBagToolInfo.ToolId))
    (hperm : slots1.Perm (if sel.ToolsInfo = [] then pre ++ post else pre ++ sel :: post)) :
    (∀ a, List.count a (toolSlotsIds slots1) + List.count a [removed]
        = List.count a (toolSlotsIds d.Slots)) ∧
    (d.ToolQuantity - 1 = 0 → ∀ a, List.count a (toolSlotsIds slots1) = 0) ∧
    (d.ToolQuantity - 1 ≠ 0 →
      ToolBucketOk L { ToolQuantity := d.ToolQuantity - 1, Slots := slots1 }) := by
  obtain ⟨⟨p1, p2, p3⟩, _⟩ := hok
  have hids : (toolSlotsIds slots1).Perm
      (toolSlotsIds pre ++ sel.ToolsInfo.map FBagToolInfo.ToolId ++ toolSlotsIds post) := by
    refine (toolSlotsIds_perm hperm).trans ?_
    by_cases he : sel.ToolsInfo = []
    · simp [he, toolSlotsIds_append]
    · simp [he, toolSlotsIds_append, toolSlotsIds]
  have hcnt : ∀ a, List.count a (toolSlotsIds slots1) + List.count a [removed]
      = List.count a (toolSlotsIds d.Slots) := by
    intro a
    rw [hids.count_eq, hs]
    have := hcount a
    simp only [toolSlotsIds_append, toolSlotsIds, List.count_append, List.count_cons,
      List.count_nil] at this ⊢
    omega
  have hlen1 : ((toolSlotsIds slots1).length : Int) = d.ToolQuantity - 1 := by
    rw [hids.length_eq, p1]
    simp only [FBagToolsData.entryCount, hs, List.map_append, List.map_cons, List.sum_append,
      List.sum_cons, List.length_append, toolSlotsIds_length, hlen, List.length_map]
    push_cast
    omega
  refine ⟨hcnt, ?_, ?_⟩
  · intro hq a
    rw [hq] at hlen1
    have : toolSlotsIds slots1 = [] := List.length_eq_zero.mp (by exact_mod_cast hlen1)
    simp [this]
  · intro hq
    refine ⟨⟨?_, ?_, by simp only; omega⟩, ?_⟩
    · simp only [FBagToolsData.entryCount, ← toolSlotsIds_length]
      exact hlen1.symm
    · intro slot hslot
      have hm := hperm.subset hslot
      by_cases he : sel.ToolsInfo = []
      · simp only [he, if_true] at hm
        rcases List.mem_append.mp hm with hm | hm
        · exact p2 slot (by simp [hs, hm])
        · exact p2 slot (by simp [hs, hm])
      · simp only [he, if_false] at hm
        rcases List.mem_append.mp hm with hm | hm
        · exact p2 slot (by simp [hs, hm])
        · rcases List.mem_cons.mp hm with rfl | hm
          · refine ⟨he, ?_⟩
            have := (p2 s (by simp [hs])).2
            omega
          · exact p2 slot (by simp [hs, hm])
    · intro hnil
      simp only at hnil
      rw [hnil] at hlen1
      simp only [toolSlotsIds, List.length_nil, Nat.cast_zero] at hlen1
      omega

/-! ## The packers keep the invariant -/

theorem tryAddResource_inv {P : UBagProperties} {key : Nat} {id : Int} {b b1 : Bag}
    (h : tryAddResource P key id b = .ok (true, b1)) (hR : ResourcesOk P b.Resources.Data) :
    ResourcesOk P b1.Resources.Data ∧ b1.Tools = b.Tools ∧
    b1.item_ids_pool = b.item_ids_pool ∧ b1.item_comp_to_id = b.item_comp_to_id ∧
    (∀ a, List.count a b1.heldIds = List.count a b.heldIds + List.count a [id]) ∧
    (b.Resources.UsedSlots ≤ max 0 P.MaxResourceSlots →
      b1.Resources.UsedSlots ≤ max 0 P.MaxResourceSlots) := by
  obtain ⟨L, d, d1, hL, hQ, hS, hd, heff⟩ := tryAddResource_true h
  have hpre : ResourceBucketPre L d := by
    rcases hd with hd | ⟨_, rfl⟩
    · obtain ⟨L1, hL1, hok⟩ := hR (key, d) (mapFind_mem hd)
      simp only [hL, Option.some.injEq] at hL1
      subst hL1
      exact hok.1
    · exact resourceBucketPre_empty L hQ
  obtain ⟨hok1, hcnt⟩ := resourceAdd_bucket heff hpre hS
  obtain ⟨_, hT, hpool, hmap, _, hdata, hcase⟩ := heff
  refine ⟨?_, hT, hpool, hmap, ?_, ?_⟩
  · intro kv hkv
    rw [hdata] at hkv
    rcases mem_mapSet hkv with hkv | rfl
    · exact hR kv hkv
    · exact ⟨L, hL, hok1⟩
  · intro a
    simp only [Bag.heldIds, List.count_append, hT, hdata]
    rcases hd with hd | ⟨hd, rfl⟩
    · have := resourcesIds_mapSet_some hd d1 a
      have := hcnt a
      omega
    · have := resourcesIds_mapSet_none hd d1 a
      have := hcnt a
      simp only [resourceSlotsIds, List.count_nil] at *
      omega
  · intro hu
    rcases hcase with ⟨_, _, _, _, _, _, _, hu1, _⟩ | ⟨_, hlt, _, _, _, hu1, _⟩
    · rw [hu1]
      exact hu
    · rw [hu1]
      have := le_max_right 0 P.MaxResourceSlots
      omega

theorem tryAddTool_inv {P : UBagProperties} {key : Nat} {id durability : Int} {b b1 : Bag}
    (h : tryAddTool P key id durability b = .ok (true, b1)) (hR : ToolsOk P b.Tools.Data) :
    ToolsOk P b1.Tools.Data ∧ b1.Resources = b.Resources ∧
    b1.item_ids_pool = b.item_ids_pool ∧ b1.item_comp_to_id = b.item_comp_to_id ∧
    (∀ a, List.count a b1.heldIds = List.count a b.heldIds + List.count a [id]) ∧
    (b.Tools.UsedSlots ≤ max 0 P.MaxResourceSlots →
      b1.Tools.UsedSlots ≤ max 0 P.MaxResourceSlots) := by
  obtain ⟨L, d, d1, hL, hQ, hS, hd, heff⟩ := tryAddTool_true h
  have hpre : ToolBucketPre L d := by
    rcases hd with hd | ⟨_, rfl⟩
    · obtain ⟨L1, hL1, hok⟩ := hR (key, d) (mapFind_mem hd)
      simp only [hL, Option.some.injEq] at hL1
      subst hL1
      exact hok.1
    · exact toolBucketPre_empty L hQ
  obtain ⟨hok1, hcnt⟩ := toolAdd_bucket heff hpre hS
  obtain ⟨_, hT, hpool, hmap, _, hdata, hcase⟩ := heff
  refine ⟨?_, hT, hpool, hmap, ?_, ?_⟩
  · intro kv hkv
    rw [hdata] at hkv
    rcases mem_mapSet hkv with hkv | rfl
    · exact hR kv hkv
    · exact ⟨L, hL, hok1⟩
  · intro a
    simp only [Bag.heldIds, List.count_append, hT, hdata]
    rcases hd with hd | ⟨hd, rfl⟩
    · have := toolsIds_mapSet_some hd d1 a
      have := hcnt a
      omega
    · have := toolsIds_mapSet_none hd d1 a
      have := hcnt a
      simp only [toolSlotsIds, List.count_nil] at *
      omega
  · intro hu
    rcases hcase with ⟨_, _, _, _, _, _, _, hu1, _⟩ | ⟨_, hlt, _, _, _, hu1, _⟩
    · rw [hu1]
      exact hu
    · rw [hu1]
      have := le_max_right 0 P.MaxResourceSlots
      omega

theorem tryRemoveResourceTail_inv {P : UBagProperties} {key : Nat} {d : FBagResourcesData}
    {pre post : List FBagResourceSlot} {s sel : FBagResourceSlot} {removed : Int} {b : Bag}
    (hR : ResourcesOk P b.Resources.Data) (hd : mapFind key b.Resources.Data = some d)
    (hs : d.Slots = pre ++ s :: post)
    (hlen : s.ResourceIds.length = sel.ResourceIds.length + 1)
    (hcount : ∀ a, List.count a s.ResourceIds = List.count a (removed :: sel.ResourceIds)) :
    ResourcesOk P (tryRemoveResourceTail key d (pre ++ sel :: post) sel b).Resources.Data ∧
    (tryRemoveResourceTail key d (pre ++ sel :: post) sel b).Tools = b.Tools ∧
    (tryRemoveResourceTail key d (pre ++ sel :: post) sel b).item_ids_pool = b.item_ids_pool ∧
    (tryRemoveResourceTail key d (pre ++ sel :: post) sel b).item_comp_to_id
      = b.item_comp_to_id ∧
    (∀ a, List.count a (tryRemoveResourceTail key d (pre ++ sel :: post) sel b).heldIds
        + List.count a [removed] = List.count a b.heldIds) ∧
    (tryRemoveResourceTail key d (pre ++ sel :: post) sel b).Resources.UsedSlots
      ≤ b.Resources.UsedSlots := by
  obtain ⟨L, hL, hok⟩ := hR (key, d) (mapFind_mem hd)
  replace hok : ResourceBucketOk L d := hok
  replace hL : mapFind key P.Limits = some (some L) := hL
  have hpre : ∀ y ∈ pre, y.ResourceIds ≠ [] := fun y hy =>
    (hok.1.2.1 y (by simp [hs, hy])).1
  have key_fact : ∀ slots1 : List FBagResourceSlot,
      slots1.Perm (if sel.ResourceIds = [] then pre ++ post else pre ++ sel :: post) →
      ResourcesOk P (if d.ResourceQuantity - 1 = 0 then mapRemove key b.Resources.Data
        else mapSet key { Slots := slots1, ResourceQuantity := d.ResourceQuantity - 1 }
          b.Resources.Data) ∧
      ∀ a, List.count a (resourcesIds (if d.ResourceQuantity - 1 = 0
          then mapRemove key b.Resources.Data
          else mapSet key { Slots := slots1, ResourceQuantity := d.ResourceQuantity - 1 }
            b.Resources.Data)) + List.count a [removed]
        = List.count a (resourcesIds b.Resources.Data) := by
    intro slots1 hperm
    obtain ⟨c1, c2, c3⟩ := resourceRemove_bucket hok hs hlen hcount hperm
    by_cases hq : d.ResourceQuantity - 1 = 0
    · simp only [hq, if_true]
      refine ⟨fun kv hkv => hR kv (mem_mapRemove hkv), fun a => ?_⟩
      have h1 := resourcesIds_mapRemove_some hd a
      have h2 := c1 a
      have h3 := c2 hq a
      omega
    · simp only [hq, if_false]
      refine ⟨?_, fun a => ?_⟩
      · intro kv hkv
        rcases mem_mapSet hkv with hkv | rfl
        · exact hR kv hkv
        · exact ⟨L, hL, c3 hq⟩
      · have h1 := resourcesIds_mapSet_some hd
          { Slots := slots1, ResourceQuantity := d.ResourceQuantity - 1 } a
        have h2 := c1 a
        simp only at h1
        omega
  by_cases he : sel.ResourceIds = []
  · rw [tryRemoveResourceTail_of_empty he, removeSingleSwap_resource_empty sel pre post he hpre]
    have hperm : (pre ++ lastToFront post).Perm
        (if sel.ResourceIds = [] then pre ++ post else pre ++ sel :: post) := by
      simp only [he, if_true]
      exact List.Perm.append_left _ (lastToFront_perm post)
    obtain ⟨k1, k2⟩ := key_fact _ hperm
    refine ⟨k1, rfl, rfl, rfl, ?_, by simp⟩
    intro a
    have := k2 a
    simp only [Bag.heldIds, List.count_append] at this ⊢
    omega
  · rw [tryRemoveResourceTail_of_nonempty he]
    have hperm : (pre ++ sel :: post).Perm
        (if sel.ResourceIds = [] then pre ++ post else pre ++ sel :: post) := by
      simp only [he, if_false]
      exact List.Perm.refl _
    obtain ⟨k1, k2⟩ := key_fact _ hperm
    refine ⟨k1, rfl, rfl, rfl, ?_, by simp⟩
    intro a
    have := k2 a
    simp only [Bag.heldIds, List.count_append] at this ⊢
    omega

theorem tryRemoveToolTail_inv {P : UBagProperties} {key : Nat} {d : FBagToolsData}
    {pre post : List FBagToolSlot} {s sel : FBagToolSlot} {removed : Int} {b : Bag}
    (hR : ToolsOk P b.Tools.Data) (hd : mapFind key b.Tools.Data = some d)
    (hs : d.Slots = pre ++ s :: post)
    (hlen : s.ToolsInfo.length = sel.ToolsInfo.length + 1)
    (hcount : ∀ a, List.count a (s.ToolsInfo.map FBagToolInfo.ToolId)
      = List.count a (removed :: sel.ToolsInfo.map FBagToolInfo.ToolId)) :
    ToolsOk P (tryRemoveToolTail key d (pre ++ sel :: post) sel b).Tools.Data ∧
    (tryRemoveToolTail key d (pre ++ sel :: post) sel b).Resources = b.Resources ∧
    (tryRemoveToolTail key d (pre ++ sel :: post) sel b).item_ids_pool = b.item_ids_pool ∧
    (tryRemoveToolTail key d (pre ++ sel :: post) sel b).item_comp_to_id
      = b.item_comp_to_id ∧
    (∀ a, List.count a (tryRemoveToolTail key d (pre ++ sel :: post) sel b).heldIds
        + List.count a [removed] = List.count a b.heldIds) ∧
    (tryRemoveToolTail key d (pre ++ sel :: post) sel b).Tools.UsedSlots
      ≤ b.Tools.UsedSlots := by
  obtain ⟨L, hL, hok⟩ := hR (key, d) (mapFind_mem hd)
  replace hok : ToolBucketOk L d := hok
  replace hL : mapFind key P.Limits = some (some L) := hL
  have hpre : ∀ y ∈ pre, y.ToolsInfo ≠ [] := fun y hy =>
    (hok.1.2.1 y (by simp [hs, hy])).1
  have key_fact : ∀ slots1 : List FBagToolSlot,
      slots1.Perm (if sel.ToolsInfo = [] then pre ++ post else pre ++ sel :: post) →
      ToolsOk P (if d.ToolQuantity - 1 = 0 then mapRemove key b.Tools.Data
        else mapSet key { ToolQuantity := d.ToolQuantity - 1, Slots := slots1 }
          b.Tools.Data) ∧
      ∀ a, List.count a (toolsIds (if d.ToolQuantity - 1 = 0
          then mapRemove key b.Tools.Data
          else mapSet key { ToolQuantity := d.ToolQuantity - 1, Slots := slots1 }
            b.Tools.Data)) + List.count a [removed]
        = List.count a (toolsIds b.Tools.Data) := by
    intro slots1 hperm
    obtain ⟨c1, c2, c3⟩ := toolRemove_bucket hok hs hlen hcount hperm
    by_cases hq : d.ToolQuantity - 1 = 0
    · simp only [hq, if_true]
      refine ⟨fun kv hkv => hR kv (mem_mapRemove hkv), fun a => ?_⟩
      have h1 := toolsIds_mapRemove_some hd a
      have h2 := c1 a
      have h3 := c2 hq a
      omega
    · simp only [hq, if_false]
      refine ⟨?_, fun a => ?_⟩
      · intro kv hkv
        rcases mem_mapSet hkv with hkv | rfl
        · exact hR kv hkv
        · exact ⟨L, hL, c3 hq⟩
      · have h1 := toolsIds_mapSet_some hd
          { ToolQuantity := d.ToolQuantity - 1, Slots := slots1 } a
        have h2 := c1 a
        simp only at h1
        omega
  by_cases he : sel.ToolsInfo = []
  · rw [tryRemoveToolTail_of_empty he, removeSingleSwap_tool_empty sel pre post he hpre]
    have hperm : (pre ++ lastToFront post).Perm
        (if sel.ToolsInfo = [] then pre ++ post else pre ++ sel :: post) := by
      simp only [he, if_true]
      exact List.Perm.append_left _ (lastToFront_perm post)
    obtain ⟨k1, k2⟩ := key_fact _ hperm
    refine ⟨k1, rfl, rfl, rfl, ?_, by simp⟩
    intro a
    have := k2 a
    simp only [Bag.heldIds, List.count_append] at this ⊢
    omega
  · rw [tryRemoveToolTail_of_nonempty he]
    have hperm : (pre ++ sel :: post).Perm
        (if sel.ToolsInfo = [] then pre ++ post else pre ++ sel :: post) := by
      simp only [he, if_false]
      exact List.Perm.refl _
    obtain ⟨k1, k2⟩ := key_fact _ hperm
    refine ⟨k1, rfl, rfl, rfl, ?_, by simp⟩
    intro a
    have := k2 a
    simp only [Bag.heldIds, List.count_append] at this ⊢
    omega

theorem tryRemoveResource_inv {P : UBagProperties} {key : Nat} {remove_id removed : Int}
    {b b1 : Bag} (h : tryRemoveResource key remove_id b = .ok (true, removed, b1))
    (hR : ResourcesOk P b.Resources.Data) :
    ResourcesOk P b1.Resources.Data ∧ b1.Tools = b.Tools ∧
    b1.item_ids_pool = b.item_ids_pool ∧ b1.item_comp_to_id = b.item_comp_to_id ∧
    (∀ a, List.count a b1.heldIds + List.count a [removed] = List.count a b.heldIds) ∧
    b1.Resources.UsedSlots ≤ b.Resources.UsedSlots := by
  obtain ⟨_, d, front, last, ids, hd, _, hs, hlast, rfl⟩ := tryRemoveResource_true h
  apply tryRemoveResourceTail_inv hR hd hs
  · simp [hlast]
  · intro a
    simp only [hlast, List.count_append, List.count_cons, List.count_nil]
    omega

theorem tryRemoveTool_inv {P : UBagProperties} {key : Nat} {remove_id removed : Int}
    {b b1 : Bag} (h : tryRemoveTool key remove_id b = .ok (true, removed, b1))
    (hR : ToolsOk P b.Tools.Data) :
    ToolsOk P b1.Tools.Data ∧ b1.Resources = b.Resources ∧
    b1.item_ids_pool = b.item_ids_pool ∧ b1.item_comp_to_id = b.item_comp_to_id ∧
    (∀ a, List.count a b1.heldIds + List.count a [removed] = List.count a b.heldIds) ∧
    b1.Tools.UsedSlots ≤ b.Tools.UsedSlots := by
  obtain ⟨d, pre, s, sel, post, hd, _, hs, _, hcase, rfl⟩ := tryRemoveTool_true h
  obtain ⟨hlen, hcount⟩ := tryRemoveTool_true_count hcase
  exact tryRemoveToolTail_inv hR hd hs hlen hcount

theorem tryAddItem_false {P : UBagProperties} {data : UItemData} {id : Int}
    {comp : Option UItemComponent} {b b1 : Bag}
    (h : tryAddItem P data id comp b = .ok (false, b1)) : b1 = b := by
  unfold tryAddItem at h
  split at h
  · split at h
    · exact tryAddResource_false h
    · simp only [Except.ok.injEq, Prod.mk.injEq, true_and] at h
      exact h.symm
  · split at h
    · split at h
      · exact tryAddTool_false h
      · split at h
        · simp only [Except.ok.injEq, Prod.mk.injEq, true_and] at h
          exact h.symm
        · exact tryAddTool_false h
    · simp at h
  · simp only [Except.ok.injEq, Prod.mk.injEq, true_and] at h
    exact h.symm

theorem tryAddItem_inv {P : UBagProperties} {data : UItemData} {id : Int}
    {comp : Option UItemComponent} {b b1 : Bag}
    (h : tryAddItem P data id comp b = .ok (true, b1))
    (hR : ResourcesOk P b.Resources.Data) (hT : ToolsOk P b.Tools.Data) :
    ResourcesOk P b1.Resources.Data ∧ ToolsOk P b1.Tools.Data ∧
    b1.item_ids_pool = b.item_ids_pool ∧ b1.item_comp_to_id = b.item_comp_to_id ∧
    (∀ a, List.count a b1.heldIds = List.count a b.heldIds + List.count a [id]) ∧
    (b.Resources.UsedSlots ≤ max 0 P.MaxResourceSlots →
      b1.Resources.UsedSlots ≤ max 0 P.MaxResourceSlots) ∧
    (b.Tools.UsedSlots ≤ max 0 P.MaxResourceSlots →
      b1.Tools.UsedSlots ≤ max 0 P.MaxResourceSlots) := by
  have resource_case : ∀ key, tryAddResource P key id b = .ok (true, b1) →
      ResourcesOk P b1.Resources.Data ∧ ToolsOk P b1.Tools.Data ∧
      b1.item_ids_pool = b.item_ids_pool ∧ b1.item_comp_to_id = b.item_comp_to_id ∧
      (∀ a, List.count a b1.heldIds = List.count a b.heldIds + List.count a [id]) ∧
      (b.Resources.UsedSlots ≤ max 0 P.MaxResourceSlots →
        b1.Resources.UsedSlots ≤ max 0 P.MaxResourceSlots) ∧
      (b.Tools.UsedSlots ≤ max 0 P.MaxResourceSlots →
        b1.Tools.UsedSlots ≤ max 0 P.MaxResourceSlots) := by
    intro key hk
    obtain ⟨h1, h2, h3, h4, h5, h6⟩ := tryAddResource_inv hk hR
    exact ⟨h1, by rw [h2]; exact hT, h3, h4, h5, h6, by rw [h2]; exact fun hu => hu⟩
  have tool_case : ∀ key durability, tryAddTool P key id durability b = .ok (true, b1) →
      ResourcesOk P b1.Resources.Data ∧ ToolsOk P b1.Tools.Data ∧
      b1.item_ids_pool = b.item_ids_pool ∧ b1.item_comp_to_id = b.item_comp_to_id ∧
      (∀ a, List.count a b1.heldIds = List.count a b.heldIds + List.count a [id]) ∧
      (b.Resources.UsedSlots ≤ max 0 P.MaxResourceSlots →
        b1.Resources.UsedSlots ≤ max 0 P.MaxResourceSlots) ∧
      (b.Tools.UsedSlots ≤ max 0 P.MaxResourceSlots →
        b1.Tools.UsedSlots ≤ max 0 P.MaxResourceSlots) := by
    intro key durability hk
    obtain ⟨h1, h2, h3, h4, h5, h6⟩ := tryAddTool_inv hk hT
    exact ⟨by rw [h2]; exact hR, h1, h3, h4, h5, by rw [h2]; exact fun hu => hu, h6⟩
  unfold tryAddItem at h
  split at h
  · split at h
    · exact resource_case _ h
    · simp at h
  · split at h
    · split at h
      · exact tool_case _ _ h
      · split at h
        · simp at h
        · exact tool_case _ _ h
    · simp at h
  · simp at h

theorem tryRemoveItem_false {data : UItemData} {remove_id r : Int} {b b1 : Bag}
    (h : tryRemoveItem data remove_id b = .ok (false, r, b1)) : b1 = b := by
  unfold tryRemoveItem at h
  split at h
  · split at h
    · exact (tryRemoveResource_false h).1
    · simp only [Except.ok.injEq, Prod.mk.injEq, true_and] at h
      exact h.2.symm
  · split at h
    · exact (tryRemoveTool_false h).1
    · simp only [Except.ok.injEq, Prod.mk.injEq, true_and] at h
      exact h.2.symm
  · simp only [Except.ok.injEq, Prod.mk.injEq, true_and] at h
    exact h.2.symm

theorem tryRemoveItem_inv {P : UBagProperties} {data : UItemData} {remove_id removed : Int}
    {b b1 : Bag} (h : tryRemoveItem data remove_id b = .ok (true, removed, b1))
    (hR : ResourcesOk P b.Resources.Data) (hT : ToolsOk P b.Tools.Data) :
    ResourcesOk P b1.Resources.Data ∧ ToolsOk P b1.Tools.Data ∧
    b1.item_ids_pool = b.item_ids_pool ∧ b1.item_comp_to_id = b.item_comp_to_id ∧
    (∀ a, List.count a b1.heldIds + List.count a [removed] = List.count a b.heldIds) ∧
    b1.Resources.UsedSlots ≤ b.Resources.UsedSlots ∧
    b1.Tools.UsedSlots ≤ b.Tools.UsedSlots := by
  unfold tryRemoveItem at h
  split at h
  · split at h
    · obtain ⟨h1, h2, h3, h4, h5, h6⟩ := tryRemoveResource_inv h hR
      exact ⟨h1, by rw [h2]; exact hT, h3, h4, h5, h6, by rw [h2]⟩
    · simp at h
  · split at h
    · obtain ⟨h1, h2, h3, h4, h5, h6⟩ := tryRemoveTool_inv h hT
      exact ⟨by rw [h2]; exact hR, h1, h3, h4, h5, by rw [h2], h6⟩
    · simp at h
  · simp at h

/-! ## The public operations, case by case -/

theorem addItem_cases {P : UBagProperties} {d : Option UItemData} {b b1 : Bag}
    {r : FInventoryBagAddItemResult} (h : addItem P d b = .ok (r, b1)) :
    (r = { bAdded := false, AssignedId := -1 } ∧ b1 = b) ∨
    ∃ data pool id b0, d = some data ∧ b.item_ids_pool = pool ++ [id] ∧
      hasValidItemLimits P data = .ok true ∧
      tryAddItem P data id none { b with item_ids_pool := pool } = .ok (true, b0) ∧
      r = { bAdded := true, AssignedId := id } ∧
      b1 = { b0 with events := b0.events ++ [Event.BagUpdated] } := by
  unfold addItem at h
  split at h
  · simp only [Except.ok.injEq, Prod.mk.injEq] at h
    exact Or.inl ⟨h.1.symm, h.2.symm⟩
  · rename_i data
    split at h
    · split at h
      · simp at h
      · simp only [Except.ok.injEq, Prod.mk.injEq] at h
        exact Or.inl ⟨h.1.symm, h.2.symm⟩
      · rename_i hlim
        split at h
        · simp at h
        · rename_i t pool hctor
          have hpool : b.item_ids_pool = pool ++ [t.id] ∧ t.bCommitted = false := by
            unfold FScopedItemPoolIdTransaction.ctor at hctor
            split at hctor
            · simp at hctor
            · rename_i id rest hpop
              simp only [Option.some.injEq, Prod.mk.injEq] at hctor
              obtain ⟨rfl, rfl⟩ := hctor
              exact ⟨arrayPop_eq_some hpop, rfl⟩
          split at h
          · simp at h
          · rename_i b0 hadd
            have hb0 := tryAddItem_false hadd
            simp only [Except.ok.injEq, Prod.mk.injEq] at h
            refine Or.inl ⟨h.1.symm, ?_⟩
            rw [← h.2, hb0]
            simp [FScopedItemPoolIdTransaction.dtor, hpool.2, ← hpool.1]
          · rename_i b0 hadd
            simp only [Except.ok.injEq, Prod.mk.injEq] at h
            refine Or.inr ⟨data, pool, t.id, b0, rfl, hpool.1, hlim, hadd, h.1.symm, ?_⟩
            rw [← h.2]
            simp [FScopedItemPoolIdTransaction.dtor, FScopedItemPoolIdTransaction.commit]
    · simp only [Except.ok.injEq, Prod.mk.injEq] at h
      exact Or.inl ⟨h.1.symm, h.2.symm⟩

theorem addItemComponent_cases {P : UBagProperties} {c : Option UItemComponent} {b b1 : Bag}
    {r : FInventoryBagAddItemResult} (h : addItemComponent P c b = .ok (r, b1)) :
    (r = { bAdded := false, AssignedId := -1 } ∧ b1 = b) ∨
    ∃ comp data pool id b0, c = some comp ∧ comp.ItemData = some data ∧
      b.item_ids_pool = pool ++ [id] ∧
      hasValidItemLimits P data = .ok true ∧
      tryAddItem P data id (some comp) { b with item_ids_pool := pool } = .ok (true, b0) ∧
      r = { bAdded := true, AssignedId := id } ∧
      b1 = { b0 with
             item_comp_to_id := mapSet comp.ptr id b0.item_comp_to_id
             events := b0.events ++ [Event.BagUpdated] } := by
  unfold addItemComponent at h
  split at h
  · simp only [Except.ok.injEq, Prod.mk.injEq] at h
    exact Or.inl ⟨h.1.symm, h.2.symm⟩
  · rename_i comp
    split at h
    · simp only [Except.ok.injEq, Prod.mk.injEq] at h
      exact Or.inl ⟨h.1.symm, h.2.symm⟩
    · rename_i data hdata
      split at h
      · split at h
        · simp at h
        · simp only [Except.ok.injEq, Prod.mk.injEq] at h
          exact Or.inl ⟨h.1.symm, h.2.symm⟩
        · rename_i hlim
          split at h
          · simp at h
          · rename_i t pool hctor
            have hpool : b.item_ids_pool = pool ++ [t.id] ∧ t.bCommitted = false := by
              unfold FScopedItemPoolIdTransaction.ctor at hctor
              split at hctor
              · simp at hctor
              · rename_i id rest hpop
                simp only [Option.some.injEq, Prod.mk.injEq] at hctor
                obtain ⟨rfl, rfl⟩ := hctor
                exact ⟨arrayPop_eq_some hpop, rfl⟩
            split at h
            · simp at h
            · rename_i b0 hadd
              have hb0 := tryAddItem_false hadd
              simp only [Except.ok.injEq, Prod.mk.injEq] at h
              refine Or.inl ⟨h.1.symm, ?_⟩
              rw [← h.2, hb0]
              simp [FScopedItemPoolIdTransaction.dtor, hpool.2, ← hpool.1]
            · rename_i b0 hadd
              simp only [Except.ok.injEq, Prod.mk.injEq] at h
              refine Or.inr ⟨comp, data, pool, t.id, b0, rfl, hdata, hpool.1, hlim, hadd,
                h.1.symm, ?_⟩
              rw [← h.2]
              simp [FScopedItemPoolIdTransaction.dtor, FScopedItemPoolIdTransaction.commit]
      · simp only [Except.ok.injEq, Prod.mk.injEq] at h
        exact Or.inl ⟨h.1.symm, h.2.symm⟩

theorem removeItem_cases {d : Option UItemData} {spawn : Bool} {b b1 : Bag}
    {r : FInventoryBagRemoveItemResult} (h : removeItem d spawn b = .ok (r, b1)) :
    (r = { bRemoved := false, RemovedId := -1, SpawnedActor := none } ∧ b1 = b) ∨
    ∃ data removed b0, d = some data ∧
      tryRemoveItem data (-1) b = .ok (true, removed, b0) ∧
      r = { bRemoved := true, RemovedId := removed, SpawnedActor := dropSpawn data spawn } ∧
      b1 = { b0 with
             item_ids_pool := b0.item_ids_pool ++ [removed]
             item_comp_to_id :=
               match mapFindKey removed b0.item_comp_to_id with
               | none => b0.item_comp_to_id
               | some item_comp => mapRemove item_comp b0.item_comp_to_id
             events := b0.events ++ [Event.BagUpdated] } := by
  unfold removeItem at h
  split at h
  · simp only [Except.ok.injEq, Prod.mk.injEq] at h
    exact Or.inl ⟨h.1.symm, h.2.symm⟩
  · rename_i data
    split at h
    · simp at h
    · rename_i x b0 hrem
      have hb0 := tryRemoveItem_false hrem
      simp only [Except.ok.injEq, Prod.mk.injEq] at h
      exact Or.inl ⟨h.1.symm, by rw [← h.2, hb0]⟩
    · rename_i removed b0 hrem
      simp only [Except.ok.injEq, Prod.mk.injEq] at h
      exact Or.inr ⟨data, removed, b0, rfl, hrem, h.1.symm, h.2.symm⟩

theorem removeItemComponent_cases {c : Option UItemComponent} {spawn : Bool} {b b1 : Bag}
    {r : FInventoryBagRemoveItemResult} (h : removeItemComponent c spawn b = .ok (r, b1)) :
    (r = { bRemoved := false, RemovedId := -1, SpawnedActor := none } ∧ b1 = b) ∨
    ∃ comp data remove_id removed b0, c = some comp ∧ comp.ItemData = some data ∧
      mapFind comp.ptr b.item_comp_to_id = some remove_id ∧
      tryRemoveItem data remove_id b = .ok (true, removed, b0) ∧
      r = { bRemoved := true, RemovedId := removed, SpawnedActor := dropSpawn data spawn } ∧
      b1 = { b0 with
             item_ids_pool := b0.item_ids_pool ++ [removed]
             events := b0.events ++ [Event.BagUpdated] } := by
  unfold removeItemComponent at h
  split at h
  · simp only [Except.ok.injEq, Prod.mk.injEq] at h
    exact Or.inl ⟨h.1.symm, h.2.symm⟩
  · rename_i comp
    split at h
    · simp only [Except.ok.injEq, Prod.mk.injEq] at h
      exact Or.inl ⟨h.1.symm, h.2.symm⟩
    · rename_i data hdata
      split at h
      · simp only [Except.ok.injEq, Prod.mk.injEq] at h
        exact Or.inl ⟨h.1.symm, h.2.symm⟩
      · rename_i remove_id hfind
        split at h
        · simp at h
        · rename_i x b0 hrem
          have hb0 := tryRemoveItem_false hrem
          simp only [Except.ok.injEq, Prod.mk.injEq] at h
          exact Or.inl ⟨h.1.symm, by rw [← h.2, hb0]⟩
        · rename_i removed b0 hrem
          simp only [Except.ok.injEq, Prod.mk.injEq] at h
          exact Or.inr ⟨comp, data, remove_id, removed, b0, rfl, hdata, hfind, hrem,
            h.1.symm, h.2.symm⟩

theorem setDurabilityInSlot_some {tool_id durability : Int} {l l1 : List FBagToolInfo}
    (h : setDurabilityInSlot tool_id durability l = some l1) :
    l1.map FBagToolInfo.ToolId = l.map FBagToolInfo.ToolId := by
  induction l generalizing l1 with
  | nil => simp [setDurabilityInSlot] at h
  | cons t rest ih =>
    unfold setDurabilityInSlot at h
    split at h
    · simp only [Option.some.injEq] at h
      subst h
      simp
    · cases hr : setDurabilityInSlot tool_id durability rest with
      | none => simp [hr] at h
      | some rest1 =>
        simp only [hr, Option.some.injEq] at h
        subst h
        simp [ih hr]

theorem setDurabilityInSlots_some {tool_id durability : Int} {slots slots1 : List FBagToolSlot}
    {slot : FBagToolSlot} (h : setDurabilityInSlots tool_id durability slots = some (slot, slots1)) :
    toolSlotsIds slots1 = toolSlotsIds slots ∧
    slots1.map (fun x => x.ToolsInfo.length) = slots.map (fun x => x.ToolsInfo.length) := by
  induction slots generalizing slot slots1 with
  | nil => simp [setDurabilityInSlots] at h
  | cons x rest ih =>
    unfold setDurabilityInSlots at h
    split at h
    · rename_i infos hin
      simp only [Option.some.injEq, Prod.mk.injEq] at h
      obtain ⟨rfl, rfl⟩ := h
      have hmap := setDurabilityInSlot_some hin
      have hlen : infos.length = x.ToolsInfo.length := by
        simpa using congrArg List.length hmap
      simp [toolSlotsIds, hmap, hlen]
    · cases hr : setDurabilityInSlots tool_id durability rest with
      | none => simp [hr] at h
      | some pr =>
        obtain ⟨s2, rest2⟩ := pr
        simp only [hr, Option.some.injEq, Prod.mk.injEq] at h
        obtain ⟨rfl, rfl⟩ := h
        obtain ⟨h1, h2⟩ := ih hr
        simp [toolSlotsIds, h1, h2]

theorem updateToolDurability_cases {tool : Option UItemComponent} {durability : Int}
    {b b1 : Bag} {res : Bool} (h : updateToolDurability tool durability b = .ok (res, b1)) :
    (res = false ∧ b1 = b) ∨
    (res = true ∧ ∃ comp data tool_id tools_data slot slots,
      tool = some comp ∧ comp.ItemData = some data ∧
      mapFind comp.ptr b.item_comp_to_id = some tool_id ∧
      mapFind data.ptr b.Tools.Data = some tools_data ∧
      setDurabilityInSlots tool_id durability tools_data.Slots = some (slot, slots) ∧
      b1 = { b with
             Tools := { b.Tools with
               Data := mapSet data.ptr { tools_data with Slots := slots } b.Tools.Data }
             events := b.events ++ [Event.ToolSlotUpdated data.ptr slot.Id slot] }) := by
  unfold updateToolDurability at h
  split at h
  · simp only [Except.ok.injEq, Prod.mk.injEq] at h
    exact Or.inl ⟨h.1.symm, h.2.symm⟩
  · rename_i comp
    split at h
    · simp only [Except.ok.injEq, Prod.mk.injEq] at h
      exact Or.inl ⟨h.1.symm, h.2.symm⟩
    · rename_i data hdata
      split at h
      · simp only [Except.ok.injEq, Prod.mk.injEq] at h
        exact Or.inl ⟨h.1.symm, h.2.symm⟩
      · rename_i tool_id hfind
        split at h
        · split at h
          · simp at h
          · rename_i tools_data htd
            split at h
            · simp at h
            · rename_i slot slots hset
              simp only [Except.ok.injEq, Prod.mk.injEq] at h
              exact Or.inr ⟨h.1.symm, comp, data, tool_id, tools_data, slot, slots, rfl, hdata,
                hfind, htd, hset, h.2.symm⟩
        · simp at h

/-! ## The invariant holds in every reachable state -/

theorem idRange_count_pool (pool : List Int) (id a : Int) :
    List.count a (pool ++ [id]) = List.count a pool + List.count a [id] := by
  simp [List.count_append]

theorem addItem_inv {P : UBagProperties} {d : Option UItemData} {b b1 : Bag}
    {r : FInventoryBagAddItemResult} (hI : Inv P b) (h : addItem P d b = .ok (r, b1)) :
    Inv P b1 := by
  rcases addItem_cases h with ⟨_, rfl⟩ | ⟨data, pool, id, b0, _, hpool, _, hadd, _, rfl⟩
  · exact hI
  · obtain ⟨i1, i2, i3, i4, i5⟩ := hI
    obtain ⟨h1, h2, h3, _, h5, h6, h7⟩ := tryAddItem_inv hadd i1 i2
    refine ⟨h1, h2, ?_, h6 i4, h7 i5⟩
    intro a
    have e1 := i3 a
    have e2 := h5 a
    rw [hpool, idRange_count_pool] at e1
    simp only [Bag.heldIds] at e1 e2 ⊢
    simp only [h3]
    omega

theorem addItemComponent_inv {P : UBagProperties} {c : Option UItemComponent} {b b1 : Bag}
    {r : FInventoryBagAddItemResult} (hI : Inv P b) (h : addItemComponent P c b = .ok (r, b1)) :
    Inv P b1 := by
  rcases addItemComponent_cases h with
    ⟨_, rfl⟩ | ⟨comp, data, pool, id, b0, _, _, hpool, _, hadd, _, rfl⟩
  · exact hI
  · obtain ⟨i1, i2, i3, i4, i5⟩ := hI
    obtain ⟨h1, h2, h3, _, h5, h6, h7⟩ := tryAddItem_inv hadd i1 i2
    refine ⟨h1, h2, ?_, h6 i4, h7 i5⟩
    intro a
    have e1 := i3 a
    have e2 := h5 a
    rw [hpool, idRange_count_pool] at e1
    simp only [Bag.heldIds] at e1 e2 ⊢
    simp only [h3]
    omega

theorem removeItem_inv {P : UBagProperties} {d : Option UItemData} {spawn : Bool} {b b1 : Bag}
    {r : FInventoryBagRemoveItemResult} (hI : Inv P b) (h : removeItem d spawn b = .ok (r, b1)) :
    Inv P b1 := by
  rcases removeItem_cases h with ⟨_, rfl⟩ | ⟨data, removed, b0, _, hrem, _, rfl⟩
  · exact hI
  · obtain ⟨i1, i2, i3, i4, i5⟩ := hI
    obtain ⟨h1, h2, h3, _, h5, h6, h7⟩ := tryRemoveItem_inv hrem i1 i2
    refine ⟨h1, h2, ?_, le_trans h6 i4, le_trans h7 i5⟩
    intro a
    have e1 := i3 a
    have e2 := h5 a
    simp only [Bag.heldIds] at e1 e2 ⊢
    simp only [h3, idRange_count_pool]
    omega

theorem removeItemComponent_inv {P : UBagProperties} {c : Option UItemComponent} {spawn : Bool}
    {b b1 : Bag} {r : FInventoryBagRemoveItemResult} (hI : Inv P b)
    (h : removeItemComponent c spawn b = .ok (r, b1)) : Inv P b1 := by
  rcases removeItemComponent_cases h with
    ⟨_, rfl⟩ | ⟨comp, data, remove_id, removed, b0, _, _, _, hrem, _, rfl⟩
  · exact hI
  · obtain ⟨i1, i2, i3, i4, i5⟩ := hI
    obtain ⟨h1, h2, h3, _, h5, h6, h7⟩ := tryRemoveItem_inv hrem i1 i2
    refine ⟨h1, h2, ?_, le_trans h6 i4, le_trans h7 i5⟩
    intro a
    have e1 := i3 a
    have e2 := h5 a
    simp only [Bag.heldIds] at e1 e2 ⊢
    simp only [h3, idRange_count_pool]
    omega

theorem updateToolDurability_inv {P : UBagProperties} {tool : Option UItemComponent}
    {durability : Int} {b b1 : Bag} {res : Bool} (hI : Inv P b)
    (h : updateToolDurability tool durability b = .ok (res, b1)) : Inv P b1 := by
  rcases updateToolDurability_cases h with
    ⟨_, rfl⟩ | ⟨_, comp, data, tool_id, td, slot, slots, _, _, _, htd, hset, rfl⟩
  · exact hI
  · obtain ⟨i1, i2, i3, i4, i5⟩ := hI
    obtain ⟨s1, s2⟩ := setDurabilityInSlots_some hset
    refine ⟨i1, ?_, ?_, i4, i5⟩
    · intro kv hkv
      rcases mem_mapSet hkv with hkv | rfl
      · exact i2 kv hkv
      · obtain ⟨L, hL, hok⟩ := i2 (data.ptr, td) (mapFind_mem htd)
        replace hok : ToolBucketOk L td := hok
        refine ⟨L, hL, ⟨?_, ?_, hok.1.2.2⟩, ?_⟩
        · have := hok.1.1
          simp only [FBagToolsData.entryCount, s2] at this ⊢
          exact this
        · intro x hx
          have hx1 : x.ToolsInfo.length ∈ slots.map (fun x => x.ToolsInfo.length) :=
            List.mem_map.mpr ⟨x, hx, rfl⟩
          rw [s2] at hx1
          obtain ⟨y, hy, hlen⟩ := List.mem_map.mp hx1
          obtain ⟨y1, y2⟩ := hok.1.2.1 y hy
          refine ⟨?_, by rw [← hlen]; exact y2⟩
          intro he
          rw [he] at hlen
          exact y1 (List.length_eq_zero.mp hlen)
        · intro he
          simp only at he
          rw [he] at s2
          have := hok.2
          simp only [List.map_nil] at s2
          exact this (List.map_eq_nil_iff.mp s2.symm)
    · intro a
      have e1 := i3 a
      have e2 := toolsIds_mapSet_some htd { td with Slots := slots } a
      simp only [s1] at e2
      simp only [Bag.heldIds, List.count_append] at e1 ⊢
      omega

theorem idRange_nodup (n : Int) : (idRange n).Nodup := by
  unfold idRange
  exact (List.nodup_range _).map (fun a b h => by simpa using h)

theorem BeginPlay_inv {P : UBagProperties} {b : Bag} (h : BeginPlay P = .ok b) : Inv P b := by
  unfold BeginPlay at h
  split at h
  · simp only [Except.ok.injEq] at h
    subst h
    refine ⟨by simp [ResourcesOk], by simp [ToolsOk], ?_, ?_, ?_⟩
    · intro a
      simp [Bag.heldIds, resourcesIds, toolsIds]
    · exact le_max_left _ _
    · exact le_max_left _ _
  · simp at h

theorem step_inv {P : UBagProperties} {b b1 : Bag} {op : Op} (hI : Inv P b)
    (h : step P b op = .ok b1) : Inv P b1 := by
  cases op with
  | addItem d =>
    simp only [step] at h
    cases hr : addItem P d b with
    | error e => simp [hr, Except.map] at h
    | ok pr =>
      obtain ⟨r, b2⟩ := pr
      simp only [hr, Except.map, Except.ok.injEq] at h
      subst h
      exact addItem_inv hI hr
  | addItemComponent c =>
    simp only [step] at h
    cases hr : addItemComponent P c b with
    | error e => simp [hr, Except.map] at h
    | ok pr =>
      obtain ⟨r, b2⟩ := pr
      simp only [hr, Except.map, Except.ok.injEq] at h
      subst h
      exact addItemComponent_inv hI hr
  | removeItem d spawn =>
    simp only [step] at h
    cases hr : removeItem d spawn b with
    | error e => simp [hr, Except.map] at h
    | ok pr =>
      obtain ⟨r, b2⟩ := pr
      simp only [hr, Except.map, Except.ok.injEq] at h
      subst h
      exact removeItem_inv hI hr
  | removeItemComponent c spawn =>
    simp only [step] at h
    cases hr : removeItemComponent c spawn b with
    | error e => simp [hr, Except.map] at h
    | ok pr =>
      obtain ⟨r, b2⟩ := pr
      simp only [hr, Except.map, Except.ok.injEq] at h
      subst h
      exact removeItemComponent_inv hI hr
  | updateToolDurability tool durability =>
    simp only [step] at h
    cases hr : updateToolDurability tool durability b with
    | error e => simp [hr, Except.map] at h
    | ok pr =>
      obtain ⟨r, b2⟩ := pr
      simp only [hr, Except.map, Except.ok.injEq] at h
      subst h
      exact updateToolDurability_inv hI hr

theorem reachable_inv {P : UBagProperties} {b : Bag} (h : Reachable P b) : Inv P b := by
  induction h with
  | init b hb => exact BeginPlay_inv hb
  | step b b1 op _ hstep ih => exact step_inv ih hstep

theorem runFrom_reachable {P : UBagProperties} {ops : List Op} {b b1 : Bag}
    (hb : Reachable P b) (h : runFrom P b ops = .ok b1) : Reachable P b1 := by
  induction ops generalizing b with
  | nil =>
    simp only [runFrom, Except.ok.injEq] at h
    subst h
    exact hb
  | cons op rest ih =>
    simp only [runFrom] at h
    cases hs : step P b op with
    | error e => simp [hs] at h
    | ok b2 =>
      simp only [hs] at h
      exact ih (Reachable.step b b2 op hb hs) h

theorem run_reachable {P : UBagProperties} {ops : List Op} {b : Bag}
    (h : run P ops = .ok b) : Reachable P b := by
  unfold run at h
  cases hb : BeginPlay P with
  | error e => simp [hb] at h
  | ok b0 =>
    simp only [hb] at h
    exact runFrom_reachable (Reachable.init b0 hb) h

theorem demoBag_reachable : Reachable demoProperties demoBag :=
  run_reachable (show run demoProperties demoOps = .ok demoBag from by decide)

/-! ## Invariants of the reachable states -/

/-- C1: in every bag state reachable from the initialised bag by `addItem`,
`addItemComponent`, `removeItem`, `removeItemComponent` and
`updateToolDurability` calls, every bucket of `Resources.Data` and of
`Tools.Data` has its quantity equal to the sum of the entry counts of its
slots. -/
theorem C1_quantity_is_sum_of_slot_counts (P : UBagProperties) (b : Bag)
    (h : Reachable P b) :
    (∀ kv ∈ b.Resources.Data,
      kv.2.ResourceQuantity
        = ((kv.2.Slots.map (fun slot => slot.ResourceIds.length)).sum : Nat)) ∧
    (∀ kv ∈ b.Tools.Data,
      kv.2.ToolQuantity = ((kv.2.Slots.map (fun slot => slot.ToolsInfo.length)).sum : Nat)) := by
  obtain ⟨hR, hT, _⟩ := reachable_inv h
  constructor
  · intro kv hkv
    obtain ⟨L, _, hok⟩ := hR kv hkv
    exact hok.1.1
  · intro kv hkv
    obtain ⟨L, _, hok⟩ := hT kv hkv
    exact hok.1.1

/-- Witness of C1: the bag holding three resources and one tool. -/
theorem C1_witness :
    Reachable demoProperties demoBag ∧
    ((∀ kv ∈ demoBag.Resources.Data,
      kv.2.ResourceQuantity
        = ((kv.2.Slots.map (fun slot => slot.ResourceIds.length)).sum : Nat)) ∧
     (∀ kv ∈ demoBag.Tools.Data,
      kv.2.ToolQuantity
        = ((kv.2.Slots.map (fun slot => slot.ToolsInfo.length)).sum : Nat))) :=
  ⟨demoBag_reachable,
   C1_quantity_is_sum_of_slot_counts demoProperties demoBag demoBag_reachable⟩

/-- C2: for a fixed limit policy `P.Limits`, in every reachable bag state the type of
every bucket has a loaded limit `L`, no slot of the bucket holds more than
`L.MaxStackSize` entries and the bucket's quantity is at most `L.MaxQuantity`.
No positivity of the limits has to be assumed: `tryAddResource` and `tryAddTool`
assert it before they insert. -/
theorem C2_stack_and_quantity_limits (P : UBagProperties) (b : Bag) (h : Reachable P b) :
    (∀ kv ∈ b.Resources.Data, ∃ L, mapFind kv.1 P.Limits = some (some L) ∧
      (∀ slot ∈ kv.2.Slots, (slot.ResourceIds.length : Int) ≤ L.MaxStackSize) ∧
      kv.2.ResourceQuantity ≤ L.MaxQuantity) ∧
    (∀ kv ∈ b.Tools.Data, ∃ L, mapFind kv.1 P.Limits = some (some L) ∧
      (∀ slot ∈ kv.2.Slots, (slot.ToolsInfo.length : Int) ≤ L.MaxStackSize) ∧
      kv.2.ToolQuantity ≤ L.MaxQuantity) := by
  obtain ⟨hR, hT, _⟩ := reachable_inv h
  constructor
  · intro kv hkv
    obtain ⟨L, hL, hok⟩ := hR kv hkv
    exact ⟨L, hL, fun slot hs => (hok.1.2.1 slot hs).2, hok.1.2.2⟩
  · intro kv hkv
    obtain ⟨L, hL, hok⟩ := hT kv hkv
    exact ⟨L, hL, fun slot hs => (hok.1.2.1 slot hs).2, hok.1.2.2⟩

/-- Witness of C2: the bag holding three resources (slots of 2 and 1, stack size 2) and
one tool. -/
theorem C2_witness :
    Reachable demoProperties demoBag ∧
    ((∀ kv ∈ demoBag.Resources.Data, ∃ L, mapFind kv.1 demoProperties.Limits = some (some L) ∧
      (∀ slot ∈ kv.2.Slots, (slot.ResourceIds.length : Int) ≤ L.MaxStackSize) ∧
      kv.2.ResourceQuantity ≤ L.MaxQuantity) ∧
     (∀ kv ∈ demoBag.Tools.Data, ∃ L, mapFind kv.1 demoProperties.Limits = some (some L) ∧
      (∀ slot ∈ kv.2.Slots, (slot.ToolsInfo.length : Int) ≤ L.MaxStackSize) ∧
      kv.2.ToolQuantity ≤ L.MaxQuantity)) :=
  ⟨demoBag_reachable, C2_stack_and_quantity_limits demoProperties demoBag demoBag_reachable⟩

/-- C3, as stated, fails: with `MaxResourceSlots = -1` (and `MaxToolsSlots = 1`, so that
the slot id pool has size 0) the bag right after `BeginPlay` is reachable and
has `Resources.UsedSlots = 0 > MaxResourceSlots`. -/
theorem C3_counterexample :
    Reachable negativeCeilingProperties negativeCeilingBag ∧
    ¬ (negativeCeilingBag.Resources.UsedSlots ≤ negativeCeilingProperties.MaxResourceSlots) :=
  ⟨Reachable.init _ (by decide), by decide⟩

/-- C3, amended: when `MaxResourceSlots` is not negative, `Resources.UsedSlots` is at
most `MaxResourceSlots` in every reachable bag state. -/
theorem C3_resource_slots_within_ceiling (P : UBagProperties) (b : Bag)
    (hP : 0 ≤ P.MaxResourceSlots) (h : Reachable P b) :
    b.Resources.UsedSlots ≤ P.MaxResourceSlots := by
  obtain ⟨_, _, _, hU, _⟩ := reachable_inv h
  rwa [max_eq_right hP] at hU

/-- Witness of the amended C3: the bag holding three resources in two slots, ceiling 3. -/
theorem C3_witness :
    0 ≤ demoProperties.MaxResourceSlots ∧ Reachable demoProperties demoBag ∧
    demoBag.Resources.UsedSlots ≤ demoProperties.MaxResourceSlots :=
  ⟨by decide, demoBag_reachable,
   C3_resource_slots_within_ceiling demoProperties demoBag (by decide) demoBag_reachable⟩

/-- C4 fails on the code: `tryAddTool` tests `Tools.UsedSlots` against
`MaxResourceSlots`.  With `MaxToolsSlots = 1`, `MaxResourceSlots = 2` and a tool
type stacked one per slot, two `addItem` calls reach a bag with
`Tools.UsedSlots = 2`, above `MaxToolsSlots`. -/
theorem C4_tool_slots_exceed_tool_ceiling :
    run toolCeilingProperties [Op.addItem (some demoTool), Op.addItem (some demoTool)]
      = .ok toolCeilingBag ∧
    Reachable toolCeilingProperties toolCeilingBag ∧
    toolCeilingProperties.MaxToolsSlots < toolCeilingBag.Tools.UsedSlots :=
  ⟨by decide, run_reachable (show run toolCeilingProperties
      [Op.addItem (some demoTool), Op.addItem (some demoTool)] = .ok toolCeilingBag
      from by decide), by decide⟩

/-- C6: in every reachable bag state the free ids of `item_ids_pool` followed by the
instance ids stored in all resource and tool slots are a rearrangement of
`0, 1, ..., MaxItemId-1` without repetition: no id is held twice and no held id
is free. -/
theorem C6_ids_partition (P : UBagProperties) (b : Bag) (h : Reachable P b) :
    (b.item_ids_pool ++ b.heldIds).Perm (idRange P.MaxItemId) ∧
    (b.item_ids_pool ++ b.heldIds).Nodup := by
  obtain ⟨_, _, hids, _⟩ := reachable_inv h
  have hperm : (b.item_ids_pool ++ b.heldIds).Perm (idRange P.MaxItemId) := by
    rw [List.perm_iff_count]
    intro a
    rw [List.count_append]
    exact hids a
  exact ⟨hperm, hperm.nodup_iff.mpr (idRange_nodup _)⟩

/-- Witness of C6: free ids `0, 1` and held ids `5, 4, 3, 2` out of `0 .. 5`. -/
theorem C6_witness :
    Reachable demoProperties demoBag ∧
    ((demoBag.item_ids_pool ++ demoBag.heldIds).Perm (idRange demoProperties.MaxItemId) ∧
     (demoBag.item_ids_pool ++ demoBag.heldIds).Nodup) :=
  ⟨demoBag_reachable, C6_ids_partition demoProperties demoBag demoBag_reachable⟩

/-! ## Adding: failure and success -/

/-- C7: when `addItem` or `addItemComponent` returns `bAdded = false`, for whatever
reason, the bag after the call is the bag before it: `item_ids_pool` is the same
sequence and `Resources`, `Tools`, both `UsedSlots`, `slot_ids_pool` and the
component-to-id map (and the broadcast log) are untouched. -/
theorem C7_failed_add_changes_nothing (P : UBagProperties) (d : Option UItemData)
    (c : Option UItemComponent) (b b1 : Bag) (r : FInventoryBagAddItemResult)
    (h : addItem P d b = .ok (r, b1) ∨ addItemComponent P c b = .ok (r, b1))
    (hr : r.bAdded = false) : b1 = b := by
  rcases h with h | h
  · rcases addItem_cases h with ⟨_, hb⟩ | ⟨_, _, _, _, _, _, _, _, hr1, _⟩
    · exact hb
    · rw [hr1] at hr
      simp at hr
  · rcases addItemComponent_cases h with ⟨_, hb⟩ | ⟨_, _, _, _, _, _, _, _, _, _, hr1, _⟩
    · exact hb
    · rw [hr1] at hr
      simp at hr

/-- Witness of C7: in the bag with two full tool slots and slot ceiling 2, `addItem` and
`addItemComponent` of a third tool take an id, fail on the slot ceiling, and
leave the bag as it was. -/
theorem C7_witness :
    (addItem toolCeilingProperties (some demoTool) toolCeilingBag
        = .ok ({ bAdded := false, AssignedId := -1 }, toolCeilingBag) ∧
      toolCeilingBag = toolCeilingBag) ∧
    (addItemComponent toolCeilingProperties (some demoToolComponent) toolCeilingBag
        = .ok ({ bAdded := false, AssignedId := -1 }, toolCeilingBag) ∧
      toolCeilingBag = toolCeilingBag) :=
  ⟨⟨by decide,
    C7_failed_add_changes_nothing toolCeilingProperties (some demoTool) none toolCeilingBag
      toolCeilingBag { bAdded := false, AssignedId := -1 } (Or.inl (by decide)) rfl⟩,
   ⟨by decide,
    C7_failed_add_changes_nothing toolCeilingProperties none (some demoToolComponent)
      toolCeilingBag toolCeilingBag { bAdded := false, AssignedId := -1 }
      (Or.inr (by decide)) rfl⟩⟩

/-- C8: `addItem` returns `{bAdded = false, AssignedId = -1}` (and leaves the bag as it
is) whenever the item data is invalid, or `item_ids_pool` is empty, or the type
has no entry in `BagProperties.Limits`, or its limit has `MaxQuantity <= 0`;
this holds in every bag state `b`. -/
theorem C8_addItem_rejects (P : UBagProperties) (d : Option UItemData) (b : Bag)
    (h : d = none ∨ b.item_ids_pool = [] ∨
      ∃ data, d = some data ∧
        (mapFind data.ptr P.Limits = none ∨
         ∃ L, mapFind data.ptr P.Limits = some (some L) ∧ L.MaxQuantity ≤ 0)) :
    addItem P d b = .ok ({ bAdded := false, AssignedId := -1 }, b) := by
  rcases h with rfl | h | ⟨data, rfl, h⟩
  · simp [addItem]
  · cases d with
    | none => simp [addItem]
    | some data => simp [addItem, hasAvailableIds, h]
  · by_cases hp : hasAvailableIds b = true
    · rcases h with h | ⟨L, hL, hq⟩
      · simp [addItem, hp, hasValidItemLimits, h]
      · simp [addItem, hp, hasValidItemLimits, hL, hq]
    · simp [addItem, hp]

/-- Witness of C8: a limit with `MaxQuantity = 0` rejects the add in the fresh bag, with
six free ids and six free slot ids. -/
theorem C8_witness :
    (∃ L, mapFind demoResource.ptr zeroQuantityProperties.Limits = some (some L) ∧
      L.MaxQuantity ≤ 0) ∧
    BeginPlay zeroQuantityProperties = .ok zeroQuantityBag ∧
    addItem zeroQuantityProperties (some demoResource) zeroQuantityBag
      = .ok ({ bAdded := false, AssignedId := -1 }, zeroQuantityBag) :=
  ⟨⟨{ MaxStackSize := 2, MaxQuantity := 0 }, by decide, by decide⟩, by decide,
   C8_addItem_rejects zeroQuantityProperties (some demoResource) zeroQuantityBag
     (Or.inr (Or.inr ⟨demoResource, rfl,
       Or.inr ⟨{ MaxStackSize := 2, MaxQuantity := 0 }, by decide, by decide⟩⟩))⟩

theorem firstSuccessfulAdd_top {P : UBagProperties} {ds : List (Option UItemData)} {b : Bag}
    (pool : List Int) {top i : Int} (hpool : b.item_ids_pool = pool ++ [top])
    (h : firstSuccessfulAdd P ds b = .ok (some i)) : i = top := by
  induction ds generalizing b with
  | nil => simp [firstSuccessfulAdd] at h
  | cons d rest ih =>
    unfold firstSuccessfulAdd at h
    split at h
    · simp at h
    · rename_i r b1 hadd
      rcases addItem_cases hadd with ⟨hr, hb⟩ | ⟨_, pool1, id, _, _, hpool1, _, _, hr, _⟩
      · subst hb
        simp only [hr, Bool.false_eq_true, if_false] at h
        exact ih hpool h
      · simp only [hr, if_true, Except.ok.injEq, Option.some.injEq] at h
        rw [hpool] at hpool1
        have := List.append_inj_right' hpool1 (by simp)
        simp only [List.cons.injEq, and_true] at this
        omega

/-- C10: after a successful `removeItem` or `removeItemComponent` that returned
`RemovedId = r`, the next successful `addItem` (of any item type, after any
number of failed `addItem` calls) is assigned the id `r`. -/
theorem C10_removed_id_is_reused (P : UBagProperties) (d : Option UItemData)
    (c : Option UItemComponent) (spawn : Bool) (b b1 : Bag)
    (r : FInventoryBagRemoveItemResult) (ds : List (Option UItemData)) (i : Int)
    (h : removeItem d spawn b = .ok (r, b1) ∨ removeItemComponent c spawn b = .ok (r, b1))
    (hr : r.bRemoved = true) (hadd : firstSuccessfulAdd P ds b1 = .ok (some i)) :
    i = r.RemovedId := by
  rcases h with h | h
  · rcases removeItem_cases h with ⟨hr1, _⟩ | ⟨_, removed, b0, _, _, hr1, hb⟩
    · rw [hr1] at hr
      simp at hr
    · rw [hr1]
      exact firstSuccessfulAdd_top b0.item_ids_pool (by rw [hb]) hadd
  · rcases removeItemComponent_cases h with
      ⟨hr1, _⟩ | ⟨_, _, _, removed, b0, _, _, _, _, hr1, hb⟩
    · rw [hr1] at hr
      simp at hr
    · rw [hr1]
      exact firstSuccessfulAdd_top b0.item_ids_pool (by rw [hb]) hadd

/-- Witness of C10: `removeItem(demoResource)` returns id 3; an `addItem` with invalid
data fails, and the following `addItem(demoTool)` is assigned id 3. -/
theorem C10_witness :
    removeItem (some demoResource) true demoBag
      = .ok ({ bRemoved := true, RemovedId := 3, SpawnedActor := none }, demoBagAfterRemove) ∧
    firstSuccessfulAdd demoProperties [none, some demoTool] demoBagAfterRemove = .ok (some 3) ∧
    (3 : Int) = ({ bRemoved := true, RemovedId := 3, SpawnedActor := none }
      : FInventoryBagRemoveItemResult).RemovedId :=
  ⟨by decide, by decide,
   C10_removed_id_is_reused demoProperties (some demoResource) none true demoBag
     demoBagAfterRemove { bRemoved := true, RemovedId := 3, SpawnedActor := none }
     [none, some demoTool] 3 (Or.inl (by decide)) rfl (by decide)⟩

theorem mapFind_mapSet_self {β : Type} (k : Nat) (v : β) (m : List (Nat × β)) :
    mapFind k (mapSet k v m) = some v := by
  induction m with
  | nil => simp [mapSet, mapFind]
  | cons kv rest ih =>
    obtain ⟨k1, v1⟩ := kv
    by_cases hk : k1 = k
    · simp [mapSet, mapFind, hk]
    · simp [mapSet, mapFind, hk, ih]

theorem resourcesIds_count_le {k : Nat} {d : FBagResourcesData}
    {m : List (Nat × FBagResourcesData)} (h : mapFind k m = some d) (a : Int) :
    List.count a (resourceSlotsIds d.Slots) ≤ List.count a (resourcesIds m) := by
  obtain ⟨pre, post, hm, _⟩ := mapFind_some_split h
  subst hm
  simp only [resourcesIds_append, resourcesIds, List.count_append]
  omega

theorem toolsIds_count_le {k : Nat} {d : FBagToolsData}
    {m : List (Nat × FBagToolsData)} (h : mapFind k m = some d) (a : Int) :
    List.count a (toolSlotsIds d.Slots) ≤ List.count a (toolsIds m) := by
  obtain ⟨pre, post, hm, _⟩ := mapFind_some_split h
  subst hm
  simp only [toolsIds_append, toolsIds, List.count_append]
  omega

theorem resourceSlots_sum_count (a : Int) (slots : List FBagResourceSlot) :
    ((slots.map (fun slot => slot.ResourceIds)).map (List.count a)).sum
      = List.count a (resourceSlotsIds slots) := by
  induction slots with
  | nil => simp [resourceSlotsIds]
  | cons x rest ih =>
    simp only [List.map_cons, List.sum_cons, resourceSlotsIds, List.count_append, ih]

theorem toolSlots_sum_count (a : Int) (slots : List FBagToolSlot) :
    ((slots.map (fun slot => slot.ToolsInfo.map FBagToolInfo.ToolId)).map (List.count a)).sum
      = List.count a (toolSlotsIds slots) := by
  induction slots with
  | nil => simp [toolSlotsIds]
  | cons x rest ih =>
    simp only [List.map_cons, List.sum_cons, toolSlotsIds, List.count_append, ih]

theorem countP_mem_of_sum_count_zero (a : Int) (l : List (List Int))
    (h : (l.map (List.count a)).sum = 0) :
    List.countP (fun ids => decide (a ∈ ids)) l = 0 := by
  induction l with
  | nil => simp
  | cons x rest ih =>
    simp only [List.map_cons, List.sum_cons] at h
    have hx : List.count a x = 0 := by omega
    have hr : (rest.map (List.count a)).sum = 0 := by omega
    have hmem : a ∉ x := List.count_eq_zero.mp hx
    simp [List.countP_cons, hmem, ih hr]

theorem countP_mem_of_sum_count_one (a : Int) (l : List (List Int))
    (h : (l.map (List.count a)).sum = 1) :
    List.countP (fun ids => decide (a ∈ ids)) l = 1 := by
  induction l with
  | nil => simp at h
  | cons x rest ih =>
    simp only [List.map_cons, List.sum_cons] at h
    by_cases hx : List.count a x = 0
    · have hmem : a ∉ x := List.count_eq_zero.mp hx
      have hr : (rest.map (List.count a)).sum = 1 := by omega
      simp [List.countP_cons, hmem, ih hr]
    · have hr : (rest.map (List.count a)).sum = 0 := by omega
      have hmem : a ∈ x := by
        by_contra hn
        exact hx (List.count_eq_zero.mpr hn)
      simp [List.countP_cons, hmem, countP_mem_of_sum_count_zero a rest hr]

theorem tryAddItem_true_cases {P : UBagProperties} {data : UItemData} {id : Int}
    {comp : Option UItemComponent} {b b1 : Bag}
    (h : tryAddItem P data id comp b = .ok (true, b1)) :
    (data.Category = EItemCategory.Resource ∧ data.cls = DataClass.ResourceData ∧
      tryAddResource P data.ptr id b = .ok (true, b1)) ∨
    (data.Category = EItemCategory.Tool ∧ ∃ MaxDurability durability,
      data.cls = DataClass.ToolData MaxDurability ∧
      tryAddTool P data.ptr id durability b = .ok (true, b1) ∧
      (comp = none → durability = MaxDurability) ∧
      (∀ component, comp = some component → component.Durability = some durability)) := by
  unfold tryAddItem at h
  split at h
  · rename_i hcat
    split at h
    · rename_i hcls
      exact Or.inl ⟨hcat, hcls, h⟩
    · simp at h
  · rename_i hcat
    split at h
    · rename_i md hcls
      split at h
      · exact Or.inr ⟨hcat, md, md, hcls, h, fun _ => rfl, fun _ hc => by simp at hc⟩
      · rename_i component
        split at h
        · simp at h
        · rename_i durability hdur
          refine Or.inr ⟨hcat, md, durability, hcls, h, fun hc => by simp at hc, ?_⟩
          intro c1 hc1
          simp only [Option.some.injEq] at hc1
          subst hc1
          exact hdur
    · simp at h
  · simp at h

theorem count_top_held_zero {P : UBagProperties} {b : Bag} {pool : List Int} {id : Int}
    (hI : Inv P b) (hpool : b.item_ids_pool = pool ++ [id]) :
    List.count id b.heldIds = 0 := by
  obtain ⟨_, _, hids, _⟩ := hI
  have h1 := hids id
  have h2 : List.count id (idRange P.MaxItemId) ≤ 1 :=
    List.nodup_iff_count_le_one.mp (idRange_nodup _) id
  rw [hpool] at h1
  simp only [List.count_append, List.count_cons_self, List.count_nil] at h1
  omega

/-- C9: when `addItem` succeeds in a reachable bag state, `AssignedId` is the last
element of `item_ids_pool` before the call, the pool afterwards is the previous
pool without that last element, the assigned id occurs exactly once among the
entries of the slots of the added type, hence in exactly one slot, and the
quantity of the type has grown by exactly 1. -/
theorem C9_successful_add (P : UBagProperties) (data : UItemData) (b b1 : Bag)
    (r : FInventoryBagAddItemResult) (hb : Reachable P b)
    (h : addItem P (some data) b = .ok (r, b1)) (hr : r.bAdded = true) :
    b.item_ids_pool.getLast? = some r.AssignedId ∧
    b1.item_ids_pool = b.item_ids_pool.dropLast ∧
    ((bucketSlotIds data b1).map (List.count r.AssignedId)).sum = 1 ∧
    List.countP (fun ids => decide (r.AssignedId ∈ ids)) (bucketSlotIds data b1) = 1 ∧
    getItemQuantity (some data) b1 = getItemQuantity (some data) b + 1 := by
  have hI := reachable_inv hb
  rcases addItem_cases h with ⟨hr1, _⟩ | ⟨data1, pool, id, b0, hd, hpool, _, hadd, hr1, hb1⟩
  · rw [hr1] at hr
    simp at hr
  · simp only [Option.some.injEq] at hd
    subst hd
    have hheld := count_top_held_zero hI hpool
    simp only [Bag.heldIds, List.count_append] at hheld
    have key : b0.item_ids_pool = pool ∧
        ((bucketSlotIds data b0).map (List.count id)).sum = 1 ∧
        getItemQuantity (some data) b0 = getItemQuantity (some data) b + 1 := by
      rcases tryAddItem_true_cases hadd with ⟨hcat, hcls, hres⟩ | ⟨hcat, md, dur, hcls, htool, _⟩
      · obtain ⟨L, d, d1, hL, hQ, hS, hfind, heff⟩ := tryAddResource_true hres
        have hpre : ResourceBucketPre L d := by
          rcases hfind with hfind | ⟨_, rfl⟩
          · obtain ⟨L1, hL1, hok⟩ := hI.1 (data.ptr, d) (mapFind_mem hfind)
            simp only [hL, Option.some.injEq] at hL1
            subst hL1
            exact hok.1
          · exact resourceBucketPre_empty L hQ
        obtain ⟨_, hcnt⟩ := resourceAdd_bucket heff hpre hS
        obtain ⟨_, _, hp, _, hq1, hdata, _⟩ := heff
        have hf1 : mapFind data.ptr b0.Resources.Data = some d1 := by
          rw [hdata]
          exact mapFind_mapSet_self _ _ _
        have hd0 : List.count id (resourceSlotsIds d.Slots) = 0 := by
          rcases hfind with hfind | ⟨_, rfl⟩
          · have := resourcesIds_count_le hfind id
            simp only at this
            omega
          · simp [resourceSlotsIds]
        refine ⟨hp, ?_, ?_⟩
        · simp only [bucketSlotIds, hcat, hcls, hf1, resourceSlots_sum_count]
          have := hcnt id
          simp only [List.count_cons_self, List.count_nil] at this
          omega
        · simp only [getItemQuantity, hcat, hcls, hf1]
          rcases hfind with hfind | ⟨hfind, rfl⟩
          · simp only at hfind
            simp only [hfind, hq1]
          · simp only at hfind
            simp only [hfind, hq1]
      · obtain ⟨L, d, d1, hL, hQ, hS, hfind, heff⟩ := tryAddTool_true htool
        have hpre : ToolBucketPre L d := by
          rcases hfind with hfind | ⟨_, rfl⟩
          · obtain ⟨L1, hL1, hok⟩ := hI.2.1 (data.ptr, d) (mapFind_mem hfind)
            simp only [hL, Option.some.injEq] at hL1
            subst hL1
            exact hok.1
          · exact toolBucketPre_empty L hQ
        obtain ⟨_, hcnt⟩ := toolAdd_bucket heff hpre hS
        obtain ⟨_, _, hp, _, hq1, hdata, _⟩ := heff
        have hf1 : mapFind data.ptr b0.Tools.Data = some d1 := by
          rw [hdata]
          exact mapFind_mapSet_self _ _ _
        have hd0 : List.count id (toolSlotsIds d.Slots) = 0 := by
          rcases hfind with hfind | ⟨_, rfl⟩
          · have := toolsIds_count_le hfind id
            simp only at this
            omega
          · simp [toolSlotsIds]
        refine ⟨hp, ?_, ?_⟩
        · simp only [bucketSlotIds, hcat, hcls, hf1, toolSlots_sum_count]
          have := hcnt id
          simp only [List.count_cons_self, List.count_nil] at this
          omega
        · simp only [getItemQuantity, hcat, hcls, hf1]
          rcases hfind with hfind | ⟨hfind, rfl⟩
          · simp only at hfind
            simp only [hfind, hq1]
          · simp only at hfind
            simp only [hfind, hq1]
    obtain ⟨k1, k2, k3⟩ := key
    have e1 : bucketSlotIds data b1 = bucketSlotIds data b0 := by
      rw [hb1]
      rfl
    have e2 : getItemQuantity (some data) b1 = getItemQuantity (some data) b0 := by
      rw [hb1]
      rfl
    have e3 : b1.item_ids_pool = b0.item_ids_pool := by
      rw [hb1]
    rw [hr1]
    refine ⟨by simp [hpool], by simp [e3, k1, hpool], ?_, ?_, by rw [e2, k3]⟩
    · rw [e1]
      exact k2
    · rw [e1]
      exact countP_mem_of_sum_count_one _ _ k2

/-- Witness of C9: in the bag holding three resources and one tool, with free ids
`[0, 1]`, `addItem(demoResource)` succeeds with id 1. -/
theorem C9_witness :
    Reachable demoProperties demoBag ∧
    addItem demoProperties (some demoResource) demoBag
      = .ok ({ bAdded := true, AssignedId := 1 }, demoBagAfterAdd) ∧
    (demoBag.item_ids_pool.getLast? = some 1 ∧
     demoBagAfterAdd.item_ids_pool = demoBag.item_ids_pool.dropLast ∧
     ((bucketSlotIds demoResource demoBagAfterAdd).map (List.count 1)).sum = 1 ∧
     List.countP (fun ids => decide ((1 : Int) ∈ ids))
       (bucketSlotIds demoResource demoBagAfterAdd) = 1 ∧
     getItemQuantity (some demoResource) demoBagAfterAdd
       = getItemQuantity (some demoResource) demoBag + 1) :=
  ⟨demoBag_reachable, by decide,
   C9_successful_add demoProperties demoResource demoBag demoBagAfterAdd
     { bAdded := true, AssignedId := 1 } demoBag_reachable (by decide) rfl⟩

/-! ## Adding and then removing the last item -/

theorem mapSet_mapSet {β : Type} (k : Nat) (v w : β) (m : List (Nat × β)) :
    mapSet k w (mapSet k v m) = mapSet k w m := by
  induction m with
  | nil => simp [mapSet]
  | cons kv rest ih =>
    obtain ⟨k1, v1⟩ := kv
    by_cases hk : k1 = k
    · simp [mapSet, hk]
    · simp [mapSet, hk, ih]

theorem mapSet_self {β : Type} {k : Nat} {v : β} {m : List (Nat × β)}
    (h : mapFind k m = some v) : mapSet k v m = m := by
  obtain ⟨pre, post, hm, hpre⟩ := mapFind_some_split h
  subst hm
  exact mapSet_split k v v pre post hpre

theorem mapRemove_mapSet_of_none {β : Type} {k : Nat} (v : β) {m : List (Nat × β)}
    (h : mapFind k m = none) : mapRemove k (mapSet k v m) = m := by
  have hk := mapFind_none_keys h
  rw [mapSet_of_not_mem k v m hk, mapRemove_split k v m [] hk]
  simp

theorem mem_dropLast_of_split {σ : Type} (pre post : List σ) (s : σ) (h : post ≠ []) :
    s ∈ (pre ++ s :: post).dropLast := by
  rw [List.dropLast_append_cons, List.dropLast_cons_of_ne_nil h]
  simp

theorem tryRemoveResource_last_eval (key : Nat) (b : Bag) (d : FBagResourcesData)
    (front : List FBagResourceSlot) (last : FBagResourceSlot) (ids : List Int) (removed : Int)
    (hd : mapFind key b.Resources.Data = some d) (hq : 0 < d.ResourceQuantity)
    (hs : d.Slots = front ++ [last]) (hl : last.ResourceIds = ids ++ [removed]) :
    tryRemoveResource key (-1) b = .ok (true, removed,
      tryRemoveResourceTail key d (front ++ [{ last with ResourceIds := ids }])
        { last with ResourceIds := ids } b) := by
  have h1 : arrayPop d.Slots = some (last, front) := by
    rw [hs]
    exact arrayPop_concat _ _
  have h2 : arrayPop last.ResourceIds = some (removed, ids) := by
    rw [hl]
    exact arrayPop_concat _ _
  simp [tryRemoveResource, hd, hq, h1, h2]

theorem tryRemoveTool_last_eval (key : Nat) (b : Bag) (d : FBagToolsData)
    (front : List FBagToolSlot) (last : FBagToolSlot) (infos : List FBagToolInfo)
    (removed : FBagToolInfo)
    (hd : mapFind key b.Tools.Data = some d) (hq : 0 < d.ToolQuantity)
    (hs : d.Slots = front ++ [last]) (hl : last.ToolsInfo = infos ++ [removed]) :
    tryRemoveTool key (-1) b = .ok (true, removed.ToolId,
      tryRemoveToolTail key d (front ++ [{ last with ToolsInfo := infos }])
        { last with ToolsInfo := infos } b) := by
  have h1 : arrayPop d.Slots = some (last, front) := by
    rw [hs]
    exact arrayPop_concat _ _
  have h2 : arrayPop last.ToolsInfo = some (removed, infos) := by
    rw [hl]
    exact arrayPop_concat _ _
  simp [tryRemoveTool, hd, hq, h1, h2]

theorem resourceBucketOk_quantity_pos {L : UItemBagLimit} {d : FBagResourcesData}
    (h : ResourceBucketOk L d) : 1 ≤ d.ResourceQuantity := by
  obtain ⟨⟨h1, h2, _⟩, h3⟩ := h
  rw [h1]
  cases hs : d.Slots with
  | nil => exact absurd hs h3
  | cons x rest =>
    have hx := (h2 x (by simp [hs])).1
    have : 1 ≤ x.ResourceIds.length := by
      cases hx1 : x.ResourceIds with
      | nil => exact absurd hx1 hx
      | cons _ _ => simp
    have hn : 1 ≤ d.entryCount := by
      simp only [FBagResourcesData.entryCount, hs, List.map_cons, List.sum_cons]
      omega
    exact_mod_cast hn

theorem toolBucketOk_quantity_pos {L : UItemBagLimit} {d : FBagToolsData}
    (h : ToolBucketOk L d) : 1 ≤ d.ToolQuantity := by
  obtain ⟨⟨h1, h2, _⟩, h3⟩ := h
  rw [h1]
  cases hs : d.Slots with
  | nil => exact absurd hs h3
  | cons x rest =>
    have hx := (h2 x (by simp [hs])).1
    have : 1 ≤ x.ToolsInfo.length := by
      cases hx1 : x.ToolsInfo with
      | nil => exact absurd hx1 hx
      | cons _ _ => simp
    have hn : 1 ≤ d.entryCount := by
      simp only [FBagToolsData.entryCount, hs, List.map_cons, List.sum_cons]
      omega
    exact_mod_cast hn

theorem resource_add_remove_roundtrip {P : UBagProperties} {key : Nat} {id : Int}
    {b b0 : Bag} (ev : List Event)
    (hR : ResourcesOk P b.Resources.Data)
    (hadd : tryAddResource P key id b = .ok (true, b0))
    (hdense : ∀ L d, mapFind key P.Limits = some (some L) →
      mapFind key b.Resources.Data = some d →
      ∀ x ∈ d.Slots.dropLast, L.MaxStackSize ≤ (x.ResourceIds.length : Int)) :
    ∃ b2, tryRemoveResource key (-1) { b0 with events := ev } = .ok (true, id, b2) ∧
      b2.Resources = b.Resources ∧ b2.Tools = b.Tools ∧
      b2.slot_ids_pool = b.slot_ids_pool ∧ b2.item_ids_pool = b.item_ids_pool ∧
      b2.item_comp_to_id = b.item_comp_to_id := by
  obtain ⟨L, d, d1, hL, hQ, hS, hfind, heff⟩ := tryAddResource_true hadd
  obtain ⟨_, hT, hpool, hmap, hq1, hdata, hcase⟩ := heff
  have hf1 : mapFind key ({ b0 with events := ev } : Bag).Resources.Data = some d1 := by
    simp only [hdata]
    exact mapFind_mapSet_self _ _ _
  have hres_ext : ∀ x : FBagResources, x.Data = b.Resources.Data →
      x.UsedSlots = b.Resources.UsedSlots → x = b.Resources := by
    intro x h1 h2
    cases x
    cases hb : b.Resources
    simp_all
  rcases hcase with ⟨pre, s, post, hs, _, hroom, hs1, hu, hsp, _⟩ |
      ⟨_, _, slot_id, hsp, hs1, hu, _⟩
  · -- the id went into an existing slot, which by density is the last one
    have hfd : mapFind key b.Resources.Data = some d := by
      rcases hfind with hfind | ⟨_, rfl⟩
      · exact hfind
      · simp at hs
    obtain ⟨L1, hL1, hok⟩ := hR (key, d) (mapFind_mem hfd)
    simp only [hL, Option.some.injEq] at hL1
    subst hL1
    replace hok : ResourceBucketOk L d := hok
    have hpost : post = [] := by
      by_contra hne
      have hmem : s ∈ d.Slots.dropLast := by
        rw [hs]
        exact mem_dropLast_of_split pre post s hne
      have := hdense L d hL hfd s hmem
      omega
    subst hpost
    have hsne : s.ResourceIds ≠ [] := (hok.1.2.1 s (by simp [hs])).1
    have hqpos := resourceBucketOk_quantity_pos hok
    have heval := tryRemoveResource_last_eval key { b0 with events := ev } d1 pre
      { s with ResourceIds := s.ResourceIds ++ [id] } s.ResourceIds id hf1 (by omega) hs1 rfl
    refine ⟨_, heval, ?_, ?_, ?_, ?_, ?_⟩
    · rw [tryRemoveResourceTail_of_nonempty (by simpa using hsne)]
      apply hres_ext
      · have hne : ¬ (d1.ResourceQuantity - 1 = 0) := by omega
        simp only [hne, if_false, hdata, mapSet_mapSet]
        have hd : ({ Slots := pre ++ [s], ResourceQuantity := d1.ResourceQuantity - 1 }
            : FBagResourcesData) = d := by
          cases d
          simp only [FBagResourcesData.mk.injEq]
          simp only at hs hq1
          exact ⟨hs.symm, by omega⟩
        rw [hd]
        exact mapSet_self hfd
      · simpa using hu
    · rw [tryRemoveResourceTail_of_nonempty (by simpa using hsne)]
      exact hT
    · rw [tryRemoveResourceTail_of_nonempty (by simpa using hsne)]
      exact hsp
    · rw [tryRemoveResourceTail_of_nonempty (by simpa using hsne)]
      exact hpool
    · rw [tryRemoveResourceTail_of_nonempty (by simpa using hsne)]
      exact hmap
  · -- a new slot was opened for the id; it is emptied and closed again
    have hpre : ResourceBucketPre L d := by
      rcases hfind with hfind | ⟨_, rfl⟩
      · obtain ⟨L1, hL1, hok⟩ := hR (key, d) (mapFind_mem hfind)
        simp only [hL, Option.some.injEq] at hL1
        subst hL1
        exact hok.1
      · exact resourceBucketPre_empty L hQ
    have hq0 : 0 ≤ d.ResourceQuantity := by
      rw [hpre.1]
      exact Int.natCast_nonneg _
    have heval := tryRemoveResource_last_eval key { b0 with events := ev } d1 d.Slots
      { Id := slot_id, ResourceIds := [id] } [] id hf1 (by omega) hs1 rfl
    have hswap : removeSingleSwap FBagResourceSlot.opEq { Id := slot_id, ResourceIds := [] }
        (d.Slots ++ [{ Id := slot_id, ResourceIds := [] }]) = d.Slots := by
      apply removeSingleSwap_concat
      · intro y hy
        have := (hpre.2.1 y hy).1
        simp [FBagResourceSlot.opEq, this]
      · simp [FBagResourceSlot.opEq]
    refine ⟨_, heval, ?_, ?_, ?_, ?_, ?_⟩
    · rw [tryRemoveResourceTail_of_empty rfl]
      apply hres_ext
      · simp only [hdata, hswap]
        rcases hfind with hfind | ⟨hfind, rfl⟩
        · obtain ⟨L1, hL1, hok⟩ := hR (key, d) (mapFind_mem hfind)
          have hqpos := resourceBucketOk_quantity_pos hok
          simp only at hqpos
          have hne : ¬ (d1.ResourceQuantity - 1 = 0) := by omega
          simp only [hne, if_false, mapSet_mapSet]
          have hd : ({ Slots := d.Slots, ResourceQuantity := d1.ResourceQuantity - 1 }
              : FBagResourcesData) = d := by
            cases d
            simp only [FBagResourcesData.mk.injEq, true_and]
            simp only at hq1
            omega
          rw [hd]
          exact mapSet_self hfind
        · have he : d1.ResourceQuantity - 1 = 0 := by
            simp only at hq1
            omega
          simp only [he, if_true]
          exact mapRemove_mapSet_of_none _ hfind
      · simp only [hu]
        omega
    · rw [tryRemoveResourceTail_of_empty rfl]
      exact hT
    · rw [tryRemoveResourceTail_of_empty rfl]
      exact hsp.symm
    · rw [tryRemoveResourceTail_of_empty rfl]
      exact hpool
    · rw [tryRemoveResourceTail_of_empty rfl]
      exact hmap

theorem tool_add_remove_roundtrip {P : UBagProperties} {key : Nat} {id durability : Int}
    {b b0 : Bag} (ev : List Event)
    (hR : ToolsOk P b.Tools.Data)
    (hadd : tryAddTool P key id durability b = .ok (true, b0))
    (hdense : ∀ L d, mapFind key P.Limits = some (some L) →
      mapFind key b.Tools.Data = some d →
      ∀ x ∈ d.Slots.dropLast, L.MaxStackSize ≤ (x.ToolsInfo.length : Int)) :
    ∃ b2, tryRemoveTool key (-1) { b0 with events := ev } = .ok (true, id, b2) ∧
      b2.Tools = b.Tools ∧ b2.Resources = b.Resources ∧
      b2.slot_ids_pool = b.slot_ids_pool ∧ b2.item_ids_pool = b.item_ids_pool ∧
      b2.item_comp_to_id = b.item_comp_to_id := by
  obtain ⟨L, d, d1, hL, hQ, hS, hfind, heff⟩ := tryAddTool_true hadd
  obtain ⟨_, hT, hpool, hmap, hq1, hdata, hcase⟩ := heff
  have hf1 : mapFind key ({ b0 with events := ev } : Bag).Tools.Data = some d1 := by
    simp only [hdata]
    exact mapFind_mapSet_self _ _ _
  have hres_ext : ∀ x : FBagTools, x.Data = b.Tools.Data →
      x.UsedSlots = b.Tools.UsedSlots → x = b.Tools := by
    intro x h1 h2
    cases x
    cases hb : b.Tools
    simp_all
  rcases hcase with ⟨pre, s, post, hs, _, hroom, hs1, hu, hsp, _⟩ |
      ⟨_, _, slot_id, hsp, hs1, hu, _⟩
  · -- the id went into an existing slot, which by density is the last one
    have hfd : mapFind key b.Tools.Data = some d := by
      rcases hfind with hfind | ⟨_, rfl⟩
      · exact hfind
      · simp at hs
    obtain ⟨L1, hL1, hok⟩ := hR (key, d) (mapFind_mem hfd)
    simp only [hL, Option.some.injEq] at hL1
    subst hL1
    replace hok : ToolBucketOk L d := hok
    have hpost : post = [] := by
      by_contra hne
      have hmem : s ∈ d.Slots.dropLast := by
        rw [hs]
        exact mem_dropLast_of_split pre post s hne
      have := hdense L d hL hfd s hmem
      omega
    subst hpost
    have hsne : s.ToolsInfo ≠ [] := (hok.1.2.1 s (by simp [hs])).1
    have hqpos := toolBucketOk_quantity_pos hok
    have heval := tryRemoveTool_last_eval key { b0 with events := ev } d1 pre
      { s with ToolsInfo := s.ToolsInfo ++ [{ ToolId := id, Durability := durability }] }
      s.ToolsInfo { ToolId := id, Durability := durability } hf1 (by omega) hs1 rfl
    refine ⟨_, heval, ?_, ?_, ?_, ?_, ?_⟩
    · rw [tryRemoveToolTail_of_nonempty (by simpa using hsne)]
      apply hres_ext
      · have hne : ¬ (d1.ToolQuantity - 1 = 0) := by omega
        simp only [hne, if_false, hdata, mapSet_mapSet]
        have hd : ({ ToolQuantity := d1.ToolQuantity - 1, Slots := pre ++ [s] }
            : FBagToolsData) = d := by
          cases d
          simp only [FBagToolsData.mk.injEq]
          simp only at hs hq1
          exact ⟨by omega, hs.symm⟩
        rw [hd]
        exact mapSet_self hfd
      · simpa using hu
    · rw [tryRemoveToolTail_of_nonempty (by simpa using hsne)]
      exact hT
    · rw [tryRemoveToolTail_of_nonempty (by simpa using hsne)]
      exact hsp
    · rw [tryRemoveToolTail_of_nonempty (by simpa using hsne)]
      exact hpool
    · rw [tryRemoveToolTail_of_nonempty (by simpa using hsne)]
      exact hmap
  · -- a new slot was opened for the id; it is emptied and closed again
    have hpre : ToolBucketPre L d := by
      rcases hfind with hfind | ⟨_, rfl⟩
      · obtain ⟨L1, hL1, hok⟩ := hR (key, d) (mapFind_mem hfind)
        simp only [hL, Option.some.injEq] at hL1
        subst hL1
        exact hok.1
      · exact toolBucketPre_empty L hQ
    have hq0 : 0 ≤ d.ToolQuantity := by
      rw [hpre.1]
      exact Int.natCast_nonneg _
    have heval := tryRemoveTool_last_eval key { b0 with events := ev } d1 d.Slots
      { Id := slot_id, ToolsInfo := [{ ToolId := id, Durability := durability }] } []
      { ToolId := id, Durability := durability } hf1 (by omega) hs1 rfl
    have hswap : removeSingleSwap FBagToolSlot.opEq { Id := slot_id, ToolsInfo := [] }
        (d.Slots ++ [{ Id := slot_id, ToolsInfo := [] }]) = d.Slots := by
      apply removeSingleSwap_concat
      · intro y hy
        have := (hpre.2.1 y hy).1
        simp [FBagToolSlot.opEq, this]
      · simp [FBagToolSlot.opEq]
    refine ⟨_, heval, ?_, ?_, ?_, ?_, ?_⟩
    · rw [tryRemoveToolTail_of_empty rfl]
      apply hres_ext
      · simp only [hdata, hswap]
        rcases hfind with hfind | ⟨hfind, rfl⟩
        · obtain ⟨L1, hL1, hok⟩ := hR (key, d) (mapFind_mem hfind)
          have hqpos := toolBucketOk_quantity_pos hok
          simp only at hqpos
          have hne : ¬ (d1.ToolQuantity - 1 = 0) := by omega
          simp only [hne, if_false, mapSet_mapSet]
          have hd : ({ ToolQuantity := d1.ToolQuantity - 1, Slots := d.Slots }
              : FBagToolsData) = d := by
            cases d
            simp only [FBagToolsData.mk.injEq, and_true]
            simp only at hq1
            omega
          rw [hd]
          exact mapSet_self hfind
        · have he : d1.ToolQuantity - 1 = 0 := by
            simp only at hq1
            omega
          simp only [he, if_true]
          exact mapRemove_mapSet_of_none _ hfind
      · simp only [hu]
        omega
    · rw [tryRemoveToolTail_of_empty rfl]
      exact hT
    · rw [tryRemoveToolTail_of_empty rfl]
      exact hsp.symm
    · rw [tryRemoveToolTail_of_empty rfl]
      exact hpool
    · rw [tryRemoveToolTail_of_empty rfl]
      exact hmap

/-- C5, as stated, fails: in the reachable bag `gapBag` (tool slots `[4]` and `[3]`,
stack size 2) `addItem(demoTool)` succeeds with id 5, placed in the first slot,
and the following `removeItem(demoTool)` takes the last entry of the last slot:
it returns id 3, leaves one slot instead of two and the free ids
`[0, 1, 2, 3]` instead of `[0, 1, 2, 5]`. -/
theorem C5_counterexample :
    Reachable demoProperties gapBag ∧
    addItem demoProperties (some demoTool) gapBag
      = .ok ({ bAdded := true, AssignedId := 5 }, gapBagAfterAdd) ∧
    removeItem (some demoTool) true gapBagAfterAdd
      = .ok ({ bRemoved := true, RemovedId := 3, SpawnedActor := none }, gapBagAfterRemove) ∧
    (3 : Int) ≠ 5 ∧
    (bucketSlotIds demoTool gapBagAfterRemove).length ≠ (bucketSlotIds demoTool gapBag).length ∧
    gapBagAfterRemove.Tools.UsedSlots ≠ gapBag.Tools.UsedSlots ∧
    gapBagAfterRemove.item_ids_pool ≠ gapBag.item_ids_pool :=
  ⟨run_reachable (show run demoProperties gapOps = .ok gapBag from by decide),
   by decide, by decide, by decide, by decide, by decide, by decide⟩

theorem tryRemoveItem_resource {data : UItemData} {remove_id : Int} {b : Bag}
    (hcat : data.Category = EItemCategory.Resource) (hcls : data.cls = DataClass.ResourceData) :
    tryRemoveItem data remove_id b = tryRemoveResource data.ptr remove_id b := by
  simp [tryRemoveItem, hcat, hcls]

theorem tryRemoveItem_tool {data : UItemData} {remove_id MaxDurability : Int} {b : Bag}
    (hcat : data.Category = EItemCategory.Tool)
    (hcls : data.cls = DataClass.ToolData MaxDurability) :
    tryRemoveItem data remove_id b = tryRemoveTool data.ptr remove_id b := by
  simp [tryRemoveItem, hcat, hcls]

/-- C5, amended: let `b` be a reachable bag state in which every slot of the item type
except the last one is full (holds at least `MaxStackSize` entries).  If
`addItem` succeeds in `b` with id `i`, then `removeItem` of the same type right
after it succeeds, returns `RemovedId = i`, and restores the quantity of the
type, its slots, `Resources` and `Tools` (with both `UsedSlots`), the item id
pool and the slot id pool exactly. -/
theorem C5_add_then_remove_last (P : UBagProperties) (data : UItemData) (spawn : Bool)
    (b b1 : Bag) (r1 : FInventoryBagAddItemResult) (hb : Reachable P b)
    (hdense : ∀ L, mapFind data.ptr P.Limits = some (some L) →
      ∀ ids ∈ (bucketSlotIds data b).dropLast, L.MaxStackSize ≤ (ids.length : Int))
    (hadd : addItem P (some data) b = .ok (r1, b1)) (hr : r1.bAdded = true) :
    ∃ r2 b2, removeItem (some data) spawn b1 = .ok (r2, b2) ∧
      r2.bRemoved = true ∧ r2.RemovedId = r1.AssignedId ∧
      getItemQuantity (some data) b2 = getItemQuantity (some data) b ∧
      bucketSlotIds data b2 = bucketSlotIds data b ∧
      b2.Resources = b.Resources ∧ b2.Tools = b.Tools ∧
      b2.item_ids_pool = b.item_ids_pool ∧ b2.slot_ids_pool = b.slot_ids_pool := by
  have hI := reachable_inv hb
  rcases addItem_cases hadd with ⟨hr1, _⟩ | ⟨data1, pool, id, b0, hd, hpool, _, hadd0, hr1, hb1⟩
  · rw [hr1] at hr
    simp at hr
  · simp only [Option.some.injEq] at hd
    subst hd
    have packer : ∃ b2, tryRemoveItem data (-1) b1 = .ok (true, id, b2) ∧
        b2.Resources = b.Resources ∧ b2.Tools = b.Tools ∧
        b2.slot_ids_pool = b.slot_ids_pool ∧ b2.item_ids_pool = pool := by
      rcases tryAddItem_true_cases hadd0 with
        ⟨hcat, hcls, hres⟩ | ⟨hcat, md, dur, hcls, htool, _⟩
      · have hd1 : ∀ L d, mapFind data.ptr P.Limits = some (some L) →
            mapFind data.ptr ({ b with item_ids_pool := pool } : Bag).Resources.Data = some d →
            ∀ x ∈ d.Slots.dropLast, L.MaxStackSize ≤ (x.ResourceIds.length : Int) := by
          intro L d hL hfd x hx
          simp only at hfd
          apply hdense L hL
          simp only [bucketSlotIds, hcat, hcls, hfd, ← List.map_dropLast]
          exact List.mem_map.mpr ⟨x, hx, rfl⟩
        obtain ⟨b2, h1, h2, h3, h4, h5, _⟩ :=
          resource_add_remove_roundtrip (b := { b with item_ids_pool := pool })
            (b0.events ++ [Event.BagUpdated]) hI.1 hres hd1
        refine ⟨b2, ?_, h2, h3, h4, h5⟩
        rw [tryRemoveItem_resource hcat hcls, hb1]
        exact h1
      · have hd1 : ∀ L d, mapFind data.ptr P.Limits = some (some L) →
            mapFind data.ptr ({ b with item_ids_pool := pool } : Bag).Tools.Data = some d →
            ∀ x ∈ d.Slots.dropLast, L.MaxStackSize ≤ (x.ToolsInfo.length : Int) := by
          intro L d hL hfd x hx
          simp only at hfd
          have := hdense L hL (x.ToolsInfo.map FBagToolInfo.ToolId) (by
            simp only [bucketSlotIds, hcat, hcls, hfd, ← List.map_dropLast]
            exact List.mem_map.mpr ⟨x, hx, rfl⟩)
          simpa using this
        obtain ⟨b2, h1, h2, h3, h4, h5, _⟩ :=
          tool_add_remove_roundtrip (b := { b with item_ids_pool := pool })
            (b0.events ++ [Event.BagUpdated]) hI.2.1 htool hd1
        refine ⟨b2, ?_, h3, h2, h4, h5⟩
        rw [tryRemoveItem_tool hcat hcls, hb1]
        exact h1
    obtain ⟨b2, hrem, hRes, hTools, hsp, hip⟩ := packer
    refine ⟨{ bRemoved := true, RemovedId := id, SpawnedActor := dropSpawn data spawn },
      { b2 with
        item_ids_pool := b2.item_ids_pool ++ [id]
        item_comp_to_id :=
          match mapFindKey id b2.item_comp_to_id with
          | none => b2.item_comp_to_id
          | some item_comp => mapRemove item_comp b2.item_comp_to_id
        events := b2.events ++ [Event.BagUpdated] }, ?_, rfl, ?_, ?_, ?_, hRes, hTools, ?_, hsp⟩
    · simp [removeItem, hrem]
    · rw [hr1]
    · simp only [getItemQuantity, hRes, hTools]
    · simp only [bucketSlotIds, hRes, hTools]
    · simp only [hip, hpool]

/-- Witness of the amended C5: in `demoBag` (resource slots `[5, 4]` and `[3]`, stack
size 2) `addItem(demoResource)` is assigned id 1 and `removeItem(demoResource)`
returns id 1 and restores the bag. -/
theorem C5_witness :
    Reachable demoProperties demoBag ∧
    (∀ L, mapFind demoResource.ptr demoProperties.Limits = some (some L) →
      ∀ ids ∈ (bucketSlotIds demoResource demoBag).dropLast,
        L.MaxStackSize ≤ (ids.length : Int)) ∧
    addItem demoProperties (some demoResource) demoBag
      = .ok ({ bAdded := true, AssignedId := 1 }, demoBagAfterAdd) ∧
    ∃ r2 b2, removeItem (some demoResource) false demoBagAfterAdd = .ok (r2, b2) ∧
      r2.bRemoved = true ∧ r2.RemovedId = 1 ∧
      getItemQuantity (some demoResource) b2 = getItemQuantity (some demoResource) demoBag ∧
      bucketSlotIds demoResource b2 = bucketSlotIds demoResource demoBag ∧
      b2.Resources = demoBag.Resources ∧ b2.Tools = demoBag.Tools ∧
      b2.item_ids_pool = demoBag.item_ids_pool ∧ b2.slot_ids_pool = demoBag.slot_ids_pool :=
  have hdense : ∀ L, mapFind demoResource.ptr demoProperties.Limits = some (some L) →
      ∀ ids ∈ (bucketSlotIds demoResource demoBag).dropLast,
        L.MaxStackSize ≤ (ids.length : Int) := by
    intro L hL ids hids
    have hL2 : L = { MaxStackSize := 2, MaxQuantity := 5 } := by
      have e : mapFind demoResource.ptr demoProperties.Limits
          = some (some { MaxStackSize := 2, MaxQuantity := 5 }) := by decide
      rw [e] at hL
      simp only [Option.some.injEq] at hL
      exact hL.symm
    have hids2 : ids = [5, 4] := by
      have e : (bucketSlotIds demoResource demoBag).dropLast = [[5, 4]] := by decide
      rw [e] at hids
      simpa using hids
    subst hL2 hids2
    decide
  ⟨demoBag_reachable, hdense, by decide,
   C5_add_then_remove_last demoProperties demoResource false demoBag demoBagAfterAdd
     { bAdded := true, AssignedId := 1 } demoBag_reachable hdense (by decide) rfl⟩

/-! ## What a successful removal does, in a well-formed bag -/

theorem tryRemoveResource_effect {P : UBagProperties} {key : Nat} {remove_id removed : Int}
    {b b1 : Bag} (h : tryRemoveResource key remove_id b = .ok (true, removed, b1))
    (hR : ResourcesOk P b.Resources.Data) :
    remove_id = -1 ∧ ResourceRemoveLastEffect key removed b b1 := by
  obtain ⟨hid, d, front, last, ids, hd, hq, hs, hl, rfl⟩ := tryRemoveResource_true h
  refine ⟨hid, d, front, last, ids, hd, hq, hs, hl, ?_⟩
  obtain ⟨L, _, hok⟩ := hR (key, d) (mapFind_mem hd)
  replace hok : ResourceBucketOk L d := hok
  have hfront : ∀ y ∈ front, y.ResourceIds ≠ [] := fun y hy =>
    (hok.1.2.1 y (by simp [hs, hy])).1
  by_cases he : ids = []
  · subst he
    rw [tryRemoveResourceTail_of_empty rfl]
    have hswap : removeSingleSwap FBagResourceSlot.opEq { last with ResourceIds := [] }
        (front ++ [{ last with ResourceIds := [] }]) = front := by
      apply removeSingleSwap_concat
      · intro y hy
        have := hfront y hy
        simp [FBagResourceSlot.opEq, this]
      · simp [FBagResourceSlot.opEq]
    simp [hswap]
  · rw [tryRemoveResourceTail_of_nonempty (by simpa using he)]
    simp [he]

theorem filter_ne_split (r : Int) (l : List FBagToolInfo)
    (h : l.length = (l.filter (fun t => t.ToolId != r)).length + 1) :
    ∃ before info after, l = before ++ info :: after ∧ info.ToolId = r ∧
      l.filter (fun t => t.ToolId != r) = before ++ after ∧
      ∀ t ∈ before ++ after, t.ToolId ≠ r := by
  induction l with
  | nil => simp at h
  | cons t rest ih =>
    by_cases ht : t.ToolId = r
    · have hrest : rest.length = (rest.filter (fun t => t.ToolId != r)).length := by
        simp only [List.filter_cons, ht, bne_self_eq_false, Bool.false_eq_true, if_false,
          List.length_cons] at h
        omega
      have hall : rest.filter (fun t => t.ToolId != r) = rest := by
        apply List.filter_eq_self.mpr
        intro a ha
        by_contra hne
        have hlt : (rest.filter (fun t => t.ToolId != r)).length < rest.length :=
          List.length_filter_lt_length_iff_exists.mpr ⟨a, ha, hne⟩
        omega
      refine ⟨[], t, rest, by simp, ht, ?_, ?_⟩
      · simp [List.filter_cons, ht, hall]
      · intro x hx
        simp only [List.nil_append] at hx
        have := (List.filter_eq_self.mp hall) x hx
        simpa using this
    · have hb : (t.ToolId != r) = true := by simpa using ht
      have hrest : rest.length = (rest.filter (fun t => t.ToolId != r)).length + 1 := by
        simp only [List.filter_cons, hb, if_true, List.length_cons] at h
        omega
      obtain ⟨before, info, after, h1, h2, h3, h4⟩ := ih hrest
      refine ⟨t :: before, info, after, by simp [h1], h2, ?_, ?_⟩
      · simp [List.filter_cons, hb, h3]
      · intro x hx
        simp only [List.cons_append, List.mem_cons] at hx
        rcases hx with rfl | hx
        · exact ht
        · exact h4 x hx

theorem removeToolById_pre_free {remove_id : Int} {slots slots1 : List FBagToolSlot}
    {sel : FBagToolSlot} (h : removeToolById remove_id slots = .ok (some (sel, slots1))) :
    ∃ pre s post, slots = pre ++ s :: post ∧
      sel = { s with ToolsInfo := s.ToolsInfo.filter (fun t => t.ToolId != remove_id) } ∧
      slots1 = pre ++ sel :: post ∧
      s.ToolsInfo.length = sel.ToolsInfo.length + 1 ∧
      (∀ x ∈ pre, ∀ t ∈ x.ToolsInfo, t.ToolId ≠ remove_id) := by
  induction slots generalizing sel slots1 with
  | nil => simp [removeToolById] at h
  | cons x rest ih =>
    unfold removeToolById at h
    split at h
    · rename_i hlen
      split at h
      · rename_i hle
        split at h
        · rename_i hgt
          simp only [Except.ok.injEq, Option.some.injEq, Prod.mk.injEq] at h
          obtain ⟨rfl, rfl⟩ := h
          refine ⟨[], x, rest, by simp, rfl, by simp, ?_, by simp⟩
          simp only
          omega
        · rename_i hgt
          cases hr : removeToolById remove_id rest with
          | error e => simp [hr] at h
          | ok o =>
            cases o with
            | none => simp [hr] at h
            | some pr =>
              obtain ⟨s2, rest2⟩ := pr
              simp only [hr, Except.ok.injEq, Option.some.injEq, Prod.mk.injEq] at h
              obtain ⟨rfl, rfl⟩ := h
              obtain ⟨pre, s, post, h1, h2, h3, h4, h5⟩ := ih hr
              refine ⟨x :: pre, s, post, by simp [h1], h2, by simp [h3], h4, ?_⟩
              intro y hy
              rcases List.mem_cons.mp hy with rfl | hy
              · intro t ht he
                have hlt : (y.ToolsInfo.filter (fun t => t.ToolId != remove_id)).length
                    < y.ToolsInfo.length := by
                  apply List.length_filter_lt_length_iff_exists.mpr
                  exact ⟨t, ht, by simp [he]⟩
                omega
              · exact h5 y hy
      · simp at h
    · simp at h

theorem tryRemoveTool_byId_true {key : Nat} {remove_id removed : Int} {b b1 : Bag}
    (hid : remove_id ≠ -1)
    (h : tryRemoveTool key remove_id b = .ok (true, removed, b1)) :
    ∃ d pre s post, mapFind key b.Tools.Data = some d ∧
      0 < d.ToolQuantity ∧ d.Slots = pre ++ s :: post ∧ removed = remove_id ∧
      s.ToolsInfo.length
        = (s.ToolsInfo.filter (fun t => t.ToolId != remove_id)).length + 1 ∧
      (∀ x ∈ pre, ∀ t ∈ x.ToolsInfo, t.ToolId ≠ remove_id) ∧
      b1 = tryRemoveToolTail key d
        (pre ++ { s with ToolsInfo := s.ToolsInfo.filter (fun t => t.ToolId != remove_id) }
          :: post)
        { s with ToolsInfo := s.ToolsInfo.filter (fun t => t.ToolId != remove_id) } b := by
  unfold tryRemoveTool at h
  split at h
  · split at h
    · simp at h
    · rename_i d hd
      split at h
      · rename_i hq
        split at h
        · simp at h
        · simp at h
        · rename_i sel slots hrem
          simp only [Except.ok.injEq, Prod.mk.injEq, true_and] at h
          obtain ⟨rfl, rfl⟩ := h
          obtain ⟨pre, s, post, h1, h2, h3, h4, h5⟩ := removeToolById_pre_free hrem
          subst h2
          exact ⟨d, pre, s, post, hd, hq, h1, rfl, h4, h5, by rw [h3]⟩
      · simp at h
  · simp at h

theorem tryRemoveTool_effect {P : UBagProperties} {key : Nat} {remove_id removed : Int}
    {b b1 : Bag} (h : tryRemoveTool key remove_id b = .ok (true, removed, b1))
    (hR : ToolsOk P b.Tools.Data) : ToolRemoveEffect key remove_id removed b b1 := by
  have tail : ∀ (d : FBagToolsData) (pre post : List FBagToolSlot) (s : FBagToolSlot)
      (rest : List FBagToolInfo), mapFind key b.Tools.Data = some d →
      d.Slots = pre ++ s :: post →
      b1 = tryRemoveToolTail key d (pre ++ { s with ToolsInfo := rest } :: post)
        { s with ToolsInfo := rest } b →
      b1.Resources = b.Resources ∧ b1.item_ids_pool = b.item_ids_pool ∧
      b1.item_comp_to_id = b.item_comp_to_id ∧
      b1.Tools.Data =
        (if d.ToolQuantity - 1 = 0 then mapRemove key b.Tools.Data
         else mapSet key
           { ToolQuantity := d.ToolQuantity - 1,
             Slots := if rest = [] then pre ++ lastToFront post
                      else pre ++ { s with ToolsInfo := rest } :: post }
           b.Tools.Data) ∧
      b1.Tools.UsedSlots = (if rest = [] then b.Tools.UsedSlots - 1 else b.Tools.UsedSlots) ∧
      b1.slot_ids_pool = (if rest = [] then b.slot_ids_pool ++ [s.Id] else b.slot_ids_pool) ∧
      b1.events = b.events ++
        [if rest = [] then Event.ToolSlotRemoved key s.Id { Id := s.Id, ToolsInfo := [] }
         else Event.ToolSlotUpdated key s.Id { s with ToolsInfo := rest }] := by
    intro d pre post s rest hd hs hb1
    obtain ⟨L, _, hok⟩ := hR (key, d) (mapFind_mem hd)
    replace hok : ToolBucketOk L d := hok
    have hpre : ∀ y ∈ pre, y.ToolsInfo ≠ [] := fun y hy =>
      (hok.1.2.1 y (by simp [hs, hy])).1
    by_cases he : rest = []
    · subst he
      rw [tryRemoveToolTail_of_empty rfl,
        removeSingleSwap_tool_empty { s with ToolsInfo := [] } pre post rfl hpre] at hb1
      subst hb1
      simp
    · rw [tryRemoveToolTail_of_nonempty (by simpa using he)] at hb1
      subst hb1
      simp [he]
  obtain ⟨d, pre, s, sel, post, hd, hq, hs, hsid, hcase, hb1⟩ := tryRemoveTool_true h
  rcases hcase with ⟨hid, hpost, info, hinfo, hrem⟩ | ⟨hid, hrem, hsel, hlen, _⟩
  · have hsel : sel = { s with ToolsInfo := sel.ToolsInfo } := by
      cases sel
      cases s
      simp only at hsid
      simp [hsid]
    rw [hsel] at hb1
    have t := tail d pre post s sel.ToolsInfo hd hs hb1
    refine ⟨d, pre, s, post, sel.ToolsInfo, info, [], hd, hq, hs, by simpa using hinfo, hrem,
      Or.inl ⟨hid, hpost, rfl⟩, ?_⟩
    simpa using t
  · obtain ⟨d2, pre2, s2, post2, hd2, _, hs2, _, hlen2, hfree2, hb2⟩ :=
      tryRemoveTool_byId_true hid h
    obtain ⟨before, info, after, e1, e2, e3, e4⟩ := filter_ne_split remove_id s2.ToolsInfo hlen2
    rw [e3] at hb2
    have t := tail d2 pre2 post2 s2 (before ++ after) hd2 hs2 hb2
    refine ⟨d2, pre2, s2, post2, before, info, after, hd2, ?_, hs2, e1, ?_,
      Or.inr ⟨hid, hrem, e4, hfree2⟩, t⟩
    · rw [hd] at hd2
      simp only [Option.some.injEq] at hd2
      subst hd2
      exact hq
    · rw [hrem]
      exact e2

/-! ## One entry per type key -/

theorem mapSet_keys {β : Type} (k : Nat) (v : β) (m : List (Nat × β)) :
    (mapSet k v m).map Prod.fst
      = if k ∈ m.map Prod.fst then m.map Prod.fst else m.map Prod.fst ++ [k] := by
  induction m with
  | nil => simp [mapSet]
  | cons kv rest ih =>
    obtain ⟨k1, v1⟩ := kv
    by_cases hk : k1 = k
    · simp [mapSet, hk]
    · have hk2 : ¬ k = k1 := fun e => hk e.symm
      simp only [mapSet, hk, if_false, List.map_cons, ih, List.mem_cons, hk2, false_or]
      split <;> simp

theorem mapSet_keys_nodup {β : Type} (k : Nat) (v : β) (m : List (Nat × β))
    (h : (m.map Prod.fst).Nodup) : ((mapSet k v m).map Prod.fst).Nodup := by
  rw [mapSet_keys]
  split
  · exact h
  · rename_i hk
    rw [List.nodup_append]
    exact ⟨h, by simp, by
      intro a ha hb
      simp only [List.mem_singleton] at hb
      subst hb
      exact hk ha⟩

theorem mapRemove_keys_sublist {β : Type} (k : Nat) (m : List (Nat × β)) :
    ((mapRemove k m).map Prod.fst).Sublist (m.map Prod.fst) := by
  induction m with
  | nil => simp [mapRemove]
  | cons kv rest ih =>
    obtain ⟨k1, v1⟩ := kv
    by_cases hk : k1 = k
    · simp [mapRemove, hk]
    · simp only [mapRemove, hk, if_false, List.map_cons]
      exact ih.cons₂ _

theorem mapRemove_keys_nodup {β : Type} (k : Nat) (m : List (Nat × β))
    (h : (m.map Prod.fst).Nodup) : ((mapRemove k m).map Prod.fst).Nodup :=
  (mapRemove_keys_sublist k m).nodup h

theorem mapFind_mapRemove_self {β : Type} (k : Nat) (m : List (Nat × β))
    (h : (m.map Prod.fst).Nodup) : mapFind k (mapRemove k m) = none := by
  induction m with
  | nil => simp [mapRemove, mapFind]
  | cons kv rest ih =>
    obtain ⟨k1, v1⟩ := kv
    simp only [List.map_cons, List.nodup_cons] at h
    by_cases hk : k1 = k
    · subst hk
      simp only [mapRemove, if_true]
      apply mapFind_of_not_mem
      intro kv hkv he
      exact h.1 (List.mem_map.mpr ⟨kv, hkv, he⟩)
    · simp [mapRemove, mapFind, hk, ih h.2]

theorem mapFind_mapSet_ne {β : Type} {k k1 : Nat} (v : β) (m : List (Nat × β)) (h : k1 ≠ k) :
    mapFind k1 (mapSet k v m) = mapFind k1 m := by
  induction m with
  | nil => simp [mapSet, mapFind, h.symm]
  | cons kv rest ih =>
    obtain ⟨k2, v2⟩ := kv
    by_cases hk : k2 = k
    · subst hk
      have : ¬ k2 = k1 := fun e => h e.symm
      simp [mapSet, mapFind, this]
    · by_cases hk1 : k2 = k1
      · subst hk1
        simp [mapSet, mapFind, h]
      · simp [mapSet, mapFind, hk, hk1, ih]

theorem mapFind_mapRemove_ne {β : Type} {k k1 : Nat} (m : List (Nat × β)) (h : k1 ≠ k) :
    mapFind k1 (mapRemove k m) = mapFind k1 m := by
  induction m with
  | nil => simp [mapRemove, mapFind]
  | cons kv rest ih =>
    obtain ⟨k2, v2⟩ := kv
    by_cases hk : k2 = k
    · subst hk
      have : ¬ k2 = k1 := fun e => h e.symm
      simp [mapRemove, mapFind, this]
    · by_cases hk1 : k2 = k1
      · subst hk1
        simp [mapRemove, mapFind, h]
      · simp [mapRemove, mapFind, hk, hk1, ih]

theorem tryAddItem_keys {P : UBagProperties} {data : UItemData} {id : Int}
    {comp : Option UItemComponent} {b b1 : Bag}
    (h : tryAddItem P data id comp b = .ok (true, b1)) (hk : KeysOk b) : KeysOk b1 := by
  rcases tryAddItem_true_cases h with ⟨_, _, hres⟩ | ⟨_, _, _, _, htool, _⟩
  · obtain ⟨L, d, d1, _, _, _, _, _, hT, _, _, _, hdata, _⟩ := tryAddResource_true hres
    exact ⟨by rw [hdata]; exact mapSet_keys_nodup _ _ _ hk.1, by rw [hT]; exact hk.2⟩
  · obtain ⟨L, d, d1, _, _, _, _, _, hT, _, _, _, hdata, _⟩ := tryAddTool_true htool
    exact ⟨by rw [hT]; exact hk.1, by rw [hdata]; exact mapSet_keys_nodup _ _ _ hk.2⟩

theorem tryRemoveItem_keys {P : UBagProperties} {data : UItemData} {remove_id removed : Int}
    {b b1 : Bag} (h : tryRemoveItem data remove_id b = .ok (true, removed, b1))
    (hR : ResourcesOk P b.Resources.Data) (hT : ToolsOk P b.Tools.Data) (hk : KeysOk b) :
    KeysOk b1 := by
  unfold tryRemoveItem at h
  split at h
  · split at h
    · obtain ⟨_, d, front, last, ids, _, _, _, _, hT1, _, _, hdata, _⟩ :=
        tryRemoveResource_effect h hR
      refine ⟨?_, by rw [hT1]; exact hk.2⟩
      rw [hdata]
      split
      · exact mapRemove_keys_nodup _ _ hk.1
      · exact mapSet_keys_nodup _ _ _ hk.1
    · simp at h
  · split at h
    · obtain ⟨d, pre, s, post, before, info, after, _, _, _, _, _, _, hR1, _, _, hdata, _⟩ :=
        tryRemoveTool_effect h hT
      refine ⟨by rw [hR1]; exact hk.1, ?_⟩
      rw [hdata]
      split
      · exact mapRemove_keys_nodup _ _ hk.2
      · exact mapSet_keys_nodup _ _ _ hk.2
    · simp at h
  · simp at h

theorem step_keys {P : UBagProperties} {b b1 : Bag} {op : Op} (hI : Inv P b) (hk : KeysOk b)
    (h : step P b op = .ok b1) : KeysOk b1 := by
  cases op with
  | addItem d =>
    simp only [step] at h
    cases hr : addItem P d b with
    | error e => simp [hr, Except.map] at h
    | ok pr =>
      obtain ⟨r, b2⟩ := pr
      simp only [hr, Except.map, Except.ok.injEq] at h
      subst h
      rcases addItem_cases hr with ⟨_, rfl⟩ | ⟨_, _, _, b0, _, _, _, hadd, _, rfl⟩
      · exact hk
      · have hb0 : KeysOk b0 := tryAddItem_keys hadd hk
        exact hb0
  | addItemComponent c =>
    simp only [step] at h
    cases hr : addItemComponent P c b with
    | error e => simp [hr, Except.map] at h
    | ok pr =>
      obtain ⟨r, b2⟩ := pr
      simp only [hr, Except.map, Except.ok.injEq] at h
      subst h
      rcases addItemComponent_cases hr with ⟨_, rfl⟩ | ⟨_, _, _, _, b0, _, _, _, _, hadd, _, rfl⟩
      · exact hk
      · have hb0 : KeysOk b0 := tryAddItem_keys hadd hk
        exact hb0
  | removeItem d spawn =>
    simp only [step] at h
    cases hr : removeItem d spawn b with
    | error e => simp [hr, Except.map] at h
    | ok pr =>
      obtain ⟨r, b2⟩ := pr
      simp only [hr, Except.map, Except.ok.injEq] at h
      subst h
      rcases removeItem_cases hr with ⟨_, rfl⟩ | ⟨_, _, b0, _, hrem, _, rfl⟩
      · exact hk
      · have hb0 : KeysOk b0 := tryRemoveItem_keys hrem hI.1 hI.2.1 hk
        exact hb0
  | removeItemComponent c spawn =>
    simp only [step] at h
    cases hr : removeItemComponent c spawn b with
    | error e => simp [hr, Except.map] at h
    | ok pr =>
      obtain ⟨r, b2⟩ := pr
      simp only [hr, Except.map, Except.ok.injEq] at h
      subst h
      rcases removeItemComponent_cases hr with
        ⟨_, rfl⟩ | ⟨_, _, _, _, b0, _, _, _, hrem, _, rfl⟩
      · exact hk
      · have hb0 : KeysOk b0 := tryRemoveItem_keys hrem hI.1 hI.2.1 hk
        exact hb0
  | updateToolDurability tool durability =>
    simp only [step] at h
    cases hr : updateToolDurability tool durability b with
    | error e => simp [hr, Except.map] at h
    | ok pr =>
      obtain ⟨r, b2⟩ := pr
      simp only [hr, Except.map, Except.ok.injEq] at h
      subst h
      rcases updateToolDurability_cases hr with
        ⟨_, rfl⟩ | ⟨_, _, _, _, _, _, _, _, _, _, _, _, rfl⟩
      · exact hk
      · exact ⟨hk.1, mapSet_keys_nodup _ _ _ hk.2⟩

theorem reachable_keys {P : UBagProperties} {b : Bag} (h : Reachable P b) : KeysOk b := by
  induction h with
  | init b hb =>
    unfold BeginPlay at hb
    split at hb
    · simp only [Except.ok.injEq] at hb
      subst hb
      simp [KeysOk]
    · simp at hb
  | step b b1 op hb hstep ih => exact step_keys (reachable_inv hb) ih hstep

/-! ## First-fit insertion -/

theorem resourceSlotsOf_add {P : UBagProperties} {L : UItemBagLimit} {key : Nat} {id : Int}
    {d d1 : FBagResourcesData} {b b1 : Bag}
    (hfind : mapFind key b.Resources.Data = some d ∨
      (mapFind key b.Resources.Data = none ∧ d = { Slots := [], ResourceQuantity := 0 }))
    (heff : ResourceAddEffect P L key id d d1 b b1) :
    resourceSlotsOf key b = d.Slots ∧ resourceSlotsOf key b1 = d1.Slots ∧
    resourceQuantityOf key b = d.ResourceQuantity ∧
    resourceQuantityOf key b1 = d1.ResourceQuantity := by
  have h1 : mapFind key b1.Resources.Data = some d1 := by
    rw [heff.2.2.2.2.2.1]
    exact mapFind_mapSet_self _ _ _
  rcases hfind with hfind | ⟨hfind, rfl⟩
  · simp [resourceSlotsOf, resourceQuantityOf, hfind, h1]
  · simp [resourceSlotsOf, resourceQuantityOf, hfind, h1]

theorem toolSlotsOf_add {P : UBagProperties} {L : UItemBagLimit} {key : Nat}
    {id durability : Int} {d d1 : FBagToolsData} {b b1 : Bag}
    (hfind : mapFind key b.Tools.Data = some d ∨
      (mapFind key b.Tools.Data = none ∧ d = { ToolQuantity := 0, Slots := [] }))
    (heff : ToolAddEffect P L key id durability d d1 b b1) :
    toolSlotsOf key b = d.Slots ∧ toolSlotsOf key b1 = d1.Slots ∧
    toolQuantityOf key b = d.ToolQuantity ∧
    toolQuantityOf key b1 = d1.ToolQuantity := by
  have h1 : mapFind key b1.Tools.Data = some d1 := by
    rw [heff.2.2.2.2.2.1]
    exact mapFind_mapSet_self _ _ _
  rcases hfind with hfind | ⟨hfind, rfl⟩
  · simp [toolSlotsOf, toolQuantityOf, hfind, h1]
  · simp [toolSlotsOf, toolQuantityOf, hfind, h1]

/-- C13: first-fit insertion.  When `tryAddResource` (`tryAddTool`) succeeds and some
slot of the type has fewer than `MaxStackSize` entries, the new entry is
appended to the end of the first such slot of the bucket's slot sequence, every
other slot is unchanged and no slot is created (`UsedSlots` and the slot id pool
stay); when every existing slot is full, one new slot holding just the new
entry, with the slot id popped from the pool, is appended at the end of the
sequence. -/
theorem C13_first_fit_insertion (P : UBagProperties) (key : Nat) (id durability : Int)
    (b b1 : Bag) :
    (tryAddResource P key id b = .ok (true, b1) →
      ∃ L, mapFind key P.Limits = some (some L) ∧
        ((∃ x ∈ resourceSlotsOf key b, (x.ResourceIds.length : Int) < L.MaxStackSize) →
          ∃ pre s post, resourceSlotsOf key b = pre ++ s :: post ∧
            (∀ x ∈ pre, ¬ ((x.ResourceIds.length : Int) < L.MaxStackSize)) ∧
            (s.ResourceIds.length : Int) < L.MaxStackSize ∧
            resourceSlotsOf key b1
              = pre ++ { s with ResourceIds := s.ResourceIds ++ [id] } :: post ∧
            b1.Resources.UsedSlots = b.Resources.UsedSlots ∧
            b1.slot_ids_pool = b.slot_ids_pool) ∧
        ((∀ x ∈ resourceSlotsOf key b, ¬ ((x.ResourceIds.length : Int) < L.MaxStackSize)) →
          ∃ slot_id, b.slot_ids_pool = b1.slot_ids_pool ++ [slot_id] ∧
            resourceSlotsOf key b1
              = resourceSlotsOf key b ++ [{ Id := slot_id, ResourceIds := [id] }] ∧
            b1.Resources.UsedSlots = b.Resources.UsedSlots + 1)) ∧
    (tryAddTool P key id durability b = .ok (true, b1) →
      ∃ L, mapFind key P.Limits = some (some L) ∧
        ((∃ x ∈ toolSlotsOf key b, (x.ToolsInfo.length : Int) < L.MaxStackSize) →
          ∃ pre s post, toolSlotsOf key b = pre ++ s :: post ∧
            (∀ x ∈ pre, ¬ ((x.ToolsInfo.length : Int) < L.MaxStackSize)) ∧
            (s.ToolsInfo.length : Int) < L.MaxStackSize ∧
            toolSlotsOf key b1
              = pre ++ { s with ToolsInfo := s.ToolsInfo ++
                  [{ ToolId := id, Durability := durability }] } :: post ∧
            b1.Tools.UsedSlots = b.Tools.UsedSlots ∧
            b1.slot_ids_pool = b.slot_ids_pool) ∧
        ((∀ x ∈ toolSlotsOf key b, ¬ ((x.ToolsInfo.length : Int) < L.MaxStackSize)) →
          ∃ slot_id, b.slot_ids_pool = b1.slot_ids_pool ++ [slot_id] ∧
            toolSlotsOf key b1
              = toolSlotsOf key b ++
                [{ Id := slot_id, ToolsInfo := [{ ToolId := id, Durability := durability }] }] ∧
            b1.Tools.UsedSlots = b.Tools.UsedSlots + 1)) := by
  constructor
  · intro h
    obtain ⟨L, d, d1, hL, _, _, hfind, heff⟩ := tryAddResource_true h
    obtain ⟨e1, e2, _, _⟩ := resourceSlotsOf_add hfind heff
    obtain ⟨_, _, _, _, _, _, hcase⟩ := heff
    refine ⟨L, hL, ?_, ?_⟩
    · rintro ⟨x, hx, hroom⟩
      rcases hcase with ⟨pre, s, post, hs, hpre, hs2, hs1, hu, hp, _⟩ | ⟨hfull, _⟩
      · exact ⟨pre, s, post, by rw [e1, hs], hpre, hs2, by rw [e2, hs1], hu, hp⟩
      · rw [e1] at hx
        exact absurd hroom (hfull x hx)
    · intro hfull
      rcases hcase with ⟨pre, s, post, hs, _, hs2, _⟩ | ⟨_, _, slot_id, hp, hs1, hu, _⟩
      · rw [e1] at hfull
        exact absurd hs2 (hfull s (by simp [hs]))
      · exact ⟨slot_id, hp, by rw [e1, e2, hs1], hu⟩
  · intro h
    obtain ⟨L, d, d1, hL, _, _, hfind, heff⟩ := tryAddTool_true h
    obtain ⟨e1, e2, _, _⟩ := toolSlotsOf_add hfind heff
    obtain ⟨_, _, _, _, _, _, hcase⟩ := heff
    refine ⟨L, hL, ?_, ?_⟩
    · rintro ⟨x, hx, hroom⟩
      rcases hcase with ⟨pre, s, post, hs, hpre, hs2, hs1, hu, hp, _⟩ | ⟨hfull, _⟩
      · exact ⟨pre, s, post, by rw [e1, hs], hpre, hs2, by rw [e2, hs1], hu, hp⟩
      · rw [e1] at hx
        exact absurd hroom (hfull x hx)
    · intro hfull
      rcases hcase with ⟨pre, s, post, hs, _, hs2, _⟩ | ⟨_, _, slot_id, hp, hs1, hu, _⟩
      · rw [e1] at hfull
        exact absurd hs2 (hfull s (by simp [hs]))
      · exact ⟨slot_id, hp, by rw [e1, e2, hs1], hu⟩

/-- Witness of C13: in `packBag` (stack size 2) the resource goes into the second slot
`[3]`, the first slot with room, and the tool into the first slot. -/
theorem C13_witness :
    (tryAddResource demoProperties 1 0 packBag = .ok (true, packBagAfterResource) ∧
      (∃ x ∈ resourceSlotsOf 1 packBag, (x.ResourceIds.length : Int) < 2) ∧
      ∃ pre s post, resourceSlotsOf 1 packBag = pre ++ s :: post ∧
        (∀ x ∈ pre, ¬ ((x.ResourceIds.length : Int) < 2)) ∧
        (s.ResourceIds.length : Int) < 2 ∧
        resourceSlotsOf 1 packBagAfterResource
          = pre ++ { s with ResourceIds := s.ResourceIds ++ [0] } :: post ∧
        packBagAfterResource.Resources.UsedSlots = packBag.Resources.UsedSlots ∧
        packBagAfterResource.slot_ids_pool = packBag.slot_ids_pool) ∧
    (tryAddTool demoProperties 2 0 9 packBag = .ok (true, packBagAfterTool) ∧
      (∃ x ∈ toolSlotsOf 2 packBag, (x.ToolsInfo.length : Int) < 2) ∧
      ∃ pre s post, toolSlotsOf 2 packBag = pre ++ s :: post ∧
        (∀ x ∈ pre, ¬ ((x.ToolsInfo.length : Int) < 2)) ∧
        (s.ToolsInfo.length : Int) < 2 ∧
        toolSlotsOf 2 packBagAfterTool
          = pre ++ { s with ToolsInfo := s.ToolsInfo ++
              [{ ToolId := 0, Durability := 9 }] } :: post ∧
        packBagAfterTool.Tools.UsedSlots = packBag.Tools.UsedSlots ∧
        packBagAfterTool.slot_ids_pool = packBag.slot_ids_pool) := by
  have hr : tryAddResource demoProperties 1 0 packBag = .ok (true, packBagAfterResource) := by
    decide
  have ht : tryAddTool demoProperties 2 0 9 packBag = .ok (true, packBagAfterTool) := by
    decide
  have hxr : ∃ x ∈ resourceSlotsOf 1 packBag, (x.ResourceIds.length : Int) < 2 :=
    ⟨{ Id := 4, ResourceIds := [3] }, by decide, by decide⟩
  have hxt : ∃ x ∈ toolSlotsOf 2 packBag, (x.ToolsInfo.length : Int) < 2 :=
    ⟨{ Id := 3, ToolsInfo := [{ ToolId := 2, Durability := 10 }] }, by decide, by decide⟩
  obtain ⟨L1, hL1, c1, _⟩ :=
    (C13_first_fit_insertion demoProperties 1 0 9 packBag packBagAfterResource).1 hr
  obtain ⟨L2, hL2, c2, _⟩ :=
    (C13_first_fit_insertion demoProperties 2 0 9 packBag packBagAfterTool).2 ht
  have e1 : L1 = { MaxStackSize := 2, MaxQuantity := 5 } := by
    have e : mapFind 1 demoProperties.Limits
        = some (some { MaxStackSize := 2, MaxQuantity := 5 }) := by decide
    rw [e] at hL1
    simp only [Option.some.injEq] at hL1
    exact hL1.symm
  have e2 : L2 = { MaxStackSize := 2, MaxQuantity := 10 } := by
    have e : mapFind 2 demoProperties.Limits
        = some (some { MaxStackSize := 2, MaxQuantity := 10 }) := by decide
    rw [e] at hL2
    simp only [Option.some.injEq] at hL2
    exact hL2.symm
  subst e1 e2
  exact ⟨⟨hr, hxr, c1 hxr⟩, ⟨ht, hxt, c2 hxt⟩⟩

/-! ## Slots and buckets are never empty -/

theorem inv_noEmptySlot {P : UBagProperties} {b : Bag} (h : Inv P b) : NoEmptySlot b := by
  constructor
  · intro kv hkv slot hs
    obtain ⟨L, _, hok⟩ := h.1 kv hkv
    exact (hok.1.2.1 slot hs).1
  · intro kv hkv slot hs
    obtain ⟨L, _, hok⟩ := h.2.1 kv hkv
    exact (hok.1.2.1 slot hs).1

/-- C15: in every reachable bag state no bucket contains a slot with zero entries; in
particular the bag after any `removeItem` or `removeItemComponent` call that
returned, with success or failure, has no empty slot in `Resources` or
`Tools`. -/
theorem C15_no_empty_slot (P : UBagProperties) (b : Bag) (h : Reachable P b) :
    NoEmptySlot b ∧
    (∀ d spawn r b1, removeItem d spawn b = .ok (r, b1) → NoEmptySlot b1) ∧
    (∀ c spawn r b1, removeItemComponent c spawn b = .ok (r, b1) → NoEmptySlot b1) := by
  have hI := reachable_inv h
  exact ⟨inv_noEmptySlot hI,
    fun d spawn r b1 hr => inv_noEmptySlot (removeItem_inv hI hr),
    fun c spawn r b1 hr => inv_noEmptySlot (removeItemComponent_inv hI hr)⟩

/-- Witness of C15: `demoBag` and the bag after `removeItem(demoResource)`, which closed
the slot `[3]`. -/
theorem C15_witness :
    Reachable demoProperties demoBag ∧
    removeItem (some demoResource) true demoBag
      = .ok ({ bRemoved := true, RemovedId := 3, SpawnedActor := none }, demoBagAfterRemove) ∧
    NoEmptySlot demoBag ∧ NoEmptySlot demoBagAfterRemove :=
  ⟨demoBag_reachable, by decide,
   (C15_no_empty_slot demoProperties demoBag demoBag_reachable).1,
   (C15_no_empty_slot demoProperties demoBag demoBag_reachable).2.1
     (some demoResource) true { bRemoved := true, RemovedId := 3, SpawnedActor := none }
     demoBagAfterRemove (by decide)⟩

theorem mapFind_isSome_of_mem {β : Type} {k : Nat} {v : β} {m : List (Nat × β)}
    (h : (k, v) ∈ m) : ∃ w, mapFind k m = some w := by
  cases hf : mapFind k m with
  | none => exact absurd rfl (mapFind_none_keys hf (k, v) h)
  | some w => exact ⟨w, rfl⟩

theorem inv_lifecycle {P : UBagProperties} {b : Bag} (hI : Inv P b) :
    (∀ key, (∃ d, (key, d) ∈ b.Resources.Data) ↔ 1 ≤ resourceQuantityOf key b) ∧
    (∀ key, (∃ d, (key, d) ∈ b.Tools.Data) ↔ 1 ≤ toolQuantityOf key b) ∧
    (∀ kv ∈ b.Resources.Data, 1 ≤ kv.2.ResourceQuantity ∧ kv.2.Slots ≠ []) ∧
    (∀ kv ∈ b.Tools.Data, 1 ≤ kv.2.ToolQuantity ∧ kv.2.Slots ≠ []) := by
  have hr : ∀ kv ∈ b.Resources.Data, 1 ≤ kv.2.ResourceQuantity ∧ kv.2.Slots ≠ [] := by
    intro kv hkv
    obtain ⟨L, _, hok⟩ := hI.1 kv hkv
    exact ⟨resourceBucketOk_quantity_pos hok, hok.2⟩
  have ht : ∀ kv ∈ b.Tools.Data, 1 ≤ kv.2.ToolQuantity ∧ kv.2.Slots ≠ [] := by
    intro kv hkv
    obtain ⟨L, _, hok⟩ := hI.2.1 kv hkv
    exact ⟨toolBucketOk_quantity_pos hok, hok.2⟩
  refine ⟨?_, ?_, hr, ht⟩
  · intro key
    constructor
    · rintro ⟨d, hd⟩
      obtain ⟨w, hw⟩ := mapFind_isSome_of_mem hd
      simp only [resourceQuantityOf, hw]
      exact (hr (key, w) (mapFind_mem hw)).1
    · intro hq
      cases hf : mapFind key b.Resources.Data with
      | none => simp [resourceQuantityOf, hf] at hq
      | some w => exact ⟨w, mapFind_mem hf⟩
  · intro key
    constructor
    · rintro ⟨d, hd⟩
      obtain ⟨w, hw⟩ := mapFind_isSome_of_mem hd
      simp only [toolQuantityOf, hw]
      exact (ht (key, w) (mapFind_mem hw)).1
    · intro hq
      cases hf : mapFind key b.Tools.Data with
      | none => simp [toolQuantityOf, hf] at hq
      | some w => exact ⟨w, mapFind_mem hf⟩

/-- C16: bucket lifecycle.  In every reachable bag state a type key is present in
`Resources.Data` (`Tools.Data`) if and only if its quantity is at least 1, and a
present bucket has at least one slot.  The same holds of the bag after any
further call that returns: a removal that brought a quantity to 0 has deleted
the key, and no call, a failed add of an absent type included, leaves a bucket
with quantity 0 in the registry. -/
theorem C16_bucket_lifecycle (P : UBagProperties) (b : Bag) (h : Reachable P b) :
    ((∀ key, (∃ d, (key, d) ∈ b.Resources.Data) ↔ 1 ≤ resourceQuantityOf key b) ∧
     (∀ key, (∃ d, (key, d) ∈ b.Tools.Data) ↔ 1 ≤ toolQuantityOf key b) ∧
     (∀ kv ∈ b.Resources.Data, 1 ≤ kv.2.ResourceQuantity ∧ kv.2.Slots ≠ []) ∧
     (∀ kv ∈ b.Tools.Data, 1 ≤ kv.2.ToolQuantity ∧ kv.2.Slots ≠ [])) ∧
    (∀ op b1, step P b op = .ok b1 →
      (∀ key, resourceQuantityOf key b1 = 0 → ∀ d, (key, d) ∉ b1.Resources.Data) ∧
      (∀ key, toolQuantityOf key b1 = 0 → ∀ d, (key, d) ∉ b1.Tools.Data) ∧
      (∀ kv ∈ b1.Resources.Data, kv.2.ResourceQuantity ≠ 0) ∧
      (∀ kv ∈ b1.Tools.Data, kv.2.ToolQuantity ≠ 0)) := by
  have hI := reachable_inv h
  refine ⟨inv_lifecycle hI, ?_⟩
  intro op b1 hstep
  obtain ⟨l1, l2, l3, l4⟩ := inv_lifecycle (step_inv hI hstep)
  refine ⟨?_, ?_, ?_, ?_⟩
  · intro key hq d hd
    have := (l1 key).mp ⟨d, hd⟩
    omega
  · intro key hq d hd
    have := (l2 key).mp ⟨d, hd⟩
    omega
  · intro kv hkv
    have := (l3 kv hkv).1
    omega
  · intro kv hkv
    have := (l4 kv hkv).1
    omega

/-- Witness of C16: `demoBag` holds type 1 with quantity 3 and does not hold type 9;
removing its only tool deletes the tool bucket (`demoBagAfterToolRemove`). -/
theorem C16_witness :
    Reachable demoProperties demoBag ∧
    ((∃ d, ((1 : Nat), d) ∈ demoBag.Resources.Data) ↔ 1 ≤ resourceQuantityOf 1 demoBag) ∧
    resourceQuantityOf 1 demoBag = 3 ∧
    ((∃ d, ((9 : Nat), d) ∈ demoBag.Resources.Data) ↔ 1 ≤ resourceQuantityOf 9 demoBag) ∧
    resourceQuantityOf 9 demoBag = 0 ∧
    step demoProperties demoBag (Op.removeItem (some demoTool) false)
      = .ok demoBagAfterToolRemove ∧
    demoBagAfterToolRemove.Tools.Data = [] ∧
    (∀ key, toolQuantityOf key demoBagAfterToolRemove = 0 →
      ∀ d, (key, d) ∉ demoBagAfterToolRemove.Tools.Data) :=
  ⟨demoBag_reachable,
   (C16_bucket_lifecycle demoProperties demoBag demoBag_reachable).1.1 1, by decide,
   (C16_bucket_lifecycle demoProperties demoBag demoBag_reachable).1.1 9, by decide,
   by decide, rfl,
   ((C16_bucket_lifecycle demoProperties demoBag demoBag_reachable).2
      (Op.removeItem (some demoTool) false) demoBagAfterToolRemove (by decide)).2.1⟩

/-! ## Removing the last item -/

theorem resourceSlots_nil_of_sum_zero (l : List FBagResourceSlot)
    (hne : ∀ x ∈ l, x.ResourceIds ≠ [])
    (h : (l.map (fun slot => slot.ResourceIds.length)).sum = 0) : l = [] := by
  cases l with
  | nil => rfl
  | cons x rest =>
    have hx := hne x (by simp)
    have : 1 ≤ x.ResourceIds.length := by
      cases hx1 : x.ResourceIds with
      | nil => exact absurd hx1 hx
      | cons _ _ => simp
    simp only [List.map_cons, List.sum_cons] at h
    omega

theorem toolSlots_nil_of_sum_zero (l : List FBagToolSlot)
    (hne : ∀ x ∈ l, x.ToolsInfo ≠ [])
    (h : (l.map (fun slot => slot.ToolsInfo.length)).sum = 0) : l = [] := by
  cases l with
  | nil => rfl
  | cons x rest =>
    have hx := hne x (by simp)
    have : 1 ≤ x.ToolsInfo.length := by
      cases hx1 : x.ToolsInfo with
      | nil => exact absurd hx1 hx
      | cons _ _ => simp
    simp only [List.map_cons, List.sum_cons] at h
    omega

theorem resourceRemoveLast_view {P : UBagProperties} {key : Nat} {removed : Int} {b b1 : Bag}
    (hR : ResourcesOk P b.Resources.Data) (hk : (b.Resources.Data.map Prod.fst).Nodup)
    (heff : ResourceRemoveLastEffect key removed b b1) :
    ∃ front last ids, resourceSlotsOf key b = front ++ [last] ∧
      last.ResourceIds = ids ++ [removed] ∧
      resourceQuantityOf key b1 = resourceQuantityOf key b - 1 ∧
      resourceSlotsOf key b1
        = (if ids = [] then front else front ++ [{ last with ResourceIds := ids }]) := by
  obtain ⟨d, front, last, ids, hd, hq, hs, hl, _, _, _, hdata, _⟩ := heff
  obtain ⟨L, _, hok⟩ := hR (key, d) (mapFind_mem hd)
  replace hok : ResourceBucketOk L d := hok
  refine ⟨front, last, ids, by simp [resourceSlotsOf, hd, hs], hl, ?_, ?_⟩
  · by_cases h0 : d.ResourceQuantity - 1 = 0
    · simp only [resourceQuantityOf, hdata, h0, if_true, mapFind_mapRemove_self key _ hk, hd]
    · simp only [resourceQuantityOf, hdata, h0, if_false, mapFind_mapSet_self, hd]
  · by_cases h0 : d.ResourceQuantity - 1 = 0
    · simp only [resourceSlotsOf, hdata, h0, if_true, mapFind_mapRemove_self key _ hk]
      have hcount : d.entryCount = 1 := by
        have := hok.1.1
        omega
      simp only [FBagResourcesData.entryCount, hs, hl, List.map_append, List.map_cons,
        List.map_nil, List.sum_append, List.sum_cons, List.sum_nil, List.length_append,
        List.length_singleton] at hcount
      have hids : ids = [] := List.length_eq_zero.mp (by omega)
      have hfront : front = [] :=
        resourceSlots_nil_of_sum_zero front
          (fun x hx => (hok.1.2.1 x (by simp [hs, hx])).1) (by omega)
      simp [hids, hfront]
    · simp only [resourceSlotsOf, hdata, h0, if_false, mapFind_mapSet_self]

theorem toolRemove_view {P : UBagProperties} {key : Nat} {remove_id removed : Int}
    {b b1 : Bag} (hR : ToolsOk P b.Tools.Data) (hk : (b.Tools.Data.map Prod.fst).Nodup)
    (heff : ToolRemoveEffect key remove_id removed b b1) :
    ∃ pre s post before info after, toolSlotsOf key b = pre ++ s :: post ∧
      s.ToolsInfo = before ++ info :: after ∧ info.ToolId = removed ∧
      ((remove_id = -1 ∧ post = [] ∧ after = []) ∨
       (remove_id ≠ -1 ∧ removed = remove_id ∧
          (∀ t ∈ before ++ after, t.ToolId ≠ remove_id) ∧
          (∀ x ∈ pre, ∀ t ∈ x.ToolsInfo, t.ToolId ≠ remove_id))) ∧
      toolQuantityOf key b1 = toolQuantityOf key b - 1 ∧
      toolSlotsOf key b1
        = (if before ++ after = [] then pre ++ lastToFront post
           else pre ++ { s with ToolsInfo := before ++ after } :: post) := by
  obtain ⟨d, pre, s, post, before, info, after, hd, hq, hs, hinfo, hrem, hmode, _, _, _,
    hdata, _⟩ := heff
  obtain ⟨L, _, hok⟩ := hR (key, d) (mapFind_mem hd)
  replace hok : ToolBucketOk L d := hok
  refine ⟨pre, s, post, before, info, after, by simp [toolSlotsOf, hd, hs], hinfo, hrem, hmode,
    ?_, ?_⟩
  · by_cases h0 : d.ToolQuantity - 1 = 0
    · simp only [toolQuantityOf, hdata, h0, if_true, mapFind_mapRemove_self key _ hk, hd]
    · simp only [toolQuantityOf, hdata, h0, if_false, mapFind_mapSet_self, hd]
  · by_cases h0 : d.ToolQuantity - 1 = 0
    · simp only [toolSlotsOf, hdata, h0, if_true, mapFind_mapRemove_self key _ hk]
      have hcount : d.entryCount = 1 := by
        have := hok.1.1
        omega
      simp only [FBagToolsData.entryCount, hs, hinfo, List.map_append, List.map_cons,
        List.sum_append, List.sum_cons, List.length_append,
        List.length_cons] at hcount
      have hb : before = [] := List.length_eq_zero.mp (by omega)
      have ha : after = [] := List.length_eq_zero.mp (by omega)
      have hpre : pre = [] :=
        toolSlots_nil_of_sum_zero pre
          (fun x hx => (hok.1.2.1 x (by simp [hs, hx])).1) (by omega)
      have hpost : post = [] :=
        toolSlots_nil_of_sum_zero post
          (fun x hx => (hok.1.2.1 x (by simp [hs, hx])).1) (by omega)
      simp [hb, ha, hpre, hpost, lastToFront]
    · simp only [toolSlotsOf, hdata, h0, if_false, mapFind_mapSet_self]

theorem removeItem_of_tryRemoveItem (data : UItemData) (spawn : Bool) {b b0 : Bag}
    {removed : Int} (h : tryRemoveItem data (-1) b = .ok (true, removed, b0)) :
    removeItem (some data) spawn b
      = .ok ({ bRemoved := true, RemovedId := removed, SpawnedActor := dropSpawn data spawn },
          { b0 with
            item_ids_pool := b0.item_ids_pool ++ [removed]
            item_comp_to_id :=
              match mapFindKey removed b0.item_comp_to_id with
              | none => b0.item_comp_to_id
              | some item_comp => mapRemove item_comp b0.item_comp_to_id
            events := b0.events ++ [Event.BagUpdated] }) := by
  unfold removeItem
  simp only [h]

/-- C17: `removeItem` of a type that has a bucket, in a reachable bag state, succeeds and
removes exactly the last entry of the last slot of the bucket's slot sequence:
`RemovedId` is the id of that entry, the quantity of the type decreases by
exactly 1, and every other entry of every slot stays in place, the last slot
being deleted if it became empty (the bucket then has the slots before it, or
none). -/
theorem C17_remove_last (P : UBagProperties) (b : Bag) (data : UItemData) (spawn : Bool)
    (h : Reachable P b) :
    (data.Category = EItemCategory.Resource → data.cls = DataClass.ResourceData →
      (∃ d, mapFind data.ptr b.Resources.Data = some d) →
      ∃ front last ids removed b1,
        resourceSlotsOf data.ptr b = front ++ [last] ∧ last.ResourceIds = ids ++ [removed] ∧
        removeItem (some data) spawn b
          = .ok ({ bRemoved := true, RemovedId := removed,
                   SpawnedActor := dropSpawn data spawn }, b1) ∧
        resourceQuantityOf data.ptr b1 = resourceQuantityOf data.ptr b - 1 ∧
        resourceSlotsOf data.ptr b1
          = (if ids = [] then front else front ++ [{ last with ResourceIds := ids }])) ∧
    (data.Category = EItemCategory.Tool → (∃ m, data.cls = DataClass.ToolData m) →
      (∃ d, mapFind data.ptr b.Tools.Data = some d) →
      ∃ front last infos info b1,
        toolSlotsOf data.ptr b = front ++ [last] ∧ last.ToolsInfo = infos ++ [info] ∧
        removeItem (some data) spawn b
          = .ok ({ bRemoved := true, RemovedId := info.ToolId,
                   SpawnedActor := dropSpawn data spawn }, b1) ∧
        toolQuantityOf data.ptr b1 = toolQuantityOf data.ptr b - 1 ∧
        toolSlotsOf data.ptr b1
          = (if infos = [] then front else front ++ [{ last with ToolsInfo := infos }])) := by
  have hI := reachable_inv h
  have hK := reachable_keys h
  constructor
  · rintro hcat hcls ⟨d, hd⟩
    obtain ⟨L, _, hok⟩ := hI.1 (data.ptr, d) (mapFind_mem hd)
    replace hok : ResourceBucketOk L d := hok
    obtain ⟨front, last, hs⟩ : ∃ front last, d.Slots = front ++ [last] := by
      rcases List.eq_nil_or_concat d.Slots with h0 | ⟨front, last, h1⟩
      · exact absurd h0 hok.2
      · exact ⟨front, last, by simpa using h1⟩
    obtain ⟨ids, removed, hl⟩ : ∃ ids removed, last.ResourceIds = ids ++ [removed] := by
      rcases List.eq_nil_or_concat last.ResourceIds with h0 | ⟨ids, removed, h1⟩
      · exact absurd h0 (hok.1.2.1 last (by simp [hs])).1
      · exact ⟨ids, removed, by simpa using h1⟩
    have hq := resourceBucketOk_quantity_pos hok
    have heval := tryRemoveResource_last_eval data.ptr b d front last ids removed hd
      (by omega) hs hl
    have hitem : tryRemoveItem data (-1) b = _ := (tryRemoveItem_resource hcat hcls).trans heval
    obtain ⟨_, heff⟩ := tryRemoveResource_effect heval hI.1
    obtain ⟨front1, last1, ids1, v1, v2, v3, v4⟩ := resourceRemoveLast_view hI.1 hK.1 heff
    exact ⟨front1, last1, ids1, removed, _, v1, v2,
      removeItem_of_tryRemoveItem data spawn hitem, v3, v4⟩
  · rintro hcat ⟨m, hcls⟩ ⟨d, hd⟩
    obtain ⟨L, _, hok⟩ := hI.2.1 (data.ptr, d) (mapFind_mem hd)
    replace hok : ToolBucketOk L d := hok
    obtain ⟨front, last, hs⟩ : ∃ front last, d.Slots = front ++ [last] := by
      rcases List.eq_nil_or_concat d.Slots with h0 | ⟨front, last, h1⟩
      · exact absurd h0 hok.2
      · exact ⟨front, last, by simpa using h1⟩
    obtain ⟨infos, info, hl⟩ : ∃ infos info, last.ToolsInfo = infos ++ [info] := by
      rcases List.eq_nil_or_concat last.ToolsInfo with h0 | ⟨infos, info, h1⟩
      · exact absurd h0 (hok.1.2.1 last (by simp [hs])).1
      · exact ⟨infos, info, by simpa using h1⟩
    have hq := toolBucketOk_quantity_pos hok
    have heval := tryRemoveTool_last_eval data.ptr b d front last infos info hd
      (by omega) hs hl
    have hitem : tryRemoveItem data (-1) b = _ := (tryRemoveItem_tool hcat hcls).trans heval
    have heff := tryRemoveTool_effect heval hI.2.1
    obtain ⟨pre, s, post, before, info1, after, v1, v2, v3, vmode, v4, v5⟩ :=
      toolRemove_view hI.2.1 hK.2 heff
    rcases vmode with ⟨_, hpost, hafter⟩ | ⟨hne, _⟩
    · subst hpost hafter
      have hrem := removeItem_of_tryRemoveItem data spawn hitem
      rw [← v3] at hrem
      refine ⟨pre, s, before, info1, _, v1, v2, hrem, v4, ?_⟩
      refine Eq.trans v5 ?_
      simp [lastToFront]
    · exact absurd rfl hne

/-- C17 on `demoBag` (resource slots `[5, 4]`, `[3]`; tool slot `[2]`): `removeItem` of
the resource returns id 3 and gives `demoBagAfterRemove`, `removeItem` of the
tool returns id 2 and gives `demoBagAfterToolRemove`. -/
theorem C17_witness :
    Reachable demoProperties demoBag ∧
    removeItem (some demoResource) false demoBag
      = .ok ({ bRemoved := true, RemovedId := 3, SpawnedActor := none }, demoBagAfterRemove) ∧
    removeItem (some demoTool) false demoBag
      = .ok ({ bRemoved := true, RemovedId := 2, SpawnedActor := none },
             demoBagAfterToolRemove) ∧
    (∃ front last ids removed b1,
        resourceSlotsOf demoResource.ptr demoBag = front ++ [last] ∧
        last.ResourceIds = ids ++ [removed] ∧
        removeItem (some demoResource) false demoBag
          = .ok ({ bRemoved := true, RemovedId := removed,
                   SpawnedActor := dropSpawn demoResource false }, b1) ∧
        resourceQuantityOf demoResource.ptr b1 = resourceQuantityOf demoResource.ptr demoBag - 1 ∧
        resourceSlotsOf demoResource.ptr b1
          = (if ids = [] then front else front ++ [{ last with ResourceIds := ids }])) ∧
    (∃ front last infos info b1,
        toolSlotsOf demoTool.ptr demoBag = front ++ [last] ∧ last.ToolsInfo = infos ++ [info] ∧
        removeItem (some demoTool) false demoBag
          = .ok ({ bRemoved := true, RemovedId := info.ToolId,
                   SpawnedActor := dropSpawn demoTool false }, b1) ∧
        toolQuantityOf demoTool.ptr b1 = toolQuantityOf demoTool.ptr demoBag - 1 ∧
        toolSlotsOf demoTool.ptr b1
          = (if infos = [] then front else front ++ [{ last with ToolsInfo := infos }])) :=
  ⟨demoBag_reachable, by decide, by decide,
   (C17_remove_last demoProperties demoBag demoResource false demoBag_reachable).1 rfl rfl
     ⟨_, rfl⟩,
   (C17_remove_last demoProperties demoBag demoTool false demoBag_reachable).2 rfl ⟨10, rfl⟩
     ⟨_, rfl⟩⟩

/-! ## Removal by a specific id -/

theorem tryRemoveResource_byId_nullDeref {key : Nat} {remove_id : Int} {b : Bag}
    {d : FBagResourcesData} (hd : mapFind key b.Resources.Data = some d)
    (hq : 0 < d.ResourceQuantity) (hs : d.Slots ≠ []) (hid : 0 ≤ remove_id) :
    tryRemoveResource key remove_id b = .error Fault.nullDeref := by
  unfold tryRemoveResource
  have h1 : remove_id ≥ -1 := by omega
  have h2 : ¬ remove_id = -1 := by omega
  simp only [h1, if_true, hd, gt_iff_lt, hq, h2, if_false]
  cases hsl : d.Slots with
  | nil => exact absurd hsl hs
  | cons _ _ => rfl

theorem removed_count_eq (r : Int) (l : List FBagToolInfo) :
    l.length - (l.filter (fun t => t.ToolId != r)).length
      = List.count r (l.map FBagToolInfo.ToolId) := by
  have h := count_map_filter_ne r r l
  have h0 : List.count r ((l.filter (fun t => t.ToolId != r)).map FBagToolInfo.ToolId) = 0 := by
    rw [List.count_eq_zero]
    intro hmem
    obtain ⟨t, ht, hr⟩ := List.mem_map.mp hmem
    have := (List.mem_filter.mp ht).2
    simp [hr] at this
  simp only [if_true] at h
  omega

theorem removeToolById_absent (remove_id : Int) (slots : List FBagToolSlot)
    (hne : ∀ x ∈ slots, x.ToolsInfo ≠ []) (habs : remove_id ∉ toolSlotsIds slots) :
    removeToolById remove_id slots = .ok none := by
  induction slots with
  | nil => rfl
  | cons x rest ih =>
    have hx : 0 < x.ToolsInfo.length := List.length_pos.mpr (hne x (by simp))
    simp only [toolSlotsIds, List.mem_append, not_or] at habs
    have hc : List.count remove_id (x.ToolsInfo.map FBagToolInfo.ToolId) = 0 :=
      List.count_eq_zero.mpr habs.1
    have hr := removed_count_eq remove_id x.ToolsInfo
    unfold removeToolById
    have h1 : x.ToolsInfo.length
        - (x.ToolsInfo.filter (fun t => t.ToolId != remove_id)).length ≤ 1 := by omega
    have h2 : ¬ x.ToolsInfo.length
        - (x.ToolsInfo.filter (fun t => t.ToolId != remove_id)).length > 0 := by omega
    simp only [gt_iff_lt, hx, if_true, h1]
    rw [if_neg (by simpa using h2)]
    rw [ih (fun y hy => hne y (by simp [hy])) habs.2]

theorem toolSlotsIds_count_le_one {P : UBagProperties} {b : Bag} (hI : Inv P b) {key : Nat}
    {d : FBagToolsData} (hd : mapFind key b.Tools.Data = some d) (a : Int) :
    List.count a (toolSlotsIds d.Slots) ≤ 1 := by
  have h1 := toolsIds_count_le hd a
  have h2 := hI.2.2.1 a
  have h3 : List.count a (idRange P.MaxItemId) ≤ 1 :=
    List.nodup_iff_count_le_one.mp (idRange_nodup P.MaxItemId) a
  simp only [Bag.heldIds, List.count_append] at h2
  omega

theorem tryRemoveTool_absent {P : UBagProperties} {b : Bag} (hI : Inv P b) {key : Nat}
    {remove_id : Int} {d : FBagToolsData} (hid : 0 ≤ remove_id)
    (hd : mapFind key b.Tools.Data = some d) (habs : remove_id ∉ toolSlotsIds d.Slots) :
    tryRemoveTool key remove_id b = .ok (false, remove_id, b) := by
  obtain ⟨L, _, hok⟩ := hI.2.1 (key, d) (mapFind_mem hd)
  replace hok : ToolBucketOk L d := hok
  have hq := toolBucketOk_quantity_pos hok
  have hrem := removeToolById_absent remove_id d.Slots (fun x hx => (hok.1.2.1 x hx).1) habs
  unfold tryRemoveTool
  have h1 : remove_id ≥ -1 := by omega
  have h2 : ¬ remove_id = -1 := by omega
  have h3 : d.ToolQuantity > 0 := by omega
  simp only [h1, if_true, hd, h3, h2, if_false, hrem]

theorem gapBag_reachable : Reachable demoProperties gapBag :=
  run_reachable (show run demoProperties gapOps = .ok gapBag from by decide)

theorem staleBag_reachable : Reachable demoProperties staleBag :=
  run_reachable (show run demoProperties staleOps = .ok staleBag from by decide)

theorem componentBag_reachable : Reachable demoProperties componentBag :=
  run_reachable (show run demoProperties [Op.addItemComponent (some demoResourceComponent)]
    = .ok componentBag from by decide)

/-- C18 (the code diverges for resources): in a reachable bag state, removal by a
specific id `remove_id ≥ 0` that no slot of the bucket of the type holds makes
`tryRemoveTool` return `false` with `remove_id` and the whole bag unchanged,
while `tryRemoveResource` does not return `false`: its search loop evaluates
`check(selected_resource_slot->ResourceIds.Num() > 0)` on the null pointer in
the first iteration. -/
theorem C18_remove_absent_id (P : UBagProperties) (b : Bag) (key : Nat) (remove_id : Int)
    (h : Reachable P b) (hid : 0 ≤ remove_id) :
    (∀ d, mapFind key b.Tools.Data = some d → remove_id ∉ toolSlotsIds d.Slots →
      tryRemoveTool key remove_id b = .ok (false, remove_id, b)) ∧
    (∀ d, mapFind key b.Resources.Data = some d → remove_id ∉ resourceSlotsIds d.Slots →
      tryRemoveResource key remove_id b = .error Fault.nullDeref) := by
  have hI := reachable_inv h
  constructor
  · intro d hd habs
    exact tryRemoveTool_absent hI hid hd habs
  · intro d hd _
    obtain ⟨L, _, hok⟩ := hI.1 (key, d) (mapFind_mem hd)
    replace hok : ResourceBucketOk L d := hok
    exact tryRemoveResource_byId_nullDeref hd (by have := resourceBucketOk_quantity_pos hok; omega)
      hok.2 hid

/-- C18 on concrete bags: in `demoBag` the tool packer rejects the absent id 0 and changes
nothing; in `staleBag`, reached by public calls only, the resource bucket holds
id 5, the component 8 is still bound to id 4, and both `tryRemoveResource` for
id 4 and `removeItemComponent` of that component stop at the null
dereference. -/
theorem C18_witness :
    Reachable demoProperties demoBag ∧ Reachable demoProperties staleBag ∧
    tryRemoveTool 2 0 demoBag = .ok (false, 0, demoBag) ∧
    tryRemoveResource 1 4 staleBag = .error Fault.nullDeref ∧
    removeItemComponent (some demoResourceComponent) false staleBag
      = .error Fault.nullDeref :=
  ⟨demoBag_reachable, staleBag_reachable,
   (C18_remove_absent_id demoProperties demoBag 2 0 demoBag_reachable (by decide)).1 _ rfl
     (by decide),
   (C18_remove_absent_id demoProperties staleBag 1 4 staleBag_reachable (by decide)).2 _ rfl
     (by decide),
   by decide⟩

/-- C19 (the code diverges): in a reachable bag state, `tryRemoveResource` with a
specific id `remove_id ≥ 0` that a slot of the bucket holds does not return
`true`: it stops at the null dereference in
`check(selected_resource_slot->ResourceIds.Num() > 0)`, and so does
`removeItemComponent` on a resource component bound to that id. -/
theorem C19_remove_resource_by_id_faults (P : UBagProperties) (b : Bag) (key : Nat)
    (remove_id : Int) (d : FBagResourcesData) (h : Reachable P b) (hid : 0 ≤ remove_id)
    (hd : mapFind key b.Resources.Data = some d)
    (_hmem : remove_id ∈ resourceSlotsIds d.Slots) :
    tryRemoveResource key remove_id b = .error Fault.nullDeref ∧
    (∀ (component : UItemComponent) (data : UItemData) (spawn : Bool),
      component.ItemData = some data → data.Category = EItemCategory.Resource →
      data.cls = DataClass.ResourceData → data.ptr = key →
      mapFind component.ptr b.item_comp_to_id = some remove_id →
      removeItemComponent (some component) spawn b = .error Fault.nullDeref) := by
  have hI := reachable_inv h
  obtain ⟨L, _, hok⟩ := hI.1 (key, d) (mapFind_mem hd)
  replace hok : ResourceBucketOk L d := hok
  have hnull : tryRemoveResource key remove_id b = .error Fault.nullDeref :=
    tryRemoveResource_byId_nullDeref hd
      (by have := resourceBucketOk_quantity_pos hok; omega) hok.2 hid
  refine ⟨hnull, ?_⟩
  intro component data spawn hdata hcat hcls hptr hbind
  subst hptr
  have hitem : tryRemoveItem data remove_id b = .error Fault.nullDeref :=
    (tryRemoveItem_resource hcat hcls).trans hnull
  simp [removeItemComponent, hdata, hbind, hitem]

/-- C19 on `componentBag`: the component 8 was added by `addItemComponent` and received
id 5; removing it by `removeItemComponent` stops at the null dereference. -/
theorem C19_witness :
    Reachable demoProperties componentBag ∧
    (5 : Int) ∈ resourceSlotsIds (resourceSlotsOf 1 componentBag) ∧
    tryRemoveResource 1 5 componentBag = .error Fault.nullDeref ∧
    removeItemComponent (some demoResourceComponent) false componentBag
      = .error Fault.nullDeref ∧
    run demoProperties [Op.addItemComponent (some demoResourceComponent),
        Op.removeItemComponent (some demoResourceComponent) false]
      = .error Fault.nullDeref :=
  ⟨componentBag_reachable, by decide,
   (C19_remove_resource_by_id_faults demoProperties componentBag 1 5 _ componentBag_reachable
      (by decide) rfl (by decide)).1,
   (C19_remove_resource_by_id_faults demoProperties componentBag 1 5 _ componentBag_reachable
      (by decide) rfl (by decide)).2 demoResourceComponent demoResource false rfl rfl rfl rfl rfl,
   by decide⟩

theorem concat_inj {α : Type} {l1 l2 : List α} {a b : α} (h : l1 ++ [a] = l2 ++ [b]) :
    l1 = l2 ∧ a = b := by
  have := List.append_inj' h rfl
  exact ⟨this.1, by simpa using this.2⟩

theorem denseSizes_nil (S : Int) : DenseSizes S [] := by
  intro front last h
  simp at h

theorem denseSizes_add_room {S : Int} {pre post : List Nat} {m : Nat}
    (h : DenseSizes S (pre ++ m :: post)) (hm : (m : Int) < S) :
    DenseSizes S (pre ++ (m + 1) :: post) := by
  rcases List.eq_nil_or_concat post with hp | ⟨p1, l1, hp⟩
  · subst hp
    intro front last hfl x hx
    obtain ⟨hf, _⟩ := concat_inj hfl
    subst hf
    exact h pre m rfl x hx
  · have hp1 : post = p1 ++ [l1] := by simpa using hp
    subst hp1
    have := h (pre ++ m :: p1) l1 (by simp) m (by simp)
    omega

theorem denseSizes_add_new {S : Int} {sizes : List Nat} (h : ∀ m : Nat, m ∈ sizes → (m : Int) = S)
    (last : Nat) : DenseSizes S (sizes ++ [last]) := by
  intro front l1 hfl x hx
  obtain ⟨hf, _⟩ := concat_inj hfl
  subst hf
  exact h x hx

theorem denseSizes_front {S : Int} {front : List Nat} {last : Nat}
    (h : DenseSizes S (front ++ [last])) : ∀ m : Nat, m ∈ front → (m : Int) = S :=
  h front last rfl

theorem denseSizes_drop_last {S : Int} {front : List Nat} {last : Nat}
    (h : DenseSizes S (front ++ [last])) : DenseSizes S front := by
  intro f2 l2 hfl x hx
  exact h front last rfl x (by simp [hfl, hx])

theorem denseSizes_change_last {S : Int} {front : List Nat} {last : Nat}
    (h : DenseSizes S (front ++ [last])) (l1 : Nat) : DenseSizes S (front ++ [l1]) :=
  denseSizes_add_new (denseSizes_front h) l1

theorem resourceAdd_dense {P : UBagProperties} {L : UItemBagLimit} {key : Nat} {id : Int}
    {d d1 : FBagResourcesData} {b b1 : Bag} (heff : ResourceAddEffect P L key id d d1 b b1)
    (hpre : ∀ slot ∈ d.Slots, (slot.ResourceIds.length : Int) ≤ L.MaxStackSize)
    (hd : DenseSizes L.MaxStackSize (d.Slots.map (fun slot => slot.ResourceIds.length))) :
    DenseSizes L.MaxStackSize (d1.Slots.map (fun slot => slot.ResourceIds.length)) := by
  obtain ⟨_, _, _, _, _, _, hcase⟩ := heff
  rcases hcase with ⟨pre, s, post, hs, _, hroom, hs1, _⟩ | ⟨hfull, _, slot_id, _, hs1, _⟩
  · rw [hs1]
    rw [hs] at hd
    simp only [List.map_append, List.map_cons, List.length_append, List.length_singleton] at hd ⊢
    exact denseSizes_add_room hd hroom
  · rw [hs1]
    simp only [List.map_append, List.map_cons, List.map_nil]
    apply denseSizes_add_new
    intro m hm
    obtain ⟨x, hx, rfl⟩ := List.mem_map.mp hm
    have h1 := hfull x hx
    have h2 := hpre x hx
    omega

theorem toolAdd_dense {P : UBagProperties} {L : UItemBagLimit} {key : Nat} {id durability : Int}
    {d d1 : FBagToolsData} {b b1 : Bag} (heff : ToolAddEffect P L key id durability d d1 b b1)
    (hpre : ∀ slot ∈ d.Slots, (slot.ToolsInfo.length : Int) ≤ L.MaxStackSize)
    (hd : DenseSizes L.MaxStackSize (d.Slots.map (fun slot => slot.ToolsInfo.length))) :
    DenseSizes L.MaxStackSize (d1.Slots.map (fun slot => slot.ToolsInfo.length)) := by
  obtain ⟨_, _, _, _, _, _, hcase⟩ := heff
  rcases hcase with ⟨pre, s, post, hs, _, hroom, hs1, _⟩ | ⟨hfull, _, slot_id, _, hs1, _⟩
  · rw [hs1]
    rw [hs] at hd
    simp only [List.map_append, List.map_cons, List.length_append, List.length_singleton] at hd ⊢
    exact denseSizes_add_room hd hroom
  · rw [hs1]
    simp only [List.map_append, List.map_cons, List.map_nil]
    apply denseSizes_add_new
    intro m hm
    obtain ⟨x, hx, rfl⟩ := List.mem_map.mp hm
    have h1 := hfull x hx
    have h2 := hpre x hx
    omega

theorem limit_unique {P : UBagProperties} {key : Nat} {L L1 : UItemBagLimit}
    (h : mapFind key P.Limits = some (some L)) (h1 : mapFind key P.Limits = some (some L1)) :
    L1 = L := by
  rw [h] at h1
  simpa using h1.symm

theorem tryAddItem_dense {P : UBagProperties} {data : UItemData} {id : Int}
    {comp : Option UItemComponent} {b b1 : Bag}
    (h : tryAddItem P data id comp b = .ok (true, b1))
    (hR : ResourcesOk P b.Resources.Data) (hT : ToolsOk P b.Tools.Data) (hD : DenseOk P b) :
    DenseOk P b1 := by
  rcases tryAddItem_true_cases h with ⟨_, _, hres⟩ | ⟨_, _, _, _, htool, _⟩
  · obtain ⟨L, d, d1, hL, _, _, hfind, heff⟩ := tryAddResource_true hres
    have heff1 := heff
    obtain ⟨_, hTools, _, _, _, hdata, _⟩ := heff
    refine ⟨?_, by rw [hTools]; exact hD.2⟩
    intro kv hkv L1 hL1
    rw [hdata] at hkv
    rcases mem_mapSet hkv with hold | rfl
    · exact hD.1 kv hold L1 hL1
    · have hLL := limit_unique hL hL1
      subst hLL
      rcases hfind with hf | ⟨_, rfl⟩
      · obtain ⟨L2, hL2, hok⟩ := hR (data.ptr, d) (mapFind_mem hf)
        have hLL := limit_unique hL hL2
        subst hLL
        replace hok : ResourceBucketOk L2 d := hok
        exact resourceAdd_dense heff1 (fun slot hs => (hok.1.2.1 slot hs).2)
          (hD.1 (data.ptr, d) (mapFind_mem hf) L2 hL)
      · exact resourceAdd_dense heff1 (by simp) (by simpa using denseSizes_nil _)
  · obtain ⟨L, d, d1, hL, _, _, hfind, heff⟩ := tryAddTool_true htool
    have heff1 := heff
    obtain ⟨_, hRes, _, _, _, hdata, _⟩ := heff
    refine ⟨by rw [hRes]; exact hD.1, ?_⟩
    intro kv hkv L1 hL1
    rw [hdata] at hkv
    rcases mem_mapSet hkv with hold | rfl
    · exact hD.2 kv hold L1 hL1
    · have hLL := limit_unique hL hL1
      subst hLL
      rcases hfind with hf | ⟨_, rfl⟩
      · obtain ⟨L2, hL2, hok⟩ := hT (data.ptr, d) (mapFind_mem hf)
        have hLL := limit_unique hL hL2
        subst hLL
        replace hok : ToolBucketOk L2 d := hok
        exact toolAdd_dense heff1 (fun slot hs => (hok.1.2.1 slot hs).2)
          (hD.2 (data.ptr, d) (mapFind_mem hf) L2 hL)
      · exact toolAdd_dense heff1 (by simp) (by simpa using denseSizes_nil _)

theorem tryRemoveItem_last_dense {P : UBagProperties} {data : UItemData} {removed : Int}
    {b b1 : Bag} (h : tryRemoveItem data (-1) b = .ok (true, removed, b1))
    (hR : ResourcesOk P b.Resources.Data) (hT : ToolsOk P b.Tools.Data) (hD : DenseOk P b) :
    DenseOk P b1 := by
  unfold tryRemoveItem at h
  split at h
  · split at h
    · obtain ⟨_, d, front, last, ids, hd, _, hs, hl, hT1, _, _, hdata, _⟩ :=
        tryRemoveResource_effect h hR
      refine ⟨?_, by rw [hT1]; exact hD.2⟩
      intro kv hkv L1 hL1
      rw [hdata] at hkv
      have hdense := hD.1 (data.ptr, d) (mapFind_mem hd)
      split at hkv
      · exact hD.1 kv (mem_mapRemove hkv) L1 hL1
      · rcases mem_mapSet hkv with hold | rfl
        · exact hD.1 kv hold L1 hL1
        · have hd1 := hdense L1 hL1
          simp only [hs, List.map_append, List.map_cons, List.map_nil] at hd1
          by_cases hids : ids = []
          · simp only [hids, if_true]
            exact denseSizes_drop_last hd1
          · simp only [hids, if_false, List.map_append, List.map_cons, List.map_nil]
            exact denseSizes_change_last hd1 _
    · simp at h
  · split at h
    · obtain ⟨d, pre, s, post, before, info, after, hd, _, hs, hinfo, _, hmode, hR1, _, _,
        hdata, _⟩ := tryRemoveTool_effect h hT
      refine ⟨by rw [hR1]; exact hD.1, ?_⟩
      intro kv hkv L1 hL1
      rw [hdata] at hkv
      have hdense := hD.2 (data.ptr, d) (mapFind_mem hd)
      rcases hmode with ⟨_, hpost, hafter⟩ | ⟨hne, _⟩
      · subst hpost hafter
        split at hkv
        · exact hD.2 kv (mem_mapRemove hkv) L1 hL1
        · rcases mem_mapSet hkv with hold | rfl
          · exact hD.2 kv hold L1 hL1
          · have hd1 := hdense L1 hL1
            simp only [hs, List.map_append, List.map_cons, List.map_nil] at hd1
            by_cases hb : before = []
            · simp only [hb, List.append_nil, if_true, lastToFront, List.getLast?_nil]
              exact denseSizes_drop_last hd1
            · simp only [List.append_nil, hb, if_false, List.map_append, List.map_cons,
                List.map_nil]
              exact denseSizes_change_last hd1 _
      · exact absurd rfl hne
    · simp at h
  · simp at h

theorem step_dense {P : UBagProperties} {b b1 : Bag} {op : Op} (hI : Inv P b)
    (hD : DenseOk P b) (hop : op.isStackOp = true) (h : step P b op = .ok b1) :
    DenseOk P b1 := by
  cases op with
  | addItem d =>
    simp only [step] at h
    cases hr : addItem P d b with
    | error e => simp [hr, Except.map] at h
    | ok pr =>
      obtain ⟨r, b2⟩ := pr
      simp only [hr, Except.map, Except.ok.injEq] at h
      subst h
      rcases addItem_cases hr with ⟨_, rfl⟩ | ⟨_, _, _, b0, _, _, _, hadd, _, rfl⟩
      · exact hD
      · have hb0 : DenseOk P b0 := tryAddItem_dense hadd hI.1 hI.2.1 hD
        exact hb0
  | addItemComponent c =>
    simp only [step] at h
    cases hr : addItemComponent P c b with
    | error e => simp [hr, Except.map] at h
    | ok pr =>
      obtain ⟨r, b2⟩ := pr
      simp only [hr, Except.map, Except.ok.injEq] at h
      subst h
      rcases addItemComponent_cases hr with ⟨_, rfl⟩ | ⟨_, _, _, _, b0, _, _, _, _, hadd, _, rfl⟩
      · exact hD
      · have hb0 : DenseOk P b0 := tryAddItem_dense hadd hI.1 hI.2.1 hD
        exact hb0
  | removeItem d spawn =>
    simp only [step] at h
    cases hr : removeItem d spawn b with
    | error e => simp [hr, Except.map] at h
    | ok pr =>
      obtain ⟨r, b2⟩ := pr
      simp only [hr, Except.map, Except.ok.injEq] at h
      subst h
      rcases removeItem_cases hr with ⟨_, rfl⟩ | ⟨_, _, b0, _, hrem, _, rfl⟩
      · exact hD
      · have hb0 : DenseOk P b0 := tryRemoveItem_last_dense hrem hI.1 hI.2.1 hD
        exact hb0
  | removeItemComponent c spawn => simp [Op.isStackOp] at hop
  | updateToolDurability tool durability =>
    simp only [step] at h
    cases hr : updateToolDurability tool durability b with
    | error e => simp [hr, Except.map] at h
    | ok pr =>
      obtain ⟨r, b2⟩ := pr
      simp only [hr, Except.map, Except.ok.injEq] at h
      subst h
      rcases updateToolDurability_cases hr with
        ⟨_, rfl⟩ | ⟨_, _, data, _, tools_data, _, slots, _, _, _, hfind, hset, rfl⟩
      · exact hD
      · refine ⟨hD.1, ?_⟩
        intro kv hkv L1 hL1
        rcases mem_mapSet hkv with hold | rfl
        · exact hD.2 kv hold L1 hL1
        · have hd1 := hD.2 (data.ptr, tools_data) (mapFind_mem hfind) L1 hL1
          have hlen := (setDurabilityInSlots_some hset).2
          simp only at hd1 ⊢
          rw [hlen]
          exact hd1

theorem BeginPlay_dense {P : UBagProperties} {b : Bag} (h : BeginPlay P = .ok b) :
    DenseOk P b := by
  unfold BeginPlay at h
  split at h
  · simp only [Except.ok.injEq] at h
    subst h
    exact ⟨by simp, by simp⟩
  · simp at h

theorem runFrom_dense {P : UBagProperties} (ops : List Op) :
    ∀ (b b1 : Bag), Inv P b → DenseOk P b → (∀ op ∈ ops, op.isStackOp = true) →
      runFrom P b ops = .ok b1 → DenseOk P b1 := by
  induction ops with
  | nil =>
    intro b b1 _ hD _ h
    simp only [runFrom, Except.ok.injEq] at h
    subst h
    exact hD
  | cons op rest ih =>
    intro b b1 hI hD hops h
    simp only [runFrom] at h
    cases hs : step P b op with
    | error e => simp [hs] at h
    | ok b2 =>
      simp only [hs] at h
      exact ih b2 b1 (step_inv hI hs) (step_dense hI hD (hops op (by simp)) hs)
        (fun o ho => hops o (by simp [ho])) h

theorem run_dense {P : UBagProperties} {ops : List Op} {b : Bag}
    (hops : ∀ op ∈ ops, op.isStackOp = true) (h : run P ops = .ok b) : DenseOk P b := by
  unfold run at h
  cases hb : BeginPlay P with
  | error e => simp [hb] at h
  | ok b0 =>
    simp only [hb] at h
    exact runFrom_dense ops b0 b (BeginPlay_inv hb) (BeginPlay_dense hb) hops h

theorem sizes_sum_bounds (S : Int) (sizes : List Nat)
    (hb : ∀ m : Nat, m ∈ sizes → 1 ≤ m ∧ (m : Int) ≤ S) :
    (sizes.length : Int) ≤ (sizes.sum : Int) ∧ (sizes.sum : Int) ≤ (sizes.length : Int) * S := by
  induction sizes with
  | nil => simp
  | cons m rest ih =>
    obtain ⟨h1, h2⟩ := ih (fun x hx => hb x (by simp [hx]))
    obtain ⟨h3, h4⟩ := hb m (by simp)
    simp only [List.length_cons, List.sum_cons, Nat.cast_add, Nat.cast_one]
    constructor
    · omega
    · have : ((rest.length : Int) + 1) * S = (rest.length : Int) * S + S := by ring
      rw [this]
      omega

theorem sizes_sum_full (S : Int) (sizes : List Nat) (hb : ∀ m : Nat, m ∈ sizes → (m : Int) = S) :
    (sizes.sum : Int) = (sizes.length : Int) * S := by
  induction sizes with
  | nil => simp
  | cons m rest ih =>
    have h1 := ih (fun x hx => hb x (by simp [hx]))
    have h3 := hb m (by simp)
    simp only [List.length_cons, List.sum_cons, Nat.cast_add, Nat.cast_one]
    have : ((rest.length : Int) + 1) * S = (rest.length : Int) * S + S := by ring
    rw [this]
    omega

theorem sizes_bounds (S : Int) (sizes : List Nat) (hne : sizes ≠ [])
    (hb : ∀ m : Nat, m ∈ sizes → 1 ≤ m ∧ (m : Int) ≤ S) :
    0 < S ∧ ((sizes.sum : Int) + S - 1) / S ≤ (sizes.length : Int) ∧
    (sizes.length : Int) ≤ (sizes.sum : Int) ∧
    (DenseSizes S sizes → (sizes.length : Int) = ((sizes.sum : Int) + S - 1) / S) := by
  have hS : 0 < S := by
    cases sizes with
    | nil => exact absurd rfl hne
    | cons m rest =>
      have := hb m (by simp)
      omega
  obtain ⟨h1, h2⟩ := sizes_sum_bounds S sizes hb
  have hup : ((sizes.sum : Int) + S - 1) / S ≤ (sizes.length : Int) := by
    have hlt : ((sizes.sum : Int) + S - 1) / S < (sizes.length : Int) + 1 := by
      apply Int.ediv_lt_of_lt_mul hS
      have : ((sizes.length : Int) + 1) * S = (sizes.length : Int) * S + S := by ring
      rw [this]
      omega
    omega
  refine ⟨hS, hup, h1, ?_⟩
  intro hd
  rcases List.eq_nil_or_concat sizes with h0 | ⟨front, last, hfl⟩
  · exact absurd h0 hne
  · have hfl1 : sizes = front ++ [last] := by simpa using hfl
    have hfull := sizes_sum_full S front (hd front last hfl1)
    have hlast := hb last (by simp [hfl1])
    have hlow : (sizes.length : Int) ≤ ((sizes.sum : Int) + S - 1) / S := by
      apply Int.le_ediv_of_mul_le hS
      have hlen : (sizes.length : Int) = (front.length : Int) + 1 := by
        rw [hfl1]
        simp
      have hsum : (sizes.sum : Int) = (front.sum : Int) + (last : Int) := by
        rw [hfl1]
        simp
      rw [hlen, hsum]
      have : ((front.length : Int) + 1) * S = (front.length : Int) * S + S := by ring
      rw [this]
      omega
    omega

/-- C14 fails for `gapBag`, reached by three `addItemComponent` calls and one
`removeItemComponent`: the tool bucket of type 2 (stack size 2) holds 2 tools in
2 slots, both partially filled, while `ceil(2 / 2) = 1`. -/
theorem C14_counterexample :
    Reachable demoProperties gapBag ∧
    mapFind 2 demoProperties.Limits = some (some { MaxStackSize := 2, MaxQuantity := 10 }) ∧
    toolQuantityOf 2 gapBag = 2 ∧ toolSlotSizes 2 gapBag = [1, 1] ∧
    ((toolSlotsOf 2 gapBag).length : Int) ≠ (toolQuantityOf 2 gapBag + 2 - 1) / 2 ∧
    ¬ (∀ (P : UBagProperties) (b : Bag), Reachable P b →
        ∀ kv ∈ b.Tools.Data, ∀ L, mapFind kv.1 P.Limits = some (some L) →
          (kv.2.Slots.length : Int)
            = (kv.2.ToolQuantity + L.MaxStackSize - 1) / L.MaxStackSize) := by
  refine ⟨gapBag_reachable, by decide, by decide, by decide, by decide, ?_⟩
  intro hall
  have := hall demoProperties gapBag gapBag_reachable _ (List.mem_singleton.mpr rfl)
    { MaxStackSize := 2, MaxQuantity := 10 } (by decide)
  revert this
  decide

/-- C14, amended: in every reachable bag state a bucket with quantity `q` of a type with
stack size `S` has at least `ceil(q / S)` and at most `q` slots; and when the
state is reached by a call sequence without `removeItemComponent` (no removal
by a specific id), the bucket has exactly `ceil(q / S)` slots, every slot
before the last one holding exactly `S` entries. -/
theorem C14_slots_minimal_without_removal_by_id (P : UBagProperties) (b : Bag)
    (h : Reachable P b) :
    (∀ kv ∈ b.Resources.Data, ∃ L, mapFind kv.1 P.Limits = some (some L) ∧
      (kv.2.ResourceQuantity + L.MaxStackSize - 1) / L.MaxStackSize
        ≤ (kv.2.Slots.length : Int) ∧
      (kv.2.Slots.length : Int) ≤ kv.2.ResourceQuantity ∧
      (∀ ops, (∀ op ∈ ops, op.isStackOp = true) → run P ops = .ok b →
        (kv.2.Slots.length : Int)
          = (kv.2.ResourceQuantity + L.MaxStackSize - 1) / L.MaxStackSize ∧
        ∀ front last, kv.2.Slots = front ++ [last] →
          ∀ slot ∈ front, (slot.ResourceIds.length : Int) = L.MaxStackSize)) ∧
    (∀ kv ∈ b.Tools.Data, ∃ L, mapFind kv.1 P.Limits = some (some L) ∧
      (kv.2.ToolQuantity + L.MaxStackSize - 1) / L.MaxStackSize ≤ (kv.2.Slots.length : Int) ∧
      (kv.2.Slots.length : Int) ≤ kv.2.ToolQuantity ∧
      (∀ ops, (∀ op ∈ ops, op.isStackOp = true) → run P ops = .ok b →
        (kv.2.Slots.length : Int)
          = (kv.2.ToolQuantity + L.MaxStackSize - 1) / L.MaxStackSize ∧
        ∀ front last, kv.2.Slots = front ++ [last] →
          ∀ slot ∈ front, (slot.ToolsInfo.length : Int) = L.MaxStackSize)) := by
  have hI := reachable_inv h
  constructor
  · intro kv hkv
    obtain ⟨L, hL, hok⟩ := hI.1 kv hkv
    obtain ⟨hS, hup, hlow, hdense⟩ := sizes_bounds L.MaxStackSize
      (kv.2.Slots.map (fun slot => slot.ResourceIds.length)) (by simpa using hok.2)
      (by
        intro m hm
        obtain ⟨x, hx, rfl⟩ := List.mem_map.mp hm
        have := hok.1.2.1 x hx
        exact ⟨List.length_pos.mpr this.1, this.2⟩)
    have hq : kv.2.ResourceQuantity
        = (((kv.2.Slots.map (fun slot => slot.ResourceIds.length)).sum : Nat) : Int) := hok.1.1
    simp only [List.length_map] at hup hlow hdense
    rw [← hq] at hup hlow hdense
    refine ⟨L, hL, hup, hlow, ?_⟩
    intro ops hops hrun
    have hD := (run_dense hops hrun).1 kv hkv L hL
    refine ⟨hdense hD, ?_⟩
    intro front last hfl slot hslot
    exact hD (front.map (fun slot => slot.ResourceIds.length)) last.ResourceIds.length
      (by simp [hfl]) _ (List.mem_map.mpr ⟨slot, hslot, rfl⟩)
  · intro kv hkv
    obtain ⟨L, hL, hok⟩ := hI.2.1 kv hkv
    obtain ⟨hS, hup, hlow, hdense⟩ := sizes_bounds L.MaxStackSize
      (kv.2.Slots.map (fun slot => slot.ToolsInfo.length)) (by simpa using hok.2)
      (by
        intro m hm
        obtain ⟨x, hx, rfl⟩ := List.mem_map.mp hm
        have := hok.1.2.1 x hx
        exact ⟨List.length_pos.mpr this.1, this.2⟩)
    have hq : kv.2.ToolQuantity
        = (((kv.2.Slots.map (fun slot => slot.ToolsInfo.length)).sum : Nat) : Int) := hok.1.1
    simp only [List.length_map] at hup hlow hdense
    rw [← hq] at hup hlow hdense
    refine ⟨L, hL, hup, hlow, ?_⟩
    intro ops hops hrun
    have hD := (run_dense hops hrun).2 kv hkv L hL
    refine ⟨hdense hD, ?_⟩
    intro front last hfl slot hslot
    exact hD (front.map (fun slot => slot.ToolsInfo.length)) last.ToolsInfo.length
      (by simp [hfl]) _ (List.mem_map.mpr ⟨slot, hslot, rfl⟩)

/-- C14, amended, on `demoBag` (reached by `demoOps`, four `addItem` calls): the resource
bucket holds 3 ids in `ceil(3 / 2) = 2` slots, the first of them full. -/
theorem C14_witness :
    Reachable demoProperties demoBag ∧ run demoProperties demoOps = .ok demoBag ∧
    resourceSlotSizes 1 demoBag = [2, 1] ∧
    (∀ kv ∈ demoBag.Resources.Data, ∃ L, mapFind kv.1 demoProperties.Limits = some (some L) ∧
      (kv.2.ResourceQuantity + L.MaxStackSize - 1) / L.MaxStackSize
        ≤ (kv.2.Slots.length : Int) ∧
      (kv.2.Slots.length : Int) ≤ kv.2.ResourceQuantity ∧
      (kv.2.Slots.length : Int)
          = (kv.2.ResourceQuantity + L.MaxStackSize - 1) / L.MaxStackSize ∧
      ∀ front last, kv.2.Slots = front ++ [last] →
          ∀ slot ∈ front, (slot.ResourceIds.length : Int) = L.MaxStackSize) :=
  ⟨demoBag_reachable, by decide, by decide, fun kv hkv =>
    let ⟨L, hL, h1, h2, h3⟩ :=
      (C14_slots_minimal_without_removal_by_id demoProperties demoBag demoBag_reachable).1 kv hkv
    ⟨L, hL, h1, h2, h3 demoOps (by decide) (by decide)⟩⟩

/-! ## Runs of `addItem` calls of one type -/

theorem div_mod_of_decomp (S a r : Nat) (hr : r < S) :
    (a * S + r) / S = a ∧ (a * S + r) % S = r := by
  have hS : 0 < S := by omega
  exact (Nat.div_mod_unique hS).mpr ⟨by rw [Nat.mul_comm]; omega, hr⟩

theorem denseSizes_shape (S : Nat) (sizes : List Nat) (hS : 0 < S)
    (hb : ∀ m : Nat, m ∈ sizes → 1 ≤ m ∧ m ≤ S) (hd : DenseSizes (S : Int) sizes) :
    sizes = denseShape sizes.sum S ∧ sizes.length = (sizes.sum + S - 1) / S := by
  unfold denseShape
  rcases List.eq_nil_or_concat sizes with h0 | ⟨front, last, hfl⟩
  · subst h0
    have : (S - 1) / S = 0 := Nat.div_eq_of_lt (by omega)
    simp [this]
  · have hfl1 : sizes = front ++ [last] := by simpa using hfl
    have hfront : ∀ m : Nat, m ∈ front → m = S := by
      intro m hm
      have := hd front last hfl1 m hm
      exact_mod_cast this
    have hrep : front = List.replicate front.length S :=
      List.eq_replicate_iff.mpr ⟨rfl, hfront⟩
    have hsum : front.sum = front.length * S := by
      rw [hrep]
      simp
    have hlast := hb last (by simp [hfl1])
    have htotal : sizes.sum = front.length * S + last := by
      rw [hfl1]
      simp [hsum]
    have hlen : sizes.length = front.length + 1 := by
      rw [hfl1]
      simp
    rw [htotal, hlen]
    by_cases hfull : last = S
    · have e1 : front.length * S + last = (front.length + 1) * S + 0 := by
        rw [Nat.add_mul, hfull]
        omega
      have e2 : front.length * S + last + S - 1 = (front.length + 1) * S + (S - 1) := by
        rw [Nat.add_mul, hfull]
        omega
      obtain ⟨d1, m1⟩ := div_mod_of_decomp S (front.length + 1) 0 hS
      obtain ⟨d2, _⟩ := div_mod_of_decomp S (front.length + 1) (S - 1) (by omega)
      rw [e2, d2, e1, d1, m1]
      refine ⟨?_, rfl⟩
      rw [hfl1, hfull]
      simp only [if_true, List.append_nil]
      rw [List.replicate_succ', ← hrep]
    · have hlt : last < S := by omega
      have e2 : front.length * S + last + S - 1 = (front.length + 1) * S + (last - 1) := by
        rw [Nat.add_mul]
        omega
      obtain ⟨d1, m1⟩ := div_mod_of_decomp S front.length last hlt
      obtain ⟨d2, _⟩ := div_mod_of_decomp S (front.length + 1) (last - 1) (by omega)
      rw [e2, d2, d1, m1]
      refine ⟨?_, rfl⟩
      have hne : ¬ last = 0 := by omega
      rw [hfl1]
      simp only [hne, if_false]
      rw [← hrep]

theorem denseShape_zero (S : Nat) : denseShape 0 S = [] := by
  simp [denseShape]

theorem resourceRunState_shape {P : UBagProperties} {key n : Nat} {b : Bag}
    {L : UItemBagLimit} (hL : mapFind key P.Limits = some (some L))
    (h : ResourceRunState P key n b) :
    resourceSlotSizes key b = denseShape n L.MaxStackSize.toNat ∧
    b.Resources.UsedSlots
      = (((n + L.MaxStackSize.toNat - 1) / L.MaxStackSize.toNat : Nat) : Int) := by
  obtain ⟨hI, hD, hq, hu, _⟩ := h
  cases hf : mapFind key b.Resources.Data with
  | none =>
    have hn : n = 0 := by
      simp only [resourceQuantityOf, hf] at hq
      omega
    subst hn
    have h0 : (0 + L.MaxStackSize.toNat - 1) / L.MaxStackSize.toNat = 0 := by
      by_cases hz : L.MaxStackSize.toNat = 0
      · simp [hz]
      · exact Nat.div_eq_of_lt (by omega)
    rw [hu, h0]
    simp [resourceSlotSizes, resourceSlotsOf, hf, denseShape_zero]
  | some d =>
    obtain ⟨L1, hL1, hok⟩ := hI.1 (key, d) (mapFind_mem hf)
    have hLL := limit_unique hL hL1
    subst hLL
    replace hok : ResourceBucketOk L1 d := hok
    have hdense := hD.1 (key, d) (mapFind_mem hf) L1 hL
    simp only at hdense
    obtain ⟨hS, _, _, _⟩ := sizes_bounds L1.MaxStackSize
      (d.Slots.map (fun slot => slot.ResourceIds.length)) (by simpa using hok.2)
      (by
        intro m hm
        obtain ⟨x, hx, rfl⟩ := List.mem_map.mp hm
        have := hok.1.2.1 x hx
        exact ⟨List.length_pos.mpr this.1, this.2⟩)
    have hcast : ((L1.MaxStackSize.toNat : Nat) : Int) = L1.MaxStackSize := Int.toNat_of_nonneg hS.le
    have hshape := denseSizes_shape L1.MaxStackSize.toNat
      (d.Slots.map (fun slot => slot.ResourceIds.length)) (by omega)
      (by
        intro m hm
        obtain ⟨x, hx, rfl⟩ := List.mem_map.mp hm
        have := hok.1.2.1 x hx
        exact ⟨List.length_pos.mpr this.1, by omega⟩)
      (by rw [hcast]; exact hdense)
    have hsum : (d.Slots.map (fun slot => slot.ResourceIds.length)).sum = n := by
      have h1 := hok.1.1
      simp only [resourceQuantityOf, hf] at hq
      simp only [FBagResourcesData.entryCount] at h1
      omega
    rw [hsum] at hshape
    simp only [List.length_map] at hshape
    refine ⟨?_, ?_⟩
    · simp only [resourceSlotSizes, resourceSlotsOf, hf]
      exact hshape.1
    · rw [hu]
      simp only [resourceSlotsOf, hf]
      exact_mod_cast hshape.2

theorem toolRunState_shape {P : UBagProperties} {key n : Nat} {b : Bag}
    {L : UItemBagLimit} (hL : mapFind key P.Limits = some (some L))
    (h : ToolRunState P key n b) :
    toolSlotSizes key b = denseShape n L.MaxStackSize.toNat ∧
    b.Tools.UsedSlots
      = (((n + L.MaxStackSize.toNat - 1) / L.MaxStackSize.toNat : Nat) : Int) := by
  obtain ⟨hI, hD, hq, hu⟩ := h
  cases hf : mapFind key b.Tools.Data with
  | none =>
    have hn : n = 0 := by
      simp only [toolQuantityOf, hf] at hq
      omega
    subst hn
    have h0 : (0 + L.MaxStackSize.toNat - 1) / L.MaxStackSize.toNat = 0 := by
      by_cases hz : L.MaxStackSize.toNat = 0
      · simp [hz]
      · exact Nat.div_eq_of_lt (by omega)
    rw [hu, h0]
    simp [toolSlotSizes, toolSlotsOf, hf, denseShape_zero]
  | some d =>
    obtain ⟨L1, hL1, hok⟩ := hI.2.1 (key, d) (mapFind_mem hf)
    have hLL := limit_unique hL hL1
    subst hLL
    replace hok : ToolBucketOk L1 d := hok
    have hdense := hD.2 (key, d) (mapFind_mem hf) L1 hL
    simp only at hdense
    obtain ⟨hS, _, _, _⟩ := sizes_bounds L1.MaxStackSize
      (d.Slots.map (fun slot => slot.ToolsInfo.length)) (by simpa using hok.2)
      (by
        intro m hm
        obtain ⟨x, hx, rfl⟩ := List.mem_map.mp hm
        have := hok.1.2.1 x hx
        exact ⟨List.length_pos.mpr this.1, this.2⟩)
    have hcast : ((L1.MaxStackSize.toNat : Nat) : Int) = L1.MaxStackSize := Int.toNat_of_nonneg hS.le
    have hshape := denseSizes_shape L1.MaxStackSize.toNat
      (d.Slots.map (fun slot => slot.ToolsInfo.length)) (by omega)
      (by
        intro m hm
        obtain ⟨x, hx, rfl⟩ := List.mem_map.mp hm
        have := hok.1.2.1 x hx
        exact ⟨List.length_pos.mpr this.1, by omega⟩)
      (by rw [hcast]; exact hdense)
    have hsum : (d.Slots.map (fun slot => slot.ToolsInfo.length)).sum = n := by
      have h1 := hok.1.1
      simp only [toolQuantityOf, hf] at hq
      simp only [FBagToolsData.entryCount] at h1
      omega
    rw [hsum] at hshape
    simp only [List.length_map] at hshape
    refine ⟨?_, ?_⟩
    · simp only [toolSlotSizes, toolSlotsOf, hf]
      exact hshape.1
    · rw [hu]
      simp only [toolSlotsOf, hf]
      exact_mod_cast hshape.2

theorem tryAddResource_state {P : UBagProperties} {key : Nat} {id : Int} {b b1 : Bag}
    (h : tryAddResource P key id b = .ok (true, b1)) :
    resourceQuantityOf key b1 = resourceQuantityOf key b + 1 ∧
    (b.Resources.UsedSlots = ((resourceSlotsOf key b).length : Int) →
      b1.Resources.UsedSlots = ((resourceSlotsOf key b1).length : Int)) ∧
    (b1.slot_ids_pool.length : Int) + b1.Resources.UsedSlots
      = (b.slot_ids_pool.length : Int) + b.Resources.UsedSlots ∧
    b1.item_ids_pool = b.item_ids_pool := by
  obtain ⟨L, d, d1, _, _, _, hfind, heff⟩ := tryAddResource_true h
  obtain ⟨v1, v2, v3, v4⟩ := resourceSlotsOf_add hfind heff
  obtain ⟨_, _, hpool, _, hq, _, hcase⟩ := heff
  rw [v1, v2, v3, v4]
  refine ⟨hq, ?_, ?_, hpool⟩
  · intro hu
    rcases hcase with ⟨pre, s, post, hs, _, _, hs1, hu1, _⟩ | ⟨_, _, slot_id, _, hs1, hu1, _⟩
    · rw [hu1, hu, hs, hs1]
      simp
    · rw [hu1, hu, hs1]
      simp
  · rcases hcase with ⟨pre, s, post, _, _, _, _, hu1, hp1, _⟩ | ⟨_, _, slot_id, hp1, _, hu1, _⟩
    · rw [hu1, hp1]
    · rw [hu1, hp1]
      simp only [List.length_append, List.length_singleton, Nat.cast_add, Nat.cast_one]
      omega

theorem tryAddTool_state {P : UBagProperties} {key : Nat} {id durability : Int} {b b1 : Bag}
    (h : tryAddTool P key id durability b = .ok (true, b1)) :
    toolQuantityOf key b1 = toolQuantityOf key b + 1 ∧
    (b.Tools.UsedSlots = ((toolSlotsOf key b).length : Int) →
      b1.Tools.UsedSlots = ((toolSlotsOf key b1).length : Int)) := by
  obtain ⟨L, d, d1, _, _, _, hfind, heff⟩ := tryAddTool_true h
  obtain ⟨v1, v2, v3, v4⟩ := toolSlotsOf_add hfind heff
  obtain ⟨_, _, hpool, _, hq, _, hcase⟩ := heff
  rw [v1, v2, v3, v4]
  refine ⟨hq, ?_⟩
  intro hu
  rcases hcase with ⟨pre, s, post, hs, _, _, hs1, hu1, _⟩ | ⟨_, _, slot_id, _, hs1, hu1, _⟩
  · rw [hu1, hu, hs, hs1]
    simp
  · rw [hu1, hu, hs1]
    simp

theorem step_addItem {P : UBagProperties} {data : Option UItemData} {b b1 : Bag}
    {r : FInventoryBagAddItemResult} (h : addItem P data b = .ok (r, b1)) :
    step P b (Op.addItem data) = .ok b1 := by
  simp [step, h, Except.map]

theorem addItem_resource_state {P : UBagProperties} {data : UItemData} {n : Nat}
    {b b1 : Bag} {r : FInventoryBagAddItemResult}
    (hcat : data.Category = EItemCategory.Resource)
    (h : addItem P (some data) b = .ok (r, b1)) (hs : ResourceRunState P data.ptr n b) :
    ResourceRunState P data.ptr (n + (if r.bAdded = true then 1 else 0)) b1 ∧
    (r.bAdded = false → b1 = b) := by
  obtain ⟨hI, hD, hq, hu, hip, hsp⟩ := hs
  have hI1 := addItem_inv hI h
  have hD1 := step_dense hI hD (show (Op.addItem (some data)).isStackOp = true from rfl)
    (step_addItem h)
  rcases addItem_cases h with ⟨rfl, rfl⟩ | ⟨data1, pool, id, b0, hdata, hpool, _, hadd, rfl, rfl⟩
  · exact ⟨⟨hI1, hD1, by simpa using hq, hu, by simpa using hip, hsp⟩, fun _ => rfl⟩
  · simp only [Option.some.injEq] at hdata
    subst hdata
    refine ⟨?_, by simp⟩
    rcases tryAddItem_true_cases hadd with ⟨_, _, hres⟩ | ⟨htool, _⟩
    · obtain ⟨s1, s2, s3, s4⟩ := tryAddResource_state hres
      have q1 : resourceQuantityOf data.ptr b0 = resourceQuantityOf data.ptr b + 1 := s1
      have u1 : b0.Resources.UsedSlots = ((resourceSlotsOf data.ptr b0).length : Int) := s2 hu
      have p1 : (b0.slot_ids_pool.length : Int) + b0.Resources.UsedSlots
          = (b.slot_ids_pool.length : Int) + b.Resources.UsedSlots := s3
      have i1 : b0.item_ids_pool = pool := s4
      refine ⟨hI1, hD1, ?_, u1, ?_, ?_⟩
      · show resourceQuantityOf data.ptr b0 = _
        rw [q1, hq]
        simp
      · show (b0.item_ids_pool.length : Int) + _ = _
        rw [i1]
        rw [hpool] at hip
        simp only [List.length_append, List.length_singleton, Nat.cast_add, Nat.cast_one] at hip
        simp only [if_true, Nat.cast_add, Nat.cast_one]
        omega
      · intro hT hR
        show (b0.slot_ids_pool.length : Int) + b0.Resources.UsedSlots = _
        rw [p1, hsp hT hR]
    · rw [hcat] at htool
      simp at htool

theorem addItem_tool_state {P : UBagProperties} {data : UItemData} {n : Nat}
    {b b1 : Bag} {r : FInventoryBagAddItemResult}
    (hcat : data.Category = EItemCategory.Tool)
    (h : addItem P (some data) b = .ok (r, b1)) (hs : ToolRunState P data.ptr n b) :
    ToolRunState P data.ptr (n + (if r.bAdded = true then 1 else 0)) b1 := by
  obtain ⟨hI, hD, hq, hu⟩ := hs
  have hI1 := addItem_inv hI h
  have hD1 := step_dense hI hD (show (Op.addItem (some data)).isStackOp = true from rfl)
    (step_addItem h)
  rcases addItem_cases h with ⟨rfl, rfl⟩ | ⟨data1, pool, id, b0, hdata, hpool, _, hadd, rfl, rfl⟩
  · exact ⟨hI1, hD1, by simpa using hq, hu⟩
  · simp only [Option.some.injEq] at hdata
    subst hdata
    rcases tryAddItem_true_cases hadd with ⟨hres, _⟩ | ⟨_, _, _, _, htool, _⟩
    · rw [hcat] at hres
      simp at hres
    · obtain ⟨s1, s2⟩ := tryAddTool_state htool
      have q1 : toolQuantityOf data.ptr b0 = toolQuantityOf data.ptr b + 1 := s1
      have u1 : b0.Tools.UsedSlots = ((toolSlotsOf data.ptr b0).length : Int) := s2 hu
      refine ⟨hI1, hD1, ?_, u1⟩
      show toolQuantityOf data.ptr b0 = _
      rw [q1, hq]
      simp

theorem addItemCalls_resource_state {P : UBagProperties} {data : UItemData}
    (hcat : data.Category = EItemCategory.Resource) (k : Nat) :
    ∀ (n : Nat) (b b1 : Bag) (flags : List Bool), ResourceRunState P data.ptr n b →
      addItemCalls P data k b = .ok (flags, b1) →
      ResourceRunState P data.ptr (n + List.count true flags) b1 := by
  induction k with
  | zero =>
    intro n b b1 flags hs h
    simp only [addItemCalls, Except.ok.injEq, Prod.mk.injEq] at h
    obtain ⟨rfl, rfl⟩ := h
    simpa using hs
  | succ k ih =>
    intro n b b1 flags hs h
    simp only [addItemCalls] at h
    cases hr : addItem P (some data) b with
    | error e => simp [hr] at h
    | ok pr =>
      obtain ⟨r, b2⟩ := pr
      simp only [hr] at h
      cases hrest : addItemCalls P data k b2 with
      | error e => simp [hrest] at h
      | ok pr2 =>
        obtain ⟨flags2, b3⟩ := pr2
        simp only [hrest, Except.ok.injEq, Prod.mk.injEq] at h
        obtain ⟨rfl, rfl⟩ := h
        have h1 := (addItem_resource_state hcat hr hs).1
        have h2 := ih _ b2 b3 flags2 h1 hrest
        have e : n + List.count true (r.bAdded :: flags2)
            = n + (if r.bAdded = true then 1 else 0) + List.count true flags2 := by
          cases r.bAdded
          · simp
          · simp
            omega
        rw [e]
        exact h2

theorem addItemCalls_tool_state {P : UBagProperties} {data : UItemData}
    (hcat : data.Category = EItemCategory.Tool) (k : Nat) :
    ∀ (n : Nat) (b b1 : Bag) (flags : List Bool), ToolRunState P data.ptr n b →
      addItemCalls P data k b = .ok (flags, b1) →
      ToolRunState P data.ptr (n + List.count true flags) b1 := by
  induction k with
  | zero =>
    intro n b b1 flags hs h
    simp only [addItemCalls, Except.ok.injEq, Prod.mk.injEq] at h
    obtain ⟨rfl, rfl⟩ := h
    simpa using hs
  | succ k ih =>
    intro n b b1 flags hs h
    simp only [addItemCalls] at h
    cases hr : addItem P (some data) b with
    | error e => simp [hr] at h
    | ok pr =>
      obtain ⟨r, b2⟩ := pr
      simp only [hr] at h
      cases hrest : addItemCalls P data k b2 with
      | error e => simp [hrest] at h
      | ok pr2 =>
        obtain ⟨flags2, b3⟩ := pr2
        simp only [hrest, Except.ok.injEq, Prod.mk.injEq] at h
        obtain ⟨rfl, rfl⟩ := h
        have h1 := addItem_tool_state hcat hr hs
        have h2 := ih _ b2 b3 flags2 h1 hrest
        have e : n + List.count true (r.bAdded :: flags2)
            = n + (if r.bAdded = true then 1 else 0) + List.count true flags2 := by
          cases r.bAdded
          · simp
          · simp
            omega
        rw [e]
        exact h2

theorem idRange_length (n : Int) (h : 0 ≤ n) : ((idRange n).length : Int) = n := by
  simp [idRange, Int.toNat_of_nonneg h]

theorem isInt32_iff (x : Int) : isInt32 x = true ↔ -2147483648 ≤ x ∧ x ≤ 2147483647 := by
  simp [isInt32]

theorem int32Add_of_inRange {a b : Int} (hlo : -2147483648 ≤ a + b)
    (hhi : a + b ≤ 2147483647) : int32Add a b = a + b := by
  unfold int32Add
  omega

theorem int32Add_of_nonneg {a b : Int} (ha : isInt32 a = true) (hb : isInt32 b = true)
    (ha0 : 0 ≤ a) (hb0 : 0 ≤ b) (hs : 0 ≤ int32Add a b) : int32Add a b = a + b := by
  rw [isInt32_iff] at ha hb
  unfold int32Add at hs ⊢
  omega

theorem BeginPlay_resourceRunState {P : UBagProperties} {b : Bag} (key : Nat)
    (h : BeginPlay P = .ok b) : ResourceRunState P key 0 b := by
  have hI := BeginPlay_inv h
  have hD := BeginPlay_dense h
  unfold BeginPlay at h
  split at h
  · rename_i hpos
    simp only [Except.ok.injEq] at h
    subst h
    refine ⟨hI, hD, by simp [resourceQuantityOf, mapFind], by simp [resourceSlotsOf, mapFind],
      ?_, ?_⟩
    · simp [idRange_length _ hpos.1]
    · intro hT hR
      have hsum := int32Add_of_nonneg hpos.2.2.2.1 hpos.2.2.2.2 hT hR hpos.2.1
      have hlen := idRange_length _ hpos.2.1
      simpa [hlen] using hsum
  · simp at h

theorem BeginPlay_toolRunState {P : UBagProperties} {b : Bag} (key : Nat)
    (h : BeginPlay P = .ok b) : ToolRunState P key 0 b := by
  have hI := BeginPlay_inv h
  have hD := BeginPlay_dense h
  unfold BeginPlay at h
  split at h
  · simp only [Except.ok.injEq] at h
    subst h
    exact ⟨hI, hD, by simp [toolQuantityOf, mapFind], by simp [toolSlotsOf, mapFind]⟩
  · simp at h

/-- C12: starting from the freshly initialised bag, after `addItem` calls of one type
with stack size `S` of which `n` succeeded, the slots of the bucket of that
type hold `S, ..., S` entries followed by `n mod S` entries when that is not
zero (`denseShape n S`), and `UsedSlots` of the kind is `ceil(n / S)`; for
resource types and for tool types. -/
theorem C12_slot_sizes_after_adds (P : UBagProperties) (data : UItemData) (L : UItemBagLimit)
    (k : Nat) (flags : List Bool) (b0 b : Bag)
    (hL : mapFind data.ptr P.Limits = some (some L)) (hb : BeginPlay P = .ok b0)
    (hrun : addItemCalls P data k b0 = .ok (flags, b)) :
    (data.Category = EItemCategory.Resource →
      resourceSlotSizes data.ptr b
        = List.replicate (List.count true flags / L.MaxStackSize.toNat) L.MaxStackSize.toNat
          ++ (if List.count true flags % L.MaxStackSize.toNat = 0 then []
              else [List.count true flags % L.MaxStackSize.toNat]) ∧
      b.Resources.UsedSlots
        = (((List.count true flags + L.MaxStackSize.toNat - 1) / L.MaxStackSize.toNat : Nat)
            : Int)) ∧
    (data.Category = EItemCategory.Tool →
      toolSlotSizes data.ptr b
        = List.replicate (List.count true flags / L.MaxStackSize.toNat) L.MaxStackSize.toNat
          ++ (if List.count true flags % L.MaxStackSize.toNat = 0 then []
              else [List.count true flags % L.MaxStackSize.toNat]) ∧
      b.Tools.UsedSlots
        = (((List.count true flags + L.MaxStackSize.toNat - 1) / L.MaxStackSize.toNat : Nat)
            : Int)) := by
  constructor
  · intro hcat
    have hs := addItemCalls_resource_state hcat k 0 b0 b flags
      (BeginPlay_resourceRunState data.ptr hb) hrun
    rw [Nat.zero_add] at hs
    exact resourceRunState_shape hL hs
  · intro hcat
    have hs := addItemCalls_tool_state hcat k 0 b0 b flags
      (BeginPlay_toolRunState data.ptr hb) hrun
    rw [Nat.zero_add] at hs
    exact toolRunState_shape hL hs

/-! ## Which `addItem` calls of a resource type succeed -/

theorem tryAddResourceTail_total {P : UBagProperties} {L : UItemBagLimit} {key : Nat}
    {id : Int} {d : FBagResourcesData} {b : Bag}
    (hslot : b.Resources.UsedSlots < P.MaxResourceSlots → b.slot_ids_pool ≠ []) :
    ∃ flag b1, tryAddResourceTail P L key id d b = .ok (flag, b1) ∧
      (flag = true ↔ d.ResourceQuantity < L.MaxQuantity ∧
        ((∃ x ∈ d.Slots, (x.ResourceIds.length : Int) < L.MaxStackSize) ∨
          b.Resources.UsedSlots < P.MaxResourceSlots)) := by
  unfold tryAddResourceTail
  by_cases hq : d.ResourceQuantity ≥ L.MaxQuantity
  · rw [if_pos hq]
    refine ⟨false, b, rfl, ?_⟩
    constructor
    · intro h
      simp at h
    · rintro ⟨h, _⟩
      omega
  · rw [if_neg hq]
    cases hfree : addToFirstFreeResourceSlot L.MaxStackSize id d.Slots with
    | some pr =>
      obtain ⟨slot, slots⟩ := pr
      obtain ⟨pre, s, post, hs, _, hroom, _⟩ := addToFirstFreeResourceSlot_some hfree
      refine ⟨true, _, rfl, ?_⟩
      simp only [true_iff]
      exact ⟨by omega, Or.inl ⟨s, by simp [hs], hroom⟩⟩
    | none =>
      have hfull := addToFirstFreeResourceSlot_none hfree
      by_cases hu : b.Resources.UsedSlots ≥ P.MaxResourceSlots
      · simp only [if_pos hu]
        refine ⟨false, b, rfl, ?_⟩
        constructor
        · intro h
          simp at h
        · rintro ⟨_, ⟨x, hx, hroom⟩ | h⟩
          · exact absurd hroom (hfull x hx)
          · omega
      · simp only [if_neg hu]
        rcases List.eq_nil_or_concat b.slot_ids_pool with h0 | ⟨pool, slot_id, hp⟩
        · exact absurd h0 (hslot (by omega))
        · have hp1 : b.slot_ids_pool = pool ++ [slot_id] := by simpa using hp
          rw [hp1, arrayPop_concat]
          refine ⟨true, _, rfl, ?_⟩
          simp only [true_iff]
          exact ⟨by omega, Or.inr (by omega)⟩

theorem tryAddResource_total {P : UBagProperties} {L : UItemBagLimit} {key : Nat} (id : Int)
    (b : Bag) (hL : mapFind key P.Limits = some (some L)) (hQ : 0 < L.MaxQuantity)
    (hS : 0 < L.MaxStackSize)
    (hslot : b.Resources.UsedSlots < P.MaxResourceSlots → b.slot_ids_pool ≠ []) :
    ∃ flag b1, tryAddResource P key id b = .ok (flag, b1) ∧
      (flag = true ↔ resourceQuantityOf key b < L.MaxQuantity ∧
        ((∃ x ∈ resourceSlotsOf key b, (x.ResourceIds.length : Int) < L.MaxStackSize) ∨
          b.Resources.UsedSlots < P.MaxResourceSlots)) := by
  unfold tryAddResource
  simp only [hL]
  rw [if_pos ⟨hQ, hS⟩]
  cases hf : mapFind key b.Resources.Data with
  | none =>
    simp only [resourceQuantityOf, resourceSlotsOf, hf]
    by_cases hu : b.Resources.UsedSlots ≥ P.MaxResourceSlots
    · rw [if_pos hu]
      refine ⟨false, b, rfl, ?_⟩
      constructor
      · intro h
        simp at h
      · rintro ⟨_, ⟨x, hx, _⟩ | h⟩
        · simp at hx
        · omega
    · rw [if_neg hu]
      exact tryAddResourceTail_total hslot
  | some d =>
    simp only [resourceQuantityOf, resourceSlotsOf, hf]
    exact tryAddResourceTail_total hslot

theorem addItem_resource_total {P : UBagProperties} {L : UItemBagLimit} {data : UItemData}
    {b : Bag} (hcat : data.Category = EItemCategory.Resource)
    (hcls : data.cls = DataClass.ResourceData)
    (hL : mapFind data.ptr P.Limits = some (some L)) (hQ : 0 < L.MaxQuantity)
    (hS : 0 < L.MaxStackSize)
    (hslot : b.Resources.UsedSlots < P.MaxResourceSlots → b.slot_ids_pool ≠ []) :
    ∃ r b1, addItem P (some data) b = .ok (r, b1) ∧
      (r.bAdded = true ↔ b.item_ids_pool ≠ [] ∧
        resourceQuantityOf data.ptr b < L.MaxQuantity ∧
        ((∃ x ∈ resourceSlotsOf data.ptr b, (x.ResourceIds.length : Int) < L.MaxStackSize) ∨
          b.Resources.UsedSlots < P.MaxResourceSlots)) := by
  unfold addItem
  rcases List.eq_nil_or_concat b.item_ids_pool with h0 | ⟨pool, id, hp⟩
  · refine ⟨{ bAdded := false, AssignedId := -1 }, b, by simp [hasAvailableIds, h0], ?_⟩
    simp [h0]
  · have hp1 : b.item_ids_pool = pool ++ [id] := by simpa using hp
    have hav : hasAvailableIds b = true := by simp [hasAvailableIds, hp1]
    have hlim : hasValidItemLimits P data = .ok true := by
      simp [hasValidItemLimits, hL, not_le.mpr hQ]
    have hctor : FScopedItemPoolIdTransaction.ctor b.item_ids_pool
        = some ({ id := id, bCommitted := false }, pool) := by
      simp [FScopedItemPoolIdTransaction.ctor, hp1, arrayPop_concat]
    have hitem : tryAddItem P data id none { b with item_ids_pool := pool }
        = tryAddResource P data.ptr id { b with item_ids_pool := pool } := by
      simp [tryAddItem, hcat, hcls]
    obtain ⟨flag, b1, hadd, hiff⟩ :=
      tryAddResource_total id { b with item_ids_pool := pool } hL hQ hS hslot
    have hne : b.item_ids_pool ≠ [] := by simp [hp1]
    simp only [hav, if_true, hlim, hctor, hitem, hadd]
    cases flag with
    | false =>
      refine ⟨_, _, rfl, ?_⟩
      constructor
      · intro h
        simp at h
      · rintro ⟨_, h⟩
        exact hiff.mpr h
    | true =>
      refine ⟨_, _, rfl, ?_⟩
      simp only [true_iff]
      exact ⟨hne, hiff.mp rfl⟩

theorem sizes_sum_le (S : Int) (sizes : List Nat) (hb : ∀ m : Nat, m ∈ sizes → (m : Int) ≤ S) :
    (sizes.sum : Int) ≤ (sizes.length : Int) * S := by
  induction sizes with
  | nil => simp
  | cons y r ihr =>
    have h1 := ihr (fun m hm => hb m (by simp [hm]))
    have h2 := hb y (by simp)
    simp only [List.length_cons, List.sum_cons, Nat.cast_add, Nat.cast_one]
    have : ((r.length : Int) + 1) * S = (r.length : Int) * S + S := by ring
    rw [this]
    omega

theorem sizes_sum_lt (S : Int) (sizes : List Nat) (hb : ∀ m : Nat, m ∈ sizes → (m : Int) ≤ S)
    (hroom : ∃ m : Nat, m ∈ sizes ∧ (m : Int) < S) :
    (sizes.sum : Int) < (sizes.length : Int) * S := by
  induction sizes with
  | nil =>
    obtain ⟨m, hm, _⟩ := hroom
    simp at hm
  | cons x rest ih =>
    have hx := hb x (by simp)
    have hle := sizes_sum_le S rest (fun m hm => hb m (by simp [hm]))
    simp only [List.length_cons, List.sum_cons, Nat.cast_add, Nat.cast_one]
    have e : ((rest.length : Int) + 1) * S = (rest.length : Int) * S + S := by ring
    rw [e]
    obtain ⟨m, hm, hlt⟩ := hroom
    rcases List.mem_cons.mp hm with h | h
    · subst h
      omega
    · have := ih (fun y hy => hb y (by simp [hy])) ⟨m, h, hlt⟩
      omega

theorem resourceRunState_sizes {P : UBagProperties} {key n : Nat} {b : Bag}
    {L : UItemBagLimit} (hL : mapFind key P.Limits = some (some L))
    (h : ResourceRunState P key n b) :
    (∀ x ∈ resourceSlotsOf key b, (x.ResourceIds.length : Int) ≤ L.MaxStackSize) ∧
    ((resourceSlotSizes key b).sum : Int) = (n : Int) ∧
    b.Resources.UsedSlots = ((resourceSlotSizes key b).length : Int) ∧
    (0 < n → b.Resources.UsedSlots ≤ P.MaxResourceSlots) := by
  obtain ⟨hI, _, hq, hu, _⟩ := h
  cases hf : mapFind key b.Resources.Data with
  | none =>
    simp only [resourceQuantityOf, hf] at hq
    simp only [resourceSlotsOf, hf] at hu
    refine ⟨by simp [resourceSlotsOf, hf], by simp [resourceSlotSizes, resourceSlotsOf, hf, ← hq],
      by simpa [resourceSlotSizes, resourceSlotsOf, hf] using hu, ?_⟩
    intro hn
    omega
  | some d =>
    obtain ⟨L1, hL1, hok⟩ := hI.1 (key, d) (mapFind_mem hf)
    have hLL := limit_unique hL hL1
    subst hLL
    replace hok : ResourceBucketOk L1 d := hok
    simp only [resourceQuantityOf, hf] at hq
    simp only [resourceSlotsOf, hf] at hu
    have hpos : 0 < d.Slots.length := List.length_pos.mpr hok.2
    refine ⟨?_, ?_, ?_, ?_⟩
    · simp only [resourceSlotsOf, hf]
      exact fun x hx => (hok.1.2.1 x hx).2
    · simp only [resourceSlotSizes, resourceSlotsOf, hf]
      have h1 := hok.1.1
      simp only [FBagResourcesData.entryCount] at h1
      omega
    · simp only [resourceSlotSizes, resourceSlotsOf, hf, List.length_map]
      exact hu
    · intro _
      have := hI.2.2.2.1
      omega

theorem resourceRun_canAdd_iff {P : UBagProperties} {key n : Nat} {b : Bag}
    {L : UItemBagLimit} (hL : mapFind key P.Limits = some (some L))
    (hS : 0 < L.MaxStackSize)
    (hId : min L.MaxQuantity (L.MaxStackSize * P.MaxResourceSlots) ≤ P.MaxItemId)
    (h : ResourceRunState P key n b) :
    (b.item_ids_pool ≠ [] ∧ resourceQuantityOf key b < L.MaxQuantity ∧
      ((∃ x ∈ resourceSlotsOf key b, (x.ResourceIds.length : Int) < L.MaxStackSize) ∨
        b.Resources.UsedSlots < P.MaxResourceSlots)) ↔
    (n : Int) + 1 ≤ min L.MaxQuantity (L.MaxStackSize * P.MaxResourceSlots) := by
  obtain ⟨hle, hsum, hu, hM⟩ := resourceRunState_sizes hL h
  obtain ⟨hI, _, hq, _, hip, _⟩ := h
  have hsizes : ∀ m : Nat, m ∈ resourceSlotSizes key b → (m : Int) ≤ L.MaxStackSize := by
    intro m hm
    obtain ⟨x, hx, rfl⟩ := List.mem_map.mp hm
    exact hle x hx
  have hcomm : L.MaxStackSize * P.MaxResourceSlots = P.MaxResourceSlots * L.MaxStackSize :=
    Int.mul_comm _ _
  constructor
  · rintro ⟨_, hlt, hcase⟩
    have hn : (n : Int) + 1 ≤ L.MaxQuantity := by omega
    have hcap : (n : Int) + 1 ≤ L.MaxStackSize * P.MaxResourceSlots := by
      rw [hcomm]
      rcases hcase with ⟨x, hx, hroom⟩ | hfree
      · have h1 := sizes_sum_lt L.MaxStackSize (resourceSlotSizes key b) hsizes
          ⟨_, List.mem_map.mpr ⟨x, hx, rfl⟩, hroom⟩
        have hpos : 0 < (resourceSlotSizes key b).length := by
          simp only [resourceSlotSizes, List.length_map]
          exact List.length_pos.mpr (List.ne_nil_of_mem hx)
        have hn0 : 0 < n := by
          have h0 : (0 : Int) ≤ ((resourceSlotSizes key b).length : Int) * L.MaxStackSize :=
            Int.mul_nonneg (by omega) (by omega)
          by_contra hc
          have hn1 : n = 0 := by omega
          subst hn1
          have hx1 : x.ResourceIds.length ≤ (resourceSlotSizes key b).sum :=
            List.single_le_sum (fun _ _ => Nat.zero_le _) _
              (List.mem_map.mpr ⟨x, hx, rfl⟩)
          obtain ⟨L1, _, hok⟩ : ∃ L1, mapFind key P.Limits = some (some L1) ∧
              x.ResourceIds ≠ [] := by
            cases hf : mapFind key b.Resources.Data with
            | none => simp [resourceSlotsOf, hf] at hx
            | some d =>
              obtain ⟨L1, hL1, hok⟩ := hI.1 (key, d) (mapFind_mem hf)
              simp only [resourceSlotsOf, hf] at hx
              exact ⟨L1, hL1, (hok.1.2.1 x hx).1⟩
          have := List.length_pos.mpr hok
          omega
        have hUM := hM hn0
        have h2 : ((resourceSlotSizes key b).length : Int) * L.MaxStackSize
            ≤ P.MaxResourceSlots * L.MaxStackSize :=
          Int.mul_le_mul_of_nonneg_right (by omega) (by omega)
        omega
      · have h1 := sizes_sum_le L.MaxStackSize (resourceSlotSizes key b) hsizes
        have h2 : (((resourceSlotSizes key b).length : Int) + 1) * L.MaxStackSize
            ≤ P.MaxResourceSlots * L.MaxStackSize :=
          Int.mul_le_mul_of_nonneg_right (by omega) (by omega)
        have e : (((resourceSlotSizes key b).length : Int) + 1) * L.MaxStackSize
            = ((resourceSlotSizes key b).length : Int) * L.MaxStackSize + L.MaxStackSize := by
          ring
        omega
    omega
  · intro hcap
    have hcapQ : (n : Int) + 1 ≤ L.MaxQuantity := by omega
    have hcapS : (n : Int) + 1 ≤ L.MaxStackSize * P.MaxResourceSlots := by omega
    refine ⟨?_, by omega, ?_⟩
    · intro h0
      rw [h0] at hip
      simp only [List.length_nil, Nat.cast_zero] at hip
      omega
    · by_contra hcon
      simp only [not_or, not_exists, not_and, not_lt] at hcon
      obtain ⟨hfull, hUM⟩ := hcon
      have hall : ∀ m : Nat, m ∈ resourceSlotSizes key b → (m : Int) = L.MaxStackSize := by
        intro m hm
        obtain ⟨x, hx, rfl⟩ := List.mem_map.mp hm
        have h1 := hfull x hx
        have h2 := hle x hx
        omega
      have h1 := sizes_sum_full L.MaxStackSize (resourceSlotSizes key b) hall
      have h2 : P.MaxResourceSlots * L.MaxStackSize
          ≤ ((resourceSlotSizes key b).length : Int) * L.MaxStackSize :=
        Int.mul_le_mul_of_nonneg_right (by omega) (by omega)
      rw [hcomm] at hcapS
      omega

theorem addItemCalls_resource_flags {P : UBagProperties} {L : UItemBagLimit}
    {data : UItemData} (hcat : data.Category = EItemCategory.Resource)
    (hcls : data.cls = DataClass.ResourceData)
    (hL : mapFind data.ptr P.Limits = some (some L)) (hS : 0 < L.MaxStackSize)
    (hQ : 0 < L.MaxQuantity) (hT : 0 ≤ P.MaxToolsSlots)
    (hId : min L.MaxQuantity (L.MaxStackSize * P.MaxResourceSlots) ≤ P.MaxItemId) (k : Nat) :
    ∀ (j n : Nat) (b : Bag), ResourceRunState P data.ptr n b →
      (n : Int) = min (j : Int) (max (min L.MaxQuantity (L.MaxStackSize * P.MaxResourceSlots)) 0) →
      ∃ b1, addItemCalls P data k b
        = .ok ((List.range k).map (fun i => decide (((j + i : Nat) : Int) + 1
            ≤ min L.MaxQuantity (L.MaxStackSize * P.MaxResourceSlots))), b1) := by
  induction k with
  | zero =>
    intro j n b _ _
    exact ⟨b, rfl⟩
  | succ k ih =>
    intro j n b hs hn
    have hslot : b.Resources.UsedSlots < P.MaxResourceSlots → b.slot_ids_pool ≠ [] := by
      intro hu h0
      have hlen := hs.2.2.2.1
      have := hs.2.2.2.2.2 hT (by omega)
      rw [h0] at this
      simp only [List.length_nil, Nat.cast_zero] at this
      omega
    obtain ⟨r, b2, hadd, hiff⟩ := addItem_resource_total hcat hcls hL hQ hS hslot
    have hcan := resourceRun_canAdd_iff hL hS hId hs
    have hs2 := (addItem_resource_state hcat hadd hs).1
    have hflag : r.bAdded = true ↔ ((j : Int) + 1
        ≤ min L.MaxQuantity (L.MaxStackSize * P.MaxResourceSlots)) := by
      rw [hiff, hcan]
      generalize min L.MaxQuantity (L.MaxStackSize * P.MaxResourceSlots) = cap at hn ⊢
      omega
    have hn2 : ((n + (if r.bAdded = true then 1 else 0) : Nat) : Int)
        = min ((j + 1 : Nat) : Int)
            (max (min L.MaxQuantity (L.MaxStackSize * P.MaxResourceSlots)) 0) := by
      generalize min L.MaxQuantity (L.MaxStackSize * P.MaxResourceSlots) = cap at hn hflag ⊢
      cases hrb : r.bAdded with
      | true =>
        have := hflag.mp hrb
        simp only [if_true]
        omega
      | false =>
        have : ¬ ((j : Int) + 1 ≤ cap) := by
          intro hc
          have := hflag.mpr hc
          rw [hrb] at this
          simp at this
        simp only [Bool.false_eq_true, if_false]
        omega
    obtain ⟨b3, hrest⟩ := ih (j + 1) _ b2 hs2 hn2
    refine ⟨b3, ?_⟩
    simp only [addItemCalls, hadd, hrest, List.range_succ_eq_map, List.map_cons, List.map_map]
    have hhead : r.bAdded = decide (((j + 0 : Nat) : Int) + 1
        ≤ min L.MaxQuantity (L.MaxStackSize * P.MaxResourceSlots)) := by
      apply Bool.eq_iff_iff.mpr
      simp only [decide_eq_true_eq, Nat.add_zero]
      exact hflag
    rw [hhead]
    have htail : (fun i => decide (((j + 1 + i : Nat) : Int) + 1
          ≤ min L.MaxQuantity (L.MaxStackSize * P.MaxResourceSlots)))
        = ((fun i => decide (((j + i : Nat) : Int) + 1
          ≤ min L.MaxQuantity (L.MaxStackSize * P.MaxResourceSlots))) ∘ Nat.succ) := by
      funext i
      simp only [Function.comp]
      have : j + 1 + i = j + i.succ := by omega
      rw [this]
    rw [htail]

/-- C11 fails when `MaxToolsSlots` is negative: under `negativeToolCeilingProperties`
(`S = 1`, `Q = 100`, `M = 2`, `MaxToolsSlots = -1`, 5 instance ids) the first
`addItem` succeeds and the second one, with `2 ≤ min(Q, S * M)`, does not
succeed: it pops the empty slot id pool. -/
theorem C11_counterexample :
    ∃ b0, BeginPlay negativeToolCeilingProperties = .ok b0 ∧
      b0.slot_ids_pool = [0] ∧
      (2 : Int) ≤ min 100 (1 * negativeToolCeilingProperties.MaxResourceSlots) ∧
      (∃ b1, addItemCalls negativeToolCeilingProperties demoResource 1 b0 = .ok ([true], b1) ∧
        b1.slot_ids_pool = [] ∧
        addItem negativeToolCeilingProperties (some demoResource) b1
          = .error Fault.rangeCheck) ∧
      addItemCalls negativeToolCeilingProperties demoResource 2 b0
        = .error Fault.rangeCheck :=
  ⟨_, rfl, by decide, by decide, ⟨_, rfl, by decide, by decide⟩, by decide⟩

/-- C11, amended: let the bag be freshly initialised with `MaxToolsSlots ≥ 0`, let the
resource type have a loaded limit with `MaxStackSize = S > 0` and
`MaxQuantity = Q > 0`, let `M = MaxResourceSlots` and
`min(Q, S * M) ≤ MaxItemId`.  Then any number `k` of sequential `addItem`
calls of that type return, and the call number `i + 1` succeeds if and only
if `i + 1 ≤ min(Q, S * M)`. -/
theorem C11_adds_succeed_up_to_capacity (P : UBagProperties) (data : UItemData)
    (L : UItemBagLimit) (b0 : Bag) (k : Nat)
    (hcat : data.Category = EItemCategory.Resource) (hcls : data.cls = DataClass.ResourceData)
    (hL : mapFind data.ptr P.Limits = some (some L)) (hS : 0 < L.MaxStackSize)
    (hQ : 0 < L.MaxQuantity) (hT : 0 ≤ P.MaxToolsSlots)
    (hId : min L.MaxQuantity (L.MaxStackSize * P.MaxResourceSlots) ≤ P.MaxItemId)
    (hb : BeginPlay P = .ok b0) :
    ∃ b, addItemCalls P data k b0
      = .ok ((List.range k).map (fun i : Nat => decide (((i : Nat) : Int) + 1
          ≤ min L.MaxQuantity (L.MaxStackSize * P.MaxResourceSlots))), b) := by
  obtain ⟨b, h⟩ := addItemCalls_resource_flags hcat hcls hL hS hQ hT hId k 0 0 b0
    (BeginPlay_resourceRunState data.ptr hb) (by
      simp only [Nat.cast_zero]
      omega)
  refine ⟨b, ?_⟩
  rw [h]
  simp only [Nat.zero_add]

/-- C11, amended, on the two examples of the claim: with `S = 2`, `Q = 5`, `M = 3`
(`demoProperties`) five calls succeed and the sixth fails; with `S = 1`,
`Q = 100`, `M = 2` (`slotCeilingProperties`) two calls succeed and the third
fails. -/
theorem C11_witness :
    (∃ b0 b, BeginPlay demoProperties = .ok b0 ∧
      addItemCalls demoProperties demoResource 6 b0
        = .ok ([true, true, true, true, true, false], b)) ∧
    (∃ b0 b, BeginPlay slotCeilingProperties = .ok b0 ∧
      addItemCalls slotCeilingProperties demoResource 3 b0 = .ok ([true, true, false], b)) :=
  ⟨(C11_adds_succeed_up_to_capacity demoProperties demoResource
      { MaxStackSize := 2, MaxQuantity := 5 } _ 6 rfl rfl rfl (by decide) (by decide)
      (by decide) (by decide) rfl).elim (fun b h => ⟨_, b, rfl, h⟩),
   (C11_adds_succeed_up_to_capacity slotCeilingProperties demoResource
      { MaxStackSize := 1, MaxQuantity := 100 } _ 3 rfl rfl rfl (by decide) (by decide)
      (by decide) (by decide) rfl).elim (fun b h => ⟨_, b, rfl, h⟩)⟩

/-- C12 on the example of the claim: under `demoProperties` (`S = 2`) five `addItem`
calls of the resource succeed and leave slots of sizes `[2, 2, 1]` and 3 used
slots; the same for five `addItem` calls of the tool. -/
theorem C12_witness :
    (∃ b0 b, BeginPlay demoProperties = .ok b0 ∧
      addItemCalls demoProperties demoResource 5 b0
        = .ok ([true, true, true, true, true], b) ∧
      resourceSlotSizes 1 b = [2, 2, 1] ∧ b.Resources.UsedSlots = 3) ∧
    (∃ b0 b, BeginPlay demoProperties = .ok b0 ∧
      addItemCalls demoProperties demoTool 5 b0
        = .ok ([true, true, true, true, true], b) ∧
      toolSlotSizes 2 b = [2, 2, 1] ∧ b.Tools.UsedSlots = 3) :=
  ⟨⟨_, _, rfl, rfl,
     (C12_slot_sizes_after_adds demoProperties demoResource
        { MaxStackSize := 2, MaxQuantity := 5 } 5 [true, true, true, true, true] _ _
        rfl rfl rfl).1 rfl⟩,
   ⟨_, _, rfl, rfl,
     (C12_slot_sizes_after_adds demoProperties demoTool
        { MaxStackSize := 2, MaxQuantity := 10 } 5 [true, true, true, true, true] _ _
        rfl rfl rfl).2 rfl⟩⟩

/-! ## Queries and rejected removals -/

/-- C21: `removeItem` of a valid item type that has no bucket of its category in the bag
returns `bRemoved = false` with `RemovedId = -1` and no spawn, and the bag after
the call is the bag before it: nothing is pushed onto `item_ids_pool`, no
binding is erased and nothing is broadcast. -/
theorem C21_removeItem_without_bucket (data : UItemData) (spawn : Bool) (b : Bag)
    (hres : data.Category = EItemCategory.Resource → mapFind data.ptr b.Resources.Data = none)
    (htool : data.Category = EItemCategory.Tool → mapFind data.ptr b.Tools.Data = none) :
    removeItem (some data) spawn b
      = .ok ({ bRemoved := false, RemovedId := -1, SpawnedActor := none }, b) := by
  have hitem : tryRemoveItem data (-1) b = .ok (false, -1, b) := by
    unfold tryRemoveItem
    cases hcat : data.Category with
    | None => rfl
    | Resource =>
      cases hcls : data.cls with
      | ResourceData => simp [tryRemoveResource, hres hcat]
      | ItemData => rfl
      | ToolData m => rfl
    | Tool =>
      cases hcls : data.cls with
      | ToolData m => simp [tryRemoveTool, htool hcat]
      | ItemData => rfl
      | ResourceData => rfl
  simp [removeItem, hitem]

/-- C21 on `demoBagAfterToolRemove`, which holds resources and no tool: `removeItem` of
the tool type is rejected and the bag, with its id pool `[0, 1, 2]`, stays. -/
theorem C21_witness :
    mapFind demoTool.ptr demoBagAfterToolRemove.Tools.Data = none ∧
    removeItem (some demoTool) true demoBagAfterToolRemove
      = .ok ({ bRemoved := false, RemovedId := -1, SpawnedActor := none },
             demoBagAfterToolRemove) ∧
    demoBagAfterToolRemove.item_ids_pool = [0, 1, 2] :=
  ⟨rfl,
   C21_removeItem_without_bucket demoTool true demoBagAfterToolRemove
     (fun h => absurd h (by decide)) (fun _ => rfl),
   rfl⟩

/-- C22: `getItemQuantity` returns 0 for invalid item data, for the category `None` and
for item data whose class does not match its category; for a resource type it
returns the `ResourceQuantity` of the bucket of that type in `Resources.Data`
and 0 when there is none, for a tool type the `ToolQuantity` of the bucket in
`Tools.Data` and 0 when there is none.  The method only reads the two
registries (`Contains`, then `operator[]` on a key that is present), so its
embedding is a function of the bag and the bag is the same after the call. -/
theorem C22_getItemQuantity (b : Bag) :
    getItemQuantity none b = 0 ∧
    (∀ data : UItemData, data.Category = EItemCategory.None →
      getItemQuantity (some data) b = 0) ∧
    (∀ data : UItemData, data.Category = EItemCategory.Resource →
      (data.cls ≠ DataClass.ResourceData → getItemQuantity (some data) b = 0) ∧
      (data.cls = DataClass.ResourceData →
        (∀ d, mapFind data.ptr b.Resources.Data = some d →
          getItemQuantity (some data) b = d.ResourceQuantity) ∧
        (mapFind data.ptr b.Resources.Data = none → getItemQuantity (some data) b = 0))) ∧
    (∀ data : UItemData, data.Category = EItemCategory.Tool →
      ((∀ m, data.cls ≠ DataClass.ToolData m) → getItemQuantity (some data) b = 0) ∧
      (∀ m, data.cls = DataClass.ToolData m →
        (∀ d, mapFind data.ptr b.Tools.Data = some d →
          getItemQuantity (some data) b = d.ToolQuantity) ∧
        (mapFind data.ptr b.Tools.Data = none → getItemQuantity (some data) b = 0))) := by
  refine ⟨rfl, ?_, ?_, ?_⟩
  · intro data hcat
    simp [getItemQuantity, hcat]
  · intro data hcat
    constructor
    · intro hcls
      cases hc : data.cls with
      | ResourceData => exact absurd hc hcls
      | ItemData => simp [getItemQuantity, hcat, hc]
      | ToolData m => simp [getItemQuantity, hcat, hc]
    · intro hcls
      constructor
      · intro d hd
        simp [getItemQuantity, hcat, hcls, hd]
      · intro hd
        simp [getItemQuantity, hcat, hcls, hd]
  · intro data hcat
    constructor
    · intro hcls
      cases hc : data.cls with
      | ToolData m => exact absurd hc (hcls m)
      | ItemData => simp [getItemQuantity, hcat, hc]
      | ResourceData => simp [getItemQuantity, hcat, hc]
    · intro m hcls
      constructor
      · intro d hd
        simp [getItemQuantity, hcat, hcls, hd]
      · intro hd
        simp [getItemQuantity, hcat, hcls, hd]

/-- C22 on `demoBag`: 3 resources, 1 tool, and 0 for a resource type that is not held. -/
theorem C22_witness :
    getItemQuantity (some demoResource) demoBag = 3 ∧
    getItemQuantity (some demoTool) demoBag = 1 ∧
    getItemQuantity (some { demoResource with ptr := 9 }) demoBag = 0 ∧
    getItemQuantity (some demoResource) demoBag
      = ({ Slots := [{ Id := 5, ResourceIds := [5, 4] }, { Id := 4, ResourceIds := [3] }],
           ResourceQuantity := 3 } : FBagResourcesData).ResourceQuantity :=
  ⟨by decide, by decide, by decide,
   ((C22_getItemQuantity demoBag).2.2.1 demoResource rfl).2 rfl |>.1 _ rfl⟩

/-! ## Durability updates -/

theorem mem_toolSlotsIds (a : Int) (slots : List FBagToolSlot) :
    a ∈ toolSlotsIds slots ↔ ∃ x ∈ slots, ∃ t ∈ x.ToolsInfo, t.ToolId = a := by
  induction slots with
  | nil => simp [toolSlotsIds]
  | cons x rest ih =>
    simp only [toolSlotsIds, List.mem_append, List.mem_map, ih, List.mem_cons, exists_eq_or_imp]

theorem setDurabilityInSlot_split {tool_id durability : Int} {l l1 : List FBagToolInfo}
    (h : setDurabilityInSlot tool_id durability l = some l1) :
    ∃ before info after, l = before ++ info :: after ∧ info.ToolId = tool_id ∧
      (∀ t ∈ before, t.ToolId ≠ tool_id) ∧
      l1 = before ++ { info with Durability := durability } :: after := by
  induction l generalizing l1 with
  | nil => simp [setDurabilityInSlot] at h
  | cons t rest ih =>
    unfold setDurabilityInSlot at h
    split at h
    · rename_i ht
      simp only [Option.some.injEq] at h
      exact ⟨[], t, rest, rfl, ht, by simp, by simp [← h]⟩
    · rename_i ht
      cases hr : setDurabilityInSlot tool_id durability rest with
      | none => simp [hr] at h
      | some r1 =>
        simp only [hr, Option.some.injEq] at h
        obtain ⟨before, info, after, e1, e2, e3, e4⟩ := ih hr
        refine ⟨t :: before, info, after, by simp [e1], e2, ?_, by simp [← h, e4]⟩
        intro x hx
        rcases List.mem_cons.mp hx with rfl | hx
        · exact ht
        · exact e3 x hx

theorem setDurabilityInSlot_none {tool_id durability : Int} {l : List FBagToolInfo}
    (h : setDurabilityInSlot tool_id durability l = none) : ∀ t ∈ l, t.ToolId ≠ tool_id := by
  induction l with
  | nil => simp
  | cons t rest ih =>
    unfold setDurabilityInSlot at h
    split at h
    · simp at h
    · rename_i ht
      cases hr : setDurabilityInSlot tool_id durability rest with
      | none =>
        intro x hx
        rcases List.mem_cons.mp hx with rfl | hx
        · exact ht
        · exact ih hr x hx
      | some r1 => simp [hr] at h

theorem setDurabilityInSlots_split {tool_id durability : Int} {slots slots1 : List FBagToolSlot}
    {slot : FBagToolSlot}
    (h : setDurabilityInSlots tool_id durability slots = some (slot, slots1)) :
    ∃ pre s post before info after, slots = pre ++ s :: post ∧
      s.ToolsInfo = before ++ info :: after ∧ info.ToolId = tool_id ∧
      (∀ x ∈ pre, ∀ t ∈ x.ToolsInfo, t.ToolId ≠ tool_id) ∧
      (∀ t ∈ before, t.ToolId ≠ tool_id) ∧
      slot = { s with ToolsInfo := before ++ { info with Durability := durability } :: after } ∧
      slots1 = pre ++ slot :: post := by
  induction slots generalizing slot slots1 with
  | nil => simp [setDurabilityInSlots] at h
  | cons x rest ih =>
    unfold setDurabilityInSlots at h
    split at h
    · rename_i infos hin
      simp only [Option.some.injEq, Prod.mk.injEq] at h
      obtain ⟨rfl, rfl⟩ := h
      obtain ⟨before, info, after, e1, e2, e3, e4⟩ := setDurabilityInSlot_split hin
      exact ⟨[], x, rest, before, info, after, rfl, e1, e2, by simp, e3, by rw [e4], rfl⟩
    · rename_i hnone
      cases hr : setDurabilityInSlots tool_id durability rest with
      | none => simp [hr] at h
      | some pr =>
        obtain ⟨s1, r1⟩ := pr
        simp only [hr, Option.some.injEq, Prod.mk.injEq] at h
        obtain ⟨rfl, rfl⟩ := h
        obtain ⟨pre, s, post, before, info, after, e1, e2, e3, e4, e5, e6, e7⟩ := ih hr
        refine ⟨x :: pre, s, post, before, info, after, by simp [e1], e2, e3, ?_, e5, e6,
          by simp [e7]⟩
        intro y hy
        rcases List.mem_cons.mp hy with rfl | hy
        · exact setDurabilityInSlot_none hnone
        · exact e4 y hy

theorem setDurabilityInSlot_progress {tool_id : Int} (durability : Int) {l : List FBagToolInfo}
    (h : ∃ t ∈ l, t.ToolId = tool_id) :
    ∃ l1, setDurabilityInSlot tool_id durability l = some l1 := by
  cases hr : setDurabilityInSlot tool_id durability l with
  | some l1 => exact ⟨l1, rfl⟩
  | none =>
    obtain ⟨t, ht, hid⟩ := h
    exact absurd hid (setDurabilityInSlot_none hr t ht)

theorem setDurabilityInSlots_progress {tool_id : Int} (durability : Int)
    {slots : List FBagToolSlot} (h : tool_id ∈ toolSlotsIds slots) :
    ∃ slot slots1, setDurabilityInSlots tool_id durability slots = some (slot, slots1) := by
  induction slots with
  | nil => simp [toolSlotsIds] at h
  | cons x rest ih =>
    unfold setDurabilityInSlots
    cases hx : setDurabilityInSlot tool_id durability x.ToolsInfo with
    | some infos => exact ⟨_, _, rfl⟩
    | none =>
      have hrest : tool_id ∈ toolSlotsIds rest := by
        simp only [toolSlotsIds, List.mem_append, List.mem_map] at h
        rcases h with ⟨t, ht, hid⟩ | h
        · exact absurd hid (setDurabilityInSlot_none hx t ht)
        · exact h
      obtain ⟨slot, slots1, hr⟩ := ih hrest
      simp only [hr]
      exact ⟨_, _, rfl⟩

/-- C23: let, in a reachable bag state, the tool component `tool` be bound to the id
`tool_id` and let a slot of the bucket of its tool type hold that id.  Then
`updateToolDurability(tool, durability)` returns `true`; exactly one entry of
the bucket has `ToolId = tool_id`, and afterwards that entry has the new
durability while every other entry of every slot, the slot sequence, the
quantity, every other bucket, `Resources`, `Tools.UsedSlots`, both id pools
and the bindings are as before; one `ToolSlotUpdated` is broadcast. -/
theorem C23_update_durability (P : UBagProperties) (b : Bag) (tool : UItemComponent)
    (data : UItemData) (m tool_id durability : Int) (d : FBagToolsData)
    (h : Reachable P b) (hdata : tool.ItemData = some data)
    (hcls : data.cls = DataClass.ToolData m)
    (hbind : mapFind tool.ptr b.item_comp_to_id = some tool_id)
    (hd : mapFind data.ptr b.Tools.Data = some d) (hmem : tool_id ∈ toolSlotsIds d.Slots) :
    ∃ pre s post before info after,
      d.Slots = pre ++ s :: post ∧ s.ToolsInfo = before ++ info :: after ∧
      info.ToolId = tool_id ∧
      (∀ x ∈ pre ++ post, ∀ t ∈ x.ToolsInfo, t.ToolId ≠ tool_id) ∧
      (∀ t ∈ before ++ after, t.ToolId ≠ tool_id) ∧
      updateToolDurability (some tool) durability b
        = .ok (true,
            { b with
              Tools := { b.Tools with
                Data := mapSet data.ptr
                  { d with Slots := pre ++
                      { s with ToolsInfo :=
                          before ++ { info with Durability := durability } :: after } :: post }
                  b.Tools.Data }
              events := b.events ++ [Event.ToolSlotUpdated data.ptr s.Id
                { s with ToolsInfo :=
                    before ++ { info with Durability := durability } :: after }] }) ∧
      (∀ b1, updateToolDurability (some tool) durability b = .ok (true, b1) →
        toolSlotsOf data.ptr b1
          = pre ++ { s with ToolsInfo :=
                      before ++ { info with Durability := durability } :: after } :: post ∧
        toolQuantityOf data.ptr b1 = d.ToolQuantity ∧
        (∀ key, key ≠ data.ptr →
          toolSlotsOf key b1 = toolSlotsOf key b ∧ toolQuantityOf key b1 = toolQuantityOf key b) ∧
        b1.Resources = b.Resources ∧ b1.Tools.UsedSlots = b.Tools.UsedSlots ∧
        b1.item_ids_pool = b.item_ids_pool ∧ b1.slot_ids_pool = b.slot_ids_pool ∧
        b1.item_comp_to_id = b.item_comp_to_id) := by
  have hI := reachable_inv h
  obtain ⟨slot, slots1, hset⟩ := setDurabilityInSlots_progress durability hmem
  obtain ⟨pre, s, post, before, info, after, e1, e2, e3, e4, e5, e6, e7⟩ :=
    setDurabilityInSlots_split hset
  have hcount := toolSlotsIds_count_le_one hI hd tool_id
  have hzero : List.count tool_id (toolSlotsIds pre) = 0 ∧
      List.count tool_id (toolSlotsIds post) = 0 ∧
      List.count tool_id (before.map FBagToolInfo.ToolId) = 0 ∧
      List.count tool_id (after.map FBagToolInfo.ToolId) = 0 := by
    rw [e1] at hcount
    have hsplit : pre ++ s :: post = pre ++ ([s] ++ post) := by simp
    rw [hsplit, toolSlotsIds_append, toolSlotsIds_append] at hcount
    simp only [toolSlotsIds, e2, List.map_append, List.map_cons, List.count_append,
      List.count_cons, e3, beq_self_eq_true, if_true, List.append_nil] at hcount
    omega
  have hpost : ∀ x ∈ post, ∀ t ∈ x.ToolsInfo, t.ToolId ≠ tool_id := by
    intro x hx t ht hid
    have : tool_id ∈ toolSlotsIds post := (mem_toolSlotsIds _ _).mpr ⟨x, hx, t, ht, hid⟩
    exact absurd (List.count_pos_iff.mpr this) (by omega)
  have hafter : ∀ t ∈ after, t.ToolId ≠ tool_id := by
    intro t ht hid
    have : tool_id ∈ after.map FBagToolInfo.ToolId := List.mem_map.mpr ⟨t, ht, hid⟩
    exact absurd (List.count_pos_iff.mpr this) (by omega)
  have heval : updateToolDurability (some tool) durability b
      = .ok (true,
          { b with
            Tools := { b.Tools with
              Data := mapSet data.ptr
                { d with Slots := pre ++
                    { s with ToolsInfo :=
                        before ++ { info with Durability := durability } :: after } :: post }
                b.Tools.Data }
            events := b.events ++ [Event.ToolSlotUpdated data.ptr s.Id
              { s with ToolsInfo :=
                  before ++ { info with Durability := durability } :: after }] }) := by
    simp only [updateToolDurability, hdata, hbind, hcls, hd, hset, e6, e7]
  refine ⟨pre, s, post, before, info, after, e1, e2, e3, ?_, ?_, heval, ?_⟩
  · intro x hx
    rcases List.mem_append.mp hx with hx | hx
    · exact e4 x hx
    · exact hpost x hx
  · intro t ht
    rcases List.mem_append.mp ht with ht | ht
    · exact e5 t ht
    · exact hafter t ht
  · intro b1 hb1
    rw [heval] at hb1
    simp only [Except.ok.injEq, Prod.mk.injEq, true_and] at hb1
    subst hb1
    refine ⟨?_, ?_, ?_, rfl, rfl, rfl, rfl, rfl⟩
    · simp [toolSlotsOf, mapFind_mapSet_self]
    · simp [toolQuantityOf, mapFind_mapSet_self]
    · intro key hkey
      simp [toolSlotsOf, toolQuantityOf, mapFind_mapSet_ne _ _ hkey]

/-- C23 on `gapBag` (tool type with `MaxDurability = 10`, component 12 bound to id 4,
stored with durability 7): the update to 4 returns `true` and gives
`gapBagAfterUpdate`, where the entry of id 4 reads durability 4. -/
theorem C23_witness :
    Reachable demoProperties gapBag ∧
    updateToolDurability (some (gapComponent 12)) 4 gapBag = .ok (true, gapBagAfterUpdate) ∧
    toolSlotsOf 2 gapBagAfterUpdate
      = [{ Id := 5, ToolsInfo := [{ ToolId := 4, Durability := 4 }] },
         { Id := 4, ToolsInfo := [{ ToolId := 3, Durability := 7 }] }] ∧
    (∃ pre s post before info after,
      [({ Id := 5, ToolsInfo := [{ ToolId := 4, Durability := 7 }] } : FBagToolSlot),
       { Id := 4, ToolsInfo := [{ ToolId := 3, Durability := 7 }] }] = pre ++ s :: post ∧
      s.ToolsInfo = before ++ info :: after ∧ info.ToolId = 4 ∧
      (∀ x ∈ pre ++ post, ∀ t ∈ x.ToolsInfo, t.ToolId ≠ 4) ∧
      (∀ t ∈ before ++ after, t.ToolId ≠ 4) ∧
      toolSlotsOf 2 gapBagAfterUpdate
          = pre ++ { s with ToolsInfo :=
                      before ++ { info with Durability := 4 } :: after } :: post ∧
      gapBagAfterUpdate.item_ids_pool = gapBag.item_ids_pool ∧
      gapBagAfterUpdate.slot_ids_pool = gapBag.slot_ids_pool) :=
  ⟨gapBag_reachable, by decide, by decide,
   let ⟨pre, s, post, before, info, after, h1, h2, h3, h4, h5, _, h7⟩ :=
     C23_update_durability demoProperties gapBag (gapComponent 12) demoTool 10 4 4 _
       gapBag_reachable rfl rfl rfl rfl (by decide)
   ⟨pre, s, post, before, info, after, h1, h2, h3, h4, h5,
     (h7 gapBagAfterUpdate (by decide)).1,
     (h7 gapBagAfterUpdate (by decide)).2.2.2.2.2.1,
     (h7 gapBagAfterUpdate (by decide)).2.2.2.2.2.2.1⟩⟩

theorem mapFind_none_of_keys {β : Type} {k : Nat} {m : List (Nat × β)}
    (h : ∀ kv ∈ m, kv.1 ≠ k) : mapFind k m = none := by
  induction m with
  | nil => rfl
  | cons kv rest ih =>
    obtain ⟨k1, v1⟩ := kv
    have h1 : k1 ≠ k := h (k1, v1) (by simp)
    simp only [mapFind, h1, if_false]
    exact ih (fun x hx => h x (by simp [hx]))

theorem step_unbound {P : UBagProperties} {b b1 : Bag} {op : Op} {p : Nat} (hI : Inv P b)
    (hk : ∀ kv ∈ b.item_comp_to_id, kv.1 ≠ p)
    (hop : ∀ c : UItemComponent, op = Op.addItemComponent (some c) → c.ptr ≠ p)
    (h : step P b op = .ok b1) : ∀ kv ∈ b1.item_comp_to_id, kv.1 ≠ p := by
  cases op with
  | addItem d =>
    simp only [step] at h
    cases hr : addItem P d b with
    | error e => simp [hr, Except.map] at h
    | ok pr =>
      obtain ⟨r, b2⟩ := pr
      simp only [hr, Except.map, Except.ok.injEq] at h
      subst h
      rcases addItem_cases hr with ⟨_, rfl⟩ | ⟨_, _, _, b0, _, _, _, hadd, _, rfl⟩
      · exact hk
      · have hc : b0.item_comp_to_id = b.item_comp_to_id :=
          (tryAddItem_inv hadd hI.1 hI.2.1).2.2.2.1
        intro kv hkv
        exact hk kv (by simpa [hc] using hkv)
  | addItemComponent c =>
    simp only [step] at h
    cases hr : addItemComponent P c b with
    | error e => simp [hr, Except.map] at h
    | ok pr =>
      obtain ⟨r, b2⟩ := pr
      simp only [hr, Except.map, Except.ok.injEq] at h
      subst h
      rcases addItemComponent_cases hr with
        ⟨_, rfl⟩ | ⟨comp, _, _, id, b0, hcomp, _, _, _, hadd, _, rfl⟩
      · exact hk
      · have hc : b0.item_comp_to_id = b.item_comp_to_id :=
          (tryAddItem_inv hadd hI.1 hI.2.1).2.2.2.1
        intro kv hkv
        have hkv1 : kv ∈ mapSet comp.ptr id b0.item_comp_to_id := hkv
        rcases mem_mapSet hkv1 with hold | rfl
        · exact hk kv (by simpa [hc] using hold)
        · exact hop comp (by rw [hcomp])
  | removeItem d spawn =>
    simp only [step] at h
    cases hr : removeItem d spawn b with
    | error e => simp [hr, Except.map] at h
    | ok pr =>
      obtain ⟨r, b2⟩ := pr
      simp only [hr, Except.map, Except.ok.injEq] at h
      subst h
      rcases removeItem_cases hr with ⟨_, rfl⟩ | ⟨_, removed, b0, _, hrem, _, rfl⟩
      · exact hk
      · have hc : b0.item_comp_to_id = b.item_comp_to_id :=
          (tryRemoveItem_inv hrem hI.1 hI.2.1).2.2.2.1
        intro kv hkv
        have hkv1 : kv ∈ (match mapFindKey removed b0.item_comp_to_id with
            | none => b0.item_comp_to_id
            | some item_comp => mapRemove item_comp b0.item_comp_to_id) := hkv
        have hold : kv ∈ b0.item_comp_to_id := by
          cases hf : mapFindKey removed b0.item_comp_to_id with
          | none => simpa [hf] using hkv1
          | some item_comp =>
            rw [hf] at hkv1
            exact mem_mapRemove hkv1
        exact hk kv (by simpa [hc] using hold)
  | removeItemComponent c spawn =>
    simp only [step] at h
    cases hr : removeItemComponent c spawn b with
    | error e => simp [hr, Except.map] at h
    | ok pr =>
      obtain ⟨r, b2⟩ := pr
      simp only [hr, Except.map, Except.ok.injEq] at h
      subst h
      rcases removeItemComponent_cases hr with
        ⟨_, rfl⟩ | ⟨_, _, _, _, b0, _, _, _, hrem, _, rfl⟩
      · exact hk
      · have hc : b0.item_comp_to_id = b.item_comp_to_id :=
          (tryRemoveItem_inv hrem hI.1 hI.2.1).2.2.2.1
        intro kv hkv
        exact hk kv (by simpa [hc] using hkv)
  | updateToolDurability tool durability =>
    simp only [step] at h
    cases hr : updateToolDurability tool durability b with
    | error e => simp [hr, Except.map] at h
    | ok pr =>
      obtain ⟨r, b2⟩ := pr
      simp only [hr, Except.map, Except.ok.injEq] at h
      subst h
      rcases updateToolDurability_cases hr with
        ⟨_, rfl⟩ | ⟨_, _, _, _, _, _, _, _, _, _, _, _, rfl⟩
      · exact hk
      · exact hk

theorem runFrom_unbound {P : UBagProperties} {p : Nat} (ops : List Op) :
    ∀ (b b1 : Bag), Inv P b → (∀ kv ∈ b.item_comp_to_id, kv.1 ≠ p) →
      (∀ c : UItemComponent, Op.addItemComponent (some c) ∈ ops → c.ptr ≠ p) →
      runFrom P b ops = .ok b1 → ∀ kv ∈ b1.item_comp_to_id, kv.1 ≠ p := by
  induction ops with
  | nil =>
    intro b b1 _ hk _ h
    simp only [runFrom, Except.ok.injEq] at h
    subst h
    exact hk
  | cons op rest ih =>
    intro b b1 hI hk hops h
    simp only [runFrom] at h
    cases hs : step P b op with
    | error e => simp [hs] at h
    | ok b2 =>
      simp only [hs] at h
      exact ih b2 b1 (step_inv hI hs)
        (step_unbound hI hk (fun c hc => hops c (by simp [hc])) hs)
        (fun c hc => hops c (by simp [hc])) h

/-- C24: in a bag state reached from the initialised bag by a call sequence that never
passes the tool component `tool` to `addItemComponent`, the call
`updateToolDurability(tool, durability)` returns `false` (it does not stop at
an assertion) and the bag after the call is the bag before it. -/
theorem C24_update_never_added (P : UBagProperties) (ops : List Op) (b : Bag)
    (tool : UItemComponent) (durability : Int) (hrun : run P ops = .ok b)
    (hnever : ∀ c : UItemComponent, Op.addItemComponent (some c) ∈ ops → c.ptr ≠ tool.ptr) :
    updateToolDurability (some tool) durability b = .ok (false, b) := by
  have hk : ∀ kv ∈ b.item_comp_to_id, kv.1 ≠ tool.ptr := by
    unfold run at hrun
    cases hb : BeginPlay P with
    | error e => simp [hb] at hrun
    | ok b0 =>
      simp only [hb] at hrun
      have h0 : ∀ kv ∈ b0.item_comp_to_id, kv.1 ≠ tool.ptr := by
        unfold BeginPlay at hb
        split at hb
        · simp only [Except.ok.injEq] at hb
          subst hb
          simp
        · simp at hb
      exact runFrom_unbound ops b0 b (BeginPlay_inv hb) h0 hnever hrun
  have hfind := mapFind_none_of_keys hk
  cases hdata : tool.ItemData with
  | none => simp [updateToolDurability, hdata]
  | some data => simp [updateToolDurability, hdata, hfind]

/-- C24 on `gapBag`, reached by `gapOps`, which add the components 11, 12 and 13: the
tool component 7 was never added, and its update returns `false` and changes
nothing. -/
theorem C24_witness :
    run demoProperties gapOps = .ok gapBag ∧
    updateToolDurability (some demoToolComponent) 4 gapBag = .ok (false, gapBag) :=
  ⟨by decide,
   C24_update_never_added demoProperties gapOps gapBag demoToolComponent 4 (by decide)
     (by
       intro c hc
       simp only [gapOps, List.mem_cons, Op.addItemComponent.injEq, Option.some.injEq,
         List.mem_singleton, reduceCtorEq, or_false, List.not_mem_nil] at hc
       rcases hc with rfl | rfl | rfl <;> decide)⟩

/-! ## Durability of a new tool entry -/

theorem tryAddTool_entry {P : UBagProperties} {key : Nat} {id durability : Int} {b b1 : Bag}
    (h : tryAddTool P key id durability b = .ok (true, b1)) :
    ToolEntryAdded key { ToolId := id, Durability := durability } b b1 := by
  obtain ⟨L, d, d1, _, _, _, hfind, heff⟩ := tryAddTool_true h
  obtain ⟨v1, v2, _, _⟩ := toolSlotsOf_add hfind heff
  obtain ⟨_, _, _, _, _, _, hcase⟩ := heff
  rcases hcase with ⟨pre, s, post, hs, _, _, hs1, _⟩ | ⟨_, _, slot_id, _, hs1, _⟩
  · exact Or.inl ⟨pre, s, post, by rw [v1, hs], by rw [v2, hs1]⟩
  · exact Or.inr ⟨slot_id, by rw [v1, v2, hs1]⟩

/-- C25: for a tool type with `MaxDurability = m`, a successful `addItem(tool_data)`
stores the new entry `(AssignedId, m)`, and a successful
`addItemComponent(tool_component)` stores the new entry `(AssignedId, v)` with
`v` the `Durability` of the component, whatever `m` is. -/
theorem C25_tool_durability_on_insertion (P : UBagProperties) (data : UItemData) (m : Int)
    (b b1 : Bag) (r : FInventoryBagAddItemResult)
    (hcat : data.Category = EItemCategory.Tool) (hcls : data.cls = DataClass.ToolData m)
    (hr : r.bAdded = true) :
    (addItem P (some data) b = .ok (r, b1) →
      ToolEntryAdded data.ptr { ToolId := r.AssignedId, Durability := m } b b1) ∧
    (∀ component : UItemComponent, component.ItemData = some data →
      addItemComponent P (some component) b = .ok (r, b1) →
      ∃ v, component.Durability = some v ∧
        ToolEntryAdded data.ptr { ToolId := r.AssignedId, Durability := v } b b1) := by
  constructor
  · intro h
    rcases addItem_cases h with ⟨hr1, _⟩ | ⟨data1, pool, id, b0, hd, _, _, hadd, hr1, hb1⟩
    · rw [hr1] at hr
      simp at hr
    · simp only [Option.some.injEq] at hd
      subst hd
      rcases tryAddItem_true_cases hadd with ⟨hc, _⟩ | ⟨_, md, dur, hcls1, htool, hnone, _⟩
      · rw [hcat] at hc
        simp at hc
      · rw [hcls] at hcls1
        simp only [DataClass.ToolData.injEq] at hcls1
        have hdur : dur = m := by rw [hnone rfl, hcls1]
        subst hdur
        have hentry := tryAddTool_entry htool
        rw [hr1, hb1]
        exact hentry
  · intro component hdata h
    rcases addItemComponent_cases h with
      ⟨hr1, _⟩ | ⟨comp, data1, pool, id, b0, hc, hd, _, _, hadd, hr1, hb1⟩
    · rw [hr1] at hr
      simp at hr
    · simp only [Option.some.injEq] at hc
      subst hc
      rw [hdata] at hd
      simp only [Option.some.injEq] at hd
      subst hd
      rcases tryAddItem_true_cases hadd with ⟨hc, _⟩ | ⟨_, md, dur, _, htool, _, hsome⟩
      · rw [hcat] at hc
        simp at hc
      · have hentry := tryAddTool_entry htool
        refine ⟨dur, hsome component rfl, ?_⟩
        rw [hr1, hb1]
        exact hentry

/-- C25 on the fresh bag under `demoProperties`, tool type with `MaxDurability = 10`:
`addItem` stores `(5, 10)`, `addItemComponent` of a component with durability 4
stores `(5, 4)`. -/
theorem C25_witness :
    BeginPlay demoProperties = .ok demoFreshBag ∧
    (∃ b1, addItem demoProperties (some demoTool) demoFreshBag
        = .ok ({ bAdded := true, AssignedId := 5 }, b1) ∧
      toolSlotsOf 2 b1 = [{ Id := 5, ToolsInfo := [{ ToolId := 5, Durability := 10 }] }] ∧
      ToolEntryAdded 2 { ToolId := 5, Durability := 10 } demoFreshBag b1) ∧
    (∃ b1, addItemComponent demoProperties (some demoToolComponent) demoFreshBag
        = .ok ({ bAdded := true, AssignedId := 5 }, b1) ∧
      toolSlotsOf 2 b1 = [{ Id := 5, ToolsInfo := [{ ToolId := 5, Durability := 4 }] }] ∧
      ∃ v, demoToolComponent.Durability = some v ∧
        ToolEntryAdded 2 { ToolId := 5, Durability := v } demoFreshBag b1) :=
  ⟨by decide,
   ⟨_, rfl, by decide,
     (C25_tool_durability_on_insertion demoProperties demoTool 10 demoFreshBag _
        { bAdded := true, AssignedId := 5 } rfl rfl rfl).1 rfl⟩,
   ⟨_, rfl, by decide,
     (C25_tool_durability_on_insertion demoProperties demoTool 10 demoFreshBag _
        { bAdded := true, AssignedId := 5 } rfl rfl rfl).2 demoToolComponent rfl rfl⟩⟩

/-! ## Broadcasts of `addItem` and `removeItem` -/

theorem tryAddResource_events {P : UBagProperties} {key : Nat} {id : Int} {b b1 : Bag}
    (h : tryAddResource P key id b = .ok (true, b1)) :
    ∃ ev slot_id, b1.events = b.events ++ [ev] ∧ ev.slotId = some slot_id ∧
      (ev.isSlotAdded = true ∨ ev.isSlotUpdated = true) ∧
      (ev.isSlotAdded = true ↔
        (resourceSlotsOf key b1).length = (resourceSlotsOf key b).length + 1) ∧
      ∃ ids, (slot_id, ids ++ [id])
        ∈ (resourceSlotsOf key b1).map (fun slot => (slot.Id, slot.ResourceIds)) := by
  obtain ⟨L, d, d1, _, _, _, hfind, heff⟩ := tryAddResource_true h
  obtain ⟨v1, v2, _, _⟩ := resourceSlotsOf_add hfind heff
  obtain ⟨_, _, _, _, _, _, hcase⟩ := heff
  rw [v1, v2]
  rcases hcase with ⟨pre, s, post, hs, _, _, hs1, _, _, hev⟩ | ⟨_, _, slot_id, _, hs1, _, hev⟩
  · refine ⟨_, s.Id, hev, rfl, Or.inr rfl, ?_, s.ResourceIds, ?_⟩
    · simp [Event.isSlotAdded, hs, hs1]
    · simp [hs1]
  · refine ⟨_, slot_id, hev, rfl, Or.inl rfl, ?_, [], ?_⟩
    · simp [Event.isSlotAdded, hs1]
    · simp [hs1]

theorem tryAddTool_events {P : UBagProperties} {key : Nat} {id durability : Int} {b b1 : Bag}
    (h : tryAddTool P key id durability b = .ok (true, b1)) :
    ∃ ev slot_id, b1.events = b.events ++ [ev] ∧ ev.slotId = some slot_id ∧
      (ev.isSlotAdded = true ∨ ev.isSlotUpdated = true) ∧
      (ev.isSlotAdded = true ↔
        (toolSlotsOf key b1).length = (toolSlotsOf key b).length + 1) ∧
      ∃ ids, (slot_id, ids ++ [id])
        ∈ (toolSlotsOf key b1).map
            (fun slot => (slot.Id, slot.ToolsInfo.map FBagToolInfo.ToolId)) := by
  obtain ⟨L, d, d1, _, _, _, hfind, heff⟩ := tryAddTool_true h
  obtain ⟨v1, v2, _, _⟩ := toolSlotsOf_add hfind heff
  obtain ⟨_, _, _, _, _, _, hcase⟩ := heff
  rw [v1, v2]
  rcases hcase with ⟨pre, s, post, hs, _, _, hs1, _, _, hev⟩ | ⟨_, _, slot_id, _, hs1, _, hev⟩
  · refine ⟨_, s.Id, hev, rfl, Or.inr rfl, ?_, s.ToolsInfo.map FBagToolInfo.ToolId, ?_⟩
    · simp [Event.isSlotAdded, hs, hs1]
    · simp [hs1]
  · refine ⟨_, slot_id, hev, rfl, Or.inl rfl, ?_, [], ?_⟩
    · simp [Event.isSlotAdded, hs1]
    · simp [hs1]

theorem tryRemoveResource_events {P : UBagProperties} {key : Nat} {removed : Int}
    {b b1 : Bag} (h : tryRemoveResource key (-1) b = .ok (true, removed, b1))
    (hR : ResourcesOk P b.Resources.Data) (hk : (b.Resources.Data.map Prod.fst).Nodup) :
    ∃ ev slot_id, b1.events = b.events ++ [ev] ∧ ev.slotId = some slot_id ∧
      (ev.isSlotRemoved = true ∨ ev.isSlotUpdated = true) ∧
      (ev.isSlotRemoved = true ↔
        (resourceSlotsOf key b1).length + 1 = (resourceSlotsOf key b).length) ∧
      ∃ front ids,
        (resourceSlotsOf key b).map (fun slot => (slot.Id, slot.ResourceIds))
          = front ++ [(slot_id, ids ++ [removed])] ∧
        (ev.isSlotRemoved = true ↔ ids = []) := by
  obtain ⟨_, heff⟩ := tryRemoveResource_effect h hR
  obtain ⟨front1, last1, ids1, v1, v2, _, v4⟩ := resourceRemoveLast_view hR hk heff
  obtain ⟨d, front, last, ids, hd, _, hs, hl, _, _, _, _, _, _, hev⟩ := heff
  have hview : resourceSlotsOf key b = front ++ [last] := by simp [resourceSlotsOf, hd, hs]
  obtain ⟨hf, hlast⟩ := concat_inj (v1.symm.trans hview)
  subst hf hlast
  obtain ⟨hids, _⟩ := concat_inj (v2.symm.trans hl)
  subst hids
  rw [v4, v1]
  by_cases h0 : ids1 = []
  · subst h0
    refine ⟨_, last1.Id, hev, by simp [Event.slotId], Or.inl (by simp [Event.isSlotRemoved]),
      by simp [Event.isSlotRemoved], front1.map (fun slot => (slot.Id, slot.ResourceIds)), [],
      by simp [v2], by simp [Event.isSlotRemoved]⟩
  · refine ⟨_, last1.Id, hev, by simp [Event.slotId, h0],
      Or.inr (by simp [Event.isSlotUpdated, h0]), by simp [Event.isSlotRemoved, h0],
      front1.map (fun slot => (slot.Id, slot.ResourceIds)), ids1, by simp [v2],
      by simp [Event.isSlotRemoved, h0]⟩

theorem tryRemoveTool_events {P : UBagProperties} {key : Nat} {removed : Int}
    {b b1 : Bag} (h : tryRemoveTool key (-1) b = .ok (true, removed, b1))
    (hR : ToolsOk P b.Tools.Data) (hk : (b.Tools.Data.map Prod.fst).Nodup) :
    ∃ ev slot_id, b1.events = b.events ++ [ev] ∧ ev.slotId = some slot_id ∧
      (ev.isSlotRemoved = true ∨ ev.isSlotUpdated = true) ∧
      (ev.isSlotRemoved = true ↔
        (toolSlotsOf key b1).length + 1 = (toolSlotsOf key b).length) ∧
      ∃ front ids,
        (toolSlotsOf key b).map (fun slot => (slot.Id, slot.ToolsInfo.map FBagToolInfo.ToolId))
          = front ++ [(slot_id, ids ++ [removed])] ∧
        (ev.isSlotRemoved = true ↔ ids = []) := by
  have heff := tryRemoveTool_effect h hR
  obtain ⟨pre1, s1, post1, before1, info1, after1, v1, v2, v3, vmode, _, v5⟩ :=
    toolRemove_view hR hk heff
  obtain ⟨d, pre, s, post, before, info, after, hd, _, hs, hinfo, _, hmode, _, _, _, _, _, _,
    hev⟩ := heff
  rcases vmode with ⟨_, hp1, ha1⟩ | ⟨hne, _⟩
  · rcases hmode with ⟨_, hp, ha⟩ | ⟨hne, _⟩
    · subst hp1 ha1 hp ha
      have hview : toolSlotsOf key b = pre ++ [s] := by simp [toolSlotsOf, hd, hs]
      obtain ⟨hf, hlast⟩ := concat_inj (v1.symm.trans hview)
      subst hf hlast
      obtain ⟨hb, hi⟩ := concat_inj (v2.symm.trans hinfo)
      subst hb hi
      rw [v5, v1]
      by_cases h0 : before1 = []
      · subst h0
        refine ⟨_, s1.Id, hev, by simp [Event.slotId],
          Or.inl (by simp [Event.isSlotRemoved]),
          by simp [Event.isSlotRemoved, lastToFront],
          pre1.map (fun slot => (slot.Id, slot.ToolsInfo.map FBagToolInfo.ToolId)), [],
          by simp [v2, v3], by simp [Event.isSlotRemoved]⟩
      · refine ⟨_, s1.Id, hev, by simp [Event.slotId, h0],
          Or.inr (by simp [Event.isSlotUpdated, h0]), by simp [Event.isSlotRemoved, h0],
          pre1.map (fun slot => (slot.Id, slot.ToolsInfo.map FBagToolInfo.ToolId)),
          before1.map FBagToolInfo.ToolId, by simp [v2, v3],
          by simp [Event.isSlotRemoved, h0]⟩
    · exact absurd rfl hne
  · exact absurd rfl hne

theorem bucketSlots_resource {data : UItemData} (hcat : data.Category = EItemCategory.Resource)
    (hcls : data.cls = DataClass.ResourceData) (b : Bag) :
    bucketSlots data b
      = (resourceSlotsOf data.ptr b).map (fun slot => (slot.Id, slot.ResourceIds)) := by
  simp [bucketSlots, hcat, hcls]

theorem bucketSlots_tool {data : UItemData} {m : Int}
    (hcat : data.Category = EItemCategory.Tool) (hcls : data.cls = DataClass.ToolData m)
    (b : Bag) :
    bucketSlots data b
      = (toolSlotsOf data.ptr b).map
          (fun slot => (slot.Id, slot.ToolsInfo.map FBagToolInfo.ToolId)) := by
  simp [bucketSlots, hcat, hcls]

/-- C26: with the broadcasts of the delegates recorded in `events`, in a reachable bag
state a successful `addItem` appends exactly one slot broadcast followed by one
`BagUpdated`, and a failed one appends nothing.  The slot broadcast is
`SlotAdded` if and only if the bucket of the type has one slot more than before,
and `SlotUpdated` otherwise; its `slot_id` is the id of the slot whose last
entry is the assigned id.  A successful `removeItem` appends exactly one slot
broadcast followed by one `BagUpdated`, and a failed one appends nothing.  The
slot broadcast is `SlotRemoved` if and only if the last slot of the bucket held
only the removed id (the bucket then has one slot less), and `SlotUpdated`
otherwise; its `slot_id` is the id of that last slot.  Calls with invalid item
data fail and append nothing. -/
theorem C26_events_of_add_and_remove (P : UBagProperties) (data : UItemData) (b : Bag)
    (h : Reachable P b) :
    (∀ r b1, addItem P (some data) b = .ok (r, b1) →
      (r.bAdded = false → b1.events = b.events) ∧
      (r.bAdded = true → ∃ ev slot_id,
        b1.events = b.events ++ [ev, Event.BagUpdated] ∧ ev.slotId = some slot_id ∧
        (ev.isSlotAdded = true ∨ ev.isSlotUpdated = true) ∧
        (ev.isSlotAdded = true ↔
          (bucketSlots data b1).length = (bucketSlots data b).length + 1) ∧
        ∃ ids, (slot_id, ids ++ [r.AssignedId]) ∈ bucketSlots data b1)) ∧
    (∀ spawn r b1, removeItem (some data) spawn b = .ok (r, b1) →
      (r.bRemoved = false → b1.events = b.events) ∧
      (r.bRemoved = true → ∃ ev slot_id,
        b1.events = b.events ++ [ev, Event.BagUpdated] ∧ ev.slotId = some slot_id ∧
        (ev.isSlotRemoved = true ∨ ev.isSlotUpdated = true) ∧
        (ev.isSlotRemoved = true ↔
          (bucketSlots data b1).length + 1 = (bucketSlots data b).length) ∧
        ∃ front ids, bucketSlots data b = front ++ [(slot_id, ids ++ [r.RemovedId])] ∧
          (ev.isSlotRemoved = true ↔ ids = []))) ∧
    (∀ r b1, addItem P none b = .ok (r, b1) → r.bAdded = false ∧ b1.events = b.events) ∧
    (∀ spawn r b1, removeItem none spawn b = .ok (r, b1) →
      r.bRemoved = false ∧ b1.events = b.events) := by
  have hI := reachable_inv h
  have hK := reachable_keys h
  refine ⟨?_, ?_, ?_, ?_⟩
  rotate_left 2
  · intro r b1 hadd
    simp only [addItem, Except.ok.injEq, Prod.mk.injEq] at hadd
    obtain ⟨rfl, rfl⟩ := hadd
    exact ⟨rfl, rfl⟩
  · intro spawn r b1 hrem
    simp only [removeItem, Except.ok.injEq, Prod.mk.injEq] at hrem
    obtain ⟨rfl, rfl⟩ := hrem
    exact ⟨rfl, rfl⟩
  · intro r b1 hadd
    rcases addItem_cases hadd with ⟨hr1, hb1⟩ | ⟨data1, pool, id, b0, hd, _, _, htry, hr1, hb1⟩
    · subst hr1 hb1
      exact ⟨fun _ => rfl, fun hr => by simp at hr⟩
    · simp only [Option.some.injEq] at hd
      subst hd
      refine ⟨fun hr => by simp [hr1] at hr, fun _ => ?_⟩
      rcases tryAddItem_true_cases htry with ⟨hcat, hcls, hres⟩ | ⟨hcat, md, dur, hcls, htool, _⟩
      · obtain ⟨ev, slot_id, e1, e2, e3, e4, ids, e5⟩ := tryAddResource_events hres
        have e1a : b0.events = b.events ++ [ev] := e1
        have e4a : ev.isSlotAdded = true ↔
            (resourceSlotsOf data.ptr b0).length = (resourceSlotsOf data.ptr b).length + 1 := e4
        refine ⟨ev, slot_id, ?_, e2, e3, ?_, ids, ?_⟩
        · rw [hb1]
          simp [e1a]
        · rw [bucketSlots_resource hcat hcls, bucketSlots_resource hcat hcls, hb1]
          simpa [resourceSlotsOf] using e4a
        · rw [bucketSlots_resource hcat hcls, hb1, hr1]
          exact e5
      · obtain ⟨ev, slot_id, e1, e2, e3, e4, ids, e5⟩ := tryAddTool_events htool
        have e1a : b0.events = b.events ++ [ev] := e1
        have e4a : ev.isSlotAdded = true ↔
            (toolSlotsOf data.ptr b0).length = (toolSlotsOf data.ptr b).length + 1 := e4
        refine ⟨ev, slot_id, ?_, e2, e3, ?_, ids, ?_⟩
        · rw [hb1]
          simp [e1a]
        · rw [bucketSlots_tool hcat hcls, bucketSlots_tool hcat hcls, hb1]
          simpa [toolSlotsOf] using e4a
        · rw [bucketSlots_tool hcat hcls, hb1, hr1]
          exact e5
  · intro spawn r b1 hrem
    rcases removeItem_cases hrem with ⟨hr1, hb1⟩ | ⟨data1, removed, b0, hd, htry, hr1, hb1⟩
    · subst hr1 hb1
      exact ⟨fun _ => rfl, fun hr => by simp at hr⟩
    · simp only [Option.some.injEq] at hd
      subst hd
      refine ⟨fun hr => by simp [hr1] at hr, fun _ => ?_⟩
      have hsplit : (data.Category = EItemCategory.Resource ∧ data.cls = DataClass.ResourceData ∧
            tryRemoveResource data.ptr (-1) b = .ok (true, removed, b0)) ∨
          (data.Category = EItemCategory.Tool ∧ ∃ m, data.cls = DataClass.ToolData m ∧
            tryRemoveTool data.ptr (-1) b = .ok (true, removed, b0)) := by
        unfold tryRemoveItem at htry
        split at htry
        · rename_i hcat
          split at htry
          · rename_i hcls
            exact Or.inl ⟨hcat, hcls, htry⟩
          · simp at htry
        · rename_i hcat
          split at htry
          · rename_i m hcls
            exact Or.inr ⟨hcat, m, hcls, htry⟩
          · simp at htry
        · simp at htry
      rcases hsplit with ⟨hcat, hcls, hres⟩ | ⟨hcat, m, hcls, htool⟩
      · obtain ⟨ev, slot_id, e1, e2, e3, e4, front, ids, e5, e6⟩ :=
          tryRemoveResource_events hres hI.1 hK.1
        refine ⟨ev, slot_id, ?_, e2, e3, ?_, front, ids, ?_, e6⟩
        · rw [hb1]
          simp [e1]
        · rw [bucketSlots_resource hcat hcls, bucketSlots_resource hcat hcls, hb1]
          simpa [resourceSlotsOf] using e4
        · rw [bucketSlots_resource hcat hcls, hr1]
          exact e5
      · obtain ⟨ev, slot_id, e1, e2, e3, e4, front, ids, e5, e6⟩ :=
          tryRemoveTool_events htool hI.2.1 hK.2
        refine ⟨ev, slot_id, ?_, e2, e3, ?_, front, ids, ?_, e6⟩
        · rw [hb1]
          simp [e1]
        · rw [bucketSlots_tool hcat hcls, bucketSlots_tool hcat hcls, hb1]
          simpa [toolSlotsOf] using e4
        · rw [bucketSlots_tool hcat hcls, hr1]
          exact e5

/-- C26 on `demoBag` (resource slots `[5, 4]`, `[3]` with stack size 2; one tool slot
`[2]`): `addItem` of the resource fills slot 4 and broadcasts `SlotUpdated` for
slot 4, then `BagUpdated`; `removeItem` of the tool empties slot 3 and
broadcasts `SlotRemoved` for slot 3, then `BagUpdated`; `removeItem` of the tool
on the bag without tools fails and broadcasts nothing. -/
theorem C26_witness :
    Reachable demoProperties demoBag ∧
    addItem demoProperties (some demoResource) demoBag
      = .ok ({ bAdded := true, AssignedId := 1 }, demoBagAfterAdd) ∧
    demoBagAfterAdd.events = demoBag.events ++
      [Event.ResourceSlotUpdated 1 4 { Id := 4, ResourceIds := [3, 1] }, Event.BagUpdated] ∧
    (∃ ev slot_id,
      demoBagAfterAdd.events = demoBag.events ++ [ev, Event.BagUpdated] ∧
      ev.slotId = some slot_id ∧ (ev.isSlotAdded = true ∨ ev.isSlotUpdated = true) ∧
      (ev.isSlotAdded = true ↔
        (bucketSlots demoResource demoBagAfterAdd).length
          = (bucketSlots demoResource demoBag).length + 1) ∧
      ∃ ids, (slot_id, ids ++ [1]) ∈ bucketSlots demoResource demoBagAfterAdd) ∧
    removeItem (some demoTool) false demoBag
      = .ok ({ bRemoved := true, RemovedId := 2, SpawnedActor := none },
             demoBagAfterToolRemove) ∧
    demoBagAfterToolRemove.events = demoBag.events ++
      [Event.ToolSlotRemoved 2 3 { Id := 3, ToolsInfo := [] }, Event.BagUpdated] ∧
    (∃ ev slot_id,
      demoBagAfterToolRemove.events = demoBag.events ++ [ev, Event.BagUpdated] ∧
      ev.slotId = some slot_id ∧ (ev.isSlotRemoved = true ∨ ev.isSlotUpdated = true) ∧
      (ev.isSlotRemoved = true ↔
        (bucketSlots demoTool demoBagAfterToolRemove).length + 1
          = (bucketSlots demoTool demoBag).length) ∧
      ∃ front ids, bucketSlots demoTool demoBag = front ++ [(slot_id, ids ++ [2])] ∧
        (ev.isSlotRemoved = true ↔ ids = [])) ∧
    Reachable demoProperties demoBagAfterToolRemove ∧
    (∀ r b1, removeItem (some demoTool) false demoBagAfterToolRemove = .ok (r, b1) →
      r.bRemoved = false ∧ b1.events = demoBagAfterToolRemove.events) :=
  ⟨demoBag_reachable, by decide, by decide,
   ((C26_events_of_add_and_remove demoProperties demoResource demoBag demoBag_reachable).1
      { bAdded := true, AssignedId := 1 } demoBagAfterAdd (by decide)).2 rfl,
   by decide, rfl,
   ((C26_events_of_add_and_remove demoProperties demoTool demoBag demoBag_reachable).2.1 false
      { bRemoved := true, RemovedId := 2, SpawnedActor := none } demoBagAfterToolRemove
      (by decide)).2 rfl,
   Reachable.step demoBag demoBagAfterToolRemove (Op.removeItem (some demoTool) false)
     demoBag_reachable (by decide),
   fun r b1 hrem =>
     have hr : r.bRemoved = false := by
       have h0 : removeItem (some demoTool) false demoBagAfterToolRemove
           = .ok ({ bRemoved := false, RemovedId := -1, SpawnedActor := none },
                  demoBagAfterToolRemove) := by decide
       rw [h0] at hrem
       simp only [Except.ok.injEq, Prod.mk.injEq] at hrem
       rw [← hrem.1]
     ⟨hr,
      ((C26_events_of_add_and_remove demoProperties demoTool demoBagAfterToolRemove
          (Reachable.step demoBag demoBagAfterToolRemove (Op.removeItem (some demoTool) false)
            demoBag_reachable (by decide))).2.1 false r b1 hrem).1 hr⟩⟩

/-! ## Crafting utilities -/

theorem mapFind_mapValues {β γ : Type} (g : β → γ) (k : Nat) (m : List (Nat × β)) :
    mapFind k (m.map (fun kv => (kv.1, g kv.2))) = (mapFind k m).map g := by
  induction m with
  | nil => rfl
  | cons kv rest ih =>
    obtain ⟨k1, v1⟩ := kv
    by_cases hk : k1 = k
    · simp [mapFind, hk]
    · simp [mapFind, hk, ih]

theorem availableItems_fold (data : List (Nat × FBagResourcesData)) :
    ∀ acc : List (Nat × Int), (data.map Prod.fst).Nodup →
      (∀ kv ∈ data, ∀ x ∈ acc, x.1 ≠ kv.1) →
      data.foldl (fun available_items resource =>
          mapSet resource.1 resource.2.ResourceQuantity available_items) acc
        = acc ++ data.map (fun kv => (kv.1, kv.2.ResourceQuantity)) := by
  induction data with
  | nil =>
    intro acc _ _
    simp
  | cons kv rest ih =>
    intro acc hk hfresh
    simp only [List.map_cons, List.nodup_cons] at hk
    have hset : mapSet kv.1 kv.2.ResourceQuantity acc = acc ++ [(kv.1, kv.2.ResourceQuantity)] :=
      mapSet_of_not_mem _ _ _ (fun x hx => hfresh kv (by simp) x hx)
    simp only [List.foldl_cons, hset]
    rw [ih _ hk.2]
    · simp
    · intro kv1 hkv1 x hx
      rcases List.mem_append.mp hx with hx | hx
      · exact hfresh kv1 (by simp [hkv1]) x hx
      · simp only [List.mem_singleton] at hx
        subst hx
        intro heq
        exact hk.1 (List.mem_map.mpr ⟨kv1, hkv1, heq.symm⟩)

theorem availableItems_eq (in_resources : FBagResources)
    (hk : (in_resources.Data.map Prod.fst).Nodup) :
    generateAvailableItemsFromResources in_resources
      = in_resources.Data.map (fun kv => (kv.1, kv.2.ResourceQuantity)) := by
  unfold generateAvailableItemsFromResources
  rw [availableItems_fold _ [] hk (by simp)]
  simp

/-- C28: for a `Resources` registry (a `TMap`: no key twice),
`generateAvailableItemsFromResources` returns the map with one entry per bucket,
in registry order, binding the type key to the `ResourceQuantity` of the bucket:
a key is in the result if and only if it is in `Resources.Data`.  For the
`Resources` of a reachable bag the value bound to a resource type is what
`getItemQuantity` returns for it, a type that is not a key has quantity 0, and
every value is at least 1. -/
theorem C28_available_items :
    (∀ in_resources : FBagResources, (in_resources.Data.map Prod.fst).Nodup →
      generateAvailableItemsFromResources in_resources
        = in_resources.Data.map (fun kv => (kv.1, kv.2.ResourceQuantity)) ∧
      (∀ k, (∃ v, mapFind k (generateAvailableItemsFromResources in_resources) = some v)
        ↔ (∃ d, mapFind k in_resources.Data = some d)) ∧
      (∀ k d, mapFind k in_resources.Data = some d →
        mapFind k (generateAvailableItemsFromResources in_resources)
          = some d.ResourceQuantity)) ∧
    (∀ (P : UBagProperties) (b : Bag), Reachable P b →
      (∀ data : UItemData, data.Category = EItemCategory.Resource →
        data.cls = DataClass.ResourceData →
        (∀ v, mapFind data.ptr (generateAvailableItemsFromResources b.Resources) = some v →
          getItemQuantity (some data) b = v) ∧
        (mapFind data.ptr (generateAvailableItemsFromResources b.Resources) = none →
          getItemQuantity (some data) b = 0)) ∧
      (∀ k v, mapFind k (generateAvailableItemsFromResources b.Resources) = some v →
        1 ≤ v)) := by
  have hfind : ∀ (in_resources : FBagResources), (in_resources.Data.map Prod.fst).Nodup →
      ∀ k, mapFind k (generateAvailableItemsFromResources in_resources)
        = (mapFind k in_resources.Data).map (fun d => d.ResourceQuantity) := by
    intro in_resources hk k
    rw [availableItems_eq in_resources hk]
    exact mapFind_mapValues (fun d => d.ResourceQuantity) k in_resources.Data
  constructor
  · intro in_resources hk
    refine ⟨availableItems_eq in_resources hk, ?_, ?_⟩
    · intro k
      rw [hfind in_resources hk k]
      cases mapFind k in_resources.Data <;> simp
    · intro k d hd
      rw [hfind in_resources hk k, hd]
      rfl
  · intro P b h
    have hI := reachable_inv h
    have hK := reachable_keys h
    constructor
    · intro data hcat hcls
      constructor
      · intro v hv
        rw [hfind b.Resources hK.1] at hv
        cases hd : mapFind data.ptr b.Resources.Data with
        | none => simp [hd] at hv
        | some d =>
          simp only [hd, Option.map_some', Option.some.injEq] at hv
          simp [getItemQuantity, hcat, hcls, hd, hv]
      · intro hv
        rw [hfind b.Resources hK.1] at hv
        cases hd : mapFind data.ptr b.Resources.Data with
        | none => simp [getItemQuantity, hcat, hcls, hd]
        | some d => simp [hd] at hv
    · intro k v hv
      rw [hfind b.Resources hK.1] at hv
      cases hd : mapFind k b.Resources.Data with
      | none => simp [hd] at hv
      | some d =>
        simp only [hd, Option.map_some', Option.some.injEq] at hv
        obtain ⟨L, _, hok⟩ := hI.1 (k, d) (mapFind_mem hd)
        replace hok : ResourceBucketOk L d := hok
        have := resourceBucketOk_quantity_pos hok
        omega

/-- C28 on `demoBag`: the map is `[(1, 3)]`, and 3 is `getItemQuantity` of the resource. -/
theorem C28_witness :
    Reachable demoProperties demoBag ∧
    generateAvailableItemsFromResources demoBag.Resources = [(1, 3)] ∧
    getItemQuantity (some demoResource) demoBag = 3 ∧
    (∀ k v, mapFind k (generateAvailableItemsFromResources demoBag.Resources) = some v →
      1 ≤ v) ∧
    (∀ k d, mapFind k demoBag.Resources.Data = some d →
      mapFind k (generateAvailableItemsFromResources demoBag.Resources)
        = some d.ResourceQuantity) :=
  ⟨demoBag_reachable, by decide,
   ((C28_available_items.2 demoProperties demoBag demoBag_reachable).1 demoResource rfl rfl).1
     3 (by decide),
   (C28_available_items.2 demoProperties demoBag demoBag_reachable).2,
   (C28_available_items.1 demoBag.Resources (by decide)).2.2⟩

theorem hasAllRequirements_eq_all (available_items : List (Nat × Int))
    (requirements : List FRecipeRequirement) :
    hasAllRequirements available_items requirements
      = requirements.all (requirementMet available_items) := by
  induction requirements with
  | nil => rfl
  | cons req rest ih =>
    unfold hasAllRequirements
    simp only [List.all_cons, requirementMet]
    cases hf : mapFind req.Item available_items with
    | none => simp
    | some q =>
      by_cases hq : req.Quantity > q
      · have : ¬ req.Quantity ≤ q := by omega
        simp [hq, this]
      · have : req.Quantity ≤ q := by omega
        simp [hq, this, ih]

theorem craftableRecipesLoop_valid (available_items : List (Nat × Int))
    (recipes : List UCraftingRecipe) :
    ∀ acc, craftableRecipesLoop available_items (recipes.map some) acc
      = .ok (acc ++ recipes.filter
          (fun r => r.Requirements.all (requirementMet available_items))) := by
  induction recipes with
  | nil =>
    intro acc
    simp [craftableRecipesLoop]
  | cons r rest ih =>
    intro acc
    simp only [List.map_cons, craftableRecipesLoop, ih, hasAllRequirements_eq_all]
    by_cases hr : r.Requirements.all (requirementMet available_items) = true
    · simp [hr, List.filter_cons]
    · simp [hr, List.filter_cons]

/-- C27 fails for a valid collection with a null entry: on `nullEntryCollection`
(entries `freeRecipe`, `nullptr`) the loop reads `recipe->Requirements` of the
null pointer instead of returning the recipes that can be crafted. -/
theorem C27_counterexample :
    getCraftableRecipesForAvailableItems [(1, 3)] (some nullEntryCollection)
      = .error Fault.nullDeref ∧
    ¬ ∃ recipes, getCraftableRecipesForAvailableItems [(1, 3)] (some nullEntryCollection)
      = .ok recipes := by
  refine ⟨by decide, ?_⟩
  rintro ⟨recipes, h⟩
  have h0 : getCraftableRecipesForAvailableItems [(1, 3)] (some nullEntryCollection)
      = .error Fault.nullDeref := by decide
  rw [h0] at h
  simp at h

/-- C27, amended: for a valid collection all of whose `Craftables` entries are valid
recipes, `getCraftableRecipesForAvailableItems` returns exactly the recipes of
`Craftables`, in collection order and with multiplicity, all of whose
requirements are met (`requirementMet`: the item is a key of `available_items`
and the required quantity is at most the available one).  A recipe without
requirements is always returned, and a requirement on an item that is not a
key is never met, whatever its quantity.  An invalid collection gives the
empty array. -/
theorem C27_craftable_recipes (available_items : List (Nat × Int))
    (collection : UCraftablesCollection) (recipes : List UCraftingRecipe)
    (hvalid : collection.Craftables = recipes.map some) :
    getCraftableRecipesForAvailableItems available_items (some collection)
      = .ok (recipes.filter (fun r => r.Requirements.all (requirementMet available_items))) ∧
    (∀ r ∈ recipes, r.Requirements = [] →
      r ∈ recipes.filter (fun r => r.Requirements.all (requirementMet available_items))) ∧
    (∀ req : FRecipeRequirement, mapFind req.Item available_items = none →
      requirementMet available_items req = false) ∧
    (∀ (req : FRecipeRequirement) (quantity : Int),
      mapFind req.Item available_items = some quantity →
      (requirementMet available_items req = true ↔ req.Quantity ≤ quantity)) ∧
    getCraftableRecipesForAvailableItems available_items none = .ok [] := by
  refine ⟨?_, ?_, ?_, ?_, rfl⟩
  · simp only [getCraftableRecipesForAvailableItems, hvalid]
    rw [craftableRecipesLoop_valid]
    simp
  · intro r hr hreq
    simp [List.mem_filter, hr, hreq]
  · intro req hreq
    simp [requirementMet, hreq]
  · intro req quantity hreq
    simp [requirementMet, hreq]

/-- C27, amended, on `demoCollection` (entries `plankRecipe`, `torchRecipe`, `freeRecipe`,
`plankRecipe`) with 3 of item 1 available: `plankRecipe` is returned twice,
`freeRecipe` once, and `torchRecipe`, which needs 0 of the absent item 3, is
not returned. -/
theorem C27_witness :
    demoCollection.Craftables
      = [plankRecipe, torchRecipe, freeRecipe, plankRecipe].map some ∧
    getCraftableRecipesForAvailableItems [(1, 3)] (some demoCollection)
      = .ok [plankRecipe, freeRecipe, plankRecipe] ∧
    requirementMet [(1, 3)] { Item := 3, Quantity := 0 } = false :=
  ⟨rfl,
   (C27_craftable_recipes [(1, 3)] demoCollection
      [plankRecipe, torchRecipe, freeRecipe, plankRecipe] rfl).1,
   (C27_craftable_recipes [(1, 3)] demoCollection
      [plankRecipe, torchRecipe, freeRecipe, plankRecipe] rfl).2.2.1
      { Item := 3, Quantity := 0 } rfl⟩

theorem mapSet_mapValues {β γ : Type} (g : β → γ) (k : Nat) (v : β) (m : List (Nat × β)) :
    (mapSet k v m).map (fun kv => (kv.1, g kv.2))
      = mapSet k (g v) (m.map (fun kv => (kv.1, g kv.2))) := by
  induction m with
  | nil => rfl
  | cons kv rest ih =>
    obtain ⟨k1, v1⟩ := kv
    by_cases hk : k1 = k
    · simp [mapSet, hk]
    · simp [mapSet, hk, ih]

theorem mapRemove_mapValues {β γ : Type} (g : β → γ) (k : Nat) (m : List (Nat × β)) :
    (mapRemove k m).map (fun kv => (kv.1, g kv.2))
      = mapRemove k (m.map (fun kv => (kv.1, g kv.2))) := by
  induction m with
  | nil => rfl
  | cons kv rest ih =>
    obtain ⟨k1, v1⟩ := kv
    by_cases hk : k1 = k
    · simp [mapRemove, hk]
    · simp [mapRemove, hk, ih]

theorem arrayPop_map {α β : Type} (f : α → β) (l : List α) :
    arrayPop (l.map f) = (arrayPop l).map (fun p => (f p.1, p.2.map f)) := by
  rcases List.eq_nil_or_concat l with h0 | ⟨r, x, hl⟩
  · subst h0
    rfl
  · have hl1 : l = r ++ [x] := by simpa using hl
    subst hl1
    rw [arrayPop_concat]
    simp only [List.map_append, List.map_cons, List.map_nil, Option.map_some']
    exact arrayPop_concat _ _

theorem lastToFront_map {α β : Type} (f : α → β) (l : List α) :
    lastToFront (l.map f) = (lastToFront l).map f := by
  rcases List.eq_nil_or_concat l with h0 | ⟨r, x, hl⟩
  · subst h0
    rfl
  · have hl1 : l = r ++ [x] := by simpa using hl
    subst hl1
    simp [lastToFront]

theorem removeSingleSwap_toResourceSlot (selected : FBagToolSlot) (slots : List FBagToolSlot) :
    (removeSingleSwap FBagToolSlot.opEq selected slots).map FBagToolSlot.toResourceSlot
      = removeSingleSwap FBagResourceSlot.opEq selected.toResourceSlot
          (slots.map FBagToolSlot.toResourceSlot) := by
  induction slots with
  | nil => rfl
  | cons x rest ih =>
    have heq : FBagResourceSlot.opEq x.toResourceSlot selected.toResourceSlot
        = FBagToolSlot.opEq x selected := rfl
    simp only [removeSingleSwap, List.map_cons, heq]
    by_cases hx : FBagToolSlot.opEq x selected = true
    · simp [hx, lastToFront_map]
    · simp [hx, ih]

theorem addToFirstFree_toResourceSlot (S id durability : Int) (slots : List FBagToolSlot) :
    addToFirstFreeResourceSlot S id (slots.map FBagToolSlot.toResourceSlot)
      = (addToFirstFreeToolSlot S { ToolId := id, Durability := durability } slots).map
          (fun p => (p.1.toResourceSlot, p.2.map FBagToolSlot.toResourceSlot)) := by
  induction slots with
  | nil => rfl
  | cons x rest ih =>
    simp only [List.map_cons, addToFirstFreeResourceSlot, addToFirstFreeToolSlot]
    have hlen : (x.toResourceSlot.ResourceIds.length : Int) = (x.ToolsInfo.length : Int) := by
      simp [FBagToolSlot.toResourceSlot]
    rw [hlen]
    by_cases hx : (x.ToolsInfo.length : Int) < S
    · simp [hx, FBagToolSlot.toResourceSlot]
    · simp only [hx, if_false, ih]
      cases addToFirstFreeToolSlot S { ToolId := id, Durability := durability } rest with
      | none => rfl
      | some p => rfl

theorem packerState_eq_iff (b bt : Bag) :
    resourcePackerState b = toolPackerState bt ↔
      b.Resources.Data = bt.Tools.Data.map (fun kv => (kv.1, kv.2.toResourcesData)) ∧
      b.Resources.UsedSlots = bt.Tools.UsedSlots ∧ b.slot_ids_pool = bt.slot_ids_pool := by
  unfold resourcePackerState toolPackerState FBagTools.toResources
  constructor
  · intro h
    simp only [PackerState.mk.injEq] at h
    obtain ⟨h1, h2⟩ := h
    have hd : b.Resources.Data = _ := congrArg FBagResources.Data h1
    have hu : b.Resources.UsedSlots = _ := congrArg FBagResources.UsedSlots h1
    exact ⟨hd, hu, h2⟩
  · rintro ⟨h1, h2, h3⟩
    cases hb : b.Resources with
    | mk data used =>
      rw [hb] at h1 h2
      simp only at h1 h2
      simp [h1, h2, h3]

theorem tryAddTail_agree (P : UBagProperties) (L : UItemBagLimit) (key : Nat)
    (id durability : Int) (tools_data : FBagToolsData) (b bt : Bag)
    (hview : resourcePackerState b = toolPackerState bt) :
    resourceAddOutcome (tryAddResourceTail P L key id tools_data.toResourcesData b)
      = toolAddOutcome (tryAddToolTail P L key id durability tools_data bt) := by
  obtain ⟨hd, hu, hp⟩ := (packerState_eq_iff b bt).mp hview
  unfold tryAddResourceTail tryAddToolTail
  have hq : tools_data.toResourcesData.ResourceQuantity = tools_data.ToolQuantity := rfl
  have hs : tools_data.toResourcesData.Slots
      = tools_data.Slots.map FBagToolSlot.toResourceSlot := rfl
  rw [hq, hs, addToFirstFree_toResourceSlot L.MaxStackSize id durability]
  by_cases hfull : tools_data.ToolQuantity ≥ L.MaxQuantity
  · simp only [hfull, if_true, resourceAddOutcome, toolAddOutcome, hview]
  · simp only [hfull, if_false]
    cases hfree : addToFirstFreeToolSlot L.MaxStackSize
        { ToolId := id, Durability := durability } tools_data.Slots with
    | some p =>
      obtain ⟨slot, slots⟩ := p
      simp only [Option.map_some', resourceAddOutcome, toolAddOutcome, Except.ok.injEq,
        Prod.mk.injEq, true_and]
      apply (packerState_eq_iff _ _).mpr
      refine ⟨?_, hu, hp⟩
      simp only [hd, mapSet_mapValues]
      rfl
    | none =>
      simp only [Option.map_none', hu, hp]
      by_cases hceil : bt.Tools.UsedSlots ≥ P.MaxResourceSlots
      · simp only [hceil, if_true, resourceAddOutcome, toolAddOutcome, hview]
      · simp only [hceil, if_false]
        cases hpop : arrayPop bt.slot_ids_pool with
        | none => simp [resourceAddOutcome, toolAddOutcome]
        | some pr =>
          obtain ⟨slot_id, pool⟩ := pr
          simp only [resourceAddOutcome, toolAddOutcome, Except.ok.injEq, Prod.mk.injEq,
            true_and]
          apply (packerState_eq_iff _ _).mpr
          refine ⟨?_, rfl, rfl⟩
          simp only [hd, mapSet_mapValues]
          simp [FBagToolsData.toResourcesData, FBagToolSlot.toResourceSlot]

theorem tryAdd_agree (P : UBagProperties) (key : Nat) (id durability : Int) (b bt : Bag)
    (hview : resourcePackerState b = toolPackerState bt) :
    resourceAddOutcome (tryAddResource P key id b)
      = toolAddOutcome (tryAddTool P key id durability bt) := by
  obtain ⟨hd, hu, hp⟩ := (packerState_eq_iff b bt).mp hview
  unfold tryAddResource tryAddTool
  cases hL : mapFind key P.Limits with
  | none => rfl
  | some oL =>
    cases oL with
    | none => rfl
    | some L =>
      simp only
      by_cases hpos : L.MaxQuantity > 0 ∧ L.MaxStackSize > 0
      · simp only [hpos, and_self, if_true]
        rw [hd, mapFind_mapValues]
        cases hf : mapFind key bt.Tools.Data with
        | none =>
          simp only [Option.map_none', hu]
          by_cases hceil : bt.Tools.UsedSlots ≥ P.MaxResourceSlots
          · simp only [hceil, if_true, resourceAddOutcome, toolAddOutcome, hview]
          · simp only [hceil, if_false]
            have hempty : ({ Slots := [], ResourceQuantity := 0 } : FBagResourcesData)
                = ({ ToolQuantity := 0, Slots := [] } : FBagToolsData).toResourcesData := rfl
            rw [hempty]
            apply tryAddTail_agree
            apply (packerState_eq_iff _ _).mpr
            refine ⟨?_, rfl, hp⟩
            simp only [mapSet_mapValues]
        | some tools_data =>
          simp only [Option.map_some']
          exact tryAddTail_agree P L key id durability tools_data b bt hview
      · simp only [hpos, if_false]
        rfl

theorem tryRemoveTail_agree (key : Nat) (tools_data : FBagToolsData)
    (slots : List FBagToolSlot) (selected : FBagToolSlot) (b bt : Bag)
    (hview : resourcePackerState b = toolPackerState bt) :
    resourcePackerState (tryRemoveResourceTail key tools_data.toResourcesData
        (slots.map FBagToolSlot.toResourceSlot) selected.toResourceSlot b)
      = toolPackerState (tryRemoveToolTail key tools_data slots selected bt) := by
  obtain ⟨hd, hu, hp⟩ := (packerState_eq_iff b bt).mp hview
  apply (packerState_eq_iff _ _).mpr
  have hlen : selected.toResourceSlot.ResourceIds.length = selected.ToolsInfo.length := by
    simp [FBagToolSlot.toResourceSlot]
  have hid : selected.toResourceSlot.Id = selected.Id := rfl
  have hq : tools_data.toResourcesData.ResourceQuantity = tools_data.ToolQuantity := rfl
  simp only [tryRemoveResourceTail, tryRemoveToolTail, hlen, hid, hq, hd, hu, hp]
  refine ⟨?_, trivial, trivial⟩
  by_cases h0 : tools_data.ToolQuantity - 1 = 0
  · simp only [h0, if_true, mapRemove_mapValues]
  · simp only [h0, if_false, mapSet_mapValues]
    congr 1
    by_cases hs : selected.ToolsInfo.length = 0
    · simp [hs, FBagToolsData.toResourcesData, removeSingleSwap_toResourceSlot]
    · simp [hs, FBagToolsData.toResourcesData]

theorem tryRemove_last_agree (key : Nat) (remove_id : Int) (b bt : Bag)
    (hview : resourcePackerState b = toolPackerState bt) (hid : remove_id < 0) :
    resourceRemoveOutcome (tryRemoveResource key remove_id b)
      = toolRemoveOutcome (tryRemoveTool key remove_id bt) := by
  obtain ⟨hd, hu, hp⟩ := (packerState_eq_iff b bt).mp hview
  unfold tryRemoveResource tryRemoveTool
  by_cases hge : remove_id ≥ -1
  · have hm : remove_id = -1 := by omega
    subst hm
    simp only [ge_iff_le, le_refl, if_true]
    rw [hd, mapFind_mapValues]
    cases hf : mapFind key bt.Tools.Data with
    | none => simp only [Option.map_none', resourceRemoveOutcome, toolRemoveOutcome, hview]
    | some tools_data =>
      simp only [Option.map_some']
      have hq : tools_data.toResourcesData.ResourceQuantity = tools_data.ToolQuantity := rfl
      have hs : tools_data.toResourcesData.Slots
          = tools_data.Slots.map FBagToolSlot.toResourceSlot := rfl
      rw [hq, hs, arrayPop_map]
      by_cases hpos : tools_data.ToolQuantity > 0
      · simp only [hpos, if_true]
        cases hpop : arrayPop tools_data.Slots with
        | none => rfl
        | some pr =>
          obtain ⟨last, front⟩ := pr
          simp only [Option.map_some']
          have hl : last.toResourceSlot.ResourceIds
              = last.ToolsInfo.map FBagToolInfo.ToolId := rfl
          rw [hl, arrayPop_map]
          cases hpop2 : arrayPop last.ToolsInfo with
          | none => rfl
          | some pr2 =>
            obtain ⟨removed, infos⟩ := pr2
            simp only [Option.map_some', resourceRemoveOutcome, toolRemoveOutcome,
              Except.ok.injEq, Prod.mk.injEq, true_and]
            have hfront : front.map FBagToolSlot.toResourceSlot
                  ++ [{ last.toResourceSlot with
                        ResourceIds := infos.map FBagToolInfo.ToolId }]
                = (front ++ [{ last with ToolsInfo := infos }]).map
                    FBagToolSlot.toResourceSlot := by
              simp [FBagToolSlot.toResourceSlot]
            have hsel : ({ last.toResourceSlot with
                  ResourceIds := infos.map FBagToolInfo.ToolId } : FBagResourceSlot)
                = ({ last with ToolsInfo := infos } : FBagToolSlot).toResourceSlot := rfl
            rw [hfront, hsel]
            exact tryRemoveTail_agree key tools_data _ _ b bt hview
      · simp only [hpos, if_false]
        rfl
  · simp only [hge, if_false]
    rfl

theorem removeToolById_fault {remove_id : Int} {slots : List FBagToolSlot} {e : Fault}
    (h : removeToolById remove_id slots = .error e) : e = Fault.check := by
  induction slots with
  | nil => simp [removeToolById] at h
  | cons x rest ih =>
    unfold removeToolById at h
    split at h
    · split at h
      · split at h
        · simp at h
        · cases hr : removeToolById remove_id rest with
          | error e1 =>
            simp only [hr, Except.error.injEq] at h
            subst h
            exact ih hr
          | ok o =>
            cases o with
            | none => simp [hr] at h
            | some p => simp [hr] at h
      · simp only [Except.error.injEq] at h
        exact h.symm
    · simp only [Except.error.injEq] at h
      exact h.symm

theorem tryRemoveTool_no_nullDeref (key : Nat) (remove_id : Int) (b : Bag) :
    tryRemoveTool key remove_id b ≠ .error Fault.nullDeref := by
  intro h
  unfold tryRemoveTool at h
  split at h
  · split at h
    · simp at h
    · split at h
      · split at h
        · split at h
          · simp at h
          · split at h
            · simp at h
            · simp at h
        · split at h
          · rename_i e hrem
            simp only [Except.error.injEq] at h
            subst h
            have := removeToolById_fault hrem
            simp at this
          · simp at h
          · simp at h
      · simp at h
  · simp at h

theorem packerCall_agree (P : UBagProperties) (b bt : Bag) (call : PackerCall)
    (hview : resourcePackerState b = toolPackerState bt)
    (hcall : ∀ key remove_id, call = PackerCall.remove key remove_id → remove_id < 0) :
    (∃ e, resourcePackerCall P b call = .error e ∧ toolPackerCall P bt call = .error e) ∨
    (∃ r b1 bt1, resourcePackerCall P b call = .ok (r, b1) ∧
      toolPackerCall P bt call = .ok (r, bt1) ∧
      resourcePackerState b1 = toolPackerState bt1) := by
  cases call with
  | insert key id durability =>
    have h := tryAdd_agree P key id durability b bt hview
    simp only [resourcePackerCall, toolPackerCall]
    cases hr : tryAddResource P key id b with
    | error e =>
      cases ht : tryAddTool P key id durability bt with
      | error e1 =>
        simp only [hr, ht, resourceAddOutcome, toolAddOutcome, Except.error.injEq] at h
        subst h
        exact Or.inl ⟨e, rfl, rfl⟩
      | ok p => simp [hr, ht, resourceAddOutcome, toolAddOutcome] at h
    | ok p =>
      obtain ⟨flag, b1⟩ := p
      cases ht : tryAddTool P key id durability bt with
      | error e1 => simp [hr, ht, resourceAddOutcome, toolAddOutcome] at h
      | ok p1 =>
        obtain ⟨flag1, bt1⟩ := p1
        simp only [hr, ht, resourceAddOutcome, toolAddOutcome, Except.ok.injEq,
          Prod.mk.injEq] at h
        obtain ⟨hf, hv⟩ := h
        subst hf
        exact Or.inr ⟨_, b1, bt1, rfl, rfl, hv⟩
  | remove key remove_id =>
    have h := tryRemove_last_agree key remove_id b bt hview (hcall key remove_id rfl)
    simp only [resourcePackerCall, toolPackerCall]
    cases hr : tryRemoveResource key remove_id b with
    | error e =>
      cases ht : tryRemoveTool key remove_id bt with
      | error e1 =>
        simp only [hr, ht, resourceRemoveOutcome, toolRemoveOutcome, Except.error.injEq] at h
        subst h
        exact Or.inl ⟨e, rfl, rfl⟩
      | ok p => simp [hr, ht, resourceRemoveOutcome, toolRemoveOutcome] at h
    | ok p =>
      obtain ⟨flag, removed, b1⟩ := p
      cases ht : tryRemoveTool key remove_id bt with
      | error e1 => simp [hr, ht, resourceRemoveOutcome, toolRemoveOutcome] at h
      | ok p1 =>
        obtain ⟨flag1, removed1, bt1⟩ := p1
        simp only [hr, ht, resourceRemoveOutcome, toolRemoveOutcome, Except.ok.injEq,
          Prod.mk.injEq] at h
        obtain ⟨hf, hrem, hv⟩ := h
        subst hf hrem
        exact Or.inr ⟨_, b1, bt1, rfl, rfl, hv⟩

theorem packerRun_agree (P : UBagProperties) (calls : List PackerCall) :
    ∀ (b bt : Bag), resourcePackerState b = toolPackerState bt →
      (∀ key remove_id, PackerCall.remove key remove_id ∈ calls → remove_id < 0) →
      resourcePackerRun P b calls = toolPackerRun P bt calls := by
  induction calls with
  | nil =>
    intro b bt hview _
    simp [resourcePackerRun, toolPackerRun, hview]
  | cons call rest ih =>
    intro b bt hview hcalls
    rcases packerCall_agree P b bt call hview
        (fun key remove_id hc => hcalls key remove_id (by simp [hc])) with
      ⟨e, h1, h2⟩ | ⟨r, b1, bt1, h1, h2, hv⟩
    · simp [resourcePackerRun, toolPackerRun, h1, h2]
    · have hrest := ih b1 bt1 hv (fun key remove_id hc => hcalls key remove_id (by simp [hc]))
      simp [resourcePackerRun, toolPackerRun, h1, h2, hrest]

/-- C30 (the code diverges on removal by id): let the resource packer and the tool
packer start from states that are equal under the projection of every tool
entry to its `ToolId`.  For every sequence of inserts and removals of the last
instance the two packers return the same flags and removed ids, reach the same
assertions and end in the same slot sequences, quantities, `UsedSlots` and slot
id pool.  For a removal by a specific id `remove_id ≥ 0` from a bucket that has
a slot they differ: `tryRemoveResource` stops at the null dereference of
`selected_resource_slot`, which `tryRemoveTool` never does. -/
theorem C30_packers_agree_except_removal_by_id (P : UBagProperties) (b bt : Bag)
    (hview : resourcePackerState b = toolPackerState bt) :
    (∀ calls, (∀ key remove_id, PackerCall.remove key remove_id ∈ calls → remove_id < 0) →
      resourcePackerRun P b calls = toolPackerRun P bt calls) ∧
    (∀ key remove_id d, 0 ≤ remove_id → mapFind key bt.Tools.Data = some d →
      0 < d.ToolQuantity → d.Slots ≠ [] →
      tryRemoveResource key remove_id b = .error Fault.nullDeref ∧
      tryRemoveTool key remove_id bt ≠ .error Fault.nullDeref ∧
      resourcePackerRun P b [PackerCall.remove key remove_id]
        ≠ toolPackerRun P bt [PackerCall.remove key remove_id]) := by
  refine ⟨fun calls hcalls => packerRun_agree P calls b bt hview hcalls, ?_⟩
  intro key remove_id d hid hd hq hs
  obtain ⟨hdata, _, _⟩ := (packerState_eq_iff b bt).mp hview
  have hfind : mapFind key b.Resources.Data = some d.toResourcesData := by
    rw [hdata, mapFind_mapValues, hd]
    rfl
  have hnull : tryRemoveResource key remove_id b = .error Fault.nullDeref :=
    tryRemoveResource_byId_nullDeref hfind hq
      (by simpa [FBagToolsData.toResourcesData] using hs) hid
  have htool := tryRemoveTool_no_nullDeref key remove_id bt
  refine ⟨hnull, htool, ?_⟩
  simp only [resourcePackerRun, toolPackerRun, resourcePackerCall, toolPackerCall, hnull]
  cases ht : tryRemoveTool key remove_id bt with
  | error e =>
    simp only [ne_eq, Prod.mk.injEq, true_and, Except.error.injEq]
    intro he
    rw [ht, ← he] at htool
    exact htool rfl
  | ok p => simp

/-- C30 on `gapBag` (tool slots `[4]`, `[3]`) and `gapBagAsResources`, whose packer states
are equal under the projection: an insert of id 5 and a removal of the last
instance give the same results and states, while the removal of id 4 succeeds
in the tool packer and stops at the null dereference in the resource packer. -/
theorem C30_witness :
    resourcePackerState gapBagAsResources = toolPackerState gapBag ∧
    resourcePackerRun demoProperties gapBagAsResources
        [PackerCall.insert 2 5 7, PackerCall.remove 2 (-1)]
      = toolPackerRun demoProperties gapBag
          [PackerCall.insert 2 5 7, PackerCall.remove 2 (-1)] ∧
    tryRemoveResource 2 4 gapBagAsResources = .error Fault.nullDeref ∧
    (toolPackerRun demoProperties gapBag [PackerCall.remove 2 4]).1 = [(true, some 4)] ∧
    resourcePackerRun demoProperties gapBagAsResources [PackerCall.remove 2 4]
      = ([], .error Fault.nullDeref) ∧
    resourcePackerRun demoProperties gapBagAsResources [PackerCall.remove 2 4]
      ≠ toolPackerRun demoProperties gapBag [PackerCall.remove 2 4] :=
  ⟨by decide,
   (C30_packers_agree_except_removal_by_id demoProperties gapBagAsResources gapBag
      (by decide)).1 [PackerCall.insert 2 5 7, PackerCall.remove 2 (-1)] (by
        intro key remove_id hc
        simp only [List.mem_cons, reduceCtorEq, PackerCall.remove.injEq, List.mem_singleton,
          List.not_mem_nil, or_false, false_or] at hc
        omega),
   ((C30_packers_agree_except_removal_by_id demoProperties gapBagAsResources gapBag
      (by decide)).2 2 4 _ (by decide) rfl (by decide) (by decide)).1,
   by decide, by decide,
   ((C30_packers_agree_except_removal_by_id demoProperties gapBagAsResources gapBag
      (by decide)).2 2 4 _ (by decide) rfl (by decide) (by decide)).2.2⟩

/-! ## Frame of `addItem` and `removeItem` -/

theorem frameOf_refl (data : UItemData) (b : Bag) : FrameOf data b b :=
  ⟨fun _ _ => ⟨rfl, rfl⟩, fun _ => rfl, fun _ => rfl, fun _ => ⟨rfl, rfl⟩⟩

theorem tryRemoveResourceTail_frame (key : Nat) (d : FBagResourcesData)
    (slots : List FBagResourceSlot) (sel : FBagResourceSlot) (b : Bag) :
    (tryRemoveResourceTail key d slots sel b).Tools = b.Tools ∧
    ∀ k, k ≠ key →
      mapFind k (tryRemoveResourceTail key d slots sel b).Resources.Data
        = mapFind k b.Resources.Data := by
  refine ⟨rfl, ?_⟩
  intro k hk
  simp only [tryRemoveResourceTail]
  split
  · exact mapFind_mapRemove_ne _ hk
  · exact mapFind_mapSet_ne _ _ hk

theorem tryRemoveToolTail_frame (key : Nat) (d : FBagToolsData)
    (slots : List FBagToolSlot) (sel : FBagToolSlot) (b : Bag) :
    (tryRemoveToolTail key d slots sel b).Resources = b.Resources ∧
    ∀ k, k ≠ key →
      mapFind k (tryRemoveToolTail key d slots sel b).Tools.Data
        = mapFind k b.Tools.Data := by
  refine ⟨rfl, ?_⟩
  intro k hk
  simp only [tryRemoveToolTail]
  split
  · exact mapFind_mapRemove_ne _ hk
  · exact mapFind_mapSet_ne _ _ hk

theorem tryAddItem_frame {P : UBagProperties} {data : UItemData} {id : Int}
    {comp : Option UItemComponent} {b b1 : Bag} {flag : Bool}
    (h : tryAddItem P data id comp b = .ok (flag, b1)) : FrameOf data b b1 := by
  cases flag with
  | false =>
    rw [tryAddItem_false h]
    exact frameOf_refl data b
  | true =>
    rcases tryAddItem_true_cases h with ⟨hcat, _, hres⟩ | ⟨hcat, _, _, _, htool, _⟩
    · obtain ⟨L, d, d1, _, _, _, _, _, hT, _, _, _, hdata, _⟩ := tryAddResource_true hres
      refine ⟨fun key hk => ⟨?_, by rw [hT]⟩, fun _ => hT, ?_, ?_⟩
      · rw [hdata]
        exact mapFind_mapSet_ne _ _ hk
      · intro hc
        rw [hcat] at hc
        cases hc
      · intro hc
        rw [hcat] at hc
        cases hc
    · obtain ⟨L, d, d1, _, _, _, _, _, hR, _, _, _, hdata, _⟩ := tryAddTool_true htool
      refine ⟨fun key hk => ⟨by rw [hR], ?_⟩, ?_, fun _ => hR, ?_⟩
      · rw [hdata]
        exact mapFind_mapSet_ne _ _ hk
      · intro hc
        rw [hcat] at hc
        cases hc
      · intro hc
        rw [hcat] at hc
        cases hc

theorem tryRemoveItem_frame {data : UItemData} {remove_id removed : Int} {b b1 : Bag}
    {flag : Bool} (h : tryRemoveItem data remove_id b = .ok (flag, removed, b1)) :
    FrameOf data b b1 := by
  cases flag with
  | false =>
    rw [tryRemoveItem_false h]
    exact frameOf_refl data b
  | true =>
    unfold tryRemoveItem at h
    split at h
    · rename_i hcat
      split at h
      · obtain ⟨_, d, front, last, ids, _, _, _, _, hb1⟩ := tryRemoveResource_true h
        obtain ⟨hT, hfr⟩ := tryRemoveResourceTail_frame data.ptr d
          (front ++ [{ last with ResourceIds := ids }]) { last with ResourceIds := ids } b
        rw [← hb1] at hT hfr
        refine ⟨fun key hk => ⟨hfr key hk, by rw [hT]⟩, fun _ => hT, ?_, ?_⟩
        · intro hc
          rw [hcat] at hc
          cases hc
        · intro hc
          rw [hcat] at hc
          cases hc
      · simp at h
    · rename_i hcat
      split at h
      · obtain ⟨d, pre, s, sel, post, _, _, _, _, _, hb1⟩ := tryRemoveTool_true h
        obtain ⟨hR, hfr⟩ := tryRemoveToolTail_frame data.ptr d (pre ++ sel :: post) sel b
        rw [← hb1] at hR hfr
        refine ⟨fun key hk => ⟨by rw [hR], hfr key hk⟩, ?_, fun _ => hR, ?_⟩
        · intro hc
          rw [hcat] at hc
          cases hc
        · intro hc
          rw [hcat] at hc
          cases hc
      · simp at h
    · simp at h

/-- C39: a call `addItem(X)` or `removeItem(X)` that returns, with success or with
failure, leaves the bucket of every other type key as it was in both registries
(`TMap::Find` gives the same bucket: slot sequence, slot ids, entries,
durabilities and quantity); a call on a resource type leaves `Tools`, data and
`UsedSlots`, unchanged, and a call on a tool type leaves `Resources`
unchanged.  This holds in every bag state. -/
theorem C39_frame_of_add_and_remove (P : UBagProperties) (data : UItemData) (b b1 : Bag) :
    (∀ r, addItem P (some data) b = .ok (r, b1) →
      (∀ key, key ≠ data.ptr →
        mapFind key b1.Resources.Data = mapFind key b.Resources.Data ∧
        mapFind key b1.Tools.Data = mapFind key b.Tools.Data) ∧
      (data.Category = EItemCategory.Resource → b1.Tools = b.Tools) ∧
      (data.Category = EItemCategory.Tool → b1.Resources = b.Resources)) ∧
    (∀ spawn r, removeItem (some data) spawn b = .ok (r, b1) →
      (∀ key, key ≠ data.ptr →
        mapFind key b1.Resources.Data = mapFind key b.Resources.Data ∧
        mapFind key b1.Tools.Data = mapFind key b.Tools.Data) ∧
      (data.Category = EItemCategory.Resource → b1.Tools = b.Tools) ∧
      (data.Category = EItemCategory.Tool → b1.Resources = b.Resources)) := by
  constructor
  · intro r h
    rcases addItem_cases h with ⟨_, rfl⟩ | ⟨data1, pool, id, b0, hd, _, _, hadd, _, rfl⟩
    · exact ⟨fun _ _ => ⟨rfl, rfl⟩, fun _ => rfl, fun _ => rfl⟩
    · simp only [Option.some.injEq] at hd
      subst hd
      obtain ⟨h1, h2, h3, _⟩ := tryAddItem_frame hadd
      exact ⟨h1, h2, h3⟩
  · intro spawn r h
    rcases removeItem_cases h with ⟨_, rfl⟩ | ⟨data1, removed, b0, hd, hrem, _, rfl⟩
    · exact ⟨fun _ _ => ⟨rfl, rfl⟩, fun _ => rfl, fun _ => rfl⟩
    · simp only [Option.some.injEq] at hd
      subst hd
      obtain ⟨h1, h2, h3, _⟩ := tryRemoveItem_frame hrem
      exact ⟨h1, h2, h3⟩

/-- C39 on `demoBag`: `addItem(demoResource)` gives `demoBagAfterAdd` and
`removeItem(demoTool)` gives `demoBagAfterToolRemove`; the add leaves `Tools`
and the removal leaves `Resources` as they were. -/
theorem C39_witness :
    addItem demoProperties (some demoResource) demoBag
      = .ok ({ bAdded := true, AssignedId := 1 }, demoBagAfterAdd) ∧
    demoBagAfterAdd.Tools = demoBag.Tools ∧
    mapFind 2 demoBagAfterAdd.Tools.Data = mapFind 2 demoBag.Tools.Data ∧
    removeItem (some demoTool) false demoBag
      = .ok ({ bRemoved := true, RemovedId := 2, SpawnedActor := none },
             demoBagAfterToolRemove) ∧
    demoBagAfterToolRemove.Resources = demoBag.Resources :=
  ⟨by decide,
   ((C39_frame_of_add_and_remove demoProperties demoResource demoBag demoBagAfterAdd).1
      { bAdded := true, AssignedId := 1 } (by decide)).2.1 rfl,
   (((C39_frame_of_add_and_remove demoProperties demoResource demoBag demoBagAfterAdd).1
      { bAdded := true, AssignedId := 1 } (by decide)).1 2 (by decide)).2,
   by decide,
   ((C39_frame_of_add_and_remove demoProperties demoTool demoBag demoBagAfterToolRemove).2
      false { bRemoved := true, RemovedId := 2, SpawnedActor := none } (by decide)).2.2 rfl⟩

/-! ## Monotonicity of the craftable recipes -/

theorem hasAllRequirements_mono {available available1 : List (Nat × Int)}
    (hmono : ∀ k q, mapFind k available = some q →
      ∃ q1, mapFind k available1 = some q1 ∧ q ≤ q1)
    (requirements : List FRecipeRequirement)
    (h : hasAllRequirements available requirements = true) :
    hasAllRequirements available1 requirements = true := by
  induction requirements with
  | nil => rfl
  | cons requirement rest ih =>
    simp only [hasAllRequirements] at h ⊢
    cases hf : mapFind requirement.Item available with
    | none => simp [hf] at h
    | some q =>
      obtain ⟨q1, hf1, hle⟩ := hmono _ _ hf
      simp only [hf, hf1] at h ⊢
      by_cases hq : requirement.Quantity > q
      · simp [hq] at h
      · have hq1 : ¬ requirement.Quantity > q1 := by omega
        simp only [hq, if_false] at h
        simp only [hq1, if_false]
        exact ih h

theorem craftableRecipesLoop_mono {available available1 : List (Nat × Int)}
    (hmono : ∀ k q, mapFind k available = some q →
      ∃ q1, mapFind k available1 = some q1 ∧ q ≤ q1)
    (entries : List (Option UCraftingRecipe)) :
    ∀ acc acc1 : List UCraftingRecipe, acc.Sublist acc1 →
      (∀ e, craftableRecipesLoop available entries acc = .error e →
        craftableRecipesLoop available1 entries acc1 = .error e) ∧
      (∀ recipes, craftableRecipesLoop available entries acc = .ok recipes →
        ∃ recipes1, craftableRecipesLoop available1 entries acc1 = .ok recipes1 ∧
          recipes.Sublist recipes1) := by
  induction entries with
  | nil =>
    intro acc acc1 hsub
    simp only [craftableRecipesLoop]
    refine ⟨fun e h => by simp at h, ?_⟩
    intro recipes h
    simp only [Except.ok.injEq] at h
    subst h
    exact ⟨acc1, rfl, hsub⟩
  | cons entry rest ih =>
    intro acc acc1 hsub
    cases entry with
    | none =>
      simp only [craftableRecipesLoop]
      exact ⟨fun e h => h, fun recipes h => by simp at h⟩
    | some recipe =>
      simp only [craftableRecipesLoop]
      by_cases hr : hasAllRequirements available recipe.Requirements = true
      · have hr1 := hasAllRequirements_mono hmono _ hr
        simp only [hr, hr1, if_true]
        exact ih _ _ (List.Sublist.append hsub (List.Sublist.refl _))
      · simp only [hr, Bool.false_eq_true, if_false]
        by_cases hr1 : hasAllRequirements available1 recipe.Requirements = true
        · simp only [hr1, if_true]
          exact ih _ _ (hsub.trans (List.sublist_append_left _ _))
        · simp only [hr1, Bool.false_eq_true, if_false]
          exact ih _ _ hsub

theorem availableItems_addItem {P : UBagProperties} {d : Option UItemData} {b b1 : Bag}
    {r : FInventoryBagAddItemResult} (hk : KeysOk b) (h : addItem P d b = .ok (r, b1)) :
    ∀ k q, mapFind k (generateAvailableItemsFromResources b.Resources) = some q →
      ∃ q1, mapFind k (generateAvailableItemsFromResources b1.Resources) = some q1 ∧
        q ≤ q1 := by
  rcases addItem_cases h with ⟨_, rfl⟩ | ⟨data, pool, id, b0, _, _, _, hadd, _, rfl⟩
  · exact fun k q hq => ⟨q, hq, le_refl _⟩
  · have hk0 : KeysOk b0 := tryAddItem_keys hadd hk
    intro k q hq
    rw [availableItems_eq _ hk.1, mapFind_mapValues] at hq
    show ∃ q1, mapFind k (generateAvailableItemsFromResources b0.Resources) = some q1 ∧ q ≤ q1
    rw [availableItems_eq _ hk0.1, mapFind_mapValues]
    rcases tryAddItem_true_cases hadd with ⟨_, _, hres⟩ | ⟨_, _, _, _, htool, _⟩
    · obtain ⟨L, dd, d1, _, _, _, hfind, _, _, _, _, hq1, hdata, _⟩ := tryAddResource_true hres
      simp only at hfind hdata
      rw [hdata]
      by_cases hkey : k = data.ptr
      · subst hkey
        rw [mapFind_mapSet_self]
        refine ⟨d1.ResourceQuantity, rfl, ?_⟩
        rcases hfind with hf | ⟨hf, _⟩
        · rw [hf] at hq
          simp only [Option.map_some', Option.some.injEq] at hq
          omega
        · rw [hf] at hq
          simp at hq
      · rw [mapFind_mapSet_ne _ _ hkey]
        exact ⟨q, hq, le_refl _⟩
    · obtain ⟨L, dd, d1, _, _, _, _, _, hR, _⟩ := tryAddTool_true htool
      simp only at hR
      rw [hR]
      exact ⟨q, hq, le_refl _⟩

/-- C40: let every key of `available` be a key of `available1` with a quantity that is
at least as large.  Then, for the same collection,
`getCraftableRecipesForAvailableItems` stops at a null entry for `available1`
exactly as it does for `available`, and a result for `available` is a sublist of
the result for `available1`.  Hence after an `addItem` call in a reachable bag
state every recipe that was craftable from the resources of the bag is still
craftable: the result computed from `Resources` before the call is a sublist of
the result computed from `Resources` after it. -/
theorem C40_craftable_recipes_monotone :
    (∀ (available available1 : List (Nat × Int))
        (collection : Option UCraftablesCollection),
      (∀ k q, mapFind k available = some q →
        ∃ q1, mapFind k available1 = some q1 ∧ q ≤ q1) →
      (∀ e, getCraftableRecipesForAvailableItems available collection = .error e →
        getCraftableRecipesForAvailableItems available1 collection = .error e) ∧
      (∀ recipes, getCraftableRecipesForAvailableItems available collection = .ok recipes →
        ∃ recipes1, getCraftableRecipesForAvailableItems available1 collection = .ok recipes1 ∧
          recipes.Sublist recipes1)) ∧
    (∀ (P : UBagProperties) (b b1 : Bag) (item_data : Option UItemData)
        (r : FInventoryBagAddItemResult) (collection : Option UCraftablesCollection),
      Reachable P b → addItem P item_data b = .ok (r, b1) →
      ∀ recipes,
        getCraftableRecipesForAvailableItems
          (generateAvailableItemsFromResources b.Resources) collection = .ok recipes →
        ∃ recipes1,
          getCraftableRecipesForAvailableItems
            (generateAvailableItemsFromResources b1.Resources) collection = .ok recipes1 ∧
          recipes.Sublist recipes1) := by
  have hgen : ∀ (available available1 : List (Nat × Int))
      (collection : Option UCraftablesCollection),
      (∀ k q, mapFind k available = some q →
        ∃ q1, mapFind k available1 = some q1 ∧ q ≤ q1) →
      (∀ e, getCraftableRecipesForAvailableItems available collection = .error e →
        getCraftableRecipesForAvailableItems available1 collection = .error e) ∧
      (∀ recipes, getCraftableRecipesForAvailableItems available collection = .ok recipes →
        ∃ recipes1, getCraftableRecipesForAvailableItems available1 collection = .ok recipes1 ∧
          recipes.Sublist recipes1) := by
    intro available available1 collection hmono
    cases collection with
    | none =>
      simp only [getCraftableRecipesForAvailableItems]
      refine ⟨fun e h => h, ?_⟩
      intro recipes h
      exact ⟨recipes, h, List.Sublist.refl _⟩
    | some c =>
      simp only [getCraftableRecipesForAvailableItems]
      exact craftableRecipesLoop_mono hmono c.Craftables [] [] (List.Sublist.refl _)
  refine ⟨hgen, ?_⟩
  intro P b b1 item_data r collection hb hadd recipes hrec
  exact (hgen _ _ collection (availableItems_addItem (reachable_keys hb) hadd)).2 recipes hrec

/-- C40 on `demoCollection`: with 1 of item 1 only `freeRecipe` can be crafted, with 3 of
item 1 also `plankRecipe`; and after the third `addItem(demoResource)` of
`demoOps` (the bag `demoBag` holds 3 of item 1) the recipes craftable before
are still craftable. -/
theorem C40_witness :
    getCraftableRecipesForAvailableItems [(1, 1)] (some demoCollection) = .ok [freeRecipe] ∧
    getCraftableRecipesForAvailableItems [(1, 3)] (some demoCollection)
      = .ok [plankRecipe, freeRecipe, plankRecipe] ∧
    (∃ recipes1,
      getCraftableRecipesForAvailableItems [(1, 3)] (some demoCollection) = .ok recipes1 ∧
      [freeRecipe].Sublist recipes1) ∧
    (∃ recipes1,
      getCraftableRecipesForAvailableItems
        (generateAvailableItemsFromResources demoBagAfterAdd.Resources)
        (some demoCollection) = .ok recipes1 ∧
      [plankRecipe, freeRecipe, plankRecipe].Sublist recipes1) :=
  ⟨by decide, by decide,
   (C40_craftable_recipes_monotone.1 [(1, 1)] [(1, 3)] (some demoCollection)
      (by
        intro k q hq
        by_cases hk : k = 1
        · subst hk
          simp only [mapFind, if_true, Option.some.injEq] at hq
          exact ⟨3, by simp [mapFind], by omega⟩
        · have hk1 : ¬ (1 = k) := fun h => hk h.symm
          simp [mapFind, hk1] at hq)).2 [freeRecipe] (by decide),
   C40_craftable_recipes_monotone.2 demoProperties demoBag demoBagAfterAdd (some demoResource)
      { bAdded := true, AssignedId := 1 } (some demoCollection) demoBag_reachable (by decide)
      [plankRecipe, freeRecipe, plankRecipe] (by decide)⟩

/-! ## Validation of the limits before `tryAddResource` / `tryAddTool` -/

theorem tryAddResourceTail_no_check (P : UBagProperties) (L : UItemBagLimit) (key : Nat)
    (id : Int) (d : FBagResourcesData) (b : Bag) :
    tryAddResourceTail P L key id d b ≠ .error Fault.check := by
  unfold tryAddResourceTail
  split
  · simp
  · split
    · simp
    · split
      · simp
      · split <;> simp

theorem tryAddToolTail_no_check (P : UBagProperties) (L : UItemBagLimit) (key : Nat)
    (id durability : Int) (d : FBagToolsData) (b : Bag) :
    tryAddToolTail P L key id durability d b ≠ .error Fault.check := by
  unfold tryAddToolTail
  split
  · simp
  · split
    · simp
    · split
      · simp
      · split <;> simp

theorem tryAddResource_check_iff {P : UBagProperties} {key : Nat} {L : UItemBagLimit}
    (hL : mapFind key P.Limits = some (some L)) (id : Int) (b : Bag) :
    tryAddResource P key id b = .error Fault.check ↔ ¬ (0 < L.MaxQuantity ∧ 0 < L.MaxStackSize) := by
  unfold tryAddResource
  simp only [hL]
  by_cases hc : L.MaxQuantity > 0 ∧ L.MaxStackSize > 0
  · simp only [hc, and_self, if_true, not_true_eq_false, iff_false]
    split
    · split
      · simp
      · exact tryAddResourceTail_no_check _ _ _ _ _ _
    · exact tryAddResourceTail_no_check _ _ _ _ _ _
  · simp only [hc, if_false, true_iff]
    exact not_false

theorem tryAddTool_check_iff {P : UBagProperties} {key : Nat} {L : UItemBagLimit}
    (hL : mapFind key P.Limits = some (some L)) (id durability : Int) (b : Bag) :
    tryAddTool P key id durability b = .error Fault.check
      ↔ ¬ (0 < L.MaxQuantity ∧ 0 < L.MaxStackSize) := by
  unfold tryAddTool
  simp only [hL]
  by_cases hc : L.MaxQuantity > 0 ∧ L.MaxStackSize > 0
  · simp only [hc, and_self, if_true, not_true_eq_false, iff_false]
    split
    · split
      · simp
      · exact tryAddToolTail_no_check _ _ _ _ _ _ _
    · exact tryAddToolTail_no_check _ _ _ _ _ _ _
  · simp only [hc, if_false, true_iff]
    exact not_false

/-- C37 fails for a limit with `MaxQuantity = 5` and `MaxStackSize = 0`:
`hasValidItemLimits` accepts it, and `addItem` of a resource type and of a tool
type then stops at `check(MaxQuantity > 0 && MaxStackSize > 0)` instead of
returning a failure result. -/
theorem C37_counterexample :
    hasValidItemLimits zeroStackProperties demoResource = .ok true ∧
    hasValidItemLimits zeroStackProperties demoTool = .ok true ∧
    BeginPlay zeroStackProperties = .ok demoFreshBag ∧
    tryAddResource zeroStackProperties 1 5 { demoFreshBag with item_ids_pool := [0, 1, 2, 3, 4] }
      = .error Fault.check ∧
    addItem zeroStackProperties (some demoResource) demoFreshBag = .error Fault.check ∧
    addItem zeroStackProperties (some demoTool) demoFreshBag = .error Fault.check ∧
    addItemComponent zeroStackProperties (some demoToolComponent) demoFreshBag
      = .error Fault.check := by
  decide

/-- C37, amended: let `L` be the loaded limit of the item type.  `hasValidItemLimits`
accepts the type exactly when `MaxQuantity > 0`; a limit with `MaxQuantity <= 0`
is rejected by `addItem` and `addItemComponent` with a failure result and an
unchanged bag.  For an accepted limit the assertion
`check(MaxQuantity > 0 && MaxStackSize > 0)` of `tryAddResource` and `tryAddTool`
holds exactly when `MaxStackSize > 0`: then neither method stops at a `check`,
and otherwise both do, and so does `addItem` of a resource or tool type while
an instance id is free. -/
theorem C37_limits_checked_before_add (P : UBagProperties) (data : UItemData)
    (L : UItemBagLimit) (b : Bag) (hL : mapFind data.ptr P.Limits = some (some L)) :
    (hasValidItemLimits P data = .ok true ↔ 0 < L.MaxQuantity) ∧
    (L.MaxQuantity ≤ 0 →
      addItem P (some data) b = .ok ({ bAdded := false, AssignedId := -1 }, b) ∧
      ∀ component : UItemComponent, component.ItemData = some data →
        addItemComponent P (some component) b
          = .ok ({ bAdded := false, AssignedId := -1 }, b)) ∧
    (0 < L.MaxQuantity → 0 < L.MaxStackSize → ∀ (id durability : Int) (bag : Bag),
      tryAddResource P data.ptr id bag ≠ .error Fault.check ∧
      tryAddTool P data.ptr id durability bag ≠ .error Fault.check) ∧
    (0 < L.MaxQuantity → L.MaxStackSize ≤ 0 →
      (∀ (id durability : Int) (bag : Bag),
        tryAddResource P data.ptr id bag = .error Fault.check ∧
        tryAddTool P data.ptr id durability bag = .error Fault.check) ∧
      (b.item_ids_pool ≠ [] →
        (data.Category = EItemCategory.Resource → data.cls = DataClass.ResourceData →
          addItem P (some data) b = .error Fault.check) ∧
        (data.Category = EItemCategory.Tool → ∀ m, data.cls = DataClass.ToolData m →
          addItem P (some data) b = .error Fault.check))) := by
  have hvalid : hasValidItemLimits P data = .ok true ↔ 0 < L.MaxQuantity := by
    unfold hasValidItemLimits
    simp only [hL]
    by_cases hq : L.MaxQuantity ≤ 0
    · simp only [hq, if_true]
      constructor
      · intro h
        simp at h
      · intro h
        omega
    · simp only [hq, if_false, true_iff]
      omega
  refine ⟨hvalid, ?_, ?_, ?_⟩
  · intro hq
    have hv : hasValidItemLimits P data = .ok false := by
      unfold hasValidItemLimits
      simp [hL, hq]
    constructor
    · unfold addItem
      simp only [hv]
      split <;> rfl
    · intro component hc
      unfold addItemComponent
      simp only [hc, hv]
      split <;> rfl
  · intro hq hs id durability bag
    constructor
    · intro h
      exact ((tryAddResource_check_iff hL id bag).mp h) ⟨hq, hs⟩
    · intro h
      exact ((tryAddTool_check_iff hL id durability bag).mp h) ⟨hq, hs⟩
  · intro hq hs
    have hres : ∀ (id : Int) (bag : Bag), tryAddResource P data.ptr id bag = .error Fault.check :=
      fun id bag => (tryAddResource_check_iff hL id bag).mpr (by omega)
    have htool : ∀ (id durability : Int) (bag : Bag),
        tryAddTool P data.ptr id durability bag = .error Fault.check :=
      fun id durability bag => (tryAddTool_check_iff hL id durability bag).mpr (by omega)
    refine ⟨fun id durability bag => ⟨hres id bag, htool id durability bag⟩, ?_⟩
    intro hpool
    have hv := hvalid.mpr hq
    have hav : hasAvailableIds b = true := by
      unfold hasAvailableIds
      have : b.item_ids_pool.length ≠ 0 := by
        intro h0
        exact hpool (List.length_eq_zero.mp h0)
      simp [this]
    obtain ⟨r, x, hl⟩ : ∃ r x, b.item_ids_pool = r ++ [x] := by
      rcases List.eq_nil_or_concat b.item_ids_pool with h0 | ⟨r, x, hl⟩
      · exact absurd h0 hpool
      · exact ⟨r, x, by simpa using hl⟩
    have hctor : FScopedItemPoolIdTransaction.ctor b.item_ids_pool
        = some ({ id := x, bCommitted := false }, r) := by
      unfold FScopedItemPoolIdTransaction.ctor
      rw [hl, arrayPop_concat]
    constructor
    · intro hcat hcls
      unfold addItem
      simp only [hav, hv, hctor, if_true]
      simp [tryAddItem, hcat, hcls, hres]
    · intro hcat m hcls
      unfold addItem
      simp only [hav, hv, hctor, if_true]
      simp [tryAddItem, hcat, hcls, htool]

/-- C37, amended, on `demoProperties`, whose limit of `demoResource` has
`MaxQuantity = 5` and `MaxStackSize = 2`: the limit is accepted and the
assertion of `tryAddResource` holds in `demoBag`. -/
theorem C37_witness :
    mapFind demoResource.ptr demoProperties.Limits
      = some (some { MaxStackSize := 2, MaxQuantity := 5 }) ∧
    hasValidItemLimits demoProperties demoResource = .ok true ∧
    tryAddResource demoProperties 1 1 demoBag ≠ .error Fault.check :=
  ⟨rfl,
   (C37_limits_checked_before_add demoProperties demoResource
      { MaxStackSize := 2, MaxQuantity := 5 } demoBag rfl).1.mpr (by decide),
   ((C37_limits_checked_before_add demoProperties demoResource
      { MaxStackSize := 2, MaxQuantity := 5 } demoBag rfl).2.2.1 (by decide) (by decide)
      1 0 demoBag).1⟩

/-! ## The id pools after `BeginPlay` and the ids assigned by adds -/

theorem tryAddItem_pool {P : UBagProperties} {data : UItemData} {id : Int}
    {comp : Option UItemComponent} {b b1 : Bag}
    (h : tryAddItem P data id comp b = .ok (true, b1)) :
    b1.item_ids_pool = b.item_ids_pool := by
  rcases tryAddItem_true_cases h with ⟨_, _, hres⟩ | ⟨_, _, _, _, htool, _⟩
  · obtain ⟨L, d, d1, _, _, _, _, _, _, hp, _⟩ := tryAddResource_true hres
    exact hp
  · obtain ⟨L, d, d1, _, _, _, _, _, _, hp, _⟩ := tryAddTool_true htool
    exact hp

theorem addCall_cases {P : UBagProperties} {call : AddCall} {b b1 : Bag}
    {r : FInventoryBagAddItemResult} (h : addCall P b call = .ok (r, b1)) :
    (r = { bAdded := false, AssignedId := -1 } ∧ b1 = b) ∨
    (r.bAdded = true ∧ b.item_ids_pool = b1.item_ids_pool ++ [r.AssignedId]) := by
  cases call with
  | item d =>
    simp only [addCall] at h
    rcases addItem_cases h with hf | ⟨data, pool, id, b0, _, hpool, _, hadd, rfl, rfl⟩
    · exact Or.inl hf
    · refine Or.inr ⟨rfl, ?_⟩
      have hp := tryAddItem_pool hadd
      simp only at hp
      simp only [hp, hpool]
  | component c =>
    simp only [addCall] at h
    rcases addItemComponent_cases h with
      hf | ⟨comp, data, pool, id, b0, _, _, hpool, _, hadd, rfl, rfl⟩
    · exact Or.inl hf
    · refine Or.inr ⟨rfl, ?_⟩
      have hp := tryAddItem_pool hadd
      simp only at hp
      simp only [hp, hpool]

theorem addCall_no_ids (P : UBagProperties) (b : Bag) (call : AddCall)
    (hpool : b.item_ids_pool = []) :
    addCall P b call = .ok ({ bAdded := false, AssignedId := -1 }, b) := by
  have hav : hasAvailableIds b = false := by simp [hasAvailableIds, hpool]
  cases call with
  | item d =>
    cases d with
    | none => rfl
    | some data => simp [addCall, addItem, hav]
  | component c =>
    cases c with
    | none => rfl
    | some comp =>
      cases hd : comp.ItemData with
      | none => simp [addCall, addItemComponent, hd]
      | some data => simp [addCall, addItemComponent, hd, hav]

theorem range_map_concat {n : Nat} {pool : List Int} {id : Int}
    (h : (List.range n).map Int.ofNat = pool ++ [id]) :
    ∃ m, n = m + 1 ∧ pool = (List.range m).map Int.ofNat ∧ id = (m : Int) := by
  cases n with
  | zero => simp at h
  | succ m =>
    rw [List.range_succ, List.map_append] at h
    simp only [List.map_cons, List.map_nil] at h
    obtain ⟨h1, h2⟩ := concat_inj h
    exact ⟨m, rfl, h1.symm, h2.symm⟩

theorem addCallsAssigned_pool (P : UBagProperties) (calls : List AddCall) :
    ∀ (n : Nat) (b b1 : Bag) (ids : List Int),
      b.item_ids_pool = (List.range n).map Int.ofNat →
      addCallsAssigned P calls b = .ok (ids, b1) →
      ids.length ≤ n ∧
      ids = (List.range ids.length).map (fun k : Nat => (n : Int) - 1 - (k : Int)) ∧
      b1.item_ids_pool = (List.range (n - ids.length)).map Int.ofNat := by
  induction calls with
  | nil =>
    intro n b b1 ids hpool h
    simp only [addCallsAssigned, Except.ok.injEq, Prod.mk.injEq] at h
    obtain ⟨rfl, rfl⟩ := h
    simp [hpool]
  | cons call rest ih =>
    intro n b b1 ids hpool h
    simp only [addCallsAssigned] at h
    cases hc : addCall P b call with
    | error e => simp [hc] at h
    | ok pr =>
      obtain ⟨r, b2⟩ := pr
      simp only [hc] at h
      cases hrest : addCallsAssigned P rest b2 with
      | error e => simp [hrest] at h
      | ok pr2 =>
        obtain ⟨ids2, b3⟩ := pr2
        simp only [hrest, Except.ok.injEq, Prod.mk.injEq] at h
        obtain ⟨hids, rfl⟩ := h
        rcases addCall_cases hc with ⟨rfl, rfl⟩ | ⟨hr, hp⟩
        · simp only [Bool.false_eq_true, if_false] at hids
          subst hids
          exact ih n b2 b3 ids2 hpool hrest
        · simp only [hr, if_true] at hids
          subst hids
          rw [hpool] at hp
          obtain ⟨m, rfl, hp2, hid⟩ := range_map_concat hp
          obtain ⟨h1, h2, h3⟩ := ih m b2 b3 ids2 hp2 hrest
          refine ⟨by simp only [List.length_cons]; omega, ?_, ?_⟩
          · simp only [List.length_cons, List.range_succ_eq_map, List.map_cons, List.map_map]
            rw [hid]
            refine congrArg₂ List.cons (by push_cast; ring) ?_
            rw [h2]
            simp only [List.length_map, List.length_range]
            apply List.map_congr_left
            intro k _
            simp only [Function.comp]
            push_cast
            ring
          · simp only [List.length_cons]
            rw [h3]
            congr 2
            omega

/-- C34 (amended): when `BeginPlay` returns, `item_ids_pool` is `0, 1, ..., MaxItemId-1`
and `slot_ids_pool` is `0, 1, ..., s-1` (`idRange`), where `s` is the `int32`
sum of `MaxToolsSlots` and `MaxResourceSlots` (`int32Add`); `s` is
`MaxToolsSlots+MaxResourceSlots` when that sum lies in the `int32` range, and
in particular when neither ceiling is negative.
For every sequence of `addItem` / `addItemComponent` calls on that bag, without
any removal in between, the ids assigned by the successful calls are
`MaxItemId-1, MaxItemId-2, ...` in call order; there are at most `MaxItemId` of
them, and after `MaxItemId` successful adds every further add call returns
`bAdded = false` with `AssignedId = -1` and leaves the bag unchanged. -/
theorem C34_id_pools_after_BeginPlay (P : UBagProperties) (b0 : Bag)
    (h0 : BeginPlay P = .ok b0) :
    b0.item_ids_pool = idRange P.MaxItemId ∧
    idRange P.MaxItemId = (List.range P.MaxItemId.toNat).map Int.ofNat ∧
    b0.slot_ids_pool = idRange (int32Add P.MaxToolsSlots P.MaxResourceSlots) ∧
    (-2147483648 ≤ P.MaxToolsSlots + P.MaxResourceSlots →
      P.MaxToolsSlots + P.MaxResourceSlots ≤ 2147483647 →
      b0.slot_ids_pool = idRange (P.MaxToolsSlots + P.MaxResourceSlots)) ∧
    (0 ≤ P.MaxToolsSlots → 0 ≤ P.MaxResourceSlots →
      b0.slot_ids_pool = idRange (P.MaxToolsSlots + P.MaxResourceSlots)) ∧
    ∀ calls ids b, addCallsAssigned P calls b0 = .ok (ids, b) →
      ids = (List.range ids.length).map (fun k : Nat => P.MaxItemId - 1 - (k : Int)) ∧
      (ids.length : Int) ≤ P.MaxItemId ∧
      ((ids.length : Int) = P.MaxItemId →
        b.item_ids_pool = [] ∧
        ∀ call, addCall P b call = .ok ({ bAdded := false, AssignedId := -1 }, b)) := by
  unfold BeginPlay at h0
  split at h0
  · rename_i hP
    simp only [Except.ok.injEq] at h0
    subst h0
    refine ⟨rfl, rfl, rfl, ?_, ?_, ?_⟩
    · intro hlo hhi
      show idRange (int32Add P.MaxToolsSlots P.MaxResourceSlots) = _
      rw [int32Add_of_inRange hlo hhi]
    · intro hT hR
      show idRange (int32Add P.MaxToolsSlots P.MaxResourceSlots) = _
      rw [int32Add_of_nonneg hP.2.2.2.1 hP.2.2.2.2 hT hR hP.2.1]
    · intro calls ids b hrun
      obtain ⟨h1, h2, h3⟩ := addCallsAssigned_pool P calls P.MaxItemId.toNat _ b ids rfl hrun
      have hM : ((P.MaxItemId.toNat : Nat) : Int) = P.MaxItemId := Int.toNat_of_nonneg hP.1
      rw [hM] at h2
      refine ⟨h2, by omega, ?_⟩
      intro hlen
      have hz : P.MaxItemId.toNat - ids.length = 0 := by omega
      have hpool : b.item_ids_pool = [] := by
        rw [h3, hz]
        rfl
      exact ⟨hpool, fun call => addCall_no_ids P b call hpool⟩
  · simp at h0

/-- C34 under `demoProperties` (`MaxItemId = 6`, six slot ids): the six add calls of
`fillCalls` are assigned 5, 4, 3, 2, 1, 0, and a seventh add is rejected. -/
theorem C34_witness :
    BeginPlay demoProperties = .ok demoFreshBag ∧
    demoFreshBag.item_ids_pool = [0, 1, 2, 3, 4, 5] ∧
    demoFreshBag.slot_ids_pool = [0, 1, 2, 3, 4, 5] ∧
    demoFreshBag.slot_ids_pool
      = idRange (demoProperties.MaxToolsSlots + demoProperties.MaxResourceSlots) ∧
    addCallsAssigned demoProperties fillCalls demoFreshBag = .ok ([5, 4, 3, 2, 1, 0], fullBag) ∧
    addCall demoProperties fullBag (AddCall.item (some demoTool))
      = .ok ({ bAdded := false, AssignedId := -1 }, fullBag) :=
  ⟨by decide, by decide, by decide,
   (C34_id_pools_after_BeginPlay demoProperties demoFreshBag (by decide)).2.2.2.2.1
      (by decide) (by decide),
   by decide,
   (((C34_id_pools_after_BeginPlay demoProperties demoFreshBag (by decide)).2.2.2.2.2
      fillCalls [5, 4, 3, 2, 1, 0] fullBag (by decide)).2.2 (by decide)).2
      (AddCall.item (some demoTool))⟩

/-- C34, the claim as stated fails: under `wrapProperties` the sum
`MaxToolsSlots + MaxResourceSlots` is `-4294967294`, so `0, ..., sum-1` is the
empty sequence, but the `int32` sum is `2` and `BeginPlay` returns with
`slot_ids_pool = [0, 1]`. -/
theorem C34_counterexample :
    BeginPlay wrapProperties = .ok wrapFreshBag ∧
    wrapProperties.MaxToolsSlots + wrapProperties.MaxResourceSlots = -4294967294 ∧
    int32Add wrapProperties.MaxToolsSlots wrapProperties.MaxResourceSlots = 2 ∧
    wrapFreshBag.slot_ids_pool = [0, 1] ∧
    idRange (wrapProperties.MaxToolsSlots + wrapProperties.MaxResourceSlots) = [] ∧
    wrapFreshBag.slot_ids_pool
      ≠ idRange (wrapProperties.MaxToolsSlots + wrapProperties.MaxResourceSlots) := by
  decide

/-! ## Accounting of the slot ids -/

theorem collectIds_append {β : Type} (f : β → List Int) (l1 l2 : List (Nat × β)) :
    collectIds f (l1 ++ l2) = collectIds f l1 ++ collectIds f l2 := by
  induction l1 with
  | nil => rfl
  | cons kv rest ih => simp [collectIds, ih]

theorem collectIds_mapSet_some {β : Type} (f : β → List Int) {k : Nat} {d : β}
    {m : List (Nat × β)} (h : mapFind k m = some d) (d1 : β) :
    (collectIds f (mapSet k d1 m) ++ f d).Perm (collectIds f m ++ f d1) := by
  obtain ⟨pre, post, rfl, hpre⟩ := mapFind_some_split h
  rw [mapSet_split _ _ _ _ _ hpre]
  rw [List.perm_iff_count]
  intro a
  simp only [collectIds_append, collectIds, List.count_append]
  omega

theorem collectIds_mapSet_none {β : Type} (f : β → List Int) {k : Nat}
    {m : List (Nat × β)} (h : mapFind k m = none) (d1 : β) :
    collectIds f (mapSet k d1 m) = collectIds f m ++ f d1 := by
  rw [mapSet_of_not_mem _ _ _ (mapFind_none_keys h)]
  simp [collectIds_append, collectIds]

theorem collectIds_mapRemove_some {β : Type} (f : β → List Int) {k : Nat} {d : β}
    {m : List (Nat × β)} (h : mapFind k m = some d) :
    (collectIds f (mapRemove k m) ++ f d).Perm (collectIds f m) := by
  obtain ⟨pre, post, rfl, hpre⟩ := mapFind_some_split h
  rw [mapRemove_split _ _ _ _ hpre]
  rw [List.perm_iff_count]
  intro a
  simp only [collectIds_append, collectIds, List.count_append]
  omega

theorem collectIds_length {β : Type} (f : β → List Int) (m : List (Nat × β)) :
    (collectIds f m).length = (m.map (fun kv => (f kv.2).length)).sum := by
  induction m with
  | nil => rfl
  | cons kv rest ih => simp [collectIds, ih]

theorem resourceAdd_slots {P : UBagProperties} {L : UItemBagLimit} {key : Nat} {id : Int}
    {d d1 : FBagResourcesData} {b b1 : Bag}
    (hfind : mapFind key b.Resources.Data = some d ∨
      (mapFind key b.Resources.Data = none ∧ d = { Slots := [], ResourceQuantity := 0 }))
    (heff : ResourceAddEffect P L key id d d1 b b1) :
    (b1.slot_ids_pool ++ resourcesSlotIds b1.Resources.Data).Perm
      (b.slot_ids_pool ++ resourcesSlotIds b.Resources.Data) ∧
    b1.Resources.UsedSlots - ((resourcesSlotIds b1.Resources.Data).length : Int)
      = b.Resources.UsedSlots - ((resourcesSlotIds b.Resources.Data).length : Int) := by
  obtain ⟨_, _, _, _, _, hdata, hcase⟩ := heff
  have hset : (resourcesSlotIds b1.Resources.Data ++ d.Slots.map FBagResourceSlot.Id).Perm
      (resourcesSlotIds b.Resources.Data ++ d1.Slots.map FBagResourceSlot.Id) := by
    rw [hdata]
    rcases hfind with hf | ⟨hf, rfl⟩
    · exact collectIds_mapSet_some _ hf d1
    · unfold resourcesSlotIds
      rw [collectIds_mapSet_none _ hf d1]
      simp
  have hlen := hset.length_eq
  simp only [List.length_append, List.length_map] at hlen
  rw [List.perm_iff_count] at hset
  rcases hcase with ⟨pre, s, post, hs, _, _, hs1, hU, hpool, _⟩ |
    ⟨_, _, slot_id, hpool, hs1, hU, _⟩
  · have hids : d1.Slots.map FBagResourceSlot.Id = d.Slots.map FBagResourceSlot.Id := by
      rw [hs, hs1]
      simp
    have hl : d1.Slots.length = d.Slots.length := by
      rw [hs, hs1]
      simp
    constructor
    · rw [List.perm_iff_count]
      intro a
      have := hset a
      simp only [List.count_append, hids, hpool] at this ⊢
      omega
    · rw [hU]
      omega
  · have hids : d1.Slots.map FBagResourceSlot.Id
        = d.Slots.map FBagResourceSlot.Id ++ [slot_id] := by
      rw [hs1]
      simp
    have hl : d1.Slots.length = d.Slots.length + 1 := by
      rw [hs1]
      simp
    constructor
    · rw [List.perm_iff_count]
      intro a
      have := hset a
      simp only [List.count_append, hids, hpool] at this ⊢
      omega
    · rw [hU]
      omega

theorem toolAdd_slots {P : UBagProperties} {L : UItemBagLimit} {key : Nat} {id durability : Int}
    {d d1 : FBagToolsData} {b b1 : Bag}
    (hfind : mapFind key b.Tools.Data = some d ∨
      (mapFind key b.Tools.Data = none ∧ d = { ToolQuantity := 0, Slots := [] }))
    (heff : ToolAddEffect P L key id durability d d1 b b1) :
    (b1.slot_ids_pool ++ toolsSlotIds b1.Tools.Data).Perm
      (b.slot_ids_pool ++ toolsSlotIds b.Tools.Data) ∧
    b1.Tools.UsedSlots - ((toolsSlotIds b1.Tools.Data).length : Int)
      = b.Tools.UsedSlots - ((toolsSlotIds b.Tools.Data).length : Int) := by
  obtain ⟨_, _, _, _, _, hdata, hcase⟩ := heff
  have hset : (toolsSlotIds b1.Tools.Data ++ d.Slots.map FBagToolSlot.Id).Perm
      (toolsSlotIds b.Tools.Data ++ d1.Slots.map FBagToolSlot.Id) := by
    rw [hdata]
    rcases hfind with hf | ⟨hf, rfl⟩
    · exact collectIds_mapSet_some _ hf d1
    · unfold toolsSlotIds
      rw [collectIds_mapSet_none _ hf d1]
      simp
  have hlen := hset.length_eq
  simp only [List.length_append, List.length_map] at hlen
  rw [List.perm_iff_count] at hset
  rcases hcase with ⟨pre, s, post, hs, _, _, hs1, hU, hpool, _⟩ |
    ⟨_, _, slot_id, hpool, hs1, hU, _⟩
  · have hids : d1.Slots.map FBagToolSlot.Id = d.Slots.map FBagToolSlot.Id := by
      rw [hs, hs1]
      simp
    have hl : d1.Slots.length = d.Slots.length := by
      rw [hs, hs1]
      simp
    constructor
    · rw [List.perm_iff_count]
      intro a
      have := hset a
      simp only [List.count_append, hids, hpool] at this ⊢
      omega
    · rw [hU]
      omega
  · have hids : d1.Slots.map FBagToolSlot.Id = d.Slots.map FBagToolSlot.Id ++ [slot_id] := by
      rw [hs1]
      simp
    have hl : d1.Slots.length = d.Slots.length + 1 := by
      rw [hs1]
      simp
    constructor
    · rw [List.perm_iff_count]
      intro a
      have := hset a
      simp only [List.count_append, hids, hpool] at this ⊢
      omega
    · rw [hU]
      omega

theorem resourceRemove_slots {P : UBagProperties} {key : Nat} {removed : Int} {b b1 : Bag}
    (hR : ResourcesOk P b.Resources.Data) (heff : ResourceRemoveLastEffect key removed b b1) :
    (b1.slot_ids_pool ++ resourcesSlotIds b1.Resources.Data).Perm
      (b.slot_ids_pool ++ resourcesSlotIds b.Resources.Data) ∧
    b1.Resources.UsedSlots - ((resourcesSlotIds b1.Resources.Data).length : Int)
      = b.Resources.UsedSlots - ((resourcesSlotIds b.Resources.Data).length : Int) := by
  obtain ⟨d, front, last, ids, hfind, _, hs, hl, _, _, _, hdata, hU, hpool, _⟩ := heff
  obtain ⟨L, _, ⟨hq, hne, _⟩, _⟩ := hR (key, d) (mapFind_mem hfind)
  replace hq : d.ResourceQuantity = (d.entryCount : Int) := hq
  replace hne : ∀ slot ∈ d.Slots, slot.ResourceIds ≠ [] ∧
      (slot.ResourceIds.length : Int) ≤ L.MaxStackSize := hne
  have hcount : d.entryCount
      = (front.map (fun slot => slot.ResourceIds.length)).sum + (ids.length + 1) := by
    simp [FBagResourcesData.entryCount, hs, hl]
  have hfd : d.Slots.map FBagResourceSlot.Id = front.map FBagResourceSlot.Id ++ [last.Id] := by
    simp [hs]
  by_cases hq0 : d.ResourceQuantity - 1 = 0
  · have hsum : (front.map (fun slot => slot.ResourceIds.length)).sum = 0 := by omega
    have hidsl : ids.length = 0 := by omega
    have hids : ids = [] := List.length_eq_zero.mp hidsl
    have hfront : front = [] :=
      resourceSlots_nil_of_sum_zero front
        (fun x hx => (hne x (by rw [hs]; simp [hx])).1) hsum
    subst hids hfront
    simp only [hq0, if_true] at hdata hU hpool
    have hrem := collectIds_mapRemove_some (fun d : FBagResourcesData =>
      d.Slots.map FBagResourceSlot.Id) hfind
    simp only [hfd, List.map_nil, List.nil_append] at hrem
    have hlen := hrem.length_eq
    simp only [List.length_append, List.length_singleton] at hlen
    rw [List.perm_iff_count] at hrem
    constructor
    · rw [List.perm_iff_count]
      intro a
      have := hrem a
      simp only [resourcesSlotIds, hdata, hpool, List.count_append] at this ⊢
      omega
    · simp only [resourcesSlotIds, hdata, hU]
      omega
  · simp only [hq0, if_false] at hdata
    have hset := collectIds_mapSet_some (fun d : FBagResourcesData =>
      d.Slots.map FBagResourceSlot.Id) hfind
      { Slots := if ids = [] then front else front ++ [{ last with ResourceIds := ids }],
        ResourceQuantity := d.ResourceQuantity - 1 }
    by_cases hids : ids = []
    · simp only [hids, if_true] at hset hU hpool hdata
      simp only [hfd] at hset
      have hlen := hset.length_eq
      simp only [List.length_append, List.length_map, List.length_singleton] at hlen
      rw [List.perm_iff_count] at hset
      constructor
      · rw [List.perm_iff_count]
        intro a
        have := hset a
        simp only [resourcesSlotIds, hdata, hpool, List.count_append] at this ⊢
        omega
      · simp only [resourcesSlotIds, hdata, hU]
        omega
    · simp only [hids, if_false] at hset hU hpool hdata
      simp only [hfd, List.map_append, List.map_cons, List.map_nil] at hset
      have hlen := hset.length_eq
      simp only [List.length_append, List.length_map, List.length_singleton] at hlen
      rw [List.perm_iff_count] at hset
      constructor
      · rw [List.perm_iff_count]
        intro a
        have := hset a
        simp only [resourcesSlotIds, hdata, hpool, List.count_append] at this ⊢
        omega
      · simp only [resourcesSlotIds, hdata, hU]
        omega

theorem toolRemove_slots {P : UBagProperties} {key : Nat} {remove_id removed : Int}
    {b b1 : Bag} (hT : ToolsOk P b.Tools.Data)
    (heff : ToolRemoveEffect key remove_id removed b b1) :
    (b1.slot_ids_pool ++ toolsSlotIds b1.Tools.Data).Perm
      (b.slot_ids_pool ++ toolsSlotIds b.Tools.Data) ∧
    b1.Tools.UsedSlots - ((toolsSlotIds b1.Tools.Data).length : Int)
      = b.Tools.UsedSlots - ((toolsSlotIds b.Tools.Data).length : Int) := by
  obtain ⟨d, pre, s, post, before, info, after, hfind, _, hs, hl, _, _, _, _, _, hdata, hU,
    hpool, _⟩ := heff
  obtain ⟨L, _, ⟨hq, hne, _⟩, _⟩ := hT (key, d) (mapFind_mem hfind)
  replace hq : d.ToolQuantity = (d.entryCount : Int) := hq
  replace hne : ∀ slot ∈ d.Slots, slot.ToolsInfo ≠ [] ∧
      (slot.ToolsInfo.length : Int) ≤ L.MaxStackSize := hne
  have hcount : d.entryCount
      = (pre.map (fun slot => slot.ToolsInfo.length)).sum
        + ((before.length + (after.length + 1))
          + (post.map (fun slot => slot.ToolsInfo.length)).sum) := by
    simp [FBagToolsData.entryCount, hs, hl]
  have hfd : d.Slots.map FBagToolSlot.Id
      = pre.map FBagToolSlot.Id ++ s.Id :: post.map FBagToolSlot.Id := by
    simp [hs]
  have hswap : ∀ a, List.count a ((lastToFront post).map FBagToolSlot.Id)
      = List.count a (post.map FBagToolSlot.Id) :=
    fun a => ((lastToFront_perm post).map FBagToolSlot.Id).count_eq a
  have hswapl : (lastToFront post).length = post.length := (lastToFront_perm post).length_eq
  by_cases hq0 : d.ToolQuantity - 1 = 0
  · have hsum1 : (pre.map (fun slot => slot.ToolsInfo.length)).sum = 0 := by omega
    have hsum2 : (post.map (fun slot => slot.ToolsInfo.length)).sum = 0 := by omega
    have hb : before.length = 0 := by omega
    have ha : after.length = 0 := by omega
    have hbefore : before = [] := List.length_eq_zero.mp hb
    have hafter : after = [] := List.length_eq_zero.mp ha
    have hpre : pre = [] :=
      toolSlots_nil_of_sum_zero pre (fun x hx => (hne x (by rw [hs]; simp [hx])).1) hsum1
    have hpost : post = [] :=
      toolSlots_nil_of_sum_zero post (fun x hx => (hne x (by rw [hs]; simp [hx])).1) hsum2
    subst hbefore hafter hpre hpost
    simp only [hq0, if_true, List.append_nil] at hdata hU hpool
    have hrem := collectIds_mapRemove_some (fun d : FBagToolsData =>
      d.Slots.map FBagToolSlot.Id) hfind
    simp only [hfd, List.map_nil, List.nil_append] at hrem
    have hlen := hrem.length_eq
    simp only [List.length_append, List.length_singleton] at hlen
    rw [List.perm_iff_count] at hrem
    constructor
    · rw [List.perm_iff_count]
      intro a
      have := hrem a
      simp only [toolsSlotIds, hdata, hpool, List.count_append] at this ⊢
      omega
    · simp only [toolsSlotIds, hdata, hU]
      omega
  · simp only [hq0, if_false] at hdata
    have hset := collectIds_mapSet_some (fun d : FBagToolsData =>
      d.Slots.map FBagToolSlot.Id) hfind
      { ToolQuantity := d.ToolQuantity - 1,
        Slots := if before ++ after = [] then pre ++ lastToFront post
                 else pre ++ { s with ToolsInfo := before ++ after } :: post }
    by_cases hempty : before ++ after = []
    · simp only [hempty, if_true] at hset hU hpool hdata
      simp only [hfd, List.map_append] at hset
      have hlen := hset.length_eq
      simp only [List.length_append, List.length_map, List.length_cons, hswapl] at hlen
      rw [List.perm_iff_count] at hset
      constructor
      · rw [List.perm_iff_count]
        intro a
        have := hset a
        have hsw := hswap a
        simp only [toolsSlotIds, hdata, hpool, List.count_append, List.count_cons] at this ⊢
        simp only [List.count_nil] at this ⊢
        omega
      · simp only [toolsSlotIds, hdata, hU]
        omega
    · simp only [hempty, if_false] at hset hU hpool hdata
      simp only [hfd, List.map_append, List.map_cons] at hset
      have hlen := hset.length_eq
      simp only [List.length_append, List.length_map, List.length_cons] at hlen
      rw [List.perm_iff_count] at hset
      constructor
      · rw [List.perm_iff_count]
        intro a
        have := hset a
        simp only [toolsSlotIds, hdata, hpool, List.count_append, List.count_cons] at this ⊢
        omega
      · simp only [toolsSlotIds, hdata, hU]
        omega

theorem slotsInv_of_resources {P : UBagProperties} {b b1 : Bag} (hS : SlotsInv P b)
    (hT : b1.Tools = b.Tools)
    (h : (b1.slot_ids_pool ++ resourcesSlotIds b1.Resources.Data).Perm
        (b.slot_ids_pool ++ resourcesSlotIds b.Resources.Data) ∧
      b1.Resources.UsedSlots - ((resourcesSlotIds b1.Resources.Data).length : Int)
        = b.Resources.UsedSlots - ((resourcesSlotIds b.Resources.Data).length : Int)) :
    SlotsInv P b1 := by
  obtain ⟨hp, hr, ht⟩ := hS
  obtain ⟨h1, h2⟩ := h
  refine ⟨?_, by omega, by rw [hT]; exact ht⟩
  rw [List.perm_iff_count] at hp h1 ⊢
  intro a
  have e1 := hp a
  have e2 := h1 a
  simp only [Bag.liveSlotIds, List.count_append, hT] at e1 e2 ⊢
  omega

theorem slotsInv_of_tools {P : UBagProperties} {b b1 : Bag} (hS : SlotsInv P b)
    (hR : b1.Resources = b.Resources)
    (h : (b1.slot_ids_pool ++ toolsSlotIds b1.Tools.Data).Perm
        (b.slot_ids_pool ++ toolsSlotIds b.Tools.Data) ∧
      b1.Tools.UsedSlots - ((toolsSlotIds b1.Tools.Data).length : Int)
        = b.Tools.UsedSlots - ((toolsSlotIds b.Tools.Data).length : Int)) :
    SlotsInv P b1 := by
  obtain ⟨hp, hr, ht⟩ := hS
  obtain ⟨h1, h2⟩ := h
  refine ⟨?_, by rw [hR]; exact hr, by omega⟩
  rw [List.perm_iff_count] at hp h1 ⊢
  intro a
  have e1 := hp a
  have e2 := h1 a
  simp only [Bag.liveSlotIds, List.count_append, hR] at e1 e2 ⊢
  omega

theorem slotsInv_congr {P : UBagProperties} {b b1 : Bag} (hS : SlotsInv P b)
    (hR : b1.Resources = b.Resources) (hT : b1.Tools = b.Tools)
    (hp : b1.slot_ids_pool = b.slot_ids_pool) : SlotsInv P b1 := by
  unfold SlotsInv Bag.liveSlotIds at hS ⊢
  rw [hR, hT, hp]
  exact hS

theorem tryAddItem_slots {P : UBagProperties} {data : UItemData} {id : Int}
    {comp : Option UItemComponent} {b b1 : Bag}
    (h : tryAddItem P data id comp b = .ok (true, b1)) (hS : SlotsInv P b) :
    SlotsInv P b1 := by
  rcases tryAddItem_true_cases h with ⟨_, _, hres⟩ | ⟨_, _, _, _, htool, _⟩
  · obtain ⟨L, d, d1, _, _, _, hfind, heff⟩ := tryAddResource_true hres
    exact slotsInv_of_resources hS heff.2.1 (resourceAdd_slots hfind heff)
  · obtain ⟨L, d, d1, _, _, _, hfind, heff⟩ := tryAddTool_true htool
    exact slotsInv_of_tools hS heff.2.1 (toolAdd_slots hfind heff)

theorem tryRemoveItem_slots {P : UBagProperties} {data : UItemData} {remove_id removed : Int}
    {b b1 : Bag} (h : tryRemoveItem data remove_id b = .ok (true, removed, b1))
    (hR : ResourcesOk P b.Resources.Data) (hT : ToolsOk P b.Tools.Data) (hS : SlotsInv P b) :
    SlotsInv P b1 := by
  unfold tryRemoveItem at h
  split at h
  · split at h
    · obtain ⟨_, heff⟩ := tryRemoveResource_effect h hR
      have hT1 : b1.Tools = b.Tools := by
        obtain ⟨_, _, _, _, _, _, _, _, hT1, _⟩ := heff
        exact hT1
      exact slotsInv_of_resources hS hT1 (resourceRemove_slots hR heff)
    · simp at h
  · split at h
    · have heff := tryRemoveTool_effect h hT
      have hR1 : b1.Resources = b.Resources := by
        obtain ⟨_, _, _, _, _, _, _, _, _, _, _, _, _, hR1, _⟩ := heff
        exact hR1
      exact slotsInv_of_tools hS hR1 (toolRemove_slots hT heff)
    · simp at h
  · simp at h

theorem updateToolDurability_slots {P : UBagProperties} {tool : Option UItemComponent}
    {durability : Int} {b b1 : Bag} {res : Bool} (hS : SlotsInv P b)
    (h : updateToolDurability tool durability b = .ok (res, b1)) : SlotsInv P b1 := by
  rcases updateToolDurability_cases h with
    ⟨_, rfl⟩ | ⟨_, comp, data, tool_id, tools_data, slot, slots, _, _, _, hfind, hset, rfl⟩
  · exact hS
  · obtain ⟨pre, s, post, before, info, after, hs, _, _, _, _, hslot, hslots⟩ :=
      setDurabilityInSlots_split hset
    have hids : slots.map FBagToolSlot.Id = tools_data.Slots.map FBagToolSlot.Id := by
      rw [hs, hslots, hslot]
      simp
    have hperm := collectIds_mapSet_some (fun d : FBagToolsData =>
      d.Slots.map FBagToolSlot.Id) hfind { tools_data with Slots := slots }
    simp only [hids] at hperm
    have hlen := hperm.length_eq
    simp only [List.length_append] at hlen
    refine slotsInv_of_tools hS rfl ⟨?_, ?_⟩
    · rw [List.perm_iff_count] at hperm ⊢
      intro a
      have := hperm a
      simp only [toolsSlotIds, List.count_append] at this ⊢
      omega
    · simp only [toolsSlotIds]
      omega

theorem step_slots {P : UBagProperties} {b b1 : Bag} {op : Op} (hI : Inv P b)
    (hS : SlotsInv P b) (h : step P b op = .ok b1) : SlotsInv P b1 := by
  cases op with
  | addItem d =>
    simp only [step] at h
    cases hr : addItem P d b with
    | error e => simp [hr, Except.map] at h
    | ok pr =>
      obtain ⟨r, b2⟩ := pr
      simp only [hr, Except.map, Except.ok.injEq] at h
      subst h
      rcases addItem_cases hr with ⟨_, rfl⟩ | ⟨_, pool, _, b0, _, _, _, hadd, _, rfl⟩
      · exact hS
      · have hS0 : SlotsInv P { b with item_ids_pool := pool } := slotsInv_congr hS rfl rfl rfl
        exact slotsInv_congr (tryAddItem_slots hadd hS0) rfl rfl rfl
  | addItemComponent c =>
    simp only [step] at h
    cases hr : addItemComponent P c b with
    | error e => simp [hr, Except.map] at h
    | ok pr =>
      obtain ⟨r, b2⟩ := pr
      simp only [hr, Except.map, Except.ok.injEq] at h
      subst h
      rcases addItemComponent_cases hr with
        ⟨_, rfl⟩ | ⟨_, _, pool, _, b0, _, _, _, _, hadd, _, rfl⟩
      · exact hS
      · have hS0 : SlotsInv P { b with item_ids_pool := pool } := slotsInv_congr hS rfl rfl rfl
        exact slotsInv_congr (tryAddItem_slots hadd hS0) rfl rfl rfl
  | removeItem d spawn =>
    simp only [step] at h
    cases hr : removeItem d spawn b with
    | error e => simp [hr, Except.map] at h
    | ok pr =>
      obtain ⟨r, b2⟩ := pr
      simp only [hr, Except.map, Except.ok.injEq] at h
      subst h
      rcases removeItem_cases hr with ⟨_, rfl⟩ | ⟨_, _, b0, _, hrem, _, rfl⟩
      · exact hS
      · exact slotsInv_congr (tryRemoveItem_slots hrem hI.1 hI.2.1 hS) rfl rfl rfl
  | removeItemComponent c spawn =>
    simp only [step] at h
    cases hr : removeItemComponent c spawn b with
    | error e => simp [hr, Except.map] at h
    | ok pr =>
      obtain ⟨r, b2⟩ := pr
      simp only [hr, Except.map, Except.ok.injEq] at h
      subst h
      rcases removeItemComponent_cases hr with
        ⟨_, rfl⟩ | ⟨_, _, _, _, b0, _, _, _, hrem, _, rfl⟩
      · exact hS
      · exact slotsInv_congr (tryRemoveItem_slots hrem hI.1 hI.2.1 hS) rfl rfl rfl
  | updateToolDurability tool durability =>
    simp only [step] at h
    cases hr : updateToolDurability tool durability b with
    | error e => simp [hr, Except.map] at h
    | ok pr =>
      obtain ⟨r, b2⟩ := pr
      simp only [hr, Except.map, Except.ok.injEq] at h
      subst h
      exact updateToolDurability_slots hS hr

theorem BeginPlay_slots {P : UBagProperties} {b : Bag} (h : BeginPlay P = .ok b) :
    SlotsInv P b := by
  unfold BeginPlay at h
  split at h
  · simp only [Except.ok.injEq] at h
    subst h
    simp [SlotsInv, Bag.liveSlotIds, resourcesSlotIds, toolsSlotIds, collectIds]
  · simp at h

theorem reachable_slots {P : UBagProperties} {b : Bag} (h : Reachable P b) : SlotsInv P b := by
  induction h with
  | init b hb => exact BeginPlay_slots hb
  | step b b1 op hb hstep ih => exact step_slots (reachable_inv hb) ih hstep

theorem mem_idRange (n a : Int) : a ∈ idRange n ↔ 0 ≤ a ∧ a < n := by
  unfold idRange
  simp only [List.mem_map, List.mem_range]
  constructor
  · rintro ⟨k, hk, rfl⟩
    simp only [Int.ofNat_eq_coe]
    omega
  · rintro ⟨h0, hn⟩
    refine ⟨a.toNat, by omega, ?_⟩
    simp only [Int.ofNat_eq_coe]
    omega

theorem BeginPlay_nonneg {P : UBagProperties} {b : Bag} (h : Reachable P b) :
    0 ≤ P.MaxItemId ∧ 0 ≤ int32Add P.MaxToolsSlots P.MaxResourceSlots ∧
    isInt32 P.MaxItemId = true ∧ isInt32 P.MaxToolsSlots = true ∧
    isInt32 P.MaxResourceSlots = true := by
  induction h with
  | init b hb =>
    unfold BeginPlay at hb
    split at hb
    · assumption
    · simp at hb
  | step b b1 op hb hstep ih => exact ih

theorem reachable_int32Add_of_nonneg {P : UBagProperties} {b : Bag} (h : Reachable P b)
    (hT : 0 ≤ P.MaxToolsSlots) (hR : 0 ≤ P.MaxResourceSlots) :
    int32Add P.MaxToolsSlots P.MaxResourceSlots = P.MaxToolsSlots + P.MaxResourceSlots := by
  obtain ⟨_, hs, _, hiT, hiR⟩ := BeginPlay_nonneg h
  exact int32Add_of_nonneg hiT hiR hT hR hs

/-- C36 (amended): in every reachable bag state the free ids of `slot_ids_pool` together
with the `Id`s of all live resource and tool slots are a rearrangement of
`0, ..., s-1` without repetition (so no two live slots share an `Id` and no
live slot has a free id), where `s` is the `int32` sum of `MaxToolsSlots` and
`MaxResourceSlots` (`int32Add`); `s` is `MaxToolsSlots+MaxResourceSlots` when
that sum lies in the `int32` range, and in particular when neither ceiling is
negative.  `Resources.UsedSlots` and `Tools.UsedSlots` are the numbers of slots
over all resource buckets and over all tool buckets. -/
theorem C36_slot_ids_partition (P : UBagProperties) (b : Bag) (h : Reachable P b) :
    (b.slot_ids_pool ++ b.liveSlotIds).Perm
      (idRange (int32Add P.MaxToolsSlots P.MaxResourceSlots)) ∧
    (b.slot_ids_pool ++ b.liveSlotIds).Nodup ∧
    (∀ a, a ∈ b.slot_ids_pool ++ b.liveSlotIds
      ↔ 0 ≤ a ∧ a < int32Add P.MaxToolsSlots P.MaxResourceSlots) ∧
    (-2147483648 ≤ P.MaxToolsSlots + P.MaxResourceSlots →
      P.MaxToolsSlots + P.MaxResourceSlots ≤ 2147483647 →
      (b.slot_ids_pool ++ b.liveSlotIds).Perm
        (idRange (P.MaxToolsSlots + P.MaxResourceSlots)) ∧
      ∀ a, a ∈ b.slot_ids_pool ++ b.liveSlotIds
        ↔ 0 ≤ a ∧ a < P.MaxToolsSlots + P.MaxResourceSlots) ∧
    (0 ≤ P.MaxToolsSlots → 0 ≤ P.MaxResourceSlots →
      (b.slot_ids_pool ++ b.liveSlotIds).Perm
        (idRange (P.MaxToolsSlots + P.MaxResourceSlots)) ∧
      ∀ a, a ∈ b.slot_ids_pool ++ b.liveSlotIds
        ↔ 0 ≤ a ∧ a < P.MaxToolsSlots + P.MaxResourceSlots) ∧
    b.Resources.UsedSlots
      = (((b.Resources.Data.map (fun kv => kv.2.Slots.length)).sum : Nat) : Int) ∧
    b.Tools.UsedSlots
      = (((b.Tools.Data.map (fun kv => kv.2.Slots.length)).sum : Nat) : Int) := by
  obtain ⟨hp, hr, ht⟩ := reachable_slots h
  have hmem : ∀ a, a ∈ b.slot_ids_pool ++ b.liveSlotIds
      ↔ 0 ≤ a ∧ a < int32Add P.MaxToolsSlots P.MaxResourceSlots := by
    intro a
    rw [hp.mem_iff]
    exact mem_idRange _ a
  refine ⟨hp, hp.nodup_iff.mpr (idRange_nodup _), hmem, ?_, ?_, ?_, ?_⟩
  · intro hlo hhi
    have hsum := int32Add_of_inRange hlo hhi
    rw [hsum] at hp hmem
    exact ⟨hp, hmem⟩
  · intro hT hR
    have hsum := reachable_int32Add_of_nonneg h hT hR
    rw [hsum] at hp hmem
    exact ⟨hp, hmem⟩
  · rw [hr, resourcesSlotIds, collectIds_length]
    simp
  · rw [ht, toolsSlotIds, collectIds_length]
    simp

/-- C36 on `demoBag` (six slot ids): the free slot ids are 0, 1, 2, the resource slots
have the ids 5 and 4 and the tool slot has the id 3. -/
theorem C36_witness :
    Reachable demoProperties demoBag ∧
    demoBag.slot_ids_pool ++ demoBag.liveSlotIds = [0, 1, 2, 5, 4, 3] ∧
    (demoBag.slot_ids_pool ++ demoBag.liveSlotIds).Perm [0, 1, 2, 3, 4, 5] ∧
    demoBag.Resources.UsedSlots = 2 ∧ demoBag.Tools.UsedSlots = 1 :=
  ⟨demoBag_reachable, by decide,
   ((C36_slot_ids_partition demoProperties demoBag demoBag_reachable).2.2.2.2.1
      (by decide) (by decide)).1,
   (C36_slot_ids_partition demoProperties demoBag demoBag_reachable).2.2.2.2.2.1,
   (C36_slot_ids_partition demoProperties demoBag demoBag_reachable).2.2.2.2.2.2⟩

/-- C36, the claim as stated fails: `wrapFreshBag` is the state after `BeginPlay` under
`wrapProperties`; its free slot ids are 0 and 1 and it has no live slot, while
`MaxToolsSlots + MaxResourceSlots` is `-4294967294` and `0, ..., sum-1` is the
empty sequence: the free id 0 is not in that range. -/
theorem C36_counterexample :
    Reachable wrapProperties wrapFreshBag ∧
    wrapFreshBag.slot_ids_pool ++ wrapFreshBag.liveSlotIds = [0, 1] ∧
    idRange (wrapProperties.MaxToolsSlots + wrapProperties.MaxResourceSlots) = [] ∧
    (0 : Int) ∈ wrapFreshBag.slot_ids_pool ++ wrapFreshBag.liveSlotIds ∧
    ¬ (0 : Int) < wrapProperties.MaxToolsSlots + wrapProperties.MaxResourceSlots ∧
    ¬ (wrapFreshBag.slot_ids_pool ++ wrapFreshBag.liveSlotIds).Perm
        (idRange (wrapProperties.MaxToolsSlots + wrapProperties.MaxResourceSlots)) :=
  ⟨Reachable.init _ (by decide), by decide, by decide, by decide, by decide,
   fun hperm => absurd hperm.length_eq (by decide)⟩

/-! ## The slot id pool when a new slot is created -/

theorem tryAddResourceTail_no_rangeCheck {P : UBagProperties} (L : UItemBagLimit) (key : Nat)
    (id : Int) (d : FBagResourcesData) {b : Bag}
    (hpool : b.Resources.UsedSlots < P.MaxResourceSlots → b.slot_ids_pool ≠ []) :
    tryAddResourceTail P L key id d b ≠ .error Fault.rangeCheck := by
  unfold tryAddResourceTail
  split
  · simp
  · split
    · simp
    · split
      · simp
      · rename_i hU
        split
        · rename_i hpop
          exact absurd (arrayPop_eq_none hpop) (hpool (by omega))
        · simp

theorem tryAddToolTail_no_rangeCheck {P : UBagProperties} (L : UItemBagLimit) (key : Nat)
    (id durability : Int) (d : FBagToolsData) {b : Bag}
    (hpool : b.Tools.UsedSlots < P.MaxResourceSlots → b.slot_ids_pool ≠ []) :
    tryAddToolTail P L key id durability d b ≠ .error Fault.rangeCheck := by
  unfold tryAddToolTail
  split
  · simp
  · split
    · simp
    · split
      · simp
      · rename_i hU
        split
        · rename_i hpop
          exact absurd (arrayPop_eq_none hpop) (hpool (by omega))
        · simp

theorem tryAddResource_no_rangeCheck {P : UBagProperties} (key : Nat) (id : Int) {b : Bag}
    (hpool : b.Resources.UsedSlots < P.MaxResourceSlots → b.slot_ids_pool ≠ []) :
    tryAddResource P key id b ≠ .error Fault.rangeCheck := by
  unfold tryAddResource
  split
  · simp
  · simp
  · split
    · split
      · split
        · simp
        · exact tryAddResourceTail_no_rangeCheck _ _ _ _ hpool
      · exact tryAddResourceTail_no_rangeCheck _ _ _ _ hpool
    · simp

theorem tryAddTool_no_rangeCheck {P : UBagProperties} (key : Nat) (id durability : Int) {b : Bag}
    (hpool : b.Tools.UsedSlots < P.MaxResourceSlots → b.slot_ids_pool ≠ []) :
    tryAddTool P key id durability b ≠ .error Fault.rangeCheck := by
  unfold tryAddTool
  split
  · simp
  · simp
  · split
    · split
      · split
        · simp
        · exact tryAddToolTail_no_rangeCheck _ _ _ _ _ hpool
      · exact tryAddToolTail_no_rangeCheck _ _ _ _ _ hpool
    · simp

theorem slotsInv_pool_length {P : UBagProperties} {b : Bag} (hS : SlotsInv P b)
    (hP : 0 ≤ int32Add P.MaxToolsSlots P.MaxResourceSlots) :
    (b.slot_ids_pool.length : Int) + b.Resources.UsedSlots + b.Tools.UsedSlots
      = int32Add P.MaxToolsSlots P.MaxResourceSlots := by
  obtain ⟨hp, hr, ht⟩ := hS
  have hlen := hp.length_eq
  have hn := idRange_length _ hP
  simp only [Bag.liveSlotIds, List.length_append] at hlen
  omega

/-- C35 (the code diverges): in every reachable bag state the free slot ids are
`s - Resources.UsedSlots - Tools.UsedSlots` in number, where `s` is the `int32`
sum of `MaxToolsSlots` and `MaxResourceSlots` (`int32Add`), which is
`MaxToolsSlots + MaxResourceSlots` when neither ceiling is negative.  Both
`tryAddResource` and `tryAddTool` test their slot counter against
`MaxResourceSlots`; so when `0 <= MaxResourceSlots <= MaxToolsSlots` a passed
ceiling test finds `slot_ids_pool` non-empty and neither method runs `Pop` on
an empty pool.  With `MaxResourceSlots = 2 > MaxToolsSlots = 0`
(`noToolSlotProperties`) two resource slots use up the pool, `tryAddTool`
passes its test `Tools.UsedSlots >= MaxResourceSlots` with `0 < 2`, and `Pop`
runs on the empty pool; the same happens to `tryAddResource` after two tool
slots. -/
theorem C35_new_slot_finds_free_id :
    (∀ (P : UBagProperties) (b : Bag), Reachable P b →
      (b.slot_ids_pool.length : Int) + b.Resources.UsedSlots + b.Tools.UsedSlots
        = int32Add P.MaxToolsSlots P.MaxResourceSlots ∧
      (0 ≤ P.MaxToolsSlots → 0 ≤ P.MaxResourceSlots →
        (b.slot_ids_pool.length : Int) + b.Resources.UsedSlots + b.Tools.UsedSlots
          = P.MaxToolsSlots + P.MaxResourceSlots) ∧
      (0 ≤ P.MaxResourceSlots → P.MaxResourceSlots ≤ P.MaxToolsSlots →
        (b.Resources.UsedSlots < P.MaxResourceSlots → b.slot_ids_pool ≠ []) ∧
        (b.Tools.UsedSlots < P.MaxResourceSlots → b.slot_ids_pool ≠ []) ∧
        ∀ (key : Nat) (id durability : Int),
          tryAddResource P key id b ≠ .error Fault.rangeCheck ∧
          tryAddTool P key id durability b ≠ .error Fault.rangeCheck)) ∧
    (0 ≤ noToolSlotProperties.MaxResourceSlots ∧ 0 ≤ noToolSlotProperties.MaxToolsSlots ∧
      run noToolSlotProperties [Op.addItem (some demoResource), Op.addItem (some demoResource)]
        = .ok noToolSlotBag ∧
      noToolSlotBag.Tools.UsedSlots < noToolSlotProperties.MaxResourceSlots ∧
      noToolSlotBag.slot_ids_pool = [] ∧
      tryAddTool noToolSlotProperties 2 3 10 noToolSlotBag = .error Fault.rangeCheck ∧
      addItem noToolSlotProperties (some demoTool) noToolSlotBag = .error Fault.rangeCheck ∧
      run noToolSlotProperties [Op.addItem (some demoTool), Op.addItem (some demoTool),
          Op.addItem (some demoResource)]
        = .error Fault.rangeCheck) := by
  refine ⟨?_, by decide⟩
  intro P b h
  have hS := reachable_slots h
  have hI := reachable_inv h
  have hlen32 := slotsInv_pool_length hS (BeginPlay_nonneg h).2.1
  have hplain : 0 ≤ P.MaxToolsSlots → 0 ≤ P.MaxResourceSlots →
      (b.slot_ids_pool.length : Int) + b.Resources.UsedSlots + b.Tools.UsedSlots
        = P.MaxToolsSlots + P.MaxResourceSlots := by
    intro hT hR
    rw [hlen32, reachable_int32Add_of_nonneg h hT hR]
  refine ⟨hlen32, hplain, ?_⟩
  intro hR hRT
  have hlen := hplain (by omega) hR
  obtain ⟨_, _, _, hRU, hTU⟩ := hI
  have hmax : max 0 P.MaxResourceSlots = P.MaxResourceSlots := max_eq_right hR
  rw [hmax] at hRU hTU
  have h1 : b.Resources.UsedSlots < P.MaxResourceSlots → b.slot_ids_pool ≠ [] := by
    intro hlt hnil
    rw [hnil] at hlen
    simp only [List.length_nil, Int.ofNat_zero] at hlen
    omega
  have h2 : b.Tools.UsedSlots < P.MaxResourceSlots → b.slot_ids_pool ≠ [] := by
    intro hlt hnil
    rw [hnil] at hlen
    simp only [List.length_nil, Int.ofNat_zero] at hlen
    omega
  exact ⟨h1, h2, fun key id durability =>
    ⟨tryAddResource_no_rangeCheck key id h1, tryAddTool_no_rangeCheck key id durability h2⟩⟩

/-- C35 on `demoBag` under `demoProperties` (three resource slots, three tool slots, so
the two ceilings agree): three slot ids are free, three are used, and a new
resource slot finds a free id. -/
theorem C35_witness :
    Reachable demoProperties demoBag ∧
    (demoBag.slot_ids_pool.length : Int) + demoBag.Resources.UsedSlots
        + demoBag.Tools.UsedSlots = 6 ∧
    demoBag.slot_ids_pool ≠ [] ∧
    tryAddTool demoProperties 2 1 10 demoBag ≠ .error Fault.rangeCheck :=
  ⟨demoBag_reachable,
   (C35_new_slot_finds_free_id.1 demoProperties demoBag demoBag_reachable).2.1
      (by decide) (by decide),
   ((C35_new_slot_finds_free_id.1 demoProperties demoBag demoBag_reachable).2.2
      (by decide) (by decide)).1 (by decide),
   (((C35_new_slot_finds_free_id.1 demoProperties demoBag demoBag_reachable).2.2
      (by decide) (by decide)).2.2 2 1 10).2⟩

/-! ## Dense packing and stack behaviour without removal by id -/

theorem dense_room_is_last {S : Int} {pre post : List Nat} {m : Nat}
    (h : DenseSizes S (pre ++ m :: post)) (hm : (m : Int) < S) : post = [] := by
  rcases List.eq_nil_or_concat post with h0 | ⟨r, x, hl⟩
  · exact h0
  · have hp : post = r ++ [x] := by simpa using hl
    subst hp
    have := h (pre ++ m :: r) x (by simp) m (by simp)
    omega

theorem resourceAdd_push {P : UBagProperties} {L : UItemBagLimit} {key : Nat} {id : Int}
    {d d1 : FBagResourcesData} {b b1 : Bag} (heff : ResourceAddEffect P L key id d d1 b b1)
    (hd : DenseSizes L.MaxStackSize (d.Slots.map (fun slot => slot.ResourceIds.length))) :
    resourceSlotsIds d1.Slots = resourceSlotsIds d.Slots ++ [id] := by
  obtain ⟨_, _, _, _, _, _, hcase⟩ := heff
  rcases hcase with ⟨pre, s, post, hs, _, hroom, hs1, _⟩ | ⟨_, _, slot_id, _, hs1, _⟩
  · rw [hs] at hd
    simp only [List.map_append, List.map_cons] at hd
    have hpost := dense_room_is_last hd hroom
    simp only [List.map_eq_nil_iff] at hpost
    subst hpost
    rw [hs, hs1]
    simp [resourceSlotsIds_append, resourceSlotsIds]
  · rw [hs1]
    simp [resourceSlotsIds_append, resourceSlotsIds]

theorem toolAdd_push {P : UBagProperties} {L : UItemBagLimit} {key : Nat} {id durability : Int}
    {d d1 : FBagToolsData} {b b1 : Bag} (heff : ToolAddEffect P L key id durability d d1 b b1)
    (hd : DenseSizes L.MaxStackSize (d.Slots.map (fun slot => slot.ToolsInfo.length))) :
    toolSlotsIds d1.Slots = toolSlotsIds d.Slots ++ [id] := by
  obtain ⟨_, _, _, _, _, _, hcase⟩ := heff
  rcases hcase with ⟨pre, s, post, hs, _, hroom, hs1, _⟩ | ⟨_, _, slot_id, _, hs1, _⟩
  · rw [hs] at hd
    simp only [List.map_append, List.map_cons] at hd
    have hpost := dense_room_is_last hd hroom
    simp only [List.map_eq_nil_iff] at hpost
    subst hpost
    rw [hs, hs1]
    simp [toolSlotsIds_append, toolSlotsIds]
  · rw [hs1]
    simp [toolSlotsIds_append, toolSlotsIds]

theorem tryAddItem_push {P : UBagProperties} {data : UItemData} {id : Int}
    {comp : Option UItemComponent} {b b1 : Bag}
    (h : tryAddItem P data id comp b = .ok (true, b1)) (hD : DenseOk P b) :
    heldIdsOfType data b1 = heldIdsOfType data b ++ [id] := by
  rcases tryAddItem_true_cases h with ⟨hcat, hcls, hres⟩ | ⟨hcat, m, _, hcls, htool, _⟩
  · obtain ⟨L, d, d1, hL, _, _, hfind, heff⟩ := tryAddResource_true hres
    obtain ⟨v1, v2, _, _⟩ := resourceSlotsOf_add hfind heff
    have hd : DenseSizes L.MaxStackSize (d.Slots.map (fun slot => slot.ResourceIds.length)) := by
      rcases hfind with hf | ⟨_, rfl⟩
      · exact hD.1 (data.ptr, d) (mapFind_mem hf) L hL
      · exact denseSizes_nil _
    simp only [heldIdsOfType, hcat, hcls, v1, v2]
    exact resourceAdd_push heff hd
  · obtain ⟨L, d, d1, hL, _, _, hfind, heff⟩ := tryAddTool_true htool
    obtain ⟨v1, v2, _, _⟩ := toolSlotsOf_add hfind heff
    have hd : DenseSizes L.MaxStackSize (d.Slots.map (fun slot => slot.ToolsInfo.length)) := by
      rcases hfind with hf | ⟨_, rfl⟩
      · exact hD.2 (data.ptr, d) (mapFind_mem hf) L hL
      · exact denseSizes_nil _
    simp only [heldIdsOfType, hcat, hcls, v1, v2]
    exact toolAdd_push heff hd

theorem tryRemoveItem_pop {P : UBagProperties} {data : UItemData} {removed : Int} {b b1 : Bag}
    (h : tryRemoveItem data (-1) b = .ok (true, removed, b1))
    (hR : ResourcesOk P b.Resources.Data) (hT : ToolsOk P b.Tools.Data) (hk : KeysOk b) :
    heldIdsOfType data b = heldIdsOfType data b1 ++ [removed] := by
  unfold tryRemoveItem at h
  split at h
  · rename_i hcat
    split at h
    · rename_i hcls
      obtain ⟨_, heff⟩ := tryRemoveResource_effect h hR
      obtain ⟨front, last, ids, v1, hl, _, v2⟩ := resourceRemoveLast_view hR hk.1 heff
      simp only [heldIdsOfType, hcat, hcls, v1, v2]
      by_cases hids : ids = []
      · simp [hids, hl, resourceSlotsIds_append, resourceSlotsIds]
      · simp [hids, hl, resourceSlotsIds_append, resourceSlotsIds]
    · simp at h
  · rename_i hcat
    split at h
    · rename_i m hcls
      have heff := tryRemoveTool_effect h hT
      obtain ⟨pre, s, post, before, info, after, v1, hl, hinfo, hcase, _, v2⟩ :=
        toolRemove_view hT hk.2 heff
      rcases hcase with ⟨_, rfl, rfl⟩ | ⟨hne, _⟩
      · simp only [heldIdsOfType, hcat, hcls, v1, v2]
        by_cases hb : before = []
        · simp [hb, hl, hinfo, toolSlotsIds_append, toolSlotsIds, lastToFront]
        · simp [hb, hl, hinfo, toolSlotsIds_append, toolSlotsIds]
      · exact absurd rfl hne
    · simp at h
  · simp at h

theorem isStackOp_of_isItemOp {op : Op} (h : op.isItemOp = true) : op.isStackOp = true := by
  cases op <;> simp_all [Op.isItemOp, Op.isStackOp]

theorem heldIdsOfType_frame {data other : UItemData} {b b1 : Bag} (hne : other.ptr ≠ data.ptr)
    (hf : FrameOf data b b1) : heldIdsOfType other b1 = heldIdsOfType other b := by
  obtain ⟨h1, _⟩ := hf
  obtain ⟨hr, ht⟩ := h1 other.ptr hne
  simp only [heldIdsOfType, resourceSlotsOf, toolSlotsOf, hr, ht]

/-- C38: in a bag state reached by `addItem` and `removeItem` calls only, every bucket is
densely packed: each slot but the last of the bucket holds exactly `MaxStackSize`
entries.  Each type behaves as a stack on the sequence `heldIdsOfType` of its
held ids (slot order, then entry order): a successful `addItem` appends the
assigned id at the end, a successful `removeItem` takes the id at the end and
returns it, a call on another type and a failed call leave the sequence as it
is.  So `removeItem` returns the most recently added instance of the type that
is still held. -/
theorem C38_dense_stack_behaviour (P : UBagProperties) (ops : List Op) (b : Bag)
    (hops : ∀ op ∈ ops, op.isItemOp = true) (hrun : run P ops = .ok b) :
    (∀ kv ∈ b.Resources.Data, ∃ L, mapFind kv.1 P.Limits = some (some L) ∧
      ∀ front last, kv.2.Slots = front ++ [last] →
        ∀ slot ∈ front, (slot.ResourceIds.length : Int) = L.MaxStackSize) ∧
    (∀ kv ∈ b.Tools.Data, ∃ L, mapFind kv.1 P.Limits = some (some L) ∧
      ∀ front last, kv.2.Slots = front ++ [last] →
        ∀ slot ∈ front, (slot.ToolsInfo.length : Int) = L.MaxStackSize) ∧
    (∀ data r b1, addItem P (some data) b = .ok (r, b1) →
      (r.bAdded = true → heldIdsOfType data b1 = heldIdsOfType data b ++ [r.AssignedId]) ∧
      (r.bAdded = false → b1 = b) ∧
      (∀ other : UItemData, other.ptr ≠ data.ptr →
        heldIdsOfType other b1 = heldIdsOfType other b)) ∧
    (∀ data spawn r b1, removeItem (some data) spawn b = .ok (r, b1) →
      (r.bRemoved = true → heldIdsOfType data b = heldIdsOfType data b1 ++ [r.RemovedId]) ∧
      (r.bRemoved = false → b1 = b) ∧
      (∀ other : UItemData, other.ptr ≠ data.ptr →
        heldIdsOfType other b1 = heldIdsOfType other b)) := by
  have hreach := run_reachable hrun
  have hI := reachable_inv hreach
  have hK := reachable_keys hreach
  have hD := run_dense (fun op hop => isStackOp_of_isItemOp (hops op hop)) hrun
  refine ⟨?_, ?_, ?_, ?_⟩
  · intro kv hkv
    obtain ⟨L, hL, _⟩ := hI.1 kv hkv
    refine ⟨L, hL, ?_⟩
    intro front last hfl slot hslot
    exact hD.1 kv hkv L hL (front.map (fun slot => slot.ResourceIds.length))
      last.ResourceIds.length (by simp [hfl]) _ (List.mem_map.mpr ⟨slot, hslot, rfl⟩)
  · intro kv hkv
    obtain ⟨L, hL, _⟩ := hI.2.1 kv hkv
    refine ⟨L, hL, ?_⟩
    intro front last hfl slot hslot
    exact hD.2 kv hkv L hL (front.map (fun slot => slot.ToolsInfo.length))
      last.ToolsInfo.length (by simp [hfl]) _ (List.mem_map.mpr ⟨slot, hslot, rfl⟩)
  · intro data r b1 hadd
    rcases addItem_cases hadd with ⟨rfl, rfl⟩ | ⟨data1, pool, id, b0, hd, _, _, htry, rfl, rfl⟩
    · exact ⟨fun h => by simp at h, fun _ => rfl, fun _ _ => rfl⟩
    · simp only [Option.some.injEq] at hd
      subst hd
      refine ⟨fun _ => ?_, fun h => by simp at h, ?_⟩
      · have hD0 : DenseOk P { b with item_ids_pool := pool } := hD
        have hpush : heldIdsOfType data b0
            = heldIdsOfType data { b with item_ids_pool := pool } ++ [id] :=
          tryAddItem_push htry hD0
        exact hpush
      · intro other hne
        have hf : FrameOf data { b with item_ids_pool := pool } b0 := tryAddItem_frame htry
        have hfr : heldIdsOfType other b0
            = heldIdsOfType other { b with item_ids_pool := pool } :=
          heldIdsOfType_frame hne hf
        exact hfr
  · intro data spawn r b1 hrem
    rcases removeItem_cases hrem with ⟨rfl, rfl⟩ | ⟨data1, removed, b0, hd, htry, rfl, rfl⟩
    · exact ⟨fun h => by simp at h, fun _ => rfl, fun _ _ => rfl⟩
    · simp only [Option.some.injEq] at hd
      subst hd
      refine ⟨fun _ => ?_, fun h => by simp at h, ?_⟩
      · have hpop : heldIdsOfType data b = heldIdsOfType data b0 ++ [removed] :=
          tryRemoveItem_pop htry hI.1 hI.2.1 hK
        exact hpop
      · intro other hne
        have hf : FrameOf data b b0 := tryRemoveItem_frame htry
        have hfr : heldIdsOfType other b0 = heldIdsOfType other b :=
          heldIdsOfType_frame hne hf
        exact hfr

/-- C38 on `demoBag`, reached by the four `addItem` calls of `demoOps`: the resource ids
are held as `[5, 4, 3]` in slots of sizes 2 and 1; `addItem` pushes id 1 and
`removeItem` pops id 3, the most recently added resource. -/
theorem C38_witness :
    run demoProperties demoOps = .ok demoBag ∧
    heldIdsOfType demoResource demoBag = [5, 4, 3] ∧
    addItem demoProperties (some demoResource) demoBag
      = .ok ({ bAdded := true, AssignedId := 1 }, demoBagAfterAdd) ∧
    heldIdsOfType demoResource demoBagAfterAdd = heldIdsOfType demoResource demoBag ++ [1] ∧
    removeItem (some demoResource) true demoBag
      = .ok ({ bRemoved := true, RemovedId := 3, SpawnedActor := none }, demoBagAfterRemove) ∧
    heldIdsOfType demoResource demoBag = heldIdsOfType demoResource demoBagAfterRemove ++ [3] :=
  ⟨by decide, by decide, by decide,
   ((C38_dense_stack_behaviour demoProperties demoOps demoBag (by decide) (by decide)).2.2.1
      demoResource { bAdded := true, AssignedId := 1 } demoBagAfterAdd (by decide)).1 rfl,
   by decide,
   ((C38_dense_stack_behaviour demoProperties demoOps demoBag (by decide) (by decide)).2.2.2
      demoResource true { bRemoved := true, RemovedId := 3, SpawnedActor := none }
      demoBagAfterRemove (by decide)).1 rfl⟩

/-! ## Slot order after a removal -/

theorem mem_pool_nonneg {P : UBagProperties} {b : Bag} (hI : Inv P b) {a : Int}
    (ha : a ∈ b.item_ids_pool) : 0 ≤ a := by
  obtain ⟨_, _, hids, _⟩ := hI
  have h1 := hids a
  have h2 : 0 < List.count a b.item_ids_pool := List.count_pos_iff.mpr ha
  have h3 : 0 < List.count a (idRange P.MaxItemId) := by omega
  have h4 : a ∈ idRange P.MaxItemId := List.count_pos_iff.mp h3
  unfold idRange at h4
  obtain ⟨k, _, rfl⟩ := List.mem_map.mp h4
  simp

theorem step_bound_nonneg {P : UBagProperties} {b b1 : Bag} {op : Op} (hI : Inv P b)
    (hB : ∀ kv ∈ b.item_comp_to_id, 0 ≤ kv.2) (h : step P b op = .ok b1) :
    ∀ kv ∈ b1.item_comp_to_id, 0 ≤ kv.2 := by
  cases op with
  | addItem d =>
    simp only [step] at h
    cases hr : addItem P d b with
    | error e => simp [hr, Except.map] at h
    | ok pr =>
      obtain ⟨r, b2⟩ := pr
      simp only [hr, Except.map, Except.ok.injEq] at h
      subst h
      rcases addItem_cases hr with ⟨_, rfl⟩ | ⟨_, _, _, b0, _, _, _, hadd, _, rfl⟩
      · exact hB
      · have hc : b0.item_comp_to_id = b.item_comp_to_id :=
          (tryAddItem_inv hadd hI.1 hI.2.1).2.2.2.1
        intro kv hkv
        exact hB kv (by simpa [hc] using hkv)
  | addItemComponent c =>
    simp only [step] at h
    cases hr : addItemComponent P c b with
    | error e => simp [hr, Except.map] at h
    | ok pr =>
      obtain ⟨r, b2⟩ := pr
      simp only [hr, Except.map, Except.ok.injEq] at h
      subst h
      rcases addItemComponent_cases hr with
        ⟨_, rfl⟩ | ⟨comp, _, pool, id, b0, _, _, hpool, _, hadd, _, rfl⟩
      · exact hB
      · have hc : b0.item_comp_to_id = b.item_comp_to_id :=
          (tryAddItem_inv hadd hI.1 hI.2.1).2.2.2.1
        intro kv hkv
        have hkv1 : kv ∈ mapSet comp.ptr id b0.item_comp_to_id := hkv
        rcases mem_mapSet hkv1 with hold | rfl
        · exact hB kv (by simpa [hc] using hold)
        · exact mem_pool_nonneg hI (by rw [hpool]; simp)
  | removeItem d spawn =>
    simp only [step] at h
    cases hr : removeItem d spawn b with
    | error e => simp [hr, Except.map] at h
    | ok pr =>
      obtain ⟨r, b2⟩ := pr
      simp only [hr, Except.map, Except.ok.injEq] at h
      subst h
      rcases removeItem_cases hr with ⟨_, rfl⟩ | ⟨_, removed, b0, _, hrem, _, rfl⟩
      · exact hB
      · have hc : b0.item_comp_to_id = b.item_comp_to_id :=
          (tryRemoveItem_inv hrem hI.1 hI.2.1).2.2.2.1
        intro kv hkv
        have hkv1 : kv ∈ (match mapFindKey removed b0.item_comp_to_id with
            | none => b0.item_comp_to_id
            | some item_comp => mapRemove item_comp b0.item_comp_to_id) := hkv
        have hold : kv ∈ b0.item_comp_to_id := by
          cases hf : mapFindKey removed b0.item_comp_to_id with
          | none => simpa [hf] using hkv1
          | some item_comp =>
            rw [hf] at hkv1
            exact mem_mapRemove hkv1
        exact hB kv (by simpa [hc] using hold)
  | removeItemComponent c spawn =>
    simp only [step] at h
    cases hr : removeItemComponent c spawn b with
    | error e => simp [hr, Except.map] at h
    | ok pr =>
      obtain ⟨r, b2⟩ := pr
      simp only [hr, Except.map, Except.ok.injEq] at h
      subst h
      rcases removeItemComponent_cases hr with
        ⟨_, rfl⟩ | ⟨_, _, _, _, b0, _, _, _, hrem, _, rfl⟩
      · exact hB
      · have hc : b0.item_comp_to_id = b.item_comp_to_id :=
          (tryRemoveItem_inv hrem hI.1 hI.2.1).2.2.2.1
        intro kv hkv
        exact hB kv (by simpa [hc] using hkv)
  | updateToolDurability tool durability =>
    simp only [step] at h
    cases hr : updateToolDurability tool durability b with
    | error e => simp [hr, Except.map] at h
    | ok pr =>
      obtain ⟨r, b2⟩ := pr
      simp only [hr, Except.map, Except.ok.injEq] at h
      subst h
      rcases updateToolDurability_cases hr with
        ⟨_, rfl⟩ | ⟨_, _, _, _, _, _, _, _, _, _, _, _, rfl⟩
      · exact hB
      · exact hB

theorem reachable_bound_nonneg {P : UBagProperties} {b : Bag} (h : Reachable P b) :
    ∀ kv ∈ b.item_comp_to_id, 0 ≤ kv.2 := by
  induction h with
  | init b hb =>
    unfold BeginPlay at hb
    split at hb
    · simp only [Except.ok.injEq] at hb
      subst hb
      simp
    · simp at hb
  | step b b1 op hb hstep ih => exact step_bound_nonneg (reachable_inv hb) ih hstep

theorem tryRemoveItem_byId_cases {data : UItemData} {remove_id removed : Int} {b b1 : Bag}
    (hid : 0 ≤ remove_id) (h : tryRemoveItem data remove_id b = .ok (true, removed, b1)) :
    removed = remove_id ∧ ∃ m, data.cls = DataClass.ToolData m := by
  unfold tryRemoveItem at h
  split at h
  · split at h
    · obtain ⟨hneg, _⟩ := tryRemoveResource_true h
      omega
    · simp at h
  · split at h
    · rename_i m hcls
      obtain ⟨d, pre, s, post, _, _, _, hrm, _⟩ := tryRemoveTool_byId_true (by omega) h
      exact ⟨hrm, m, hcls⟩
    · simp at h
  · simp at h

theorem setDurabilityInSlots_absent (tool_id durability : Int) (slots : List FBagToolSlot)
    (habs : tool_id ∉ toolSlotsIds slots) :
    setDurabilityInSlots tool_id durability slots = none := by
  cases h : setDurabilityInSlots tool_id durability slots with
  | none => rfl
  | some p =>
    obtain ⟨slot, slots1⟩ := p
    obtain ⟨pre, s, post, before, info, after, hs, hinfo, hid, _⟩ :=
      setDurabilityInSlots_split h
    exact absurd ((mem_toolSlotsIds tool_id slots).mpr
      ⟨s, by rw [hs]; simp, info, by rw [hinfo]; simp, hid⟩) habs

/-- C32 (the code diverges): `removeItemComponent` never erases the binding of the
component it removes.  After a successful `removeItemComponent(c)` in a
reachable bag state the bag, itself reachable, still binds `c` to the removed
id, which is now in the free id pool and held by no slot; every
`updateToolDurability(c, d)` then stops at `check(Tools.Data.Contains(...))` or
at `checkNoEntry()`.  Under `demoProperties`: a tool component is added and
removed, and the update stops at the `check`; and once `addItem` has reused the
freed id 5, a second `removeItemComponent` of the same component returns
`bRemoved = true` and takes out the tool that `addItem` put in. -/
theorem C32_binding_outlives_removal :
    (∀ (P : UBagProperties) (b b1 : Bag) (component : UItemComponent) (spawn : Bool)
        (r : FInventoryBagRemoveItemResult),
      Reachable P b → removeItemComponent (some component) spawn b = .ok (r, b1) →
      r.bRemoved = true →
      Reachable P b1 ∧
      mapFind component.ptr b1.item_comp_to_id = some r.RemovedId ∧
      r.RemovedId ∈ b1.item_ids_pool ∧ r.RemovedId ∉ b1.heldIds ∧
      ∀ durability, updateToolDurability (some component) durability b1
        = .error Fault.check) ∧
    run demoProperties [Op.addItemComponent (some demoToolComponent),
        Op.removeItemComponent (some demoToolComponent) false,
        Op.updateToolDurability (some demoToolComponent) 4] = .error Fault.check ∧
    (run demoProperties [Op.addItemComponent (some demoToolComponent),
        Op.removeItemComponent (some demoToolComponent) false]).map
      (fun b => (b.item_comp_to_id, b.item_ids_pool, b.heldIds))
      = .ok ([(7, 5)], [0, 1, 2, 3, 4, 5], []) ∧
    (run demoProperties [Op.addItemComponent (some demoToolComponent),
        Op.removeItemComponent (some demoToolComponent) false,
        Op.addItem (some demoTool)]).map
      (fun b => (b.item_comp_to_id, b.heldIds,
        (removeItemComponent (some demoToolComponent) false b).map
          (fun p => (p.1, p.2.heldIds))))
      = .ok ([(7, 5)], [5],
          .ok ({ bRemoved := true, RemovedId := 5, SpawnedActor := none }, [])) := by
  refine ⟨?_, by decide, by decide, by decide⟩
  intro P b b1 component spawn r hb hrem hr
  have hb1 : Reachable P b1 :=
    Reachable.step b b1 (Op.removeItemComponent (some component) spawn) hb
      (by simp [step, hrem, Except.map])
  have hI := reachable_inv hb
  have hI1 := reachable_inv hb1
  rcases removeItemComponent_cases hrem with
    ⟨rfl, _⟩ | ⟨comp, data, remove_id, removed, b0, hc, hdata, hbind, htry, rfl, rfl⟩
  · simp at hr
  · simp only [Option.some.injEq] at hc
    subst hc
    have hnn : 0 ≤ remove_id := reachable_bound_nonneg hb (component.ptr, remove_id)
      (mapFind_mem hbind)
    obtain ⟨hrm, m, hcls⟩ := tryRemoveItem_byId_cases hnn htry
    subst hrm
    have hc0 : b0.item_comp_to_id = b.item_comp_to_id :=
      (tryRemoveItem_inv htry hI.1 hI.2.1).2.2.2.1
    have hbind1 : mapFind component.ptr b0.item_comp_to_id = some removed := by
      rw [hc0]
      exact hbind
    have hheld0 := @count_top_held_zero P
      { b0 with
        item_ids_pool := b0.item_ids_pool ++ [removed]
        events := b0.events ++ [Event.BagUpdated] }
      b0.item_ids_pool removed hI1 rfl
    have hheld : List.count removed b0.heldIds = 0 := hheld0
    have hnot : removed ∉ b0.heldIds := List.count_eq_zero.mp hheld
    refine ⟨hb1, hbind1, by simp, hnot, ?_⟩
    intro durability
    simp only [updateToolDurability, hdata, hbind1, hcls]
    cases hfind : mapFind data.ptr b0.Tools.Data with
    | none => rfl
    | some tools_data =>
      have habs : removed ∉ toolSlotsIds tools_data.Slots := by
        intro hmem
        have h1 : 0 < List.count removed (toolSlotsIds tools_data.Slots) :=
          List.count_pos_iff.mpr hmem
        have h2 := toolsIds_count_le hfind removed
        have h3 : List.count removed b0.heldIds
            = List.count removed (resourcesIds b0.Resources.Data)
              + List.count removed (toolsIds b0.Tools.Data) := by
          simp [Bag.heldIds, List.count_append]
        omega
      simp only [setDurabilityInSlots_absent removed durability tools_data.Slots habs]

/-- C32 on `gapBag`: after `removeItemComponent` of the component 12, which held id 4,
the component is still bound to id 4, id 4 is free and not held, and the
update of the component stops at `checkNoEntry()`. -/
theorem C32_witness :
    Reachable demoProperties gapBag ∧
    removeItemComponent (some (gapComponent 12)) false gapBag
      = .ok ({ bRemoved := true, RemovedId := 4, SpawnedActor := none },
             gapBagAfterComponentRemove) ∧
    mapFind 12 gapBagAfterComponentRemove.item_comp_to_id = some 4 ∧
    (4 : Int) ∈ gapBagAfterComponentRemove.item_ids_pool ∧
    (4 : Int) ∉ gapBagAfterComponentRemove.heldIds ∧
    updateToolDurability (some (gapComponent 12)) 9 gapBagAfterComponentRemove
      = .error Fault.check :=
  ⟨gapBag_reachable, by decide,
   (C32_binding_outlives_removal.1 demoProperties gapBag gapBagAfterComponentRemove
      (gapComponent 12) false { bRemoved := true, RemovedId := 4, SpawnedActor := none }
      gapBag_reachable (by decide) rfl).2.1,
   (C32_binding_outlives_removal.1 demoProperties gapBag gapBagAfterComponentRemove
      (gapComponent 12) false { bRemoved := true, RemovedId := 4, SpawnedActor := none }
      gapBag_reachable (by decide) rfl).2.2.1,
   (C32_binding_outlives_removal.1 demoProperties gapBag gapBagAfterComponentRemove
      (gapComponent 12) false { bRemoved := true, RemovedId := 4, SpawnedActor := none }
      gapBag_reachable (by decide) rfl).2.2.2.1,
   (C32_binding_outlives_removal.1 demoProperties gapBag gapBagAfterComponentRemove
      (gapComponent 12) false { bRemoved := true, RemovedId := 4, SpawnedActor := none }
      gapBag_reachable (by decide) rfl).2.2.2.2 9⟩

/-! ## Adding a component that the bag already holds -/

theorem tryAddResourceTail_bindings (P : UBagProperties) (L : UItemBagLimit) (key : Nat)
    (id : Int) (d : FBagResourcesData) (b : Bag) (m : List (Nat × Int)) :
    tryAddResourceTail P L key id d { b with item_comp_to_id := m }
      = (tryAddResourceTail P L key id d b).map
          (fun p => (p.1, { p.2 with item_comp_to_id := m })) := by
  unfold tryAddResourceTail
  by_cases h1 : d.ResourceQuantity ≥ L.MaxQuantity
  · simp [h1, Except.map]
  · simp only [h1, if_false]
    cases h2 : addToFirstFreeResourceSlot L.MaxStackSize id d.Slots with
    | some p => simp [Except.map]
    | none =>
      simp only
      by_cases h3 : b.Resources.UsedSlots ≥ P.MaxResourceSlots
      · simp [h3, Except.map]
      · simp only [h3, if_false]
        cases h4 : arrayPop b.slot_ids_pool with
        | none => simp [Except.map]
        | some q => simp [Except.map]

theorem tryAddToolTail_bindings (P : UBagProperties) (L : UItemBagLimit) (key : Nat)
    (id durability : Int) (d : FBagToolsData) (b : Bag) (m : List (Nat × Int)) :
    tryAddToolTail P L key id durability d { b with item_comp_to_id := m }
      = (tryAddToolTail P L key id durability d b).map
          (fun p => (p.1, { p.2 with item_comp_to_id := m })) := by
  unfold tryAddToolTail
  by_cases h1 : d.ToolQuantity ≥ L.MaxQuantity
  · simp [h1, Except.map]
  · simp only [h1, if_false]
    cases h2 : addToFirstFreeToolSlot L.MaxStackSize
        { ToolId := id, Durability := durability } d.Slots with
    | some p => simp [Except.map]
    | none =>
      simp only
      by_cases h3 : b.Tools.UsedSlots ≥ P.MaxResourceSlots
      · simp [h3, Except.map]
      · simp only [h3, if_false]
        cases h4 : arrayPop b.slot_ids_pool with
        | none => simp [Except.map]
        | some q => simp [Except.map]

theorem tryAddResource_bindings (P : UBagProperties) (key : Nat) (id : Int) (b : Bag)
    (m : List (Nat × Int)) :
    tryAddResource P key id { b with item_comp_to_id := m }
      = (tryAddResource P key id b).map
          (fun p => (p.1, { p.2 with item_comp_to_id := m })) := by
  unfold tryAddResource
  cases hL : mapFind key P.Limits with
  | none => rfl
  | some ol =>
    cases ol with
    | none => rfl
    | some L =>
      simp only
      by_cases hc : L.MaxQuantity > 0 ∧ L.MaxStackSize > 0
      · simp only [hc, and_self, if_true]
        cases hf : mapFind key b.Resources.Data with
        | none =>
          simp only
          by_cases h3 : b.Resources.UsedSlots ≥ P.MaxResourceSlots
          · simp [h3, Except.map]
          · simp only [h3, if_false]
            exact tryAddResourceTail_bindings P L key id _
              { b with Resources := { b.Resources with
                  Data := mapSet key { Slots := [], ResourceQuantity := 0 } b.Resources.Data } } m
        | some d =>
          simp only
          exact tryAddResourceTail_bindings P L key id d b m
      · simp [hc, Except.map]

theorem tryAddTool_bindings (P : UBagProperties) (key : Nat) (id durability : Int) (b : Bag)
    (m : List (Nat × Int)) :
    tryAddTool P key id durability { b with item_comp_to_id := m }
      = (tryAddTool P key id durability b).map
          (fun p => (p.1, { p.2 with item_comp_to_id := m })) := by
  unfold tryAddTool
  cases hL : mapFind key P.Limits with
  | none => rfl
  | some ol =>
    cases ol with
    | none => rfl
    | some L =>
      simp only
      by_cases hc : L.MaxQuantity > 0 ∧ L.MaxStackSize > 0
      · simp only [hc, and_self, if_true]
        cases hf : mapFind key b.Tools.Data with
        | none =>
          simp only
          by_cases h3 : b.Tools.UsedSlots ≥ P.MaxResourceSlots
          · simp [h3, Except.map]
          · simp only [h3, if_false]
            exact tryAddToolTail_bindings P L key id durability _
              { b with Tools := { b.Tools with
                  Data := mapSet key { ToolQuantity := 0, Slots := [] } b.Tools.Data } } m
        | some d =>
          simp only
          exact tryAddToolTail_bindings P L key id durability d b m
      · simp [hc, Except.map]

theorem tryAddItem_bindings (P : UBagProperties) (data : UItemData) (id : Int)
    (comp : Option UItemComponent) (b : Bag) (m : List (Nat × Int)) :
    tryAddItem P data id comp { b with item_comp_to_id := m }
      = (tryAddItem P data id comp b).map
          (fun p => (p.1, { p.2 with item_comp_to_id := m })) := by
  unfold tryAddItem
  cases data.Category with
  | None => rfl
  | Resource =>
    simp only
    cases data.cls with
    | ResourceData => exact tryAddResource_bindings P data.ptr id b m
    | ItemData => rfl
    | ToolData md => rfl
  | Tool =>
    simp only
    cases data.cls with
    | ResourceData => rfl
    | ItemData => rfl
    | ToolData md =>
      simp only
      cases comp with
      | none => exact tryAddTool_bindings P data.ptr id md b m
      | some component =>
        simp only
        cases component.Durability with
        | none => rfl
        | some durability => exact tryAddTool_bindings P data.ptr id durability b m

theorem addItemComponent_bindings (P : UBagProperties) (item : Option UItemComponent) (b : Bag)
    (m : List (Nat × Int)) :
    (addItemComponent P item { b with item_comp_to_id := m }).map Prod.fst
      = (addItemComponent P item b).map Prod.fst := by
  unfold addItemComponent
  cases item with
  | none => rfl
  | some component =>
    simp only
    cases hd : component.ItemData with
    | none => rfl
    | some data =>
      simp only
      have hav : hasAvailableIds { b with item_comp_to_id := m } = hasAvailableIds b := rfl
      rw [hav]
      cases hasAvailableIds b with
      | false => rfl
      | true =>
        simp only [if_true]
        cases hasValidItemLimits P data with
        | error e => rfl
        | ok valid =>
          cases valid with
          | false => rfl
          | true =>
            simp only
            cases FScopedItemPoolIdTransaction.ctor b.item_ids_pool with
            | none => rfl
            | some tp =>
              obtain ⟨id_transaction, pool⟩ := tp
              simp only
              have hswap : tryAddItem P data id_transaction.id (some component)
                  { b with item_comp_to_id := m, item_ids_pool := pool }
                  = (tryAddItem P data id_transaction.id (some component)
                      { b with item_ids_pool := pool }).map
                      (fun p => (p.1, { p.2 with item_comp_to_id := m })) :=
                tryAddItem_bindings P data id_transaction.id (some component)
                  { b with item_ids_pool := pool } m
              rw [hswap]
              cases tryAddItem P data id_transaction.id (some component)
                  { b with item_ids_pool := pool } with
              | error e => rfl
              | ok p =>
                obtain ⟨flag, b1⟩ := p
                cases flag <;> rfl

/-- C33 (the code diverges): `addItemComponent` has no test for a component that the bag
already holds, although its first comment announces one.  The result of the
call is the same whatever `item_comp_to_id` binds.  When the call succeeds in a
reachable bag state on a component bound to a held id `id0`, the component is
held once more under a new id, `id0` stays held, and the binding of the
component is overwritten with the new id.  Under `demoProperties` two
`addItemComponent` calls of the same tool component give it the ids 5 and 4. -/
theorem C33_component_added_twice :
    (∀ (P : UBagProperties) (item : Option UItemComponent) (b : Bag) (m : List (Nat × Int)),
      (addItemComponent P item { b with item_comp_to_id := m }).map Prod.fst
        = (addItemComponent P item b).map Prod.fst) ∧
    (∀ (P : UBagProperties) (b b1 : Bag) (component : UItemComponent)
        (r : FInventoryBagAddItemResult) (id0 : Int),
      Reachable P b → mapFind component.ptr b.item_comp_to_id = some id0 →
      id0 ∈ b.heldIds → addItemComponent P (some component) b = .ok (r, b1) →
      r.bAdded = true →
      r.AssignedId ≠ id0 ∧ id0 ∈ b1.heldIds ∧ r.AssignedId ∈ b1.heldIds ∧
      mapFind component.ptr b1.item_comp_to_id = some r.AssignedId) ∧
    (run demoProperties [Op.addItemComponent (some demoToolComponent)]).map
      (fun b => (b.item_comp_to_id, b.heldIds)) = .ok ([(7, 5)], [5]) ∧
    (run demoProperties [Op.addItemComponent (some demoToolComponent)]).map
      (fun b => (addItemComponent demoProperties (some demoToolComponent) b).map Prod.fst)
      = .ok (.ok { bAdded := true, AssignedId := 4 }) ∧
    (run demoProperties [Op.addItemComponent (some demoToolComponent),
        Op.addItemComponent (some demoToolComponent)]).map
      (fun b => (b.item_comp_to_id, b.heldIds)) = .ok ([(7, 4)], [5, 4]) := by
  refine ⟨addItemComponent_bindings, ?_, by decide, by decide, by decide⟩
  intro P b b1 component r id0 hb hbind hheld hadd hr
  have hI := reachable_inv hb
  rcases addItemComponent_cases hadd with
    ⟨rfl, _⟩ | ⟨comp, data, pool, id, b0, hc, _, hpool, _, htry, rfl, rfl⟩
  · simp at hr
  · simp only [Option.some.injEq] at hc
    subst hc
    have hcount := (tryAddItem_inv htry hI.1 hI.2.1).2.2.2.2.1
    have htop : List.count id b.heldIds = 0 := count_top_held_zero hI hpool
    have h0 : 0 < List.count id0 b.heldIds := List.count_pos_iff.mpr hheld
    have hne : id ≠ id0 := by
      intro he
      rw [he] at htop
      omega
    have hb0 : ∀ a, List.count a b0.heldIds = List.count a b.heldIds + List.count a [id] :=
      hcount
    refine ⟨hne, ?_, ?_, ?_⟩
    · have h1 : 0 < List.count id0 b0.heldIds := by
        rw [hb0 id0]
        omega
      exact List.count_pos_iff.mp h1
    · have h1 : 0 < List.count id b0.heldIds := by
        rw [hb0 id]
        simp
      exact List.count_pos_iff.mp h1
    · exact mapFind_mapSet_self _ _ _

/-- C33 on `gapBag`, which holds the component 12 under id 4: a second
`addItemComponent` of the component 12 returns `bAdded = true` with id 5; the
bag then holds the ids 4 and 5 and binds the component to 5. -/
theorem C33_witness :
    Reachable demoProperties gapBag ∧
    mapFind 12 gapBag.item_comp_to_id = some 4 ∧ (4 : Int) ∈ gapBag.heldIds ∧
    addItemComponent demoProperties (some (gapComponent 12)) gapBag
      = .ok ({ bAdded := true, AssignedId := 5 }, gapBagAfterSecondAdd) ∧
    ((5 : Int) ≠ 4 ∧ (4 : Int) ∈ gapBagAfterSecondAdd.heldIds ∧
      (5 : Int) ∈ gapBagAfterSecondAdd.heldIds ∧
      mapFind 12 gapBagAfterSecondAdd.item_comp_to_id = some 5) :=
  ⟨gapBag_reachable, by decide, by decide, by decide,
   C33_component_added_twice.2.1 demoProperties gapBag gapBagAfterSecondAdd (gapComponent 12)
     { bAdded := true, AssignedId := 5 } 4 gapBag_reachable (by decide) (by decide)
     (by decide) rfl⟩

end InventorySystem
